import Mathlib

/-! # Tree-ensemble inference kernels of mlprodict (`onnxrt/ops_cpu`)

A shallow embedding of

* `op_tree_ensemble_regressor_p_.cpp`  (pointer-linked regressor, `RuntimeTreeEnsembleRegressorP`),
* `op_tree_ensemble_common_p_agg_.hpp` (the aggregator classes),
* `op_tree_ensemble_classifier_.cpp`   (flat classifier, `RuntimeTreeEnsembleClassifier`),
* `op_tree_ensemble_regressor_.cpp`    (flat regressor, `RuntimeTreeEnsembleRegressor`),

followed by theorems about the embedded code.

Conventions of the embedding

* `NTYPE` (float or double in the source) is the exact rationals extended with NaN.
  Rounding, overflow and the infinities are not modelled, except in `ComputeSoftmax_rounded`,
  which rounds every arithmetic result (to `float` with `binary32`).
* A pointer into the node array `nodes_` is `Option Nat`: `none` is `NULL`, `some i` is
  `nodes_ + i`.
* A C++ `throw` and an undefined behaviour of the source (null dereference, index out of
  range) are the two kinds of `Fault`; every routine that can do either returns `Result`.
* `x_data` is a raw pointer into the feature buffer; it is a function from offsets to values.
* `unsigned char` flags hold only 0 and 1 in the source and are `Bool` here.
* The routines of `<cmath>` (`std::exp`, `std::log`, `std::sqrt`) are not computed: they are a
  parameter (`Cmath`) of the routines that call them, and a theorem states what it assumes of
  them.
* `init` is given twice: as a function from the arguments to the object built on a fresh
  object (`init`), and as an update of an existing object that also gives the object left
  behind by a `throw` (`init_in_place`); the two are proved to agree.
-/

set_option autoImplicit false

/-! ## Numeric carrier -/

/-- Values of the template parameter `NTYPE`: an exact rational or NaN. -/
inductive NTYPE where
  | nan : NTYPE
  | num (q : ℚ) : NTYPE
deriving DecidableEq

namespace NTYPE

/-- The literal `0` / `0.f` / `(NTYPE)0`. -/
def zero : NTYPE := num 0

/-- The function `std::isnan`. -/
def isnan : NTYPE → Bool
  | nan => true
  | num _ => false

/-- The operator `a + b`; NaN is absorbing. -/
def add : NTYPE → NTYPE → NTYPE
  | num a, num b => num (a + b)
  | _, _ => nan

/-- The operator `a - b`. -/
def sub : NTYPE → NTYPE → NTYPE
  | num a, num b => num (a - b)
  | _, _ => nan

/-- The unary operator `-a`. -/
def neg : NTYPE → NTYPE
  | num a => num (-a)
  | nan => nan

/-- The operator `a / n` for an unsigned count `n` (`size_t`), used with `n >= 1`. -/
def divNat : NTYPE → Nat → NTYPE
  | num a, n => num (a / (n : ℚ))
  | nan, _ => nan

/-- The operator `a <= b`; false when an operand is NaN. -/
def le : NTYPE → NTYPE → Bool
  | num a, num b => decide (a ≤ b)
  | _, _ => false

/-- The operator `a < b`; false when an operand is NaN. -/
def lt : NTYPE → NTYPE → Bool
  | num a, num b => decide (a < b)
  | _, _ => false

/-- The operator `a >= b`; false when an operand is NaN. -/
def ge : NTYPE → NTYPE → Bool
  | num a, num b => decide (b ≤ a)
  | _, _ => false

/-- The operator `a > b`; false when an operand is NaN. -/
def gt : NTYPE → NTYPE → Bool
  | num a, num b => decide (b < a)
  | _, _ => false

/-- The operator `a == b`; false when an operand is NaN. -/
def eq : NTYPE → NTYPE → Bool
  | num a, num b => decide (a = b)
  | _, _ => false

/-- The operator `a != b`, the negation of `==`: true when an operand is NaN. -/
def ne (a b : NTYPE) : Bool := !(eq a b)

end NTYPE

/-! ## Faults -/

/-- The `std::runtime_error`s thrown by the source, by the place that throws them. -/
inductive ErrorKind where
  /-- Unknown aggregate function name. -/
  | unknown_aggregate (value : String)
  /-- Unknown post-transform name (`to_POST_EVAL_TRANSFORM`). -/
  | unknown_post_transform (value : String)
  /-- Unknown node mode name (`to_NODE_MODE`). -/
  | unknown_node_mode (value : String)
  /-- "Node %d in tree %d is already there." -/
  | already_there (node_id tree_id : Int)
  /-- "Unable to find node %d-%d (truenode)." -/
  | unable_to_find_truenode (tree_id node_id : Int)
  /-- "Unable to find node %d-%d (falsenode)." -/
  | unable_to_find_falsenode (tree_id node_id : Int)
  /-- "truenode [%d] is pointing either to itself [node id=%d], either to another tree". -/
  | truenode_self_or_other_tree (i : Nat) (node_id tree_id : Int)
  /-- "One falsenode is pointing either to itself, either to another tree." -/
  | falsenode_self_or_other_tree
  /-- "Unable to find node %d-%d (weights)." -/
  | unable_to_find_weights
  /-- "Invalid mode of value: ". -/
  | invalid_mode
  /-- "X must have 2 dimensions." -/
  | must_have_2_dimensions
  /-- "This runtime only handles integers." -/
  | only_handles_integers
  /-- "treeindex evaluated to a negative value, which should not happen." -/
  | negative_treeindex
deriving DecidableEq

/-- What ends a routine abnormally: a thrown exception or an undefined behaviour. -/
inductive Fault where
  | runtime_error (kind : ErrorKind)
  | null_dereference
  | out_of_range
deriving DecidableEq

/-- Result of a routine of the source that may throw or run into undefined behaviour. -/
abbrev Result (α : Type) := Except Fault α

deriving instance DecidableEq for Except

/-- Read `v[i]` of a `std::vector` with an unsigned index. -/
def vec_at {α : Type} (v : List α) (i : Nat) : Result α :=
  match v[i]? with
  | some a => .ok a
  | none => .error Fault.out_of_range

/-- Read `v[i]` of a `std::vector` (or raw buffer of known extent) with a signed index. -/
def vec_at_int {α : Type} (v : List α) (i : Int) : Result α :=
  match i with
  | Int.ofNat n => vec_at v n
  | Int.negSucc _ => .error Fault.out_of_range

/-- Write `v[i] = a` with a signed index. -/
def vec_set_int {α : Type} (v : List α) (i : Int) (a : α) : Result (List α) :=
  match i with
  | Int.ofNat n => if n < v.length then .ok (v.set n a) else .error Fault.out_of_range
  | Int.negSucc _ => .error Fault.out_of_range

/-- The cast `(int)x` of an `int64_t`: wrap to 32 bits, two's complement. -/
def toInt32 (x : Int) : Int := (x + 2147483648) % 4294967296 - 2147483648

/-! ## Enumerations (`op_tree_ensemble_classifier_.cpp`, lines 23-65) -/

/-- The enum class `POST_EVAL_TRANSFORM`. -/
inductive POST_EVAL_TRANSFORM where
  | NONE | LOGISTIC | SOFTMAX | SOFTMAX_ZERO | PROBIT
deriving DecidableEq

/-- The function `to_POST_EVAL_TRANSFORM`. -/
def to_POST_EVAL_TRANSFORM (value : String) : Result POST_EVAL_TRANSFORM :=
  if value = "NONE" then .ok .NONE
  else if value = "LOGISTIC" then .ok .LOGISTIC
  else if value = "SOFTMAX" then .ok .SOFTMAX
  else if value = "SOFTMAX_ZERO" then .ok .SOFTMAX_ZERO
  else if value = "PROBIT" then .ok .PROBIT
  else .error (.runtime_error (.unknown_post_transform value))

/-- The enum class `NODE_MODE`. -/
inductive NODE_MODE where
  | BRANCH_LEQ | BRANCH_LT | BRANCH_GTE | BRANCH_GT | BRANCH_EQ | BRANCH_NEQ | LEAF
deriving DecidableEq

/-- The function `to_NODE_MODE`. -/
def to_NODE_MODE (value : String) : Result NODE_MODE :=
  if value = "BRANCH_LEQ" then .ok .BRANCH_LEQ
  else if value = "BRANCH_LT" then .ok .BRANCH_LT
  else if value = "BRANCH_GTE" then .ok .BRANCH_GTE
  else if value = "BRANCH_GT" then .ok .BRANCH_GT
  else if value = "BRANCH_EQ" then .ok .BRANCH_EQ
  else if value = "BRANCH_NEQ" then .ok .BRANCH_NEQ
  else if value = "LEAF" then .ok .LEAF
  else .error (.runtime_error (.unknown_node_mode value))

/-- Modelled from the spec: the enum `AGGREGATE_FUNCTION` of `op_common_.hpp`, which is not
among the sources; the spec lists its values as "SUM", "AVERAGE", "MIN", "MAX". -/
inductive AGGREGATE_FUNCTION where
  | AVERAGE | SUM | MIN | MAX
deriving DecidableEq

/-- Modelled from the spec: `to_AGGREGATE_FUNCTION` of `op_common_.hpp`, which is not among
the sources; names are matched exactly and an unknown name is an error. -/
def to_AGGREGATE_FUNCTION (value : String) : Result AGGREGATE_FUNCTION :=
  if value = "AVERAGE" then .ok .AVERAGE
  else if value = "SUM" then .ok .SUM
  else if value = "MIN" then .ok .MIN
  else if value = "MAX" then .ok .MAX
  else .error (.runtime_error (.unknown_aggregate value))

/-! ## Node model (`op_tree_ensemble_regressor_p_.cpp`, lines 33-67) -/

/-- The struct `TreeNodeElementId`. -/
structure TreeNodeElementId where
  tree_id : Int
  node_id : Int
deriving DecidableEq

/-- The struct `SparseValue`: target index and weight. -/
structure SparseValue where
  i : Int
  value : NTYPE
deriving DecidableEq

/-- The enum `MissingTrack`. -/
inductive MissingTrack where
  | NONE | TRUE | FALSE
deriving DecidableEq

/-- The struct `TreeNodeElement`; `truenode` and `falsenode` point into `nodes_`. -/
structure TreeNodeElement where
  id : TreeNodeElementId
  feature_id : Int
  value : NTYPE
  hitrates : NTYPE
  mode : NODE_MODE
  truenode : Option Nat
  falsenode : Option Nat
  missing_tracks : MissingTrack
  weights : List SparseValue
deriving DecidableEq

/-! ## Accumulation of leaf weights into the score buffers -/

/-- The per-target score buffers of one row: `predictions` and `has_predictions`. -/
abbrev Buffers := List NTYPE × List Bool

/-- One iteration of the SUM / AVERAGE accumulation loop: `predictions[it->i] += it->value;
has_predictions[it->i] = 1;` (regressor lines 616-619, aggregator header lines 185-188). -/
def sum_weight (b : Buffers) (w : SparseValue) : Result Buffers := do
  let p ← vec_at_int b.1 w.i
  let predictions ← vec_set_int b.1 w.i (NTYPE.add p w.value)
  let has_predictions ← vec_set_int b.2 w.i true
  pure (predictions, has_predictions)

/-- One iteration of the MIN accumulation loop (regressor lines 622-626, aggregator header
lines 294-298). -/
def min_weight (b : Buffers) (w : SparseValue) : Result Buffers := do
  let h ← vec_at_int b.2 w.i
  let p ← vec_at_int b.1 w.i
  let predictions ← vec_set_int b.1 w.i (if !h || NTYPE.lt w.value p then w.value else p)
  let has_predictions ← vec_set_int b.2 w.i true
  pure (predictions, has_predictions)

/-- One iteration of the MAX accumulation loop (regressor lines 629-633, aggregator header
lines 353-357). -/
def max_weight (b : Buffers) (w : SparseValue) : Result Buffers := do
  let h ← vec_at_int b.2 w.i
  let p ← vec_at_int b.1 w.i
  let predictions ← vec_set_int b.1 w.i (if !h || NTYPE.gt w.value p then w.value else p)
  let has_predictions ← vec_set_int b.2 w.i true
  pure (predictions, has_predictions)

/-! ## Pointer-linked regressor: state and `init`
(`op_tree_ensemble_regressor_p_.cpp`, lines 69-82 and 161-343) -/

/-- The data members of `RuntimeTreeEnsembleRegressorP`. -/
structure RuntimeTreeEnsembleRegressorP where
  base_values_ : List NTYPE
  n_targets_ : Int
  post_transform_ : POST_EVAL_TRANSFORM
  aggregate_function_ : AGGREGATE_FUNCTION
  nbnodes_ : Int
  nodes_ : List TreeNodeElement
  roots_ : List Nat
  max_tree_depth_ : Int
  nbtrees_ : Int
  same_mode_ : Bool
  has_missing_tracks_ : Bool
deriving DecidableEq

namespace RuntimeTreeEnsembleRegressorP

/-- The arguments of `init`, in the order of the source. -/
structure Attributes where
  aggregate_function : String
  base_values : List NTYPE
  n_targets : Int
  nodes_falsenodeids : List Int
  nodes_featureids : List Int
  nodes_hitrates : List NTYPE
  nodes_missing_value_tracks_true : List Int
  nodes_modes : List String
  nodes_nodeids : List Int
  nodes_treeids : List Int
  nodes_truenodeids : List Int
  nodes_values : List NTYPE
  post_transform : String
  target_ids : List Int
  target_nodeids : List Int
  target_treeids : List Int
  target_weights : List NTYPE

/-- The loop of lines 221-231 that computes `same_mode_`. The second argument stands for
`fpos`: it is `none` while `fpos == -1` and otherwise holds `nodes_modes_[fpos]`. -/
def same_mode_scan : List NODE_MODE → Option NODE_MODE → Bool → Bool
  | [], _, same_mode => same_mode
  | m :: rest, fpos, same_mode =>
    if m = NODE_MODE.LEAF then same_mode_scan rest fpos same_mode
    else
      match fpos with
      | none => same_mode_scan rest (some m) same_mode
      | some first => same_mode_scan rest fpos (if m ≠ first then false else same_mode)

/-- The map `idi` from node identifiers to node pointers (a `std::map`). -/
abbrev IdIndex := List (TreeNodeElementId × Nat)

/-- The call `idi.find(key)`; `none` is `idi.end()`. -/
def idi_find : IdIndex → TreeNodeElementId → Option Nat
  | [], _ => none
  | (k, p) :: rest, key => if k = key then some p else idi_find rest key

/-- One iteration of the loop of lines 247-267: fill node `i` and register it in `idi`. -/
def fill_node (a : Attributes) (nodes_modes_ : List NODE_MODE)
    (st : List TreeNodeElement × IdIndex) (i : Nat) : Result (List TreeNodeElement × IdIndex) := do
  let tree_id ← vec_at a.nodes_treeids i
  let node_id ← vec_at a.nodes_nodeids i
  let feature_id ← vec_at a.nodes_featureids i
  let value ← vec_at a.nodes_values i
  let hitrates ←
    if i < a.nodes_hitrates.length then vec_at a.nodes_hitrates i else pure (NTYPE.num (-1))
  let mode ← vec_at nodes_modes_ i
  let missing_tracks ←
    if i < a.nodes_missing_value_tracks_true.length then do
      let t ← vec_at a.nodes_missing_value_tracks_true i
      pure (if t = 1 then MissingTrack.TRUE else MissingTrack.FALSE)
    else pure MissingTrack.NONE
  let node : TreeNodeElement :=
    { id := { tree_id := toInt32 tree_id, node_id := toInt32 node_id },
      feature_id := toInt32 feature_id, value := value, hitrates := hitrates, mode := mode,
      truenode := none, falsenode := none, missing_tracks := missing_tracks, weights := [] }
  match idi_find st.2 node.id with
  | some _ => throw (.runtime_error (.already_there node.id.node_id node.id.tree_id))
  | none => pure (st.1 ++ [node], st.2 ++ [(node.id, i)])

/-- One iteration of the loop of lines 271-317: resolve the two child links of node `i`. -/
def link_node (a : Attributes) (idi : IdIndex) (nbnodes_ : Int)
    (nodes : List TreeNodeElement) (i : Nat) : Result (List TreeNodeElement) := do
  let it ← vec_at nodes i
  if it.mode = NODE_MODE.LEAF then pure nodes
  else do
    let t ← vec_at a.nodes_truenodeids i
    let coor : TreeNodeElementId := { tree_id := it.id.tree_id, node_id := toInt32 t }
    let truenode ←
      match idi_find idi coor with
      | none => throw (.runtime_error (.unable_to_find_truenode coor.tree_id coor.node_id))
      | some found =>
        if 0 ≤ coor.node_id ∧ coor.node_id < nbnodes_ then do
          let child ← vec_at nodes found
          if child.id.tree_id ≠ it.id.tree_id ∨ child.id.node_id = it.id.node_id then
            throw (.runtime_error (.truenode_self_or_other_tree i it.id.node_id it.id.tree_id))
          else pure (some found)
        else pure none
    let f ← vec_at a.nodes_falsenodeids i
    let coor : TreeNodeElementId := { tree_id := it.id.tree_id, node_id := toInt32 f }
    let falsenode ←
      match idi_find idi coor with
      | none => throw (.runtime_error (.unable_to_find_falsenode coor.tree_id coor.node_id))
      | some found =>
        if 0 ≤ coor.node_id ∧ coor.node_id < nbnodes_ then do
          let child ← vec_at nodes found
          if child.id.tree_id ≠ it.id.tree_id ∨ child.id.node_id = it.id.node_id then
            throw (.runtime_error .falsenode_self_or_other_tree)
          else pure (some found)
        else pure none
    pure (nodes.set i { it with truenode := truenode, falsenode := falsenode })

/-- One iteration of the loop of lines 320-324 that collects the roots; the state is
`(roots_, previous)`. -/
def root_step (nodes : List TreeNodeElement) (st : List Nat × Int) (i : Nat) :
    Result (List Nat × Int) := do
  let node ← vec_at nodes i
  let roots := if st.2 = -1 ∨ st.2 ≠ node.id.tree_id then st.1 ++ [i] else st.1
  pure (roots, node.id.tree_id)

/-- One iteration of the loop of lines 328-339: attach leaf descriptor `i` to its node. -/
def attach_weight (a : Attributes) (idi : IdIndex)
    (nodes : List TreeNodeElement) (i : Nat) : Result (List TreeNodeElement) := do
  let t ← vec_at a.target_treeids i
  let n ← vec_at a.target_nodeids i
  let ind : TreeNodeElementId := { tree_id := toInt32 t, node_id := toInt32 n }
  match idi_find idi ind with
  | none => throw (.runtime_error .unable_to_find_weights)
  | some p => do
    let target ← vec_at a.target_ids i
    let weight ← vec_at a.target_weights i
    let node ← vec_at nodes p
    pure (nodes.set p { node with weights := node.weights ++ [{ i := target, value := weight }] })

/-- The method `init` on a freshly constructed object. -/
def init (a : Attributes) : Result RuntimeTreeEnsembleRegressorP := do
  let aggregate_function_ ← to_AGGREGATE_FUNCTION a.aggregate_function
  let post_transform_ ← to_POST_EVAL_TRANSFORM a.post_transform
  let nodes_modes_ ← a.nodes_modes.mapM to_NODE_MODE
  let same_mode_ := same_mode_scan nodes_modes_ none true
  let nbnodes_ : Nat := a.nodes_treeids.length
  let (nodes, idi) ← (List.range nbnodes_).foldlM (fill_node a nodes_modes_) ([], [])
  let nodes ← (List.range nbnodes_).foldlM (link_node a idi nbnodes_) nodes
  let (roots_, _) ← (List.range nbnodes_).foldlM (root_step nodes) ([], -1)
  let nodes ← (List.range a.target_nodeids.length).foldlM (attach_weight a idi) nodes
  pure
    { base_values_ := a.base_values,
      n_targets_ := a.n_targets,
      post_transform_ := post_transform_,
      aggregate_function_ := aggregate_function_,
      nbnodes_ := nbnodes_,
      nodes_ := nodes,
      roots_ := roots_,
      max_tree_depth_ := 1000,
      nbtrees_ := roots_.length,
      same_mode_ := same_mode_,
      has_missing_tracks_ :=
        decide (a.nodes_missing_value_tracks_true.length = a.nodes_truenodeids.length) }

/-! ## Pointer-linked regressor: the walker
(`op_tree_ensemble_regressor_p_.cpp`, lines 506-636) -/

/-- Dereference a node pointer. -/
def deref (nodes : List TreeNodeElement) (p : Option Nat) : Result TreeNodeElement :=
  match p with
  | none => .error Fault.null_dereference
  | some i => vec_at nodes i

/-- The body of the first loop of the macro `TREE_FIND_VALUE(CMP)` (taken when
`has_missing_tracks_`): the next value of `root`. -/
def TREE_FIND_VALUE_next_tracked (CMP : NTYPE → NTYPE → Bool) (x_data : Int → NTYPE)
    (root : TreeNodeElement) : Option Nat :=
  let val := x_data root.feature_id
  if CMP val root.value || (decide (root.missing_tracks = MissingTrack.TRUE) && NTYPE.isnan val)
  then root.truenode else root.falsenode

/-- The body of the second loop of the macro `TREE_FIND_VALUE(CMP)` (taken when
`has_missing_tracks_` is false): the next value of `root`. -/
def TREE_FIND_VALUE_next_plain (CMP : NTYPE → NTYPE → Bool) (x_data : Int → NTYPE)
    (root : TreeNodeElement) : Option Nat :=
  let val := x_data root.feature_id
  if CMP val root.value then root.truenode else root.falsenode

/-- A loop `while (root->mode != NODE_MODE::LEAF && loopcount >= 0) { root = ...; --loopcount; }`.
The first argument is `loopcount + 1`, the number of iterations still allowed. -/
def TREE_FIND_VALUE_loop (nodes : List TreeNodeElement) (next : TreeNodeElement → Option Nat) :
    Nat → Option Nat → Result (Option Nat)
  | 0, root => do
    let _ ← deref nodes root
    pure root
  | k + 1, root => do
    let node ← deref nodes root
    if node.mode = NODE_MODE.LEAF then pure root
    else TREE_FIND_VALUE_loop nodes next k (next node)

/-- The macro `TREE_FIND_VALUE(CMP)` with `loopcount = max_tree_depth_` on entry. -/
def TREE_FIND_VALUE (self : RuntimeTreeEnsembleRegressorP) (CMP : NTYPE → NTYPE → Bool)
    (x_data : Int → NTYPE) (root : Option Nat) : Result (Option Nat) :=
  if self.has_missing_tracks_ then
    TREE_FIND_VALUE_loop self.nodes_ (TREE_FIND_VALUE_next_tracked CMP x_data)
      (self.max_tree_depth_ + 1).toNat root
  else
    TREE_FIND_VALUE_loop self.nodes_ (TREE_FIND_VALUE_next_plain CMP x_data)
      (self.max_tree_depth_ + 1).toNat root

/-- The body of the general loop (lines 567-607): the next value of `root`, or the
"Invalid mode" exception of the `default` label. -/
def general_next (x_data : Int → NTYPE) (root : TreeNodeElement) : Result (Option Nat) :=
  let val := x_data root.feature_id
  let tracktrue := decide (root.missing_tracks = MissingTrack.TRUE) && NTYPE.isnan val
  let threshold := root.value
  match root.mode with
  | .BRANCH_LEQ => pure (if NTYPE.le val threshold || tracktrue then root.truenode else root.falsenode)
  | .BRANCH_LT => pure (if NTYPE.lt val threshold || tracktrue then root.truenode else root.falsenode)
  | .BRANCH_GTE => pure (if NTYPE.ge val threshold || tracktrue then root.truenode else root.falsenode)
  | .BRANCH_GT => pure (if NTYPE.gt val threshold || tracktrue then root.truenode else root.falsenode)
  | .BRANCH_EQ => pure (if NTYPE.eq val threshold || tracktrue then root.truenode else root.falsenode)
  | .BRANCH_NEQ => pure (if NTYPE.ne val threshold || tracktrue then root.truenode else root.falsenode)
  | .LEAF => throw (.runtime_error .invalid_mode)

/-- The general loop
`while ((root->mode != NODE_MODE::LEAF) && (loopcount <= max_tree_depth_)) { ...; ++loopcount; }`.
The first argument is `max_tree_depth_ + 1 - loopcount`, the number of iterations still
allowed. -/
def general_loop (nodes : List TreeNodeElement) (x_data : Int → NTYPE) :
    Nat → Option Nat → Result (Option Nat)
  | 0, root => do
    let _ ← deref nodes root
    pure root
  | k + 1, root => do
    let node ← deref nodes root
    if node.mode = NODE_MODE.LEAF then pure root
    else do
      let next ← general_next x_data node
      general_loop nodes x_data k next

/-- The descent of `ProcessTreeNode` (lines 531-610): the value of `root` when the
aggregation switch is reached. -/
def find_leaf (self : RuntimeTreeEnsembleRegressorP) (root : Option Nat) (x_data : Int → NTYPE) :
    Result (Option Nat) :=
  if self.same_mode_ then do
    let node ← deref self.nodes_ root
    match node.mode with
    | .BRANCH_LEQ => TREE_FIND_VALUE self NTYPE.le x_data root
    | .BRANCH_LT => TREE_FIND_VALUE self NTYPE.lt x_data root
    | .BRANCH_GTE => TREE_FIND_VALUE self NTYPE.ge x_data root
    | .BRANCH_GT => TREE_FIND_VALUE self NTYPE.gt x_data root
    | .BRANCH_EQ => TREE_FIND_VALUE self NTYPE.eq x_data root
    | .BRANCH_NEQ => TREE_FIND_VALUE self NTYPE.ne x_data root
    | .LEAF => pure root
  else
    general_loop self.nodes_ x_data (self.max_tree_depth_ + 1).toNat root

/-- The aggregation switch at the end of `ProcessTreeNode` (lines 613-635). -/
def aggregate (f : AGGREGATE_FUNCTION) (b : Buffers) (weights : List SparseValue) :
    Result Buffers :=
  match f with
  | .AVERAGE => weights.foldlM sum_weight b
  | .SUM => weights.foldlM sum_weight b
  | .MIN => weights.foldlM min_weight b
  | .MAX => weights.foldlM max_weight b

/-- The method `ProcessTreeNode`: descend from `root`, then aggregate the weights of the
node at which the descent stopped. -/
def ProcessTreeNode (self : RuntimeTreeEnsembleRegressorP) (predictions : List NTYPE)
    (root : Option Nat) (x_data : Int → NTYPE) (has_predictions : List Bool) :
    Result Buffers := do
  let stop ← find_leaf self root x_data
  let node ← deref self.nodes_ stop
  aggregate self.aggregate_function_ (predictions, has_predictions) node.weights

end RuntimeTreeEnsembleRegressorP

/-! ## Pointer-linked regressor: one row of `compute_gil_free`
(`op_tree_ensemble_regressor_p_.cpp`, lines 392-503) -/

namespace RuntimeTreeEnsembleRegressorP

/-- The loop `for (j = 0; j < nbtrees_; ++j) ProcessTreeNode(scores, roots_[j], x_data, has_scores)`
over the roots, executed sequentially. -/
def walk_roots (self : RuntimeTreeEnsembleRegressorP) (x_data : Int → NTYPE) (b : Buffers) :
    Result Buffers :=
  self.roots_.foldlM (fun acc r => ProcessTreeNode self acc.1 (some r) x_data acc.2) b

/-- The branch `n_targets_ == 1` (lines 401-443) for one row: the value `val` that is stored
in `Z` (through `ComputeProbit` when the post-transform is PROBIT). -/
def row_val_single (self : RuntimeTreeEnsembleRegressorP) (x_data : Int → NTYPE) :
    Result NTYPE := do
  let origin ←
    if self.base_values_.length = 1 then vec_at self.base_values_ 0 else pure NTYPE.zero
  let b ← walk_roots self x_data ([NTYPE.zero], [false])
  let scores ← vec_at b.1 0
  let has_scores ← vec_at b.2 0
  pure
    (if has_scores then
      NTYPE.add
        (if self.aggregate_function_ = AGGREGATE_FUNCTION.AVERAGE
          then NTYPE.divNat scores self.roots_.length else scores)
        origin
    else origin)

/-- One iteration of the loop of lines 458-467 (and 490-498): the entry `outputs[j]`. -/
def output_entry (self : RuntimeTreeEnsembleRegressorP) (b : Buffers) (j : Nat) :
    Result NTYPE := do
  let val ←
    if (self.base_values_.length : Int) = self.n_targets_ then vec_at self.base_values_ j
    else pure NTYPE.zero
  let has_scores ← vec_at b.2 j
  if has_scores then do
    let s ← vec_at b.1 j
    pure
      (NTYPE.add val
        (if self.aggregate_function_ = AGGREGATE_FUNCTION.AVERAGE
          then NTYPE.divNat s self.roots_.length else s))
  else pure val

/-- The branch `n_targets_ != 1` (lines 445-501) for one row: the vector `outputs` handed
to `write_scores` (with `add_second_class = -1`). -/
def row_outputs (self : RuntimeTreeEnsembleRegressorP) (x_data : Int → NTYPE) :
    Result (List NTYPE) := do
  let n := self.n_targets_.toNat
  let b ← walk_roots self x_data (List.replicate n NTYPE.zero, List.replicate n false)
  (List.range n).mapM (output_entry self b)

end RuntimeTreeEnsembleRegressorP

/-! ## Aggregators (`op_tree_ensemble_common_p_agg_.hpp`) -/

/-- The arguments of a call `write_scores(scores, post_transform, Z, add_second_class)`. -/
structure WriteScoresCall where
  scores : List NTYPE
  post_transform : POST_EVAL_TRANSFORM
  add_second_class : Int
deriving DecidableEq

/-- The data members of the class `_Aggregator` (lines 81-86). -/
structure _Aggregator where
  n_trees_ : Nat
  n_targets_or_classes_ : Int
  post_transform_ : POST_EVAL_TRANSFORM
  base_values_ : List NTYPE
  origin_ : NTYPE
  use_base_values_ : Bool
deriving DecidableEq

namespace _Aggregator

/-- The constructor of `_Aggregator` (lines 90-98). -/
def new (n_trees : Nat) (n_targets_or_classes : Int) (post_transform : POST_EVAL_TRANSFORM)
    (base_values : List NTYPE) : _Aggregator :=
  { n_trees_ := n_trees,
    n_targets_or_classes_ := n_targets_or_classes,
    post_transform_ := post_transform,
    base_values_ := base_values,
    origin_ := if base_values.length = 1 then base_values.headD NTYPE.zero else NTYPE.zero,
    use_base_values_ := decide ((base_values.length : Int) = n_targets_or_classes) }

/-- The method `_Aggregator::FinalizeScores1` (lines 110-115): the new `val`, which is stored
in `*Z` (through `ComputeProbit` when the post-transform is PROBIT). -/
def FinalizeScores1 (self : _Aggregator) (val : NTYPE) (has_scores : Bool) : NTYPE :=
  if has_scores then NTYPE.add val self.origin_ else self.origin_

/-- One iteration of the loop of `_Aggregator::FinalizeScores` (lines 131-135). -/
def finalize_entry (self : _Aggregator) (has_scores : List Bool) (scores : List NTYPE)
    (jt : Nat) : Result (List NTYPE) := do
  let val ← if self.use_base_values_ then vec_at self.base_values_ jt else pure NTYPE.zero
  let h ← vec_at has_scores jt
  let s ← if h then vec_at scores jt else pure NTYPE.zero
  vec_set_int scores jt (NTYPE.add val s)

/-- The method `_Aggregator::FinalizeScores` (lines 126-137), inherited by the MIN and MAX
aggregators: the call of `write_scores` it ends with. -/
def FinalizeScores (self : _Aggregator) (scores : List NTYPE) (has_scores : List Bool)
    (add_second_class : Int) : Result WriteScoresCall := do
  let scores ←
    (List.range self.n_targets_or_classes_.toNat).foldlM (finalize_entry self has_scores) scores
  pure { scores := scores, post_transform := self.post_transform_,
         add_second_class := add_second_class }

end _Aggregator

namespace _AggregatorSum

/-- The method `_AggregatorSum::ProcessTreeNodePrediction1` (lines 163-167). -/
def ProcessTreeNodePrediction1 (predictions : NTYPE) (root : TreeNodeElement)
    (has_predictions : Bool) : Result (NTYPE × Bool) := do
  let w ← vec_at root.weights 0
  pure (NTYPE.add predictions w.value, has_predictions)

/-- The method `_AggregatorSum::MergePrediction1` (lines 169-172). -/
def MergePrediction1 (predictions : NTYPE) (has_predictions : Bool)
    (predictions2 : NTYPE) (_has_predictions2 : Bool) : NTYPE × Bool :=
  (NTYPE.add predictions predictions2, has_predictions)

/-- The method `_AggregatorSum::FinalizeScores1` (lines 174-179): the new `val`. -/
def FinalizeScores1 (self : _Aggregator) (val : NTYPE) (_has_scores : Bool) : NTYPE :=
  NTYPE.add val self.origin_

/-- The method `_AggregatorSum::ProcessTreeNodePrediction` (lines 183-189). -/
def ProcessTreeNodePrediction (predictions : List NTYPE) (root : TreeNodeElement)
    (has_predictions : List Bool) : Result Buffers :=
  root.weights.foldlM sum_weight (predictions, has_predictions)

/-- One iteration of the loop of `_AggregatorSum::MergePrediction` (lines 193-198). -/
def merge_entry (predictions2 : List NTYPE) (has_predictions2 : List Bool)
    (b : Buffers) (i : Nat) : Result Buffers := do
  let h2 ← vec_at has_predictions2 i
  if h2 then do
    let p ← vec_at b.1 i
    let p2 ← vec_at predictions2 i
    let predictions ← vec_set_int b.1 i (NTYPE.add p p2)
    let has_predictions ← vec_set_int b.2 i true
    pure (predictions, has_predictions)
  else pure b

/-- The method `_AggregatorSum::MergePrediction` (lines 191-199). -/
def MergePrediction (n : Int) (predictions : List NTYPE) (has_predictions : List Bool)
    (predictions2 : List NTYPE) (has_predictions2 : List Bool) : Result Buffers :=
  (List.range n.toNat).foldlM (merge_entry predictions2 has_predictions2)
    (predictions, has_predictions)

/-- The loop `for (; it != scores.end(); ++it, ++it2) *it += *it2;` of lines 206-209. -/
def add_base_values : List NTYPE → List NTYPE → Result (List NTYPE)
  | [], _ => pure []
  | _ :: _, [] => throw Fault.out_of_range
  | s :: scores, v :: base_values => do
    let rest ← add_base_values scores base_values
    pure (NTYPE.add s v :: rest)

/-- The method `_AggregatorSum::FinalizeScores` (lines 201-212): the call of `write_scores`
it ends with. -/
def FinalizeScores (self : _Aggregator) (scores : List NTYPE) (_has_scores : List Bool)
    (add_second_class : Int) : Result WriteScoresCall := do
  let scores ← if self.use_base_values_ then add_base_values scores self.base_values_
               else pure scores
  pure { scores := scores, post_transform := self.post_transform_,
         add_second_class := add_second_class }

end _AggregatorSum

namespace _AggregatorAverage

/-- The method `_AggregatorAverage::FinalizeScores1` (lines 230-236): the new `val`. -/
def FinalizeScores1 (self : _Aggregator) (val : NTYPE) (_has_scores : Bool) : NTYPE :=
  NTYPE.add (NTYPE.divNat val self.n_trees_) self.origin_

/-- The loop `for (; it != scores.end(); ++it, ++it2) *it = *it / n_trees_ + *it2;` of lines
245-246. -/
def average_add_base_values (n_trees : Nat) : List NTYPE → List NTYPE → Result (List NTYPE)
  | [], _ => pure []
  | _ :: _, [] => throw Fault.out_of_range
  | s :: scores, v :: base_values => do
    let rest ← average_add_base_values n_trees scores base_values
    pure (NTYPE.add (NTYPE.divNat s n_trees) v :: rest)

/-- The method `_AggregatorAverage::FinalizeScores` (lines 238-253): the call of
`write_scores` it ends with. -/
def FinalizeScores (self : _Aggregator) (scores : List NTYPE) (_has_scores : List Bool)
    (add_second_class : Int) : Result WriteScoresCall := do
  let scores ←
    if self.use_base_values_ then average_add_base_values self.n_trees_ scores self.base_values_
    else pure (scores.map (fun s => NTYPE.divNat s self.n_trees_))
  pure { scores := scores, post_transform := self.post_transform_,
         add_second_class := add_second_class }

end _AggregatorAverage

namespace _AggregatorMin

/-- The method `_AggregatorMin::ProcessTreeNodePrediction1` (lines 273-278). -/
def ProcessTreeNodePrediction1 (predictions : NTYPE) (root : TreeNodeElement)
    (has_predictions : Bool) : Result (NTYPE × Bool) := do
  let w ← vec_at root.weights 0
  pure (if !has_predictions || NTYPE.lt w.value predictions then w.value else predictions, true)

/-- The method `_AggregatorMin::MergePrediction1` (lines 280-288). -/
def MergePrediction1 (predictions : NTYPE) (has_predictions : Bool)
    (predictions2 : NTYPE) (has_predictions2 : Bool) : NTYPE × Bool :=
  if has_predictions2 then
    (if has_predictions && NTYPE.lt predictions predictions2 then predictions else predictions2,
     true)
  else (predictions, has_predictions)

/-- The method `_AggregatorMin::ProcessTreeNodePrediction` (lines 292-299). -/
def ProcessTreeNodePrediction (predictions : List NTYPE) (root : TreeNodeElement)
    (has_predictions : List Bool) : Result Buffers :=
  root.weights.foldlM min_weight (predictions, has_predictions)

/-- One iteration of the loop of `_AggregatorMin::MergePrediction` (lines 303-310). -/
def merge_entry (predictions2 : List NTYPE) (has_predictions2 : List Bool)
    (b : Buffers) (i : Nat) : Result Buffers := do
  let h2 ← vec_at has_predictions2 i
  if h2 then do
    let h ← vec_at b.2 i
    let p2 ← vec_at predictions2 i
    let v ← if h then do
              let p ← vec_at b.1 i
              pure (if NTYPE.lt p p2 then p else p2)
            else pure p2
    let predictions ← vec_set_int b.1 i v
    let has_predictions ← vec_set_int b.2 i true
    pure (predictions, has_predictions)
  else pure b

/-- The method `_AggregatorMin::MergePrediction` (lines 301-311). -/
def MergePrediction (n : Int) (predictions : List NTYPE) (has_predictions : List Bool)
    (predictions2 : List NTYPE) (has_predictions2 : List Bool) : Result Buffers :=
  (List.range n.toNat).foldlM (merge_entry predictions2 has_predictions2)
    (predictions, has_predictions)

end _AggregatorMin

namespace _AggregatorMax

/-- The method `_AggregatorMax::ProcessTreeNodePrediction1` (lines 332-337). -/
def ProcessTreeNodePrediction1 (predictions : NTYPE) (root : TreeNodeElement)
    (has_predictions : Bool) : Result (NTYPE × Bool) := do
  let w ← vec_at root.weights 0
  pure (if !has_predictions || NTYPE.gt w.value predictions then w.value else predictions, true)

/-- The method `_AggregatorMax::MergePrediction1` (lines 339-347). -/
def MergePrediction1 (predictions : NTYPE) (has_predictions : Bool)
    (predictions2 : NTYPE) (has_predictions2 : Bool) : NTYPE × Bool :=
  if has_predictions2 then
    (if has_predictions && NTYPE.gt predictions predictions2 then predictions else predictions2,
     true)
  else (predictions, has_predictions)

/-- The method `_AggregatorMax::ProcessTreeNodePrediction` (lines 351-358). -/
def ProcessTreeNodePrediction (predictions : List NTYPE) (root : TreeNodeElement)
    (has_predictions : List Bool) : Result Buffers :=
  root.weights.foldlM max_weight (predictions, has_predictions)

/-- One iteration of the loop of `_AggregatorMax::MergePrediction` (lines 362-369). -/
def merge_entry (predictions2 : List NTYPE) (has_predictions2 : List Bool)
    (b : Buffers) (i : Nat) : Result Buffers := do
  let h2 ← vec_at has_predictions2 i
  if h2 then do
    let h ← vec_at b.2 i
    let p2 ← vec_at predictions2 i
    let v ← if h then do
              let p ← vec_at b.1 i
              pure (if NTYPE.gt p p2 then p else p2)
            else pure p2
    let predictions ← vec_set_int b.1 i v
    let has_predictions ← vec_set_int b.2 i true
    pure (predictions, has_predictions)
  else pure b

/-- The method `_AggregatorMax::MergePrediction` (lines 360-370). -/
def MergePrediction (n : Int) (predictions : List NTYPE) (has_predictions : List Bool)
    (predictions2 : List NTYPE) (has_predictions2 : List Bool) : Result Buffers :=
  (List.range n.toNat).foldlM (merge_entry predictions2 has_predictions2)
    (predictions, has_predictions)

end _AggregatorMax

/-- The data members of the class `_AggregatorClassifier` (lines 384-388) on top of those of
`_Aggregator`. The flag `binary_case_` is a constructor argument supplied by the caller. -/
structure _AggregatorClassifier extends _Aggregator where
  class_labels_ : List Int
  binary_case_ : Bool
  weights_are_all_positive_ : Bool
  positive_label_ : Int
  negative_label_ : Int
deriving DecidableEq

namespace _AggregatorClassifier

/-- The constructor of `_AggregatorClassifier` (lines 392-405). In the source the last two
arguments have the default values `positive_label = 1` and `negative_label = 0`. -/
def new (n_trees : Nat) (n_targets_or_classes : Int) (post_transform : POST_EVAL_TRANSFORM)
    (base_values : List NTYPE) (class_labels : List Int) (binary_case : Bool)
    (weights_are_all_positive : Bool) (positive_label : Int) (negative_label : Int) :
    _AggregatorClassifier :=
  { _Aggregator.new n_trees n_targets_or_classes post_transform base_values with
    class_labels_ := class_labels,
    binary_case_ := binary_case,
    weights_are_all_positive_ := weights_are_all_positive,
    positive_label_ := positive_label,
    negative_label_ := negative_label }

/-- The loop of `get_max_weight` (lines 416-422). The third argument is the position
`it - classes.cbegin()`, the fourth the pair `(maxclass, maxweight)`. -/
def get_max_weight_loop : List NTYPE → List Bool → Int → Int × NTYPE → Result (Int × NTYPE)
  | [], _, _, st => pure st
  | _ :: _, [], _, _ => throw Fault.out_of_range
  | c :: classes, b :: has_scores, pos, (maxclass, maxweight) =>
    if b && (decide (maxclass = -1) || NTYPE.gt c maxweight) then
      get_max_weight_loop classes has_scores (pos + 1) (pos, c)
    else
      get_max_weight_loop classes has_scores (pos + 1) (maxclass, maxweight)

/-- The method `get_max_weight` (lines 409-423): the pair `(maxclass, maxweight)`. -/
def get_max_weight (classes : List NTYPE) (has_scores : List Bool) : Result (Int × NTYPE) :=
  get_max_weight_loop classes has_scores 0 (-1, NTYPE.zero)

/-- The method `_set_score_binary` (lines 425-456): the returned label and the value of
`write_additional_scores` on exit. -/
def _set_score_binary (self : _AggregatorClassifier) (write_additional_scores : Int)
    (classes : List NTYPE) (has_scores : List Bool) : Result (Int × Int) := do
  let h1 ← vec_at has_scores 1
  let pos_weight ←
    if h1 then vec_at classes 1
    else do
      let h0 ← vec_at has_scores 0
      if h0 then vec_at classes 0 else pure NTYPE.zero
  if self.binary_case_ then
    if self.weights_are_all_positive_ then
      if NTYPE.gt pos_weight (NTYPE.num (1 / 2)) then do
        let label ← vec_at self.class_labels_ 1
        pure (label, 0)
      else do
        let label ← vec_at self.class_labels_ 0
        pure (label, 1)
    else
      if NTYPE.gt pos_weight NTYPE.zero then do
        let label ← vec_at self.class_labels_ 1
        pure (label, 2)
      else do
        let label ← vec_at self.class_labels_ 0
        pure (label, 3)
  else
    pure (if NTYPE.gt pos_weight NTYPE.zero then self.positive_label_ else self.negative_label_,
          write_additional_scores)

/-- One iteration of the base-value loop of the multi-class branch (lines 504-512). -/
def add_base_value (base_values : List NTYPE) (st : List NTYPE × List Bool) (k : Nat) :
    Result (List NTYPE × List Bool) := do
  let h ← vec_at st.2 k
  let v ← vec_at base_values k
  if !h then do
    let has_scores ← vec_set_int st.2 k true
    let scores ← vec_set_int st.1 k v
    pure (scores, has_scores)
  else do
    let s ← vec_at st.1 k
    let scores ← vec_set_int st.1 k (NTYPE.add s v)
    pure (scores, st.2)

/-- The multi-class branch of `FinalizeScores` up to the call of `get_max_weight`
(lines 503-512): the scores and flags after the base values are added. -/
def adjust_multiclass (self : _AggregatorClassifier) (scores : List NTYPE)
    (has_scores : List Bool) : Result (List NTYPE × List Bool) :=
  (List.range self.base_values_.length).foldlM (add_base_value self.base_values_)
    (scores, has_scores)

/-- The binary branch of `FinalizeScores` up to the call of `_set_score_binary`
(lines 517-543): the scores and flags after the base values are handled. -/
def adjust_binary (self : _AggregatorClassifier) (scores : List NTYPE)
    (has_scores : List Bool) : Result (List NTYPE × List Bool) :=
  if self.base_values_.length = 2 then do
    let h1 ← vec_at has_scores 1
    if h1 then do
      let b1 ← vec_at self.base_values_ 1
      let s0 ← vec_at scores 0
      let scores ← vec_set_int scores 1 (NTYPE.add b1 s0)
      let s1 ← vec_at scores 1
      let scores ← vec_set_int scores 0 (NTYPE.neg s1)
      let has_scores ← vec_set_int has_scores 1 true
      pure (scores, has_scores)
    else do
      let s1 ← vec_at scores 1
      let b1 ← vec_at self.base_values_ 1
      let scores ← vec_set_int scores 1 (NTYPE.add s1 b1)
      let s0 ← vec_at scores 0
      let b0 ← vec_at self.base_values_ 0
      let scores ← vec_set_int scores 0 (NTYPE.add s0 b0)
      pure (scores, has_scores)
  else if self.base_values_.length = 1 then do
    let s0 ← vec_at scores 0
    let b0 ← vec_at self.base_values_ 0
    let scores ← vec_set_int scores 0 (NTYPE.add s0 b0)
    let h1 ← vec_at has_scores 1
    if !h1 then
      if scores = [] then throw Fault.out_of_range else pure (scores.dropLast, has_scores)
    else pure (scores, has_scores)
  else if self.base_values_.length = 0 then do
    let h1 ← vec_at has_scores 1
    if !h1 then
      if scores = [] then throw Fault.out_of_range else pure (scores.dropLast, has_scores)
    else pure (scores, has_scores)
  else pure (scores, has_scores)

/-- The method `_AggregatorClassifier::FinalizeScores` (lines 494-549): the label written to
`*Y` and the call of `write_scores` it ends with. -/
def FinalizeScores (self : _AggregatorClassifier) (scores : List NTYPE)
    (has_scores : List Bool) (_add_second_class : Int) : Result (Int × WriteScoresCall) := do
  let write_additional_scores : Int := -1
  if self.n_targets_or_classes_ > 2 then do
    let (scores, has_scores) ← adjust_multiclass self scores has_scores
    let (maxclass, _) ← get_max_weight scores has_scores
    let label ← vec_at_int self.class_labels_ maxclass
    pure (label, { scores := scores, post_transform := self.post_transform_,
                   add_second_class := write_additional_scores })
  else do
    let (scores, has_scores) ← adjust_binary self scores has_scores
    if scores = [] then throw Fault.out_of_range
    else do
      let (label, write_additional_scores) ←
        _set_score_binary self write_additional_scores scores has_scores
      pure (label, { scores := scores, post_transform := self.post_transform_,
                     add_second_class := write_additional_scores })

end _AggregatorClassifier

/-! ## Flat classifier (`op_tree_ensemble_classifier_.cpp`) -/

/-- A `std::map<int64_t, float>`: the entries in ascending key order. -/
abbrev ClassMap := List (Int × NTYPE)

/-- The call `classes.find(k)`; `none` is `classes.end()`. -/
def map_find : ClassMap → Int → Option NTYPE
  | [], _ => none
  | (k, v) :: rest, key => if k = key then some v else map_find rest key

/-- The call `classes.insert(std::make_pair(k, v))`: no effect when the key is present. -/
def map_insert : ClassMap → Int → NTYPE → ClassMap
  | [], key, val => [(key, val)]
  | (k, v) :: rest, key, val =>
    if key < k then (key, val) :: (k, v) :: rest
    else if key = k then (k, v) :: rest
    else (k, v) :: map_insert rest key val

/-- The assignment `it->second = f(it->second)` through the iterator of key `key`. -/
def map_modify : ClassMap → Int → (NTYPE → NTYPE) → ClassMap
  | [], _, _ => []
  | (k, v) :: rest, key, f =>
    if k = key then (k, f v) :: rest else (k, v) :: map_modify rest key f

/-- The reference `classes[k]`: the key is inserted with value `0` when it is absent. -/
def map_subscript (classes : ClassMap) (key : Int) : ClassMap :=
  map_insert classes key NTYPE.zero

/-- The value read through `classes[k]`. -/
def map_subscript_value (classes : ClassMap) (key : Int) : NTYPE :=
  (map_find classes key).getD NTYPE.zero

/-- The free function `get_max_weight` (lines 322-331): the loop over the map in key order;
the state is `(maxclass, maxweight)`. -/
def get_max_weight : ClassMap → Int × NTYPE → Int × NTYPE
  | [], st => st
  | (k, v) :: rest, (maxclass, maxweight) =>
    if maxclass = -1 ∨ NTYPE.gt v maxweight = true then get_max_weight rest (k, v)
    else get_max_weight rest (maxclass, maxweight)

/-- The free function `get_weight_class_positive` (lines 334-339): the map on exit (the
subscript may insert key 0) and `pos_weight`. -/
def get_weight_class_positive (classes : ClassMap) : ClassMap × NTYPE :=
  match map_find classes 1 with
  | none =>
    if classes.length > 0 then (map_subscript classes 0, map_subscript_value classes 0)
    else (classes, NTYPE.zero)
  | some v => (classes, v)

/-- The free function `_set_score_binary` (lines 342-374): the map on exit, the returned
label and the value of `write_additional_scores` on exit. -/
def _set_score_binary (write_additional_scores : Int) (weights_are_all_positive_ : Bool)
    (classes : ClassMap) (classes_labels_ : List Int) (weights_classes_ : List Int)
    (positive_label negative_label : Int) : Result (ClassMap × Int × Int) := do
  let (classes, pos_weight) := get_weight_class_positive classes
  if classes_labels_.length = 2 ∧ weights_classes_.length = 1 then
    if weights_are_all_positive_ then
      if NTYPE.gt pos_weight (NTYPE.num (1 / 2)) then do
        let label ← vec_at classes_labels_ 1
        pure (classes, label, 0)
      else do
        let label ← vec_at classes_labels_ 0
        pure (classes, label, 1)
    else
      if NTYPE.gt pos_weight NTYPE.zero then do
        let label ← vec_at classes_labels_ 1
        pure (classes, label, 2)
      else do
        let label ← vec_at classes_labels_ 0
        pure (classes, label, 3)
  else if NTYPE.gt pos_weight NTYPE.zero then
    pure (classes, positive_label, write_additional_scores)
  else
    pure (classes, negative_label, write_additional_scores)

/-- The data members of `RuntimeTreeEnsembleClassifier` (lines 72-101). The set
`weights_classes_` is the list of its elements; `leafdata_map_` is the list of its pairs,
searched from the front. -/
structure RuntimeTreeEnsembleClassifier where
  nodes_treeids_ : List Int
  nodes_nodeids_ : List Int
  nodes_featureids_ : List Int
  nodes_values_ : List NTYPE
  nodes_hitrates_ : List NTYPE
  nodes_modes_ : List NODE_MODE
  nodes_truenodeids_ : List Int
  nodes_falsenodeids_ : List Int
  missing_tracks_true_ : List Int
  class_nodeids_ : List Int
  class_treeids_ : List Int
  class_ids_ : List Int
  class_weights_ : List NTYPE
  class_count_ : Int
  weights_classes_ : List Int
  base_values_ : List NTYPE
  classlabels_int64s_ : List Int
  leafnodedata_ : List (Int × Int × Int × NTYPE)
  leafdata_map_ : List (Int × Int)
  roots_ : List Int
  post_transform_ : POST_EVAL_TRANSFORM
  weights_are_all_positive_ : Bool
deriving DecidableEq

namespace RuntimeTreeEnsembleClassifier

/-- The constant `kOffset_`. -/
def kOffset_ : Int := 4000000000

/-- The constant `kMaxTreeDepth_`. -/
def kMaxTreeDepth_ : Int := 1000

/-- The call `leafdata_map_.find(id)`; `none` is `leafdata_map_.end()`. -/
def leafdata_find : List (Int × Int) → Int → Option Int
  | [], _ => none
  | (k, v) :: rest, id => if k = id then some v else leafdata_find rest id

/-- The body of the descent loop up to the end of the `switch` (lines 612-642): the new
value of `treeindex`, a node id relative to the root of the tree. -/
def next_index (self : RuntimeTreeEnsembleClassifier) (x_data : Int → NTYPE)
    (feature_base : Int) (mode : NODE_MODE) (treeindex : Int) : Result Int := do
  let feature ← vec_at_int self.nodes_featureids_ treeindex
  let val := x_data (feature_base + feature)
  let tracktrue ←
    if self.missing_tracks_true_.length ≠ self.nodes_truenodeids_.length then pure false
    else do
      let t ← vec_at_int self.missing_tracks_true_ treeindex
      pure (decide (t ≠ 0) && NTYPE.isnan val)
  let threshold ← vec_at_int self.nodes_values_ treeindex
  let take (c : Bool) : Result Int :=
    if c || tracktrue then vec_at_int self.nodes_truenodeids_ treeindex
    else vec_at_int self.nodes_falsenodeids_ treeindex
  match mode with
  | .BRANCH_LEQ => take (NTYPE.le val threshold)
  | .BRANCH_LT => take (NTYPE.lt val threshold)
  | .BRANCH_GTE => take (NTYPE.ge val threshold)
  | .BRANCH_GT => take (NTYPE.gt val threshold)
  | .BRANCH_EQ => take (NTYPE.eq val threshold)
  | .BRANCH_NEQ => take (NTYPE.ne val threshold)
  | .LEAF => throw (.runtime_error .invalid_mode)

/-- The descent loop `while (mode != NODE_MODE::LEAF) { ...; loopcount++;
if (loopcount > kMaxTreeDepth_) break; }` (lines 611-648). The first argument is
`kMaxTreeDepth_ - loopcount`; the result is the final `treeindex`. -/
def descend (self : RuntimeTreeEnsembleClassifier) (x_data : Int → NTYPE) (feature_base : Int)
    (root : Int) : Nat → NODE_MODE → Int → Result Int
  | 0, mode, treeindex =>
    if mode = NODE_MODE.LEAF then pure treeindex
    else do
      let t ← next_index self x_data feature_base mode treeindex
      let treeindex := t + root
      let _ ← vec_at_int self.nodes_modes_ treeindex
      pure treeindex
  | k + 1, mode, treeindex =>
    if mode = NODE_MODE.LEAF then pure treeindex
    else do
      let t ← next_index self x_data feature_base mode treeindex
      let treeindex := t + root
      let mode ← vec_at_int self.nodes_modes_ treeindex
      descend self x_data feature_base root k mode treeindex

/-- The update of `classes` for one leaf tuple (lines 661-668). -/
def add_vote (classes : ClassMap) (classid : Int) (weight : NTYPE) : ClassMap :=
  match map_find classes classid with
  | some _ => map_modify classes classid (fun s => NTYPE.add s weight)
  | none => map_insert classes classid weight

/-- The loop of lines 658-676 over the tuples of `leafnodedata_` from position `index` on,
as long as they carry the tree id and node id of the node reached. -/
def leaf_scan : List (Int × Int × Int × NTYPE) → Int → Int → ClassMap → ClassMap
  | [], _, _, classes => classes
  | (treeid, nodeid, classid, weight) :: rest, tid, nid, classes =>
    if treeid = tid ∧ nodeid = nid then leaf_scan rest tid nid (add_vote classes classid weight)
    else classes

/-- The part of `ProcessTreeNode` after the descent (lines 649-676). -/
def collect (self : RuntimeTreeEnsembleClassifier) (classes : ClassMap) (treeindex : Int) :
    Result ClassMap := do
  let tid ← vec_at_int self.nodes_treeids_ treeindex
  let nid ← vec_at_int self.nodes_nodeids_ treeindex
  let id := tid * kOffset_ + nid
  match leafdata_find self.leafdata_map_ id with
  | none => pure classes
  | some index => do
    let _ ← vec_at_int self.leafnodedata_ index
    pure (leaf_scan (self.leafnodedata_.drop index.toNat) tid nid classes)

/-- The method `ProcessTreeNode` (lines 603-677). -/
def ProcessTreeNode (self : RuntimeTreeEnsembleClassifier) (classes : ClassMap)
    (treeindex : Int) (x_data : Int → NTYPE) (feature_base : Int) : Result ClassMap := do
  let mode ← vec_at_int self.nodes_modes_ treeindex
  let stop ← descend self x_data feature_base treeindex kMaxTreeDepth_.toNat mode treeindex
  collect self classes stop

/-- One iteration of the base-value loop of the multi-class branch of `compute`
(lines 549-558). -/
def add_base_value (base_values : List NTYPE) (classes : ClassMap) (k : Nat) :
    Result ClassMap := do
  let v ← vec_at base_values k
  match map_find classes k with
  | none => pure (map_insert classes k v)
  | some _ => pure (map_modify classes k (fun s => NTYPE.add s v))

/-- The multi-class branch of `compute` (lines 546-561): the map after the base values are
added and the label stored in `Y_(i)`. -/
def finalize_multiclass (self : RuntimeTreeEnsembleClassifier) (classes : ClassMap) :
    Result (ClassMap × Int) := do
  let classes ←
    (List.range self.base_values_.length).foldlM (add_base_value self.base_values_) classes
  let (maxclass, _) := get_max_weight classes (-1, NTYPE.zero)
  let label ← vec_at_int self.classlabels_int64s_ maxclass
  pure (classes, label)

/-- The binary branch of `compute` (lines 562-584): the map on exit, the label stored in
`Y_(i)` and `write_additional_scores`. -/
def finalize_binary (self : RuntimeTreeEnsembleClassifier) (classes : ClassMap) :
    Result (ClassMap × Int × Int) := do
  let classes ←
    if self.base_values_.length = 2 then
      match map_find classes 1 with
      | none =>
        match map_find classes 0 with
        | none => throw Fault.null_dereference
        | some s0 => do
          let b1 ← vec_at self.base_values_ 1
          let classes := map_insert classes 1 (NTYPE.add b1 s0)
          pure (map_modify classes 0 (fun _ => NTYPE.neg (NTYPE.add b1 s0)))
      | some _ => do
        let b1 ← vec_at self.base_values_ 1
        let classes := map_modify classes 1 (fun s => NTYPE.add s b1)
        let b0 ← vec_at self.base_values_ 0
        let classes := map_subscript classes 0
        pure (map_modify classes 0 (fun s => NTYPE.add s b0))
    else pure classes
  _set_score_binary (-1) self.weights_are_all_positive_ classes self.classlabels_int64s_
    self.weights_classes_ 1 0

/-- The score vector assembled at lines 585-596. -/
def dense_scores (self : RuntimeTreeEnsembleClassifier) (classes : ClassMap) : List NTYPE :=
  if (self.weights_classes_.length : Int) = self.class_count_ then
    (List.range self.class_count_.toNat).map (fun k => (map_find classes k).getD NTYPE.zero)
  else classes.map Prod.snd

/-- One row of `compute` (lines 532-599): the label `Y_(i)` and the call of `write_scores`. -/
def compute_row (self : RuntimeTreeEnsembleClassifier) (x_data : Int → NTYPE)
    (current_weight_0 : Int) : Result (Int × WriteScoresCall) := do
  let classes ← self.roots_.foldlM
    (fun classes r => ProcessTreeNode self classes r x_data current_weight_0) []
  if self.class_count_ > 2 then do
    let (classes, label) ← finalize_multiclass self classes
    pure (label, { scores := dense_scores self classes, post_transform := self.post_transform_,
                   add_second_class := -1 })
  else do
    let (classes, label, write_additional_scores) ← finalize_binary self classes
    pure (label, { scores := dense_scores self classes, post_transform := self.post_transform_,
                   add_second_class := write_additional_scores })

end RuntimeTreeEnsembleClassifier

/-! ## Parts of `RuntimeTreeEnsembleClassifier::Initialize` used by the finalization -/

namespace RuntimeTreeEnsembleClassifier

/-- The flag `weights_are_all_positive_` as `Initialize` computes it (lines 220 and 243-245):
it starts true and is cleared by every class weight `w` with `w < 0`. -/
def Initialize_weights_are_all_positive (class_weights : List NTYPE) : Bool :=
  class_weights.foldl (fun positive w => if NTYPE.lt w NTYPE.zero then false else positive) true

/-- The call `weights_classes_.insert(id)` on a `std::set<int64_t>`, kept in ascending order. -/
def set_insert : List Int → Int → List Int
  | [], id => [id]
  | k :: rest, id =>
    if id < k then id :: k :: rest
    else if id = k then k :: rest
    else k :: set_insert rest id

/-- The set `weights_classes_` as `Initialize` computes it (lines 249-252): every class id of
a leaf descriptor is inserted. -/
def Initialize_weights_classes (class_ids : List Int) : List Int :=
  class_ids.foldl set_insert []

end RuntimeTreeEnsembleClassifier

/-! ## Specification-side definitions

The definitions of this section follow the words of the specification, not the source; the
theorems compare them with the embedded code. -/

namespace Spec

/-- The comparison `compare(v, threshold, mode)` of the specification: the comparator
`<=, <, >=, >, ==, !=` selected by the mode of a branch. -/
def compare (v threshold : NTYPE) : NODE_MODE → Bool
  | .BRANCH_LEQ => NTYPE.le v threshold
  | .BRANCH_LT => NTYPE.lt v threshold
  | .BRANCH_GTE => NTYPE.ge v threshold
  | .BRANCH_GT => NTYPE.gt v threshold
  | .BRANCH_EQ => NTYPE.eq v threshold
  | .BRANCH_NEQ => NTYPE.ne v threshold
  | .LEAF => false

/-- The descent rule of the specification at a branch `n` with `v = x[n.feature_id]`: go to
`n.truenode` if the comparison holds or if `n.missing_tracks` is TRUE and `v` is NaN,
otherwise go to `n.falsenode`. -/
def reference_next (x : Int → NTYPE) (n : TreeNodeElement) : Option Nat :=
  let v := x n.feature_id
  if compare v n.value n.mode || (decide (n.missing_tracks = MissingTrack.TRUE) && NTYPE.isnan v)
  then n.truenode else n.falsenode

/-- The reference descent of the specification: apply the descent rule from `root` until a
leaf is reached, for at most `fuel` branches. The result is `none` when no leaf is reached
within `fuel` branches or a child link is not resolved. -/
def reference_descent (nodes : List TreeNodeElement) (x : Int → NTYPE) :
    Nat → Option Nat → Option Nat
  | _, none => none
  | 0, some i =>
    match nodes[i]? with
    | some n => if n.mode = NODE_MODE.LEAF then some i else none
    | none => none
  | fuel + 1, some i =>
    match nodes[i]? with
    | some n =>
      if n.mode = NODE_MODE.LEAF then some i
      else reference_descent nodes x fuel (reference_next x n)
    | none => none

/-- The accumulated weights of a sequence of visited leaves, in the order of accumulation. -/
def accumulated (leaves : List TreeNodeElement) : List SparseValue :=
  leaves.flatMap (fun leaf => leaf.weights)

/-- The sum of the accumulated weights that name target `i`, added in the order of
accumulation starting from zero. -/
def weight_sum (ws : List SparseValue) (i : Int) : NTYPE :=
  ws.foldl (fun acc w => if w.i = i then NTYPE.add acc w.value else acc) NTYPE.zero

/-- Whether some accumulated weight names target `i`. -/
def names (ws : List SparseValue) (i : Int) : Bool :=
  ws.any (fun w => decide (w.i = i))

end Spec

/-! ## Concrete inputs used in the theorems -/

namespace Example

/-- A row whose every feature is NaN. -/
def nan_row : Int → NTYPE := fun _ => NTYPE.nan

/-- A row whose every feature is zero. -/
def zero_row : Int → NTYPE := fun _ => NTYPE.num 0

/-- Attributes of a one-tree regressor with two targets: node 0 is a branch on feature 0 with
threshold 0 and the given mode, its true child is the leaf 1 (weight 1 for target 0) and its
false child is the leaf 2 (weight 1 for target 1). The missing-track array is a parameter. -/
def stump (mode : String) (tracks : List Int) : RuntimeTreeEnsembleRegressorP.Attributes :=
  { aggregate_function := "SUM", base_values := [], n_targets := 2,
    nodes_falsenodeids := [2, 0, 0], nodes_featureids := [0, 0, 0], nodes_hitrates := [],
    nodes_missing_value_tracks_true := tracks,
    nodes_modes := [mode, "LEAF", "LEAF"],
    nodes_nodeids := [0, 1, 2], nodes_treeids := [0, 0, 0], nodes_truenodeids := [1, 0, 0],
    nodes_values := [NTYPE.num 0, NTYPE.num 0, NTYPE.num 0], post_transform := "NONE",
    target_ids := [0, 1], target_nodeids := [1, 2], target_treeids := [0, 0],
    target_weights := [NTYPE.num 1, NTYPE.num 1] }

end Example

namespace Example

/-- A branch node on feature 0 with threshold 0, children `nodes_ + 1` (true) and
`nodes_ + 2` (false), and no missing-track information. -/
def branch_node (mode : NODE_MODE) : TreeNodeElement :=
  { id := { tree_id := 0, node_id := 0 }, feature_id := 0, value := NTYPE.num 0,
    hitrates := NTYPE.num (-1), mode := mode, truenode := some 1, falsenode := some 2,
    missing_tracks := MissingTrack.NONE, weights := [] }

/-- A flat classifier state with one tree: node 0 branches on feature 0 with threshold 0 and
the given mode to the leaves 1 (true) and 2 (false); no missing-track array, no leaf data. -/
def flat_stump (mode : NODE_MODE) : RuntimeTreeEnsembleClassifier :=
  { nodes_treeids_ := [0, 0, 0], nodes_nodeids_ := [0, 1, 2], nodes_featureids_ := [0, 0, 0],
    nodes_values_ := [NTYPE.num 0, NTYPE.num 0, NTYPE.num 0], nodes_hitrates_ := [],
    nodes_modes_ := [mode, NODE_MODE.LEAF, NODE_MODE.LEAF],
    nodes_truenodeids_ := [1, 0, 0], nodes_falsenodeids_ := [2, 0, 0],
    missing_tracks_true_ := [],
    class_nodeids_ := [], class_treeids_ := [], class_ids_ := [], class_weights_ := [],
    class_count_ := 2, weights_classes_ := [], base_values_ := [],
    classlabels_int64s_ := [0, 1], leafnodedata_ := [], leafdata_map_ := [], roots_ := [0],
    post_transform_ := POST_EVAL_TRANSFORM.NONE, weights_are_all_positive_ := true }

/-- The root of the ensemble `init` builds from `stump mode tracks`: a branch on feature 0
with threshold 0, true child `nodes_ + 1`, false child `nodes_ + 2`. -/
def stump_root (mode : NODE_MODE) (track0 : MissingTrack) : TreeNodeElement :=
  { id := { tree_id := 0, node_id := 0 }, feature_id := 0, value := NTYPE.num 0,
    hitrates := NTYPE.num (-1), mode := mode, truenode := some 1, falsenode := some 2,
    missing_tracks := track0, weights := [] }

/-- The ensemble `init` builds from `stump mode tracks`: `track0` is the missing-track value
of node 0, `track12` that of the two leaves. -/
def stump_ensemble (mode : NODE_MODE) (track0 track12 : MissingTrack)
    (has_missing_tracks : Bool) : RuntimeTreeEnsembleRegressorP :=
  { base_values_ := [], n_targets_ := 2, post_transform_ := POST_EVAL_TRANSFORM.NONE,
    aggregate_function_ := AGGREGATE_FUNCTION.SUM, nbnodes_ := 3,
    nodes_ :=
      [stump_root mode track0,
       { id := { tree_id := 0, node_id := 1 }, feature_id := 0, value := NTYPE.num 0,
         hitrates := NTYPE.num (-1), mode := NODE_MODE.LEAF, truenode := none,
         falsenode := none, missing_tracks := track12,
         weights := [{ i := 0, value := NTYPE.num 1 }] },
       { id := { tree_id := 0, node_id := 2 }, feature_id := 0, value := NTYPE.num 0,
         hitrates := NTYPE.num (-1), mode := NODE_MODE.LEAF, truenode := none,
         falsenode := none, missing_tracks := track12,
         weights := [{ i := 1, value := NTYPE.num 1 }] }],
    roots_ := [0], max_tree_depth_ := 1000, nbtrees_ := 1, same_mode_ := true,
    has_missing_tracks_ := has_missing_tracks }

/-- The facts evaluated for one mode of the stump with the missing-track array `[1]`: what
`init` builds, what its root is, and where the general loop body and `find_leaf` go on the
NaN row. -/
def specialised_loop_misses_true_child (name : String) (mode : NODE_MODE) : Prop :=
  RuntimeTreeEnsembleRegressorP.init (stump name [1])
    = .ok (stump_ensemble mode MissingTrack.TRUE MissingTrack.NONE false) ∧
  RuntimeTreeEnsembleRegressorP.deref
    (stump_ensemble mode MissingTrack.TRUE MissingTrack.NONE false).nodes_ (some 0)
    = .ok (stump_root mode MissingTrack.TRUE) ∧
  NTYPE.isnan (nan_row (stump_root mode MissingTrack.TRUE).feature_id) = true ∧
  RuntimeTreeEnsembleRegressorP.general_next nan_row (stump_root mode MissingTrack.TRUE)
    = .ok (some 1) ∧
  RuntimeTreeEnsembleRegressorP.find_leaf
    (stump_ensemble mode MissingTrack.TRUE MissingTrack.NONE false) (some 0) nan_row
    = .ok (some 2)

/-- Attributes of a one-tree, one-target regressor whose two nodes are both BRANCH_LEQ
branches and point at each other: both children of node 0 are node 1 and both children of
node 1 are node 0. The only leaf descriptor attaches weight 5 for target 0 to the node with
identifier `weighted`. -/
def two_cycle (weighted : Int) : RuntimeTreeEnsembleRegressorP.Attributes :=
  { aggregate_function := "SUM", base_values := [], n_targets := 1,
    nodes_falsenodeids := [1, 0], nodes_featureids := [0, 0], nodes_hitrates := [],
    nodes_missing_value_tracks_true := [],
    nodes_modes := ["BRANCH_LEQ", "BRANCH_LEQ"],
    nodes_nodeids := [0, 1], nodes_treeids := [0, 0], nodes_truenodeids := [1, 0],
    nodes_values := [NTYPE.num 0, NTYPE.num 0], post_transform := "NONE",
    target_ids := [0], target_nodeids := [weighted], target_treeids := [0],
    target_weights := [NTYPE.num 5] }

/-- Node 1 of the node array `init` builds from `two_cycle`, with weight list `w1`. -/
def two_cycle_node1 (w1 : List SparseValue) : TreeNodeElement :=
  { id := { tree_id := 0, node_id := 1 }, feature_id := 0, value := NTYPE.num 0,
    hitrates := NTYPE.num (-1), mode := NODE_MODE.BRANCH_LEQ, truenode := some 0,
    falsenode := some 0, missing_tracks := MissingTrack.NONE, weights := w1 }

/-- The node array `init` builds from `two_cycle`: `w0` and `w1` are the weight lists of
node 0 and node 1. -/
def two_cycle_nodes (w0 w1 : List SparseValue) : List TreeNodeElement :=
  [{ id := { tree_id := 0, node_id := 0 }, feature_id := 0, value := NTYPE.num 0,
     hitrates := NTYPE.num (-1), mode := NODE_MODE.BRANCH_LEQ, truenode := some 1,
     falsenode := some 1, missing_tracks := MissingTrack.NONE, weights := w0 },
   two_cycle_node1 w1]

/-- The ensemble `init` builds from `two_cycle`. -/
def two_cycle_ensemble (w0 w1 : List SparseValue) : RuntimeTreeEnsembleRegressorP :=
  { base_values_ := [], n_targets_ := 1, post_transform_ := POST_EVAL_TRANSFORM.NONE,
    aggregate_function_ := AGGREGATE_FUNCTION.SUM, nbnodes_ := 2,
    nodes_ := two_cycle_nodes w0 w1,
    roots_ := [0], max_tree_depth_ := 1000, nbtrees_ := 1, same_mode_ := true,
    has_missing_tracks_ := false }

end Example

/-! ## The accumulation loop of a row and its per-target reading -/

/-- The loop of the driver over the leaves reached for one row: each leaf is handed to the
aggregator method `process` (one of the `ProcessTreeNodePrediction` methods) together with
the score buffers of the row. -/
def accumulate_leaves (process : List NTYPE → TreeNodeElement → List Bool → Result Buffers)
    (leaves : List TreeNodeElement) (b : Buffers) : Result Buffers :=
  leaves.foldlM (fun acc leaf => process acc.1 leaf acc.2) b

namespace Spec

/-- The effect of one SUM accumulation on the pair `(predictions[i], has_predictions[i])`. -/
def upd_sum (s : NTYPE × Bool) (w : SparseValue) : NTYPE × Bool :=
  (NTYPE.add s.1 w.value, true)

/-- The effect of one MIN accumulation on the pair `(predictions[i], has_predictions[i])`. -/
def upd_min (s : NTYPE × Bool) (w : SparseValue) : NTYPE × Bool :=
  (if !s.2 || NTYPE.lt w.value s.1 then w.value else s.1, true)

/-- The effect of one MAX accumulation on the pair `(predictions[i], has_predictions[i])`. -/
def upd_max (s : NTYPE × Bool) (w : SparseValue) : NTYPE × Bool :=
  (if !s.2 || NTYPE.gt w.value s.1 then w.value else s.1, true)

/-- The history of the pair `(predictions[i], has_predictions[i])` of one target `i` while
the weights `ws` are accumulated: only the weights that name `i` touch it. -/
def track (upd : NTYPE × Bool → SparseValue → NTYPE × Bool) (ws : List SparseValue) (i : Int)
    (s : NTYPE × Bool) : NTYPE × Bool :=
  ws.foldl (fun acc w => if w.i = i then upd acc w else acc) s

/-- The sum of the weights of `ws` that name target `i`, added in order to `s`. -/
def weight_sum_from (s : NTYPE) (ws : List SparseValue) (i : Int) : NTYPE :=
  ws.foldl (fun acc w => if w.i = i then NTYPE.add acc w.value else acc) s

end Spec

namespace Example

/-- A leaf node carrying the given weights. -/
def leaf (weights : List SparseValue) : TreeNodeElement :=
  { id := { tree_id := 0, node_id := 0 }, feature_id := 0, value := NTYPE.num 0,
    hitrates := NTYPE.num (-1), mode := NODE_MODE.LEAF, truenode := none, falsenode := none,
    missing_tracks := MissingTrack.NONE, weights := weights }

/-- Two leaves for a two-target regressor: the first carries weight 3 for target 0, the
second weight 5 for target 0 and weight 2 for target 1. -/
def two_leaves : List TreeNodeElement :=
  [leaf [{ i := 0, value := NTYPE.num 3 }],
   leaf [{ i := 0, value := NTYPE.num 5 }, { i := 1, value := NTYPE.num 2 }]]

/-- The leaves reached in scenario 2 of the specification: two trees emit the weights 3.0
and 5.0 for the single target. -/
def leaves_3_5 : List TreeNodeElement :=
  [leaf [{ i := 0, value := NTYPE.num 3 }], leaf [{ i := 0, value := NTYPE.num 5 }]]

/-- Attributes of scenario 2 of the specification: a regressor with one target, base value
1.0 and two trees, each a single leaf, with weights 3.0 and 5.0. -/
def two_tree_regressor (aggregate_function : String) : RuntimeTreeEnsembleRegressorP.Attributes :=
  { aggregate_function := aggregate_function, base_values := [NTYPE.num 1], n_targets := 1,
    nodes_falsenodeids := [0, 0], nodes_featureids := [0, 0], nodes_hitrates := [],
    nodes_missing_value_tracks_true := [],
    nodes_modes := ["LEAF", "LEAF"],
    nodes_nodeids := [0, 0], nodes_treeids := [0, 1], nodes_truenodeids := [0, 0],
    nodes_values := [NTYPE.num 0, NTYPE.num 0], post_transform := "NONE",
    target_ids := [0, 0], target_nodeids := [0, 0], target_treeids := [0, 1],
    target_weights := [NTYPE.num 3, NTYPE.num 5] }

/-- The ensemble `init` builds from `two_tree_regressor`. -/
def two_tree_ensemble (f : AGGREGATE_FUNCTION) : RuntimeTreeEnsembleRegressorP :=
  { base_values_ := [NTYPE.num 1], n_targets_ := 1, post_transform_ := POST_EVAL_TRANSFORM.NONE,
    aggregate_function_ := f, nbnodes_ := 2,
    nodes_ :=
      [{ id := { tree_id := 0, node_id := 0 }, feature_id := 0, value := NTYPE.num 0,
         hitrates := NTYPE.num (-1), mode := NODE_MODE.LEAF, truenode := none,
         falsenode := none, missing_tracks := MissingTrack.NONE,
         weights := [{ i := 0, value := NTYPE.num 3 }] },
       { id := { tree_id := 1, node_id := 0 }, feature_id := 0, value := NTYPE.num 0,
         hitrates := NTYPE.num (-1), mode := NODE_MODE.LEAF, truenode := none,
         falsenode := none, missing_tracks := MissingTrack.NONE,
         weights := [{ i := 0, value := NTYPE.num 5 }] }],
    roots_ := [0, 1], max_tree_depth_ := 1000, nbtrees_ := 2, same_mode_ := true,
    has_missing_tracks_ := false }

end Example

/-- Invariant of a row's buffers under SUM accumulation from zero: a target whose flag is
clear still holds the score zero. -/
def RuntimeTreeEnsembleRegressorP.Untouched (b : Buffers) : Prop :=
  ∀ i : Nat, b.2[i]? = some false → b.1[i]? = some NTYPE.zero

namespace Example

/-- The leaves reached in scenario 5 of the specification: one tree emits the weights 2 for
target 0 and 7 for target 1, the other 5 for target 0 and 3 for target 1. -/
def leaves_min : List TreeNodeElement :=
  [leaf [{ i := 0, value := NTYPE.num 2 }, { i := 1, value := NTYPE.num 7 }],
   leaf [{ i := 0, value := NTYPE.num 5 }, { i := 1, value := NTYPE.num 3 }]]

end Example

namespace Spec

/-- The value `v` is an extremum, for the comparison `better`, of the accumulated weights
that name target `i`: it is one of them and none of them is better than it. With
`better = NTYPE.lt` this is the minimum, with `better = NTYPE.gt` the maximum. -/
def is_extremum (better : NTYPE → NTYPE → Bool) (ws : List SparseValue) (i : Int)
    (v : NTYPE) : Prop :=
  (∃ w ∈ ws, w.i = i ∧ w.value = v) ∧ ∀ w ∈ ws, w.i = i → better w.value v = false

end Spec

namespace Spec

/-- Class `k` is the first maximum of the scored classes: it has a score, no scored class
has a greater score, and every scored class of smaller index has a score that is not
greater or equal (for numbers: a strictly smaller score). -/
def is_first_maximum (scores : List NTYPE) (has_scores : List Bool) (k : Nat) : Prop :=
  has_scores[k]? = some true ∧
  ∃ m, scores[k]? = some m ∧
    (∀ (j : Nat) (v : NTYPE), has_scores[j]? = some true → scores[j]? = some v →
      NTYPE.gt v m = false) ∧
    (∀ (j : Nat) (v : NTYPE), j < k → has_scores[j]? = some true → scores[j]? = some v →
      NTYPE.ge v m = false)

/-- Class `k` is the first maximum of the classes present in a class map. -/
def is_first_maximum_of_map (classes : ClassMap) (k : Int) : Prop :=
  ∃ m, (k, m) ∈ classes ∧
    (∀ (j : Int) (v : NTYPE), (j, v) ∈ classes → NTYPE.gt v m = false) ∧
    (∀ (j : Int) (v : NTYPE), (j, v) ∈ classes → j < k → NTYPE.ge v m = false)

/-- The score of class `j` after the base-value loop of the multi-class branch: the base
value is added to an existing score and becomes the score of a class without one; classes
beyond the base values are left alone. -/
def adjusted_score (base_values : List NTYPE) (j : Nat) (s : NTYPE) (has_score : Bool) : NTYPE :=
  match base_values[j]? with
  | some v => if has_score then NTYPE.add s v else v
  | none => s

end Spec

namespace _AggregatorClassifier

/-- Invariant of the loop of `get_max_weight` after the first `pos` classes: either no class
seen so far has a score and `maxclass` is still -1, or `maxclass` is the first maximum of
the scored classes seen so far and `maxweight` is its score. -/
def MaxInv (scores : List NTYPE) (has_scores : List Bool) (pos : Nat) (st : Int × NTYPE) :
    Prop :=
  (st.1 = -1 ∧ ∀ j < pos, has_scores[j]? ≠ some true) ∨
  (∃ k : Nat, k < pos ∧ st.1 = (k : Int) ∧ has_scores[k]? = some true ∧
    scores[k]? = some st.2 ∧
    (∀ (j : Nat) (v : NTYPE), j < pos → has_scores[j]? = some true → scores[j]? = some v →
      NTYPE.gt v st.2 = false) ∧
    (∀ (j : Nat) (v : NTYPE), j < k → has_scores[j]? = some true → scores[j]? = some v →
      NTYPE.ge v st.2 = false))

end _AggregatorClassifier

/-- Representation invariant of a `std::map`: the keys are strictly ascending. -/
def map_sorted (classes : ClassMap) : Prop :=
  classes.Pairwise (fun a b => a.1 < b.1)

/-- Invariant of the loop of the free function `get_max_weight` after the entries `seen`:
either nothing was seen and `maxclass` is still -1, or `(maxclass, maxweight)` is an entry
seen, no entry seen has a greater weight, and every entry seen with a smaller key has a
weight that is not greater or equal. -/
def MapMaxInv (seen : ClassMap) (st : Int × NTYPE) : Prop :=
  (seen = [] ∧ st.1 = -1) ∨
  (st ∈ seen ∧ (∀ (j : Int) (v : NTYPE), (j, v) ∈ seen → NTYPE.gt v st.2 = false) ∧
    (∀ (j : Int) (v : NTYPE), (j, v) ∈ seen → j < st.1 → NTYPE.ge v st.2 = false))

namespace Spec

/-- The entry of class `j` after the base-value loop of the multi-class branch of the flat
classifier has handled the first `m` base values. -/
def adjusted_entry (base_values : List NTYPE) (m : Nat) (classes : ClassMap) (j : Int) :
    Option NTYPE :=
  if 0 ≤ j ∧ j < (m : Int) then
    match base_values[j.toNat]?, map_find classes j with
    | some v, some s => some (NTYPE.add s v)
    | some v, none => some v
    | none, found => found
  else map_find classes j

end Spec

namespace Example

/-- The aggregator of a three-class classifier with labels 10, 20, 30 and no base values. -/
def three_class_aggregator : _AggregatorClassifier :=
  _AggregatorClassifier.new 1 3 POST_EVAL_TRANSFORM.NONE [] [10, 20, 30] false true 1 0

/-- A flat classifier state with three class labels 10, 20, 30, no base values and no
nodes: only the fields read by the finalization are filled. -/
def flat_three_class : RuntimeTreeEnsembleClassifier :=
  { nodes_treeids_ := [], nodes_nodeids_ := [], nodes_featureids_ := [],
    nodes_values_ := [], nodes_hitrates_ := [], nodes_modes_ := [],
    nodes_truenodeids_ := [], nodes_falsenodeids_ := [], missing_tracks_true_ := [],
    class_nodeids_ := [], class_treeids_ := [], class_ids_ := [], class_weights_ := [],
    class_count_ := 3, weights_classes_ := [0, 1, 2], base_values_ := [],
    classlabels_int64s_ := [10, 20, 30], leafnodedata_ := [], leafdata_map_ := [],
    roots_ := [], post_transform_ := POST_EVAL_TRANSFORM.NONE,
    weights_are_all_positive_ := true }

end Example

namespace Example

/-- A row whose every feature has the value `v`. -/
def const_row (v : ℚ) : Int → NTYPE := fun _ => NTYPE.num v

/-- The members of the flat classifier after `init` for scenario 1 of the specification: one
tree whose node 0 splits feature 0 at 0.5 with BRANCH_LEQ, true child the leaf 1 (class 0,
weight 0.8), false child the leaf 2 (class 1, weight 0.9); class labels 10 and 20, no base
values, post-transform NONE. Both classes occur in the leaves, so `weights_classes_` has two
elements. -/
def flat_binary_stump : RuntimeTreeEnsembleClassifier :=
  { nodes_treeids_ := [0, 0, 0], nodes_nodeids_ := [0, 1, 2], nodes_featureids_ := [0, 0, 0],
    nodes_values_ := [NTYPE.num (1 / 2), NTYPE.num 0, NTYPE.num 0], nodes_hitrates_ := [],
    nodes_modes_ := [NODE_MODE.BRANCH_LEQ, NODE_MODE.LEAF, NODE_MODE.LEAF],
    nodes_truenodeids_ := [1, 0, 0], nodes_falsenodeids_ := [2, 0, 0],
    missing_tracks_true_ := [],
    class_nodeids_ := [1, 2], class_treeids_ := [0, 0], class_ids_ := [0, 1],
    class_weights_ := [NTYPE.num (4 / 5), NTYPE.num (9 / 10)],
    class_count_ := 2, weights_classes_ := [0, 1], base_values_ := [],
    classlabels_int64s_ := [10, 20],
    leafnodedata_ := [(0, 1, 0, NTYPE.num (4 / 5)), (0, 2, 1, NTYPE.num (9 / 10))],
    leafdata_map_ := [(1, 0), (2, 1)], roots_ := [0],
    post_transform_ := POST_EVAL_TRANSFORM.NONE, weights_are_all_positive_ := true }

/-- The aggregator of a binary classifier with labels 10 and 20, no base values, all weights
positive, the default positive and negative labels 1 and 0, and the given `binary_case`. -/
def binary_aggregator (binary_case : Bool) : _AggregatorClassifier :=
  _AggregatorClassifier.new 1 2 POST_EVAL_TRANSFORM.NONE [] [10, 20] binary_case true 1 0

end Example

namespace Spec

/-- The positive weight of a class map, in the words of the specification: the score of
class 1 if present, else the score of class 0 if present, else 0. -/
def pos_weight_of_map (classes : ClassMap) : NTYPE :=
  match map_find classes 1 with
  | some v => v
  | none =>
    match map_find classes 0 with
    | some v => v
    | none => NTYPE.zero

/-- The positive weight of a pair of scores with their flags: the score of class 1 if
present, else the score of class 0 if present, else 0. -/
def pos_weight_of_scores (s0 s1 : NTYPE) (h0 h1 : Bool) : NTYPE :=
  if h1 then s1 else if h0 then s0 else NTYPE.zero

/-- The label and `add_second_class` of a degenerate binary classifier (exactly one class in
the leaves), in the words of the specification; `l0` and `l1` are `class_labels[0]` and
`class_labels[1]`. -/
def degenerate_binary_outcome (all_positive : Bool) (pos_weight : NTYPE) (l0 l1 : Int) :
    Int × Int :=
  if all_positive then
    if NTYPE.gt pos_weight (NTYPE.num (1 / 2)) then (l1, 0) else (l0, 1)
  else
    if NTYPE.gt pos_weight NTYPE.zero then (l1, 2) else (l0, 3)

end Spec

/-! ## Post-transforms and `write_scores` (`op_tree_ensemble_classifier_.cpp`, lines 158
and 376-505) -/

namespace NTYPE

/-- The operator `a * b`. -/
def mul : NTYPE → NTYPE → NTYPE
  | num a, num b => num (a * b)
  | _, _ => nan

/-- The operator `a / b`. A zero divisor gives an infinity or NaN in the source; the carrier
has no infinity and the result is then `nan`. -/
def div : NTYPE → NTYPE → NTYPE
  | num a, num b => if b = 0 then nan else num (a / b)
  | _, _ => nan

/-- The function `std::abs`. -/
def abs : NTYPE → NTYPE
  | num a => num |a|
  | nan => nan

end NTYPE

/-- The routines of `<cmath>` called by the source, on the numbers of the carrier. The model
does not compute them: they are a parameter of every routine that calls them, and a theorem
states what it assumes of them. `std::log` and `std::sqrt` return NaN outside their domain. -/
structure Cmath where
  exp : ℚ → ℚ
  log : ℚ → NTYPE
  sqrt : ℚ → NTYPE

namespace Cmath

/-- The call `std::exp(x)`. -/
def std_exp (m : Cmath) : NTYPE → NTYPE
  | .num a => .num (m.exp a)
  | .nan => .nan

/-- The call `std::log(x)`. -/
def std_log (m : Cmath) : NTYPE → NTYPE
  | .num a => m.log a
  | .nan => .nan

/-- The call `std::sqrt(x)`. -/
def std_sqrt (m : Cmath) : NTYPE → NTYPE
  | .num a => m.sqrt a
  | .nan => .nan

end Cmath

/-- The constant `ml_sqrt2 = 1.41421356f` (line 158). -/
def ml_sqrt2 : NTYPE := NTYPE.num (141421356 / 100000000)

/-- The value `std::numeric_limits<float>::max()`, `(2 - 2^-23) * 2^127`. -/
def FLT_MAX : ℚ := 340282346638528859811704183484516925440

/-- The function `ErfInv` (lines 376-386). -/
def ErfInv (m : Cmath) (x : NTYPE) : NTYPE :=
  let sgn := if NTYPE.lt x NTYPE.zero then NTYPE.num (-1) else NTYPE.num 1
  let x := NTYPE.mul (NTYPE.sub (NTYPE.num 1) x) (NTYPE.add (NTYPE.num 1) x)
  let log := m.std_log x
  let v := NTYPE.add
    (NTYPE.div (NTYPE.num 2) (NTYPE.mul (NTYPE.num (314159 / 100000)) (NTYPE.num (147 / 1000))))
    (NTYPE.mul (NTYPE.num (1 / 2)) log)
  let v2 := NTYPE.mul (NTYPE.div (NTYPE.num 1) (NTYPE.num (147 / 1000))) log
  let v3 := NTYPE.add (NTYPE.neg v) (m.std_sqrt (NTYPE.sub (NTYPE.mul v v) v2))
  NTYPE.mul sgn (m.std_sqrt v3)

/-- The function `ComputeLogistic` (lines 389-392). -/
def ComputeLogistic (m : Cmath) (val : NTYPE) : NTYPE :=
  let v := NTYPE.div (NTYPE.num 1)
    (NTYPE.add (NTYPE.num 1) (m.std_exp (NTYPE.neg (NTYPE.abs val))))
  if NTYPE.lt val NTYPE.zero then NTYPE.sub (NTYPE.num 1) v else v

/-- The function `ComputeProbit` (lines 394-396). -/
def ComputeProbit (m : Cmath) (val : NTYPE) : NTYPE :=
  NTYPE.mul ml_sqrt2 (ErfInv m (NTYPE.sub (NTYPE.mul (NTYPE.num 2) val) (NTYPE.num 1)))

/-- The first loop of `ComputeSoftmax` and of `ComputeSoftmaxZero` (lines 406-410 and
427-431): `v_max` on exit. -/
def softmax_v_max (values : List NTYPE) : NTYPE :=
  values.foldl (fun v_max value => if NTYPE.gt value v_max then value else v_max)
    (NTYPE.num (-FLT_MAX))

/-- The second loop of `ComputeSoftmax` (lines 411-416); the state is
`(this_sum, newscores)`. -/
def ComputeSoftmax_loop (m : Cmath) (v_max : NTYPE) (values : List NTYPE) :
    NTYPE × List NTYPE :=
  values.foldl
    (fun st value =>
      let val2 := m.std_exp (NTYPE.sub value v_max)
      (NTYPE.add st.1 val2, st.2 ++ [val2]))
    (NTYPE.zero, [])

/-- The function `ComputeSoftmax` (lines 403-420): the vector `values` on exit. -/
def ComputeSoftmax (m : Cmath) (values : List NTYPE) : List NTYPE :=
  let v_max := softmax_v_max values
  let (this_sum, newscores) := ComputeSoftmax_loop m v_max values
  newscores.map (fun s => NTYPE.div s this_sum)

/-- The second loop of `ComputeSoftmaxZero` (lines 432-442); the state is
`(this_sum, newscores)`. -/
def ComputeSoftmaxZero_loop (m : Cmath) (v_max exp_neg_v_max : NTYPE) (values : List NTYPE) :
    NTYPE × List NTYPE :=
  values.foldl
    (fun st value =>
      if NTYPE.gt value (NTYPE.num (1 / 10000000))
          || NTYPE.lt value (NTYPE.num (-(1 / 10000000))) then
        let val2 := m.std_exp (NTYPE.sub value v_max)
        (NTYPE.add st.1 val2, st.2 ++ [val2])
      else
        (st.1, st.2 ++ [NTYPE.mul value exp_neg_v_max]))
    (NTYPE.zero, [])

/-- The function `ComputeSoftmaxZero` (lines 423-446): the vector `values` on exit. -/
def ComputeSoftmaxZero (m : Cmath) (values : List NTYPE) : List NTYPE :=
  let v_max := softmax_v_max values
  let exp_neg_v_max := m.std_exp (NTYPE.neg v_max)
  let (this_sum, newscores) := ComputeSoftmaxZero_loop m v_max exp_neg_v_max values
  newscores.map (fun s => NTYPE.div s this_sum)

/-- The function `write_scores` (lines 449-505): the vector `scores` on exit, whose
`scores.size()` entries are copied to `Z`. -/
def write_scores (m : Cmath) (scores : List NTYPE) (post_transform : POST_EVAL_TRANSFORM)
    (add_second_class : Int) : List NTYPE :=
  match scores with
  | [] => []
  | [s] =>
    if post_transform = POST_EVAL_TRANSFORM.PROBIT then [ComputeProbit m s]
    else if add_second_class = 0 then [NTYPE.sub (NTYPE.num 1) s, s]
    else if add_second_class = 1 then [NTYPE.sub (NTYPE.num 1) s, s]
    else if add_second_class = 2 then
      if post_transform = POST_EVAL_TRANSFORM.LOGISTIC then
        [ComputeLogistic m (NTYPE.neg s), ComputeLogistic m s]
      else [NTYPE.neg s, s]
    else if add_second_class = 3 then
      if post_transform = POST_EVAL_TRANSFORM.LOGISTIC then
        [ComputeLogistic m (NTYPE.neg s), ComputeLogistic m s]
      else [s, NTYPE.neg s]
    else [s]
  | scores =>
    match post_transform with
    | .PROBIT => scores.map (ComputeProbit m)
    | .LOGISTIC => scores.map (ComputeLogistic m)
    | .SOFTMAX => ComputeSoftmax m scores
    | .SOFTMAX_ZERO => ComputeSoftmaxZero m scores
    | .NONE => scores

/-- The call of `write_scores` described by a `WriteScoresCall`. -/
def WriteScoresCall.written (m : Cmath) (call : WriteScoresCall) : List NTYPE :=
  write_scores m call.scores call.post_transform call.add_second_class

/-- One row of `RuntimeTreeEnsembleClassifier::compute` (lines 532-599): the label `Y_(i)`
and the scores `write_scores` copies to `Z`. -/
def RuntimeTreeEnsembleClassifier.compute_row_output (m : Cmath)
    (self : RuntimeTreeEnsembleClassifier) (x_data : Int → NTYPE) (current_weight_0 : Int) :
    Result (Int × List NTYPE) := do
  let (label, call) ← self.compute_row x_data current_weight_0
  pure (label, call.written m)

namespace Example

/-- A rational stand-in for `std::exp`, for concrete evaluations: positive, increasing, with
value 1 at 0. Its values are not those of the exponential. -/
def exp_stand_in (y : ℚ) : ℚ := if 0 ≤ y then 1 + y else 1 / (1 - y)

/-- A stand-in for `<cmath>` with rational values, for concrete evaluations. Only `exp` is
given values; `log` and `sqrt` return NaN everywhere. -/
def cmath : Cmath :=
  { exp := exp_stand_in, log := fun _ => NTYPE.nan, sqrt := fun _ => NTYPE.nan }

end Example

namespace Spec

/-- LOGISTIC as the specification words it: `1/(1+e^{-|x|})` when `x >= 0` and one minus it
when `x < 0`. -/
def logistic (m : Cmath) (x : ℚ) : ℚ :=
  if x < 0 then 1 - 1 / (1 + m.exp (-|x|)) else 1 / (1 + m.exp (-|x|))

/-- SOFTMAX as the specification words it, for a vector `v` of numbers with maximum `vmax`:
the entries `exp(v_k - vmax) / sum_j exp(v_j - vmax)`. -/
def softmax (m : Cmath) (v : List ℚ) (vmax : ℚ) : List ℚ :=
  v.map (fun q => m.exp (q - vmax) / (v.map (fun r => m.exp (r - vmax))).sum)

/-- SOFTMAX_ZERO as the specification words it, for a vector `v` of numbers with maximum
`vmax`: the entries `n_k / D`, where `n_k` is `v_k * e^{-vmax}` for a value treated specially
and `e^{v_k - vmax}` otherwise, and `D` sums `e^{v_j - vmax}` over the values not treated
specially. The predicate `special` says which values are treated specially. -/
def softmax_zero (special : ℚ → Bool) (m : Cmath) (v : List ℚ) (vmax : ℚ) : List NTYPE :=
  let D := ((v.filter (fun q => !special q)).map (fun q => m.exp (q - vmax))).sum
  v.map (fun q =>
    NTYPE.div (NTYPE.num (if special q then q * m.exp (-vmax) else m.exp (q - vmax)))
      (NTYPE.num D))

end Spec

namespace Example

/-- The flat classifier `flat_binary_stump` with the base values 0.1 and 0.2. -/
def flat_binary_with_base_values : RuntimeTreeEnsembleClassifier :=
  { flat_binary_stump with base_values_ := [NTYPE.num (1 / 10), NTYPE.num (2 / 10)] }

/-- The aggregator of a binary classifier with labels 10 and 20 and the base values 0.1 and
0.2. -/
def binary_aggregator_with_base_values : _AggregatorClassifier :=
  _AggregatorClassifier.new 1 2 POST_EVAL_TRANSFORM.NONE
    [NTYPE.num (1 / 10), NTYPE.num (2 / 10)] [10, 20] false true 1 0

end Example

/-! ## What `init` builds, in terms of its arguments -/

namespace RuntimeTreeEnsembleRegressorP

/-- The fields the first loop of `init` (lines 247-267) stores in the node at position `i`;
no later loop changes them. -/
def Filled (a : Attributes) (modes : List NODE_MODE) (i : Nat) (nd : TreeNodeElement) : Prop :=
  (∃ t, a.nodes_treeids[i]? = some t ∧ nd.id.tree_id = toInt32 t) ∧
  (∃ n, a.nodes_nodeids[i]? = some n ∧ nd.id.node_id = toInt32 n) ∧
  (∃ f, a.nodes_featureids[i]? = some f ∧ nd.feature_id = toInt32 f) ∧
  a.nodes_values[i]? = some nd.value ∧
  nd.hitrates = (a.nodes_hitrates[i]?).getD (NTYPE.num (-1)) ∧
  modes[i]? = some nd.mode ∧
  nd.missing_tracks =
    (match a.nodes_missing_value_tracks_true[i]? with
     | some t => if t = 1 then MissingTrack.TRUE else MissingTrack.FALSE
     | none => MissingTrack.NONE)

/-- Two nodes that agree on every field the first loop of `init` fills. -/
def SameFields (nd nd2 : TreeNodeElement) : Prop :=
  nd2.id = nd.id ∧ nd2.feature_id = nd.feature_id ∧ nd2.value = nd.value ∧
  nd2.hitrates = nd.hitrates ∧ nd2.mode = nd.mode ∧ nd2.missing_tracks = nd.missing_tracks

/-- The child link the second loop of `init` (lines 271-317) stores for the child id `cid` of
the node `nd`: some node of the array has the identifier `(nd.id.tree_id, cid)`, at position
`found`; the link is `found` when `cid` lies in `[0, nbnodes_)`, and then `cid` is not the
node id of `nd`; the link is `NULL` otherwise. -/
def ChildLink (nodes : List TreeNodeElement) (nbnodes_ : Int) (nd : TreeNodeElement)
    (cid : Int) (link : Option Nat) : Prop :=
  ∃ found child, nodes[found]? = some child ∧
    child.id = { tree_id := nd.id.tree_id, node_id := cid } ∧
    (if 0 ≤ cid ∧ cid < nbnodes_ then link = some found ∧ cid ≠ nd.id.node_id
     else link = none)

/-- The links of the node at position `i` after the second loop of `init`. -/
def Linked (a : Attributes) (nodes : List TreeNodeElement) (i : Nat) (nd : TreeNodeElement) :
    Prop :=
  (nd.mode = NODE_MODE.LEAF → nd.truenode = none ∧ nd.falsenode = none) ∧
  (nd.mode ≠ NODE_MODE.LEAF →
    ∃ t f, a.nodes_truenodeids[i]? = some t ∧ a.nodes_falsenodeids[i]? = some f ∧
      ChildLink nodes a.nodes_treeids.length nd (toInt32 t) nd.truenode ∧
      ChildLink nodes a.nodes_treeids.length nd (toInt32 f) nd.falsenode)

/-- The tree ids of the nodes, in storage order. -/
def tree_ids (nodes : List TreeNodeElement) : List Int :=
  nodes.map (fun nd => nd.id.tree_id)

end RuntimeTreeEnsembleRegressorP

namespace Spec

/-- The leaf descriptors among the first `k` that name the node identifier `id`, as
`(target, weight)` pairs in ascending descriptor position. -/
def weights_of (a : RuntimeTreeEnsembleRegressorP.Attributes) (k : Nat)
    (id : TreeNodeElementId) : List SparseValue :=
  (List.range k).filterMap (fun i =>
    match a.target_treeids[i]?, a.target_nodeids[i]?, a.target_ids[i]?,
      a.target_weights[i]? with
    | some t, some n, some target, some weight =>
      if ({ tree_id := toInt32 t, node_id := toInt32 n } : TreeNodeElementId) = id then
        some { i := target, value := weight }
      else none
    | _, _, _, _ => none)

/-- The positions that hold the first stored node of a tree: position `i` is one when its
tree id does not occur among the `i` entries before it. In ascending order. -/
def first_positions (ids : List Int) : List Nat :=
  (List.range ids.length).filter (fun i => !(ids.take i).contains (ids.getD i 0))

/-- The nodes of each tree are stored contiguously: between two positions with the same tree
id every position has that tree id. -/
def contiguous (ids : List Int) : Prop :=
  ∀ (i j k : Nat) (t : Int), i < j → j < k → ids[i]? = some t → ids[k]? = some t →
    ids[j]? = some t

end Spec

namespace Example

/-- A one-tree input whose tree id is -1: a BRANCH_LEQ root and two leaves. -/
def tree_minus_one : RuntimeTreeEnsembleRegressorP.Attributes :=
  { aggregate_function := "SUM", base_values := [], n_targets := 1,
    nodes_falsenodeids := [2, 0, 0], nodes_featureids := [0, 0, 0], nodes_hitrates := [],
    nodes_missing_value_tracks_true := [],
    nodes_modes := ["BRANCH_LEQ", "LEAF", "LEAF"], nodes_nodeids := [0, 1, 2],
    nodes_treeids := [-1, -1, -1], nodes_truenodeids := [1, 0, 0],
    nodes_values := [NTYPE.num 0, NTYPE.num 0, NTYPE.num 0], post_transform := "NONE",
    target_ids := [0, 0], target_nodeids := [1, 2], target_treeids := [-1, -1],
    target_weights := [NTYPE.num 1, NTYPE.num 2] }

/-- A one-tree input whose node ids are 0, 7 and 8: the child ids 7 and 8 of the root name
nodes of the tree but are not smaller than the number of nodes, 3. A leaf descriptor names
the root. -/
def sparse_node_ids : RuntimeTreeEnsembleRegressorP.Attributes :=
  { aggregate_function := "SUM", base_values := [], n_targets := 1,
    nodes_falsenodeids := [8, 0, 0], nodes_featureids := [0, 0, 0], nodes_hitrates := [],
    nodes_missing_value_tracks_true := [],
    nodes_modes := ["BRANCH_LEQ", "LEAF", "LEAF"], nodes_nodeids := [0, 7, 8],
    nodes_treeids := [0, 0, 0], nodes_truenodeids := [7, 0, 0],
    nodes_values := [NTYPE.num 0, NTYPE.num 0, NTYPE.num 0], post_transform := "NONE",
    target_ids := [0], target_nodeids := [0], target_treeids := [0],
    target_weights := [NTYPE.num 5] }

end Example

namespace RuntimeTreeEnsembleRegressorP

/-- Invariant of the first loop of `init` (lines 247-267) before iteration `k`: `k` nodes are
filled and registered in `idi` under their position, with distinct identifiers, no links and
no weights. -/
def FillInv (a : Attributes) (modes : List NODE_MODE) (k : Nat)
    (st : List TreeNodeElement × IdIndex) : Prop :=
  st.1.length = k ∧ st.2.length = k ∧
  (∀ (j : Nat) (nd : TreeNodeElement), st.1[j]? = some nd →
    st.2[j]? = some (nd.id, j) ∧ nd.truenode = none ∧ nd.falsenode = none ∧
    nd.weights = [] ∧ Filled a modes j nd) ∧
  (st.1.map (fun nd => nd.id)).Nodup

/-- Invariant of the second loop of `init` (lines 271-317) before iteration `k`, for the
array `nodes0` the loop starts from: the fields filled by the first loop and the weights are
those of `nodes0`, the nodes before position `k` are linked and the others are unchanged. -/
def LinkInv (a : Attributes) (nodes0 : List TreeNodeElement) (k : Nat)
    (nodes : List TreeNodeElement) : Prop :=
  nodes.length = nodes0.length ∧
  ∀ (j : Nat) (nd0 : TreeNodeElement), nodes0[j]? = some nd0 →
    ∃ nd, nodes[j]? = some nd ∧ SameFields nd0 nd ∧ nd.weights = nd0.weights ∧
      (k ≤ j → nd = nd0) ∧ (j < k → Linked a nodes0 j nd)

/-- Invariant of the last loop of `init` (lines 328-339) before iteration `k`, for the array
`nodes1` the loop starts from: only the weights change, and a node holds the weights it had
followed by the descriptors among the first `k` that name it. -/
def AttachInv (a : Attributes) (nodes1 : List TreeNodeElement) (k : Nat)
    (nodes : List TreeNodeElement) : Prop :=
  nodes.length = nodes1.length ∧
  ∀ (j : Nat) (nd1 : TreeNodeElement), nodes1[j]? = some nd1 →
    ∃ nd, nodes[j]? = some nd ∧ SameFields nd1 nd ∧ nd.truenode = nd1.truenode ∧
      nd.falsenode = nd1.falsenode ∧ nd.weights = nd1.weights ++ Spec.weights_of a k nd1.id

end RuntimeTreeEnsembleRegressorP

/-! ## `init` as an update of the object

The methods `init` assign the data members one after the other, in place. The definitions of
this section give the object when the method returns or throws, together with the exception
thrown. -/

/-- The macro `array2vector(vec, arr, dtype)` (`op_tree_ensemble_classifier_.cpp`, lines
141-147): the member `vec` is assigned only when the array is not empty. -/
def array2vector {α : Type} (vec arr : List α) : List α :=
  if arr.length > 0 then arr else vec

/-- A loop `for (i = 0; i < n; ++i) body` whose body may throw: the state when the loop ends
or when the body throws, and the exception thrown. -/
def loop_until_throw {σ : Type} (body : σ → Nat → σ × Option Fault) :
    List Nat → σ → σ × Option Fault
  | [], s => (s, none)
  | i :: rest, s =>
    match body s i with
    | (s2, none) => loop_until_throw body rest s2
    | (s2, some e) => (s2, some e)

/-- A loop body that writes nothing before it throws: the state at the throw is the state the
iteration began with. -/
def throw_keeps {σ : Type} (body : σ → Nat → Result σ) (s : σ) (i : Nat) : σ × Option Fault :=
  match body s i with
  | .ok s2 => (s2, none)
  | .error e => (s, some e)

/-- What the caller of a method sees of a pair `(state, exception)`: the state when nothing
was thrown, the exception otherwise. -/
def returned {σ : Type} (r : σ × Option Fault) : Result σ :=
  match r.2 with
  | none => .ok r.1
  | some e => .error e

namespace RuntimeTreeEnsembleRegressorP

/-- The conversions `nodes_modes_[i] = to_NODE_MODE(nodes_modes[i])` of the loop of lines
221-231, up to the end of the loop or to the throw: the modes converted, and the exception. -/
def convert_modes : List String → List NODE_MODE × Option Fault
  | [] => ([], none)
  | value :: rest =>
    match to_NODE_MODE value with
    | .error e => ([], some e)
    | .ok mode => (mode :: (convert_modes rest).1, (convert_modes rest).2)

/-- The assignments to the fields of `nodes_[i]` in the first loop of `init` (lines 247-259),
which precede the lookup of the node in `idi`. -/
def node_fields (a : Attributes) (nodes_modes_ : List NODE_MODE) (i : Nat) :
    Result TreeNodeElement := do
  let tree_id ← vec_at a.nodes_treeids i
  let node_id ← vec_at a.nodes_nodeids i
  let feature_id ← vec_at a.nodes_featureids i
  let value ← vec_at a.nodes_values i
  let hitrates ←
    if i < a.nodes_hitrates.length then vec_at a.nodes_hitrates i else pure (NTYPE.num (-1))
  let mode ← vec_at nodes_modes_ i
  let missing_tracks ←
    if i < a.nodes_missing_value_tracks_true.length then do
      let t ← vec_at a.nodes_missing_value_tracks_true i
      pure (if t = 1 then MissingTrack.TRUE else MissingTrack.FALSE)
    else pure MissingTrack.NONE
  pure
    { id := { tree_id := toInt32 tree_id, node_id := toInt32 node_id },
      feature_id := toInt32 feature_id, value := value, hitrates := hitrates, mode := mode,
      truenode := none, falsenode := none, missing_tracks := missing_tracks, weights := [] }

/-- One iteration of the loop of lines 247-267, with the state at the throw: the fields of
`nodes_[i]` are written before the lookup, so the node is in the array, but not in `idi`, when
the lookup throws. -/
def fill_node_in_place (a : Attributes) (nodes_modes_ : List NODE_MODE)
    (st : List TreeNodeElement × IdIndex) (i : Nat) :
    (List TreeNodeElement × IdIndex) × Option Fault :=
  match node_fields a nodes_modes_ i with
  | .error e => (st, some e)
  | .ok node =>
    match idi_find st.2 node.id with
    | some _ =>
      ((st.1 ++ [node], st.2),
        some (.runtime_error (.already_there node.id.node_id node.id.tree_id)))
    | none => ((st.1 ++ [node], st.2 ++ [(node.id, i)]), none)

/-- The test of lines 286-287 (and 306-307) on the child just linked to the node `it`: the
exception `e` when the child is in another tree or has the node id of `it`. -/
def link_check (nodes : List TreeNodeElement) (found : Nat) (it : TreeNodeElement)
    (e : ErrorKind) : Option Fault :=
  match nodes[found]? with
  | none => some Fault.out_of_range
  | some child =>
    if child.id.tree_id ≠ it.id.tree_id ∨ child.id.node_id = it.id.node_id then
      some (.runtime_error e)
    else none

/-- One iteration of the loop of lines 271-317, with the state at the throw: a link is
assigned before it is tested, so a link that fails the test is in the node when the test
throws, and the true link is in the node when the false link throws. -/
def link_node_in_place (a : Attributes) (idi : IdIndex) (nbnodes_ : Int)
    (nodes : List TreeNodeElement) (i : Nat) : List TreeNodeElement × Option Fault :=
  match nodes[i]? with
  | none => (nodes, some Fault.out_of_range)
  | some it =>
    if it.mode = NODE_MODE.LEAF then (nodes, none)
    else
      match a.nodes_truenodeids[i]? with
      | none => (nodes, some Fault.out_of_range)
      | some t =>
        match idi_find idi { tree_id := it.id.tree_id, node_id := toInt32 t } with
        | none =>
          (nodes, some (.runtime_error (.unable_to_find_truenode it.id.tree_id (toInt32 t))))
        | some foundt =>
          let truenode := if 0 ≤ toInt32 t ∧ toInt32 t < nbnodes_ then some foundt else none
          match (if 0 ≤ toInt32 t ∧ toInt32 t < nbnodes_ then
                  link_check nodes foundt it
                    (.truenode_self_or_other_tree i it.id.node_id it.id.tree_id)
                 else none) with
          | some e => (nodes.set i { it with truenode := truenode }, some e)
          | none =>
            match a.nodes_falsenodeids[i]? with
            | none => (nodes.set i { it with truenode := truenode }, some Fault.out_of_range)
            | some f =>
              match idi_find idi { tree_id := it.id.tree_id, node_id := toInt32 f } with
              | none =>
                (nodes.set i { it with truenode := truenode },
                  some (.runtime_error (.unable_to_find_falsenode it.id.tree_id (toInt32 f))))
              | some foundf =>
                let falsenode :=
                  if 0 ≤ toInt32 f ∧ toInt32 f < nbnodes_ then some foundf else none
                (nodes.set i { it with truenode := truenode, falsenode := falsenode },
                  if 0 ≤ toInt32 f ∧ toInt32 f < nbnodes_ then
                    link_check nodes foundf it .falsenode_self_or_other_tree
                  else none)

/-- The method `init` (lines 161-343) called on the object `self`: the object when the method
returns or throws, and the exception thrown. The array `new TreeNodeElement[nbnodes_]` is
represented by the elements written so far; the elements not yet written are not initialised
and are left out. -/
def init_in_place (self : RuntimeTreeEnsembleRegressorP) (a : Attributes) :
    RuntimeTreeEnsembleRegressorP × Option Fault :=
  match to_AGGREGATE_FUNCTION a.aggregate_function with
  | .error e => (self, some e)
  | .ok aggregate_function_ =>
    let self := { self with
      aggregate_function_ := aggregate_function_,
      base_values_ := array2vector self.base_values_ a.base_values,
      n_targets_ := a.n_targets }
    match to_POST_EVAL_TRANSFORM a.post_transform with
    | .error e => (self, some e)
    | .ok post_transform_ =>
      let self := { self with post_transform_ := post_transform_ }
      match convert_modes a.nodes_modes with
      | (converted, some e) =>
        ({ self with same_mode_ := same_mode_scan converted none true }, some e)
      | (nodes_modes_, none) =>
        let nbnodes_ : Nat := a.nodes_treeids.length
        let self := { self with
          same_mode_ := same_mode_scan nodes_modes_ none true,
          max_tree_depth_ := 1000, nbnodes_ := nbnodes_, nodes_ := [], roots_ := [] }
        match loop_until_throw (fill_node_in_place a nodes_modes_) (List.range nbnodes_)
            ([], []) with
        | ((nodes, _), some e) => ({ self with nodes_ := nodes }, some e)
        | ((nodes, idi), none) =>
          match loop_until_throw (link_node_in_place a idi nbnodes_) (List.range nbnodes_)
              nodes with
          | (nodes, some e) => ({ self with nodes_ := nodes }, some e)
          | (nodes, none) =>
            match loop_until_throw (throw_keeps (root_step nodes)) (List.range nbnodes_)
                ([], -1) with
            | ((roots_, _), some e) => ({ self with nodes_ := nodes, roots_ := roots_ }, some e)
            | ((roots_, _), none) =>
              match loop_until_throw (throw_keeps (attach_weight a idi))
                  (List.range a.target_nodeids.length) nodes with
              | (nodes, some e) => ({ self with nodes_ := nodes, roots_ := roots_ }, some e)
              | (nodes, none) =>
                ({ self with
                    nodes_ := nodes, roots_ := roots_, nbtrees_ := roots_.length,
                    has_missing_tracks_ :=
                      decide (a.nodes_missing_value_tracks_true.length
                        = a.nodes_truenodeids.length) },
                  none)

end RuntimeTreeEnsembleRegressorP

namespace RuntimeTreeEnsembleClassifier

/-- The arguments of `init`, in the order of the source. -/
structure Attributes where
  base_values : List NTYPE
  class_ids : List Int
  class_nodeids : List Int
  class_treeids : List Int
  class_weights : List NTYPE
  classlabels_int64s : List Int
  classlabels_strings : List String
  nodes_falsenodeids : List Int
  nodes_featureids : List Int
  nodes_hitrates : List NTYPE
  nodes_missing_value_tracks_true : List Int
  nodes_modes : List String
  nodes_nodeids : List Int
  nodes_treeids : List Int
  nodes_truenodeids : List Int
  nodes_values : List NTYPE
  post_transform : String

/-- The call `nodes_modes_.resize(n)`: the first `n` entries are kept and new entries are
value-initialised, which for `NODE_MODE` gives the first enumerator. -/
def resize_modes (vec : List NODE_MODE) (n : Nat) : List NODE_MODE :=
  vec.take n ++ List.replicate (n - vec.length) NODE_MODE.BRANCH_LEQ

/-- The statements of `init` that precede the call of `Initialize()` (lines 189-213), on the
object `self`: the object when `Initialize()` is called or when a statement throws, and the
exception thrown. -/
def init_members (self : RuntimeTreeEnsembleClassifier) (a : Attributes) :
    RuntimeTreeEnsembleClassifier × Option Fault :=
  let self := { self with
    nodes_treeids_ := array2vector self.nodes_treeids_ a.nodes_treeids,
    nodes_nodeids_ := array2vector self.nodes_nodeids_ a.nodes_nodeids,
    nodes_featureids_ := array2vector self.nodes_featureids_ a.nodes_featureids,
    nodes_values_ := array2vector self.nodes_values_ a.nodes_values,
    nodes_hitrates_ := array2vector self.nodes_hitrates_ a.nodes_hitrates,
    nodes_truenodeids_ := array2vector self.nodes_truenodeids_ a.nodes_truenodeids,
    nodes_falsenodeids_ := array2vector self.nodes_falsenodeids_ a.nodes_falsenodeids,
    missing_tracks_true_ :=
      array2vector self.missing_tracks_true_ a.nodes_missing_value_tracks_true,
    class_nodeids_ := array2vector self.class_nodeids_ a.class_nodeids,
    class_treeids_ := array2vector self.class_treeids_ a.class_treeids,
    class_ids_ := array2vector self.class_ids_ a.class_ids,
    class_weights_ := array2vector self.class_weights_ a.class_weights,
    base_values_ := array2vector self.base_values_ a.base_values }
  if a.classlabels_strings.length > 0 then
    (self, some (.runtime_error .only_handles_integers))
  else
    let self := { self with
      classlabels_int64s_ := array2vector self.classlabels_int64s_ a.classlabels_int64s }
    match to_POST_EVAL_TRANSFORM a.post_transform with
    | .error e => (self, some e)
    | .ok post_transform_ =>
      let converted := RuntimeTreeEnsembleRegressorP.convert_modes a.nodes_modes
      ({ self with
          post_transform_ := post_transform_,
          nodes_modes_ :=
            converted.1 ++
              (resize_modes self.nodes_modes_ a.nodes_modes.length).drop converted.1.length },
        converted.2)

/-- The last statement of `Initialize()` (line 318), `class_count_ =
classlabels_int64s_.size()`. No statement of `Initialize()` throws, and none assigns
`base_values_` or `classlabels_int64s_`. -/
def Initialize_class_count (self : RuntimeTreeEnsembleClassifier) : Int :=
  self.classlabels_int64s_.length

end RuntimeTreeEnsembleClassifier

namespace Example

/-- An input of the regressor without nodes and without leaf descriptors. -/
def no_trees (base_values : List NTYPE) (n_targets : Int) :
    RuntimeTreeEnsembleRegressorP.Attributes :=
  { aggregate_function := "SUM", base_values := base_values, n_targets := n_targets,
    nodes_falsenodeids := [], nodes_featureids := [], nodes_hitrates := [],
    nodes_missing_value_tracks_true := [], nodes_modes := [], nodes_nodeids := [],
    nodes_treeids := [], nodes_truenodeids := [], nodes_values := [],
    post_transform := "NONE", target_ids := [], target_nodeids := [], target_treeids := [],
    target_weights := [] }

/-- An input of the regressor with three targets whose two leaves carry the same identifier,
tree 0 and node 0. -/
def duplicate_nodes (post_transform : String) : RuntimeTreeEnsembleRegressorP.Attributes :=
  { aggregate_function := "SUM", base_values := [NTYPE.num 7], n_targets := 3,
    nodes_falsenodeids := [0, 0], nodes_featureids := [0, 0], nodes_hitrates := [],
    nodes_missing_value_tracks_true := [], nodes_modes := ["LEAF", "LEAF"],
    nodes_nodeids := [0, 0], nodes_treeids := [0, 0], nodes_truenodeids := [0, 0],
    nodes_values := [NTYPE.num 0, NTYPE.num 0], post_transform := post_transform,
    target_ids := [], target_nodeids := [], target_treeids := [], target_weights := [] }

/-- An input of the classifier with two integer labels, three base values and no nodes; the
string labels are a parameter. -/
def classifier_three_base_values (classlabels_strings : List String) :
    RuntimeTreeEnsembleClassifier.Attributes :=
  { base_values := [NTYPE.num 1, NTYPE.num 2, NTYPE.num 3], class_ids := [],
    class_nodeids := [], class_treeids := [], class_weights := [],
    classlabels_int64s := [10, 20], classlabels_strings := classlabels_strings,
    nodes_falsenodeids := [], nodes_featureids := [], nodes_hitrates := [],
    nodes_missing_value_tracks_true := [], nodes_modes := [], nodes_nodeids := [],
    nodes_treeids := [], nodes_truenodeids := [], nodes_values := [],
    post_transform := "NONE" }

end Example

namespace Example

/-- The ensemble `init` builds from `no_trees base_values n_targets`: no node and no root. -/
def no_trees_ensemble (base_values : List NTYPE) (n_targets : Int) :
    RuntimeTreeEnsembleRegressorP :=
  { base_values_ := base_values, n_targets_ := n_targets,
    post_transform_ := POST_EVAL_TRANSFORM.NONE,
    aggregate_function_ := AGGREGATE_FUNCTION.SUM, nbnodes_ := 0, nodes_ := [], roots_ := [],
    max_tree_depth_ := 1000, nbtrees_ := 0, same_mode_ := true, has_missing_tracks_ := true }

end Example

/-! ## Inputs of `init`: what the error checks look at -/

namespace RuntimeTreeEnsembleRegressorP

/-- The names given to `init` are known: the aggregate function, the post-transform and every
node mode are converted without an exception. -/
def NamesKnown (a : Attributes) : Prop :=
  (∃ f, to_AGGREGATE_FUNCTION a.aggregate_function = .ok f) ∧
  (∃ p, to_POST_EVAL_TRANSFORM a.post_transform = .ok p) ∧
  (∃ modes, a.nodes_modes.mapM to_NODE_MODE = .ok modes)

/-- The arrays that the loops of `init` read at every node position without a bound check
have an entry for each of the `nodes_treeids.size()` positions. -/
def NodeArraysCover (a : Attributes) : Prop :=
  a.nodes_treeids.length ≤ a.nodes_nodeids.length ∧
  a.nodes_treeids.length ≤ a.nodes_featureids.length ∧
  a.nodes_treeids.length ≤ a.nodes_values.length ∧
  a.nodes_treeids.length ≤ a.nodes_modes.length ∧
  a.nodes_treeids.length ≤ a.nodes_truenodeids.length ∧
  a.nodes_treeids.length ≤ a.nodes_falsenodeids.length

/-- The identifier the first loop of `init` stores in the node at position `i` (lines
248-249): the tree id and the node id cast to `int`. -/
def node_key (a : Attributes) (i : Nat) : TreeNodeElementId :=
  { tree_id := toInt32 (a.nodes_treeids.getD i 0), node_id := toInt32 (a.nodes_nodeids.getD i 0) }

/-- No two node positions carry the same identifier. -/
def NoDuplicateNode (a : Attributes) : Prop :=
  ((List.range a.nodes_treeids.length).map (node_key a)).Nodup

/-- The node at position `i` is a branch node: its mode name is not "LEAF". -/
def IsBranch (a : Attributes) (i : Nat) : Prop :=
  i < a.nodes_treeids.length ∧ ∃ s, a.nodes_modes[i]? = some s ∧ s ≠ "LEAF"

/-- The child id `cid` of the node at position `i` is dangling: no node of the tree of that
node has `cid`, cast to `int`, as its node id. -/
def Dangling (a : Attributes) (i : Nat) (cid : Int) : Prop :=
  ∀ j, j < a.nodes_treeids.length →
    node_key a j ≠ { tree_id := (node_key a i).tree_id, node_id := toInt32 cid }

/-- The child id `cid` of the node at position `i` is the node id of that node and passes the
guard `coor.node_id >= 0 && coor.node_id < nbnodes_` of lines 284 and 304. -/
def GuardedSelfLoop (a : Attributes) (i : Nat) (cid : Int) : Prop :=
  toInt32 cid = (node_key a i).node_id ∧ 0 ≤ toInt32 cid ∧
    toInt32 cid < (a.nodes_treeids.length : Int)

end RuntimeTreeEnsembleRegressorP

namespace Example

/-- A one-node input: a BRANCH_LEQ node with node id `node_id` whose true child id is
`true_id` and whose false child id is `false_id`. -/
def lone_branch (node_id true_id false_id : Int) : RuntimeTreeEnsembleRegressorP.Attributes :=
  { aggregate_function := "SUM", base_values := [], n_targets := 1,
    nodes_falsenodeids := [false_id], nodes_featureids := [0], nodes_hitrates := [],
    nodes_missing_value_tracks_true := [], nodes_modes := ["BRANCH_LEQ"],
    nodes_nodeids := [node_id], nodes_treeids := [0], nodes_truenodeids := [true_id],
    nodes_values := [NTYPE.num 0], post_transform := "NONE", target_ids := [],
    target_nodeids := [], target_treeids := [], target_weights := [] }

end Example

namespace RuntimeTreeEnsembleRegressorP

/-- The child id `cid` of the node at position `i` makes the second loop of `init` throw:
it is dangling or it is a self-loop that passes the guard. -/
def RejectedLink (a : Attributes) (i : Nat) (cid : Int) : Prop :=
  Dangling a i cid ∨ GuardedSelfLoop a i cid

end RuntimeTreeEnsembleRegressorP

namespace RuntimeTreeEnsembleRegressorP

/-- A node without its missing-track field. -/
def drop_track (nd : TreeNodeElement) : TreeNodeElement :=
  { nd with missing_tracks := MissingTrack.NONE }

/-- Two ensembles that differ at most in the missing-track field of their nodes and in
`has_missing_tracks_`. -/
def SameUpToTracks (s1 s2 : RuntimeTreeEnsembleRegressorP) : Prop :=
  s1.nodes_.map drop_track = s2.nodes_.map drop_track ∧
  s1.roots_ = s2.roots_ ∧ s1.same_mode_ = s2.same_mode_ ∧
  s1.max_tree_depth_ = s2.max_tree_depth_ ∧
  s1.aggregate_function_ = s2.aggregate_function_ ∧
  s1.post_transform_ = s2.post_transform_ ∧
  s1.base_values_ = s2.base_values_ ∧ s1.n_targets_ = s2.n_targets_ ∧
  s1.nbnodes_ = s2.nbnodes_ ∧ s1.nbtrees_ = s2.nbtrees_

end RuntimeTreeEnsembleRegressorP

/-! ## Two score buffers merged into one -/

/-- Two sequences of leaves accumulated into two fresh zeroed buffers of extent `n` (as two
threads do), the second buffer then merged into the first with a `MergePrediction` method. -/
def accumulate_and_merge
    (process : List NTYPE → TreeNodeElement → List Bool → Result Buffers)
    (merge : Int → List NTYPE → List Bool → List NTYPE → List Bool → Result Buffers)
    (n : Nat) (leaves1 leaves2 : List TreeNodeElement) : Result Buffers := do
  let b1 ← accumulate_leaves process leaves1 (List.replicate n NTYPE.zero, List.replicate n false)
  let b2 ← accumulate_leaves process leaves2 (List.replicate n NTYPE.zero, List.replicate n false)
  merge n b1.1 b1.2 b2.1 b2.2

namespace Spec

/-- The effect of `_AggregatorSum::MergePrediction` on the pair
`(predictions[i], has_predictions[i])` of one target, given the pair of the second buffer. -/
def merge_sum (s s2 : NTYPE × Bool) : NTYPE × Bool :=
  if s2.2 then (NTYPE.add s.1 s2.1, true) else s

/-- The effect of `_AggregatorMin::MergePrediction` on the pair of one target. -/
def merge_min (s s2 : NTYPE × Bool) : NTYPE × Bool :=
  if s2.2 then (if s.2 && NTYPE.lt s.1 s2.1 then s.1 else s2.1, true) else s

/-- The effect of `_AggregatorMax::MergePrediction` on the pair of one target. -/
def merge_max (s s2 : NTYPE × Bool) : NTYPE × Bool :=
  if s2.2 then (if s.2 && NTYPE.gt s.1 s2.1 then s.1 else s2.1, true) else s

end Spec

namespace _AggregatorClassifier

/-- The method `_AggregatorClassifier::FinalizeScores1` (lines 458-489) up to its call of
`write_scores2`: the label written to `*Y` and the arguments `(scores, post_transform_,
write_additional_scores)` of that call. The local array `NTYPE scores[2]` is not initialised:
it is the list of its entries that were assigned, so that reading another entry is a fault;
`has_scores` is `{1, 0}`, and `{1, 1}` after the branch for two base values. -/
def FinalizeScores1 (self : _AggregatorClassifier) (val : NTYPE) (_has_score : Bool) :
    Result (Int × WriteScoresCall) := do
  let write_additional_scores : Int := -1
  let (scores, has_scores) ←
    if self.base_values_.length = 2 then do
      let b1 ← vec_at self.base_values_ 1
      let s1 := NTYPE.add b1 val
      pure ([NTYPE.neg s1, s1], [true, true])
    else if self.base_values_.length = 1 then do
      let b0 ← vec_at self.base_values_ 0
      let _s0 := NTYPE.add val b0
      pure ([val], [true, false])
    else if self.base_values_.length = 0 then
      pure ([val], [true, false])
    else pure (([] : List NTYPE), [true, false])
  let (label, write_additional_scores) ←
    _set_score_binary self write_additional_scores scores has_scores
  pure (label, { scores := scores, post_transform := self.post_transform_,
                 add_second_class := write_additional_scores })

end _AggregatorClassifier

namespace Example

/-- A binary aggregator with class labels 10 and 20, `binary_case_` set, all weights positive,
no post-transform, and the given base values. -/
def binary_aggregator_with (base_values : List NTYPE) : _AggregatorClassifier :=
  _AggregatorClassifier.new 1 2 POST_EVAL_TRANSFORM.NONE base_values [10, 20] true true 1 0

end Example

/-! ## The descent loops with their counters

The walkers above unfold the descent loops along the iterations the counter allows. Here the
same loops are given as they are written, by their condition and their body on a state that
holds the counter, and run by `while_loop`, which counts the iterations. -/

/-- A loop `while (cond) body` run for at most `fuel` iterations: `some (s, k)` when the
condition became false after `k` iterations, in state `s`; `none` when the condition still
held after `fuel` iterations. -/
def while_loop {σ : Type} (cond : σ → Result Bool) (body : σ → Result σ) :
    Nat → σ → Result (Option (σ × Nat))
  | 0, s => do
    let c ← cond s
    if c then pure none else pure (some (s, 0))
  | fuel + 1, s => do
    let c ← cond s
    if c then do
      let s2 ← body s
      let r ← while_loop cond body fuel s2
      pure (r.map (fun e => (e.1, e.2 + 1)))
    else pure (some (s, 0))

namespace RuntimeTreeEnsembleRegressorP

/-- The condition `root->mode != NODE_MODE::LEAF && loopcount >= 0` of the loops of the macro
`TREE_FIND_VALUE` (lines 508 and 518); the state is `(root, loopcount)`. -/
def TREE_FIND_VALUE_cond (nodes : List TreeNodeElement) (st : Option Nat × Int) :
    Result Bool := do
  let node ← deref nodes st.1
  pure (decide (node.mode ≠ NODE_MODE.LEAF) && decide (st.2 ≥ 0))

/-- The body of the loops of the macro `TREE_FIND_VALUE` (lines 509-514 and 519-521):
`root = ...; --loopcount;`. -/
def TREE_FIND_VALUE_body (nodes : List TreeNodeElement) (next : TreeNodeElement → Option Nat)
    (st : Option Nat × Int) : Result (Option Nat × Int) := do
  let node ← deref nodes st.1
  pure (next node, st.2 - 1)

/-- The condition `(root->mode != NODE_MODE::LEAF) && (loopcount <= max_tree_depth_)` of the
general loop (line 567); the state is `(root, loopcount)`. -/
def general_cond (nodes : List TreeNodeElement) (max_tree_depth_ : Int)
    (st : Option Nat × Int) : Result Bool := do
  let node ← deref nodes st.1
  pure (decide (node.mode ≠ NODE_MODE.LEAF) && decide (st.2 ≤ max_tree_depth_))

/-- The body of the general loop (lines 568-608): `root = ...; ++loopcount;`. -/
def general_body (nodes : List TreeNodeElement) (x_data : Int → NTYPE)
    (st : Option Nat × Int) : Result (Option Nat × Int) := do
  let node ← deref nodes st.1
  let next ← general_next x_data node
  pure (next, st.2 + 1)

/-- Every branch node has two resolved children: both links point into the node array. -/
def ResolvedChildren (nodes : List TreeNodeElement) : Prop :=
  ∀ (i : Nat) (nd : TreeNodeElement), nodes[i]? = some nd → nd.mode ≠ NODE_MODE.LEAF →
    (∃ t, nd.truenode = some t ∧ t < nodes.length) ∧
    (∃ f, nd.falsenode = some f ∧ f < nodes.length)

end RuntimeTreeEnsembleRegressorP

namespace RuntimeTreeEnsembleClassifier

/-- The state of the descent loop of the flat walker (lines 611-648): `mode`, `treeindex`,
`loopcount`, and whether the `break` of line 647 was taken. -/
structure DescentState where
  mode : NODE_MODE
  treeindex : Int
  loopcount : Int
  broke : Bool
deriving DecidableEq

/-- The condition `mode != NODE_MODE::LEAF` of the descent loop (line 611); the loop is also
left by the `break`. -/
def descend_cond (st : DescentState) : Result Bool :=
  pure (decide (st.mode ≠ NODE_MODE.LEAF) && !st.broke)

/-- The body of the descent loop (lines 612-647). -/
def descend_body (self : RuntimeTreeEnsembleClassifier) (x_data : Int → NTYPE)
    (feature_base : Int) (root : Int) (st : DescentState) : Result DescentState := do
  let t ← next_index self x_data feature_base st.mode st.treeindex
  let treeindex := t + root
  let mode ← vec_at_int self.nodes_modes_ treeindex
  let loopcount := st.loopcount + 1
  pure { mode := mode, treeindex := treeindex, loopcount := loopcount,
         broke := decide (loopcount > kMaxTreeDepth_) }

/-- The node arrays have one entry per node, and the two child ids of every branch node, taken
from the root `root` of the tree, are positions of the node arrays. -/
def ResolvedFrom (self : RuntimeTreeEnsembleClassifier) (root : Int) : Prop :=
  self.nodes_featureids_.length = self.nodes_modes_.length ∧
  self.nodes_values_.length = self.nodes_modes_.length ∧
  self.nodes_truenodeids_.length = self.nodes_modes_.length ∧
  self.nodes_falsenodeids_.length = self.nodes_modes_.length ∧
  ∀ (i : Nat) (m : NODE_MODE) (t f : Int), self.nodes_modes_[i]? = some m →
    m ≠ NODE_MODE.LEAF → self.nodes_truenodeids_[i]? = some t →
    self.nodes_falsenodeids_[i]? = some f →
    (0 ≤ t + root ∧ t + root < self.nodes_modes_.length) ∧
    (0 ≤ f + root ∧ f + root < self.nodes_modes_.length)

end RuntimeTreeEnsembleClassifier

/-! ## The method `compute`: the input array and the rows -/

/-- A `py::array_t` argument of `compute`: its shape (one extent per dimension) and its
buffer, read through `X.data(0)`. -/
structure PyArray where
  shape : List Int
  data : Int → NTYPE

namespace PyArray

/-- The call `arr.ndim()`. -/
def ndim (arr : PyArray) : Nat := arr.shape.length

/-- The call `arr.size()`: the number of elements, the product of the extents. -/
def size (arr : PyArray) : Int := arr.shape.prod

/-- The matrix with the single row `i` of a matrix of `stride` columns. -/
def row (arr : PyArray) (stride : Int) (i : Nat) : PyArray :=
  { shape := [1, stride], data := fun k => arr.data ((i : Int) * stride + k) }

end PyArray

/-- The macro `arrayshape2vector(vec, arr)` (`op_tree_ensemble_classifier_.cpp`, lines
149-155): `vec` receives the shape only when the array has elements. -/
def arrayshape2vector (vec : List Int) (arr : PyArray) : List Int :=
  if arr.size > 0 then arr.shape else vec

/-- One store of `compute` into the output buffer `Z`: `value index val` is the assignment
`*Z_.data(index) = PROBIT ? ComputeProbit(val) : val`, and `scores index outputs` is the call
`write_scores(outputs, post_transform_, Z_.data(index), -1)`. -/
inductive ZStore where
  | value (index : Int) (val : NTYPE)
  | scores (index : Int) (outputs : List NTYPE)
deriving DecidableEq

/-- The same store, `d` entries further in `Z`. -/
def ZStore.shift (d : Int) : ZStore → ZStore
  | .value index val => .value (index + d) val
  | .scores index outputs => .scores (index + d) outputs

namespace RuntimeTreeEnsembleRegressorP

/-- A loop `for (j = 0; j < n; ++j) ProcessTreeNode(scores, roots_[j], x_data, has_scores)`
of `compute_gil_free`, executed sequentially. -/
def walk_trees (self : RuntimeTreeEnsembleRegressorP) (n : Nat) (x_data : Int → NTYPE)
    (b : Buffers) : Result Buffers :=
  (List.range n).foldlM
    (fun acc j => do
      let r ← vec_at self.roots_ j
      ProcessTreeNode self acc.1 (some r) x_data acc.2)
    b

/-- The value `val` computed for one row in the branch `n_targets_ == 1` (lines 413-417 and
435-439) from the score and the flag of the row. -/
def single_val (self : RuntimeTreeEnsembleRegressorP) (origin : NTYPE) (b : Buffers) :
    Result NTYPE := do
  let scores ← vec_at b.1 0
  let has_scores ← vec_at b.2 0
  pure
    (if has_scores then
      NTYPE.add
        (if self.aggregate_function_ = AGGREGATE_FUNCTION.AVERAGE
          then NTYPE.divNat scores self.roots_.length else scores)
        origin
    else origin)

/-- The method `compute_gil_free` (lines 392-503), executed sequentially: the stores into `Z`,
in the order of the rows. The loops over the trees run to `nbtrees_`, except in the last
branch, where the loop runs to `roots_.size()`. The vectors built with a negative
`n_targets_` are not modelled. -/
def compute_gil_free (self : RuntimeTreeEnsembleRegressorP) (N stride : Int)
    (x_data : Int → NTYPE) : Result (List ZStore) :=
  if self.n_targets_ = 1 then do
    let origin ←
      if self.base_values_.length = 1 then vec_at self.base_values_ 0 else pure NTYPE.zero
    if N = 1 then do
      let b ← walk_trees self self.nbtrees_.toNat x_data ([NTYPE.zero], [false])
      let val ← single_val self origin b
      pure [ZStore.value 0 val]
    else
      (List.range N.toNat).mapM (fun (i : Nat) => do
        let b ← walk_trees self self.nbtrees_.toNat (fun k => x_data ((i : Int) * stride + k))
          ([NTYPE.zero], [false])
        let val ← single_val self origin b
        pure (ZStore.value (i : Int) val))
  else
    let n := self.n_targets_.toNat
    if N = 1 then do
      let b ← walk_trees self self.nbtrees_.toNat x_data
        (List.replicate n NTYPE.zero, List.replicate n false)
      let outputs ← (List.range n).mapM (output_entry self b)
      pure [ZStore.scores 0 outputs]
    else
      (List.range N.toNat).mapM (fun (i : Nat) => do
        let current_weight_0 := (i : Int) * stride
        let b ← walk_trees self self.roots_.length (fun k => x_data (current_weight_0 + k))
          (List.replicate n NTYPE.zero, List.replicate n false)
        let outputs ← (List.range n).mapM (output_entry self b)
        pure (ZStore.scores ((i : Int) * self.n_targets_) outputs))

/-- The store of iteration `i` of the loops over the rows of `compute_gil_free` (lines 428-442
and 480-500), with the loop over the trees run to `nbtrees_` in the first branch and to
`roots_.size()` in the second, as in the source. -/
def row_store (self : RuntimeTreeEnsembleRegressorP) (stride : Int) (x_data : Int → NTYPE)
    (i : Nat) : Result ZStore :=
  if self.n_targets_ = 1 then do
    let origin ←
      if self.base_values_.length = 1 then vec_at self.base_values_ 0 else pure NTYPE.zero
    let b ← walk_trees self self.nbtrees_.toNat (fun k => x_data ((i : Int) * stride + k))
      ([NTYPE.zero], [false])
    let val ← single_val self origin b
    pure (ZStore.value (i : Int) val)
  else do
    let n := self.n_targets_.toNat
    let b ← walk_trees self self.roots_.length (fun k => x_data ((i : Int) * stride + k))
      (List.replicate n NTYPE.zero, List.replicate n false)
    let outputs ← (List.range n).mapM (output_entry self b)
    pure (ZStore.scores ((i : Int) * self.n_targets_) outputs)

/-- The method `compute` (lines 356-378): the shape test, then `compute_gil_free`. The
allocation of `Z` is not modelled. The macro `arrayshape2vector` comes from `op_common_.hpp`
and is taken to be the one of the classifier file. -/
def compute (self : RuntimeTreeEnsembleRegressorP) (X : PyArray) : Result (List ZStore) :=
  let x_dims := arrayshape2vector [] X
  if x_dims.length ≠ 2 then throw (.runtime_error .must_have_2_dimensions)
  else do
    let xdims1 := decide (x_dims.length = 1)
    let stride ← if xdims1 then vec_at x_dims 0 else vec_at x_dims 1
    let N ← if xdims1 then pure 1 else vec_at x_dims 0
    compute_gil_free self N stride X.data

end RuntimeTreeEnsembleRegressorP

namespace RuntimeTreeEnsembleClassifier

/-- The method `compute` (lines 508-600): the shape test, then for every row the label stored
in `Y_(i)` and the call of `write_scores` on `Z_.data(i * class_count_)`. The allocation of
`Y` and `Z` is not modelled. -/
def compute (self : RuntimeTreeEnsembleClassifier) (X : PyArray) :
    Result (List (Int × WriteScoresCall)) :=
  let x_dims := arrayshape2vector [] X
  if x_dims.length ≠ 2 then throw (.runtime_error .must_have_2_dimensions)
  else do
    let stride ← if x_dims.length = 1 then vec_at x_dims 0 else vec_at x_dims 1
    let N ← if x_dims.length = 1 then pure 1 else vec_at x_dims 0
    (List.range N.toNat).mapM (fun (i : Nat) => compute_row self X.data ((i : Int) * stride))

end RuntimeTreeEnsembleClassifier

/-! ## Flat regressor (`op_tree_ensemble_regressor_.cpp`) -/

/-- A `std::unordered_map<int64_t, std::tuple<float, float, float>>` of `(sum, min, max)`
per target: the list of its entries. Only `find` and `insert` are used on it. -/
abbrev ScoreMap := List (Int × NTYPE × NTYPE × NTYPE)

/-- The call `classes.find(k)`; `none` is `classes.end()`. -/
def score_find : ScoreMap → Int → Option (NTYPE × NTYPE × NTYPE)
  | [], _ => none
  | (k, v) :: rest, key => if k = key then some v else score_find rest key

/-- The data members of `RuntimeTreeEnsembleRegressor` (lines 29-52). The map `leafdata_map_`
is the list of its pairs, searched from the front. -/
structure RuntimeTreeEnsembleRegressor where
  nodes_treeids_ : List Int
  nodes_nodeids_ : List Int
  nodes_featureids_ : List Int
  nodes_values_ : List NTYPE
  nodes_hitrates_ : List NTYPE
  nodes_modes_ : List NODE_MODE
  nodes_truenodeids_ : List Int
  nodes_falsenodeids_ : List Int
  missing_tracks_true_ : List Int
  target_nodeids_ : List Int
  target_treeids_ : List Int
  target_ids_ : List Int
  target_weights_ : List NTYPE
  base_values_ : List NTYPE
  n_targets_ : Int
  post_transform_ : POST_EVAL_TRANSFORM
  aggregate_function_ : AGGREGATE_FUNCTION
  leafnode_data_ : List (Int × Int × Int × NTYPE)
  leafdata_map_ : List (Int × Int)
  roots_ : List Int
  offset_ : Int
  max_tree_depth_ : Int
deriving DecidableEq

namespace RuntimeTreeEnsembleRegressor

/-- The constant member `four_billion_`. -/
def four_billion_ : Int := 4000000000

/-- The body of the descent loop up to the test of line 333 (lines 314-335): the new value of
`treeindex`, a node id relative to the root of the tree, or the exception for a negative
value. No branch of the `if` chain applies to the mode LEAF. -/
def next_index (self : RuntimeTreeEnsembleRegressor) (x_data : Int → NTYPE)
    (feature_base : Int) (mode : NODE_MODE) (treeindex : Int) : Result Int := do
  let feature ← vec_at_int self.nodes_featureids_ treeindex
  let val := x_data (feature_base + feature)
  let tracktrue ←
    if self.missing_tracks_true_.length ≠ self.nodes_truenodeids_.length then pure false
    else do
      let t ← vec_at_int self.missing_tracks_true_ treeindex
      pure (decide (t ≠ 0) && NTYPE.isnan val)
  let threshold ← vec_at_int self.nodes_values_ treeindex
  let take (c : Bool) : Result Int :=
    if c || tracktrue then vec_at_int self.nodes_truenodeids_ treeindex
    else vec_at_int self.nodes_falsenodeids_ treeindex
  let t ←
    match mode with
    | .BRANCH_LEQ => take (NTYPE.le val threshold)
    | .BRANCH_LT => take (NTYPE.lt val threshold)
    | .BRANCH_GTE => take (NTYPE.ge val threshold)
    | .BRANCH_GT => take (NTYPE.gt val threshold)
    | .BRANCH_EQ => take (NTYPE.eq val threshold)
    | .BRANCH_NEQ => take (NTYPE.ne val threshold)
    | .LEAF => pure treeindex
  if t < 0 then throw (.runtime_error .negative_treeindex) else pure t

/-- The descent loop `while (mode != NODE_MODE::LEAF) { ...; loopcount++;
if (loopcount > max_tree_depth_) break; }` (lines 313-341). The first argument is
`max_tree_depth_ - loopcount`; the result is the final `treeindex`. -/
def descend (self : RuntimeTreeEnsembleRegressor) (x_data : Int → NTYPE) (feature_base : Int)
    (root : Int) : Nat → NODE_MODE → Int → Result Int
  | 0, mode, treeindex =>
    if mode = NODE_MODE.LEAF then pure treeindex
    else do
      let t ← next_index self x_data feature_base mode treeindex
      let treeindex := t + root
      let _ ← vec_at_int self.nodes_modes_ treeindex
      pure treeindex
  | k + 1, mode, treeindex =>
    if mode = NODE_MODE.LEAF then pure treeindex
    else do
      let t ← next_index self x_data feature_base mode treeindex
      let treeindex := t + root
      let mode ← vec_at_int self.nodes_modes_ treeindex
      descend self x_data feature_base root k mode treeindex

/-- The assignments through `it_classes->second` of lines 355-358: the weight is added to the
sum and replaces the minimum or the maximum when it is smaller or greater. -/
def score_update (classes : ScoreMap) (classid : Int) (weight : NTYPE) : ScoreMap :=
  classes.map (fun e =>
    if e.1 = classid then
      (e.1, NTYPE.add e.2.1 weight,
        (if NTYPE.lt weight e.2.2.1 then weight else e.2.2.1),
        (if NTYPE.gt weight e.2.2.2 then weight else e.2.2.2))
    else e)

/-- The update of `classes` for one leaf tuple (lines 351-363). -/
def add_score (classes : ScoreMap) (classid : Int) (weight : NTYPE) : ScoreMap :=
  match score_find classes classid with
  | some _ => score_update classes classid weight
  | none => classes ++ [(classid, weight, weight, weight)]

/-- The loop of lines 350-370 over the tuples of `leafnode_data_` from position `index` on,
as long as they carry the tree id and node id of the node reached. -/
def leaf_scan : List (Int × Int × Int × NTYPE) → Int → Int → ScoreMap → ScoreMap
  | [], _, _, classes => classes
  | (treeid, nodeid, classid, weight) :: rest, tid, nid, classes =>
    if treeid = tid ∧ nodeid = nid then leaf_scan rest tid nid (add_score classes classid weight)
    else classes

/-- The part of `ProcessTreeNode` after the descent (lines 342-371). -/
def collect (self : RuntimeTreeEnsembleRegressor) (classes : ScoreMap) (treeindex : Int) :
    Result ScoreMap := do
  let tid ← vec_at_int self.nodes_treeids_ treeindex
  let nid ← vec_at_int self.nodes_nodeids_ treeindex
  let id := tid * four_billion_ + nid
  match RuntimeTreeEnsembleClassifier.leafdata_find self.leafdata_map_ id with
  | none => pure classes
  | some index => do
    let _ ← vec_at_int self.leafnode_data_ index
    pure (leaf_scan (self.leafnode_data_.drop index.toNat) tid nid classes)

/-- The method `ProcessTreeNode` (lines 305-372). -/
def ProcessTreeNode (self : RuntimeTreeEnsembleRegressor) (classes : ScoreMap)
    (treeindex : Int) (x_data : Int → NTYPE) (feature_base : Int) : Result ScoreMap := do
  let mode ← vec_at_int self.nodes_modes_ treeindex
  let stop ← descend self x_data feature_base treeindex self.max_tree_depth_.toNat mode
    treeindex
  collect self classes stop

/-- One iteration of the loop of lines 283-299: the entry pushed to `outputs`. -/
def output_entry (self : RuntimeTreeEnsembleRegressor) (scores : ScoreMap) (j : Nat) :
    Result NTYPE := do
  let val ←
    if (self.base_values_.length : Int) = self.n_targets_ then vec_at self.base_values_ j
    else pure NTYPE.zero
  match score_find scores j with
  | none => pure val
  | some (sum, min, max) =>
    pure
      (match self.aggregate_function_ with
       | .AVERAGE => NTYPE.add val (NTYPE.divNat sum self.roots_.length)
       | .SUM => NTYPE.add val sum
       | .MIN => NTYPE.add val min
       | .MAX => NTYPE.add val max)

/-- One row of `compute` (lines 272-301): the vector `outputs` handed to `write_scores` (with
`add_second_class = -1`). -/
def compute_row (self : RuntimeTreeEnsembleRegressor) (x_data : Int → NTYPE)
    (current_weight_0 : Int) : Result (List NTYPE) := do
  let scores ← self.roots_.foldlM
    (fun scores r => ProcessTreeNode self scores r x_data current_weight_0) []
  (List.range self.n_targets_.toNat).mapM (output_entry self scores)

/-- The method `compute` (lines 253-303): the shape test, then the stores into `Z`, in the
order of the rows. The allocation of `Z` is not modelled. The macro `arrayshape2vector` comes
from `op_tree_ensemble_.hpp` and is taken to be the one of the classifier file. -/
def compute (self : RuntimeTreeEnsembleRegressor) (X : PyArray) : Result (List ZStore) :=
  let x_dims := arrayshape2vector [] X
  if x_dims.length ≠ 2 then throw (.runtime_error .must_have_2_dimensions)
  else do
    let stride ← if x_dims.length = 1 then vec_at x_dims 0 else vec_at x_dims 1
    let N ← if x_dims.length = 1 then pure 1 else vec_at x_dims 0
    (List.range N.toNat).mapM (fun (i : Nat) => do
      let outputs ← compute_row self X.data ((i : Int) * stride)
      pure (ZStore.scores ((i : Int) * self.n_targets_) outputs))

end RuntimeTreeEnsembleRegressor

/-- The result is not the exception "X must have 2 dimensions.". -/
@[irreducible] def not_shape_error {α : Type} (r : Result α) : Prop :=
  r ≠ .error (.runtime_error .must_have_2_dimensions)

/-! ## The leaf tuples and their index (`RuntimeTreeEnsembleClassifier::Initialize`, lines
248-273; the flat regressor has the same statements at lines 178-205 of its file) -/

namespace RuntimeTreeEnsembleClassifier

/-- The loop of lines 249-252: one tuple `(tree id, node id, class id, weight)` per leaf
descriptor, pushed to `leafnodedata_` (empty on a fresh object). The node ids are those left
by the loop of lines 238-246, which subtracts the tree offsets (zero offsets leave them
unchanged). -/
def Initialize_leafnodedata (class_treeids_ class_nodeids_ class_ids_ : List Int)
    (class_weights_ : List NTYPE) : Result (List (Int × Int × Int × NTYPE)) :=
  (List.range class_nodeids_.length).mapM (fun (i : Nat) => do
    let t ← vec_at class_treeids_ i
    let n ← vec_at class_nodeids_ i
    let c ← vec_at class_ids_ i
    let w ← vec_at class_weights_ i
    pure (t, n, c, w))

/-- The comparison handed to `std::sort` (lines 253-258): by tree id, then by node id. -/
def leaf_less (t1 t2 : Int × Int × Int × NTYPE) : Bool :=
  if t1.1 ≠ t2.1 then decide (t1.1 < t2.1) else decide (t1.2.1 < t2.2.1)

/-- Insertion of a tuple into a sorted list, after the tuples that are not greater. -/
def sort_insert (t : Int × Int × Int × NTYPE) :
    List (Int × Int × Int × NTYPE) → List (Int × Int × Int × NTYPE)
  | [] => [t]
  | u :: rest => if leaf_less t u then t :: u :: rest else u :: sort_insert t rest

/-- The call of `std::sort` (lines 253-258). The order `std::sort` gives to tuples that compare
equal is not specified; the model keeps the order they had. -/
def sort_leafnodedata (l : List (Int × Int × Int × NTYPE)) : List (Int × Int × Int × NTYPE) :=
  l.foldl (fun acc t => sort_insert t acc) []

/-- The call `leafdata_map_.insert(std::make_pair(id, position))`: no effect when the key is
present. -/
def leafdata_insert (map : List (Int × Int)) (id position : Int) : List (Int × Int) :=
  match leafdata_find map id with
  | some _ => map
  | none => map ++ [(id, position)]

/-- The loop of lines 260-273 that builds `leafdata_map_`, from position `i` on; the state is
`(leafdata_map_, field0, field1)`. After an insertion the loop stores `id` in `field0` and
`position` in `field1`. -/
def Initialize_leafdata_map_loop :
    List (Int × Int × Int × NTYPE) → Int → List (Int × Int) × Int × Int → List (Int × Int)
  | [], _, st => st.1
  | (id0, id1, _, _) :: rest, i, (map, field0, field1) =>
    if id0 ≠ field0 ∨ id1 ≠ field1 then
      let id := id0 * kOffset_ + id1
      let position := i
      Initialize_leafdata_map_loop rest (i + 1) (leafdata_insert map id position, id, position)
    else Initialize_leafdata_map_loop rest (i + 1) (map, field0, field1)

/-- The map `leafdata_map_` built by lines 260-273 from the sorted tuples. -/
def Initialize_leafdata_map (leafnodedata : List (Int × Int × Int × NTYPE)) :
    List (Int × Int) :=
  Initialize_leafdata_map_loop leafnodedata 0 ([], -1, -1)

/-- The `(class id, weight)` pairs of the tuples the scan loop of `ProcessTreeNode` visits
(classifier lines 658-676, flat regressor lines 350-370): the tuples from the first one on,
as long as they carry the tree id and node id of the node reached. -/
def leaf_scan_pairs : List (Int × Int × Int × NTYPE) → Int → Int → List (Int × NTYPE)
  | [], _, _ => []
  | (treeid, nodeid, classid, weight) :: rest, tid, nid =>
    if treeid = tid ∧ nodeid = nid then (classid, weight) :: leaf_scan_pairs rest tid nid
    else []

/-- The pairs a flat walker accumulates when it stops at the node `(tid, nid)`: none when
`leafdata_map_` has no entry for the key `tid * 4000000000 + nid`, and otherwise those of the
scan from the position found. -/
def accumulated_pairs (leafnodedata : List (Int × Int × Int × NTYPE))
    (leafdata_map : List (Int × Int)) (tid nid : Int) : Result (List (Int × NTYPE)) :=
  match leafdata_find leafdata_map (tid * kOffset_ + nid) with
  | none => pure []
  | some index => do
    let _ ← vec_at_int leafnodedata index
    pure (leaf_scan_pairs (leafnodedata.drop index.toNat) tid nid)

/-- The key `id0 * kOffset_ + id1` under which the loop of lines 260-273 registers a tuple. -/
def leaf_ident (e : Int × Int × Int × NTYPE) : Int := e.1 * kOffset_ + e.2.1

/-- Whether a tuple carries the tree id `tid` and the node id `nid`. -/
def names_node (tid nid : Int) (e : Int × Int × Int × NTYPE) : Bool :=
  decide (e.1 = tid ∧ e.2.1 = nid)

/-- The list is sorted for the comparison handed to `std::sort`: no tuple is less than a tuple
before it. -/
def LeafSorted (l : List (Int × Int × Int × NTYPE)) : Prop :=
  l.Pairwise (fun a b => leaf_less b a = false)

/-- Every entry of the index points at the first tuple of the list that has its key. -/
def IndexedFirst (data : List (Int × Int × Int × NTYPE)) (m : List (Int × Int)) : Prop :=
  ∀ (id q : Int), leafdata_find m id = some q →
    ∃ j : Nat, q = (j : Int) ∧ ∃ e, data[j]? = some e ∧ leaf_ident e = id ∧
      ∀ (j2 : Nat) (e2 : Int × Int × Int × NTYPE), j2 < j → data[j2]? = some e2 →
        leaf_ident e2 ≠ id

end RuntimeTreeEnsembleClassifier

namespace Example

/-- Attributes of a one-target regressor with two trees: tree 0 has a BRANCH_LEQ root (node 0)
and two leaves (nodes 1 and 2), tree 1 is a single leaf (node 0). The leaf descriptors give
weight 3 to node 1 of tree 0 and weight 5 to node 0 of tree 1. Every tree starts at node id 0
(zero tree offsets). -/
def leaf_after_leaf (aggregate_function : String) : RuntimeTreeEnsembleRegressorP.Attributes :=
  { aggregate_function := aggregate_function, base_values := [], n_targets := 1,
    nodes_falsenodeids := [2, 0, 0, 0], nodes_featureids := [0, 0, 0, 0], nodes_hitrates := [],
    nodes_missing_value_tracks_true := [],
    nodes_modes := ["BRANCH_LEQ", "LEAF", "LEAF", "LEAF"],
    nodes_nodeids := [0, 1, 2, 0], nodes_treeids := [0, 0, 0, 1],
    nodes_truenodeids := [1, 0, 0, 0],
    nodes_values := [NTYPE.num 0, NTYPE.num 0, NTYPE.num 0, NTYPE.num 0],
    post_transform := "NONE",
    target_ids := [0, 0], target_nodeids := [1, 0], target_treeids := [0, 1],
    target_weights := [NTYPE.num 3, NTYPE.num 5] }

/-- The flat regressor for the attributes `leaf_after_leaf`, with the leaf tuples and the index
given as arguments; the roots are the positions 0 and 3. -/
def leaf_after_leaf_flat (f : AGGREGATE_FUNCTION)
    (leafnode_data : List (Int × Int × Int × NTYPE)) (leafdata_map : List (Int × Int)) :
    RuntimeTreeEnsembleRegressor :=
  { nodes_treeids_ := [0, 0, 0, 1], nodes_nodeids_ := [0, 1, 2, 0],
    nodes_featureids_ := [0, 0, 0, 0],
    nodes_values_ := [NTYPE.num 0, NTYPE.num 0, NTYPE.num 0, NTYPE.num 0],
    nodes_hitrates_ := [],
    nodes_modes_ := [NODE_MODE.BRANCH_LEQ, NODE_MODE.LEAF, NODE_MODE.LEAF, NODE_MODE.LEAF],
    nodes_truenodeids_ := [1, 0, 0, 0], nodes_falsenodeids_ := [2, 0, 0, 0],
    missing_tracks_true_ := [],
    target_nodeids_ := [1, 0], target_treeids_ := [0, 1], target_ids_ := [0, 0],
    target_weights_ := [NTYPE.num 3, NTYPE.num 5],
    base_values_ := [], n_targets_ := 1, post_transform_ := POST_EVAL_TRANSFORM.NONE,
    aggregate_function_ := f,
    leafnode_data_ := leafnode_data, leafdata_map_ := leafdata_map,
    roots_ := [0, 3], offset_ := 4000000000, max_tree_depth_ := 1000 }

end Example

/-! ## The `float` arithmetic of `ComputeSoftmax`

The scores of the classifier are `float` (binary32). The definitions above compute with exact
rationals; those below round the result of every arithmetic operation, for the statements in
which rounding matters. -/

/-- The power `2^k` as a rational. -/
def pow2 (k : Int) : ℚ :=
  if 0 ≤ k then ((2 ^ k.toNat : Nat) : ℚ) else 1 / ((2 ^ (-k).toNat : Nat) : ℚ)

/-- The integer nearest to a non-negative rational; halfway between two integers, the even
one. -/
def round_half_even (s : ℚ) : Int :=
  let f : Int := s.num / (s.den : Int)
  let r : ℚ := s - (f : ℚ)
  if r < 1 / 2 then f
  else if 1 / 2 < r then f + 1
  else if f % 2 = 0 then f
  else f + 1

/-- The number of halvings that bring `n` below 2, at most `fuel` of them. -/
def log2_fuel : Nat → Nat → Nat
  | 0, _ => 0
  | fuel + 1, n => if 2 ≤ n then log2_fuel fuel (n / 2) + 1 else 0

/-- The exponent of the binary32 format for the magnitude `a > 0`: the integer `e` with
`2^e ≤ a < 2^(e+1)`, and `-126` for the subnormal numbers below `2^-126`. With `p` and `q`
the numerator and the denominator of `a`, `e` is the difference `k` of the bit lengths of `p`
and `q`, or `k - 1`. -/
def binary32_exponent (a : ℚ) : Int :=
  let p := a.num.natAbs
  let k : Int := (log2_fuel p p : Int) - (log2_fuel a.den a.den : Int)
  let e : Int := if pow2 k ≤ a then k else k - 1
  if e < -126 then -126 else e

/-- The `float` nearest to a rational (round to nearest, ties to even): 24 significant bits,
gradual underflow. Overflow to infinity is not modelled (the results rounded below are far
from `FLT_MAX`). -/
def binary32 (x : ℚ) : ℚ :=
  if x = 0 then 0
  else
    let a : ℚ := if x < 0 then -x else x
    let ulp : ℚ := pow2 (binary32_exponent a - 23)
    let n : Int := round_half_even (a / ulp)
    if x < 0 then -((n : ℚ) * ulp) else (n : ℚ) * ulp

/-- Rounding of a value of the carrier by `rnd`; NaN stays NaN. -/
def NTYPE.round (rnd : ℚ → ℚ) : NTYPE → NTYPE
  | .num a => .num (rnd a)
  | .nan => .nan

/-- The second loop of `ComputeSoftmax` (lines 411-416) with the results of the subtraction,
of `std::exp` and of the addition rounded by `rnd`; the state is `(this_sum, newscores)`. -/
def ComputeSoftmax_loop_rounded (rnd : ℚ → ℚ) (m : Cmath) (v_max : NTYPE)
    (values : List NTYPE) : NTYPE × List NTYPE :=
  values.foldl
    (fun st value =>
      let val2 := NTYPE.round rnd (m.std_exp (NTYPE.round rnd (NTYPE.sub value v_max)))
      (NTYPE.round rnd (NTYPE.add st.1 val2), st.2 ++ [val2]))
    (NTYPE.zero, [])

/-- The function `ComputeSoftmax` (lines 403-420) with every arithmetic result rounded by
`rnd`: the vector `values` on exit. With `rnd` the identity this is `ComputeSoftmax`; with
`binary32` it is the computation on `float`. -/
def ComputeSoftmax_rounded (rnd : ℚ → ℚ) (m : Cmath) (values : List NTYPE) : List NTYPE :=
  let v_max := softmax_v_max values
  let (this_sum, newscores) := ComputeSoftmax_loop_rounded rnd m v_max values
  newscores.map (fun s => NTYPE.round rnd (NTYPE.div s this_sum))

namespace Example

/-- A stand-in for `std::exp` on `float` with the three values the examples need: `exp(0)` is
1, `exp(-17)` is the `float` nearest to `e^-17` (`11652889 * 2^-48`, about `4.14e-8`), and
the result is 0 below -104, where `std::exp` underflows (`e^-104` is less than half the least
positive `float`, `2^-149`). Elsewhere it is `exp_stand_in`. -/
def exp_binary32 (y : ℚ) : ℚ :=
  if y < -104 then 0
  else if y = -17 then 11652889 / 281474976710656
  else if y = 0 then 1
  else exp_stand_in y

/-- The routines of `<cmath>` with `exp_binary32` for `std::exp`. -/
def cmath_binary32 : Cmath :=
  { exp := exp_binary32, log := fun _ => NTYPE.nan, sqrt := fun _ => NTYPE.nan }

end Example

/-! # Theorems -/

/-! ## Basic facts about `NTYPE` and the result type -/

theorem NTYPE.isnan_eq_true {v : NTYPE} (h : v.isnan = true) : v = NTYPE.nan := by
  cases v with
  | nan => rfl
  | num q => simp [NTYPE.isnan] at h

/-! ## The walkers -/

open RuntimeTreeEnsembleRegressorP in
/-- C1 (evaluation of the code at the failing input). `init` accepts the one-tree ensemble
whose missing-track array `[1]` is shorter than the node array: node 0 gets
`missing_tracks = TRUE`, both its children are resolved, `same_mode_` is true and
`has_missing_tracks_` is false. On the row whose feature 0 is NaN the reference descent ends
at the true child (leaf 1), but `ProcessTreeNode` ends at the false child (leaf 2) and
accumulates the weight of leaf 2 (target 1) instead of the weight of leaf 1 (target 0). -/
theorem C1_same_mode_descent_misses_reference_leaf :
    init (Example.stump "BRANCH_LT" [1])
      = .ok (Example.stump_ensemble NODE_MODE.BRANCH_LT MissingTrack.TRUE MissingTrack.NONE false) ∧
    Spec.reference_descent
      (Example.stump_ensemble NODE_MODE.BRANCH_LT MissingTrack.TRUE MissingTrack.NONE false).nodes_
      Example.nan_row 1000 (some 0) = some 1 ∧
    find_leaf (Example.stump_ensemble NODE_MODE.BRANCH_LT MissingTrack.TRUE MissingTrack.NONE false)
      (some 0) Example.nan_row = .ok (some 2) ∧
    ProcessTreeNode
      (Example.stump_ensemble NODE_MODE.BRANCH_LT MissingTrack.TRUE MissingTrack.NONE false)
      [NTYPE.zero, NTYPE.zero] (some 0) Example.nan_row [false, false]
      = .ok ([NTYPE.num 0, NTYPE.num 1], [false, true]) := by
  decide!

/-- C2 (evaluation of the code at the failing input). For each of the modes LEQ, LT, GTE, GT
and EQ, `init` accepts the one-tree ensemble with the missing-track array `[1]`; its node 0
is `stump_root`, with `missing_tracks = TRUE`, true child 1 and false child 2, and the row
value at its feature is NaN. The body of the general loop sends this node to its true child
(node 1), but the ensemble has `same_mode_` true and `has_missing_tracks_` false, so
`ProcessTreeNode` runs the specialised loop, which advances to the false child (node 2). -/
theorem C2_specialised_loop_ignores_missing_track :
    Example.specialised_loop_misses_true_child "BRANCH_LEQ" NODE_MODE.BRANCH_LEQ ∧
    Example.specialised_loop_misses_true_child "BRANCH_LT" NODE_MODE.BRANCH_LT ∧
    Example.specialised_loop_misses_true_child "BRANCH_GTE" NODE_MODE.BRANCH_GTE ∧
    Example.specialised_loop_misses_true_child "BRANCH_GT" NODE_MODE.BRANCH_GT ∧
    Example.specialised_loop_misses_true_child "BRANCH_EQ" NODE_MODE.BRANCH_EQ := by
  unfold Example.specialised_loop_misses_true_child
  decide!

open RuntimeTreeEnsembleRegressorP in
/-- C3 (counterexample). `init` accepts the one-tree ensemble with a BRANCH_NEQ root and no
missing-track array; the root has `missing_tracks = NONE`, true child 1 and false child 2.
On the row whose feature 0 is NaN both loops of the pointer walker advance to the true child,
not the false child, and so does the flat walker of the classifier. -/
theorem C3_counterexample_neq_takes_true_child :
    init (Example.stump "BRANCH_NEQ" [])
      = .ok (Example.stump_ensemble NODE_MODE.BRANCH_NEQ MissingTrack.NONE MissingTrack.NONE false) ∧
    general_next Example.nan_row (Example.branch_node NODE_MODE.BRANCH_NEQ) = .ok (some 1) ∧
    TREE_FIND_VALUE_next_tracked NTYPE.ne Example.nan_row
      (Example.branch_node NODE_MODE.BRANCH_NEQ) = some 1 ∧
    find_leaf
      (Example.stump_ensemble NODE_MODE.BRANCH_NEQ MissingTrack.NONE MissingTrack.NONE false)
      (some 0) Example.nan_row = .ok (some 1) ∧
    (Example.flat_stump NODE_MODE.BRANCH_NEQ).next_index Example.nan_row 0
        NODE_MODE.BRANCH_NEQ 0 = .ok 1 := by
  decide!

open RuntimeTreeEnsembleRegressorP in
/-- C3 (amended). Let `n` be a node whose `missing_tracks` is NONE and `x` a row whose value
at the feature of `n` is NaN. The body of the general loop advances to the false child when
the mode of `n` is LEQ, LT, GTE, GT or EQ, and to the true child when it is NEQ (in C++,
`NaN != t` is true). The bodies of both specialised loops do the same for the comparator of
each mode. The flat walker of the classifier, when no missing-track array was supplied,
likewise reads the false-child link for LEQ, LT, GTE, GT, EQ and the true-child link for
NEQ. -/
theorem C3_nan_without_missing_track (x : Int → NTYPE) (n : TreeNodeElement)
    (hnone : n.missing_tracks = MissingTrack.NONE)
    (hnan : NTYPE.isnan (x n.feature_id) = true) :
    (n.mode ∈ [NODE_MODE.BRANCH_LEQ, NODE_MODE.BRANCH_LT, NODE_MODE.BRANCH_GTE,
        NODE_MODE.BRANCH_GT, NODE_MODE.BRANCH_EQ] → general_next x n = .ok n.falsenode) ∧
    (n.mode = NODE_MODE.BRANCH_NEQ → general_next x n = .ok n.truenode) ∧
    (∀ CMP ∈ [NTYPE.le, NTYPE.lt, NTYPE.ge, NTYPE.gt, NTYPE.eq],
        TREE_FIND_VALUE_next_tracked CMP x n = n.falsenode ∧
        TREE_FIND_VALUE_next_plain CMP x n = n.falsenode) ∧
    (TREE_FIND_VALUE_next_tracked NTYPE.ne x n = n.truenode ∧
      TREE_FIND_VALUE_next_plain NTYPE.ne x n = n.truenode) ∧
    (∀ (c : RuntimeTreeEnsembleClassifier) (feature_base treeindex feature : Int)
        (threshold : NTYPE),
        c.missing_tracks_true_ = [] → c.nodes_truenodeids_ ≠ [] →
        vec_at_int c.nodes_featureids_ treeindex = .ok feature →
        vec_at_int c.nodes_values_ treeindex = .ok threshold →
        NTYPE.isnan (x (feature_base + feature)) = true →
        (∀ mode ∈ [NODE_MODE.BRANCH_LEQ, NODE_MODE.BRANCH_LT, NODE_MODE.BRANCH_GTE,
            NODE_MODE.BRANCH_GT, NODE_MODE.BRANCH_EQ],
          c.next_index x feature_base mode treeindex
            = vec_at_int c.nodes_falsenodeids_ treeindex) ∧
        c.next_index x feature_base NODE_MODE.BRANCH_NEQ treeindex
          = vec_at_int c.nodes_truenodeids_ treeindex) := by
  have hv := NTYPE.isnan_eq_true hnan
  refine ⟨?_, ?_, ?_, ?_, ?_⟩
  · intro hmode
    simp only [List.mem_cons, List.mem_singleton, List.not_mem_nil, or_false] at hmode
    rcases hmode with h | h | h | h | h <;>
      simp [general_next, h, hv, hnone, NTYPE.le, NTYPE.lt, NTYPE.ge, NTYPE.gt, NTYPE.eq,
        NTYPE.isnan, pure, Except.pure]
  · intro h
    simp [general_next, h, hv, hnone, NTYPE.ne, NTYPE.eq, NTYPE.isnan, pure, Except.pure]
  · intro CMP hCMP
    simp only [List.mem_cons, List.mem_singleton, List.not_mem_nil, or_false] at hCMP
    rcases hCMP with h | h | h | h | h <;> subst h <;>
      simp [TREE_FIND_VALUE_next_tracked, TREE_FIND_VALUE_next_plain, hv, hnone,
        NTYPE.le, NTYPE.lt, NTYPE.ge, NTYPE.gt, NTYPE.eq, NTYPE.isnan]
  · simp [TREE_FIND_VALUE_next_tracked, TREE_FIND_VALUE_next_plain, hv, hnone,
      NTYPE.ne, NTYPE.eq, NTYPE.isnan]
  · intro c feature_base treeindex feature threshold hmt htrue hf hthr hnan2
    have hv2 := NTYPE.isnan_eq_true hnan2
    have hlen : ¬ (0 = c.nodes_truenodeids_.length) := by
      intro h
      exact htrue (List.length_eq_zero.mp h.symm)
    refine ⟨?_, ?_⟩
    · intro mode hmode
      simp only [List.mem_cons, List.mem_singleton, List.not_mem_nil, or_false] at hmode
      rcases hmode with h | h | h | h | h <;> subst h <;>
        simp [RuntimeTreeEnsembleClassifier.next_index, hmt, hf, hthr, hv2, hlen,
          NTYPE.le, NTYPE.lt, NTYPE.ge, NTYPE.gt, NTYPE.eq, bind, Except.bind, pure,
          Except.pure]
    · simp [RuntimeTreeEnsembleClassifier.next_index, hmt, hf, hthr, hv2, hlen,
        NTYPE.ne, NTYPE.eq, bind, Except.bind, pure, Except.pure]

open RuntimeTreeEnsembleRegressorP in
/-- C3 (witness): the amended statement applied to the NaN row and a BRANCH_GT node without
missing-track information, whose false child is node 2. -/
theorem C3_nan_without_missing_track_witness :
    (Example.branch_node NODE_MODE.BRANCH_GT).missing_tracks = MissingTrack.NONE ∧
    NTYPE.isnan (Example.nan_row (Example.branch_node NODE_MODE.BRANCH_GT).feature_id) = true ∧
    general_next Example.nan_row (Example.branch_node NODE_MODE.BRANCH_GT) = .ok (some 2) :=
  ⟨rfl, rfl,
    (C3_nan_without_missing_track Example.nan_row (Example.branch_node NODE_MODE.BRANCH_GT)
      rfl rfl).1 (by simp [Example.branch_node])⟩

/-! ## Descent stopped by the depth bound -/

namespace RuntimeTreeEnsembleRegressorP

/-- A specialised loop that returns hands back a pointer it has dereferenced. -/
theorem TREE_FIND_VALUE_loop_deref (nodes : List TreeNodeElement)
    (next : TreeNodeElement → Option Nat) :
    ∀ (k : Nat) (root stop : Option Nat),
      TREE_FIND_VALUE_loop nodes next k root = .ok stop → ∃ node, deref nodes stop = .ok node := by
  intro k
  induction k with
  | zero =>
    intro root stop h
    cases hd : deref nodes root with
    | error e => simp [TREE_FIND_VALUE_loop, hd, bind, Except.bind] at h
    | ok node =>
      simp [TREE_FIND_VALUE_loop, hd, bind, Except.bind, pure, Except.pure] at h
      exact ⟨node, h ▸ hd⟩
  | succ k ih =>
    intro root stop h
    cases hd : deref nodes root with
    | error e => simp [TREE_FIND_VALUE_loop, hd, bind, Except.bind] at h
    | ok node =>
      by_cases hleaf : node.mode = NODE_MODE.LEAF
      · simp [TREE_FIND_VALUE_loop, hd, hleaf, bind, Except.bind, pure, Except.pure] at h
        exact ⟨node, h ▸ hd⟩
      · simp [TREE_FIND_VALUE_loop, hd, hleaf, bind, Except.bind] at h
        exact ih _ _ h

/-- The general loop, when it returns, hands back a pointer it has dereferenced. -/
theorem general_loop_deref (nodes : List TreeNodeElement) (x_data : Int → NTYPE) :
    ∀ (k : Nat) (root stop : Option Nat),
      general_loop nodes x_data k root = .ok stop → ∃ node, deref nodes stop = .ok node := by
  intro k
  induction k with
  | zero =>
    intro root stop h
    cases hd : deref nodes root with
    | error e => simp [general_loop, hd, bind, Except.bind] at h
    | ok node =>
      simp [general_loop, hd, bind, Except.bind, pure, Except.pure] at h
      exact ⟨node, h ▸ hd⟩
  | succ k ih =>
    intro root stop h
    cases hd : deref nodes root with
    | error e => simp [general_loop, hd, bind, Except.bind] at h
    | ok node =>
      by_cases hleaf : node.mode = NODE_MODE.LEAF
      · simp [general_loop, hd, hleaf, bind, Except.bind, pure, Except.pure] at h
        exact ⟨node, h ▸ hd⟩
      · cases hn : general_next x_data node with
        | error e => simp [general_loop, hd, hleaf, hn, bind, Except.bind] at h
        | ok nxt =>
          simp [general_loop, hd, hleaf, hn, bind, Except.bind] at h
          exact ih _ _ h

/-- The descent of `ProcessTreeNode`, when it returns, hands back a pointer it has
dereferenced: the aggregation switch never dereferences a null pointer. -/
theorem find_leaf_deref (self : RuntimeTreeEnsembleRegressorP) (root stop : Option Nat)
    (x_data : Int → NTYPE) (h : find_leaf self root x_data = .ok stop) :
    ∃ node, deref self.nodes_ stop = .ok node := by
  unfold find_leaf at h
  by_cases hs : self.same_mode_ = true
  · simp only [hs, if_true] at h
    cases hd : deref self.nodes_ root with
    | error e => simp [hd, bind, Except.bind] at h
    | ok node =>
      simp only [hd, bind, Except.bind] at h
      cases hm : node.mode with
      | LEAF =>
        simp [hm, pure, Except.pure] at h
        exact ⟨node, h ▸ hd⟩
      | _ =>
        simp only [hm] at h
        unfold TREE_FIND_VALUE at h
        split at h <;> exact TREE_FIND_VALUE_loop_deref _ _ _ _ _ h
  · simp only [hs] at h
    exact general_loop_deref _ _ _ _ _ h

end RuntimeTreeEnsembleRegressorP

namespace RuntimeTreeEnsembleRegressorP

/-- On the two-node cycle every node is a branch, so a specialised loop allowed `k`
iterations performs all of them and stops `k` nodes further along the cycle. -/
theorem two_cycle_loop (w0 w1 : List SparseValue) (CMP : NTYPE → NTYPE → Bool)
    (x : Int → NTYPE) (k : Nat) :
    TREE_FIND_VALUE_loop (Example.two_cycle_nodes w0 w1) (TREE_FIND_VALUE_next_plain CMP x) k
        (some 0) = .ok (some (k % 2)) ∧
    TREE_FIND_VALUE_loop (Example.two_cycle_nodes w0 w1) (TREE_FIND_VALUE_next_plain CMP x) k
        (some 1) = .ok (some ((k + 1) % 2)) := by
  induction k with
  | zero =>
    constructor <;>
      simp [TREE_FIND_VALUE_loop, deref, vec_at, Example.two_cycle_nodes, Example.two_cycle_node1, bind, Except.bind,
        pure, Except.pure]
  | succ k ih =>
    constructor
    · have h := ih.2
      simp only [TREE_FIND_VALUE_loop, deref, vec_at, Example.two_cycle_nodes, Example.two_cycle_node1, bind,
        Except.bind, TREE_FIND_VALUE_next_plain] at h ⊢
      simpa using h
    · have h := ih.1
      have hk : (k + 1 + 1) % 2 = k % 2 := by omega
      simp only [TREE_FIND_VALUE_loop, deref, vec_at, Example.two_cycle_nodes, Example.two_cycle_node1, bind,
        Except.bind, TREE_FIND_VALUE_next_plain] at h ⊢
      rw [hk]
      simpa using h

/-- The descent of `ProcessTreeNode` from a BRANCH_LEQ root, when `same_mode_` is set and
`has_missing_tracks_` is not, is the second loop of `TREE_FIND_VALUE(<=)` with
`max_tree_depth_ + 1` iterations allowed. -/
theorem find_leaf_leq_plain (self : RuntimeTreeEnsembleRegressorP) (root : Option Nat)
    (x : Int → NTYPE) (node : TreeNodeElement)
    (hs : self.same_mode_ = true) (hmt : self.has_missing_tracks_ = false)
    (hd : deref self.nodes_ root = .ok node) (hm : node.mode = NODE_MODE.BRANCH_LEQ) :
    find_leaf self root x =
      TREE_FIND_VALUE_loop self.nodes_ (TREE_FIND_VALUE_next_plain NTYPE.le x)
        (self.max_tree_depth_ + 1).toNat root := by
  simp [find_leaf, hs, hd, hm, TREE_FIND_VALUE, hmt, bind, Except.bind]

/-- On the two-node cycle the descent from node 0 is cut by the depth bound after 1001
iterations, at node 1. -/
theorem two_cycle_find_leaf (w0 w1 : List SparseValue) (x : Int → NTYPE) :
    find_leaf (Example.two_cycle_ensemble w0 w1) (some 0) x = .ok (some 1) := by
  have h := (two_cycle_loop w0 w1 NTYPE.le x 1001).1
  rw [find_leaf_leq_plain (Example.two_cycle_ensemble w0 w1) (some 0) x _ rfl rfl rfl rfl]
  exact h

end RuntimeTreeEnsembleRegressorP

open RuntimeTreeEnsembleRegressorP in
/-- C4 (counterexample). `init` accepts the two-node cycle whose leaf descriptor names node 1,
a branch node. From the root the descent is cut by the depth bound at node 1, which is not a
leaf, and `ProcessTreeNode` then adds the weight 5 attached to node 1: the buffers change
from `([0], [false])` to `([5], [true])`. -/
theorem C4_counterexample_cut_node_with_weights :
    init (Example.two_cycle 1)
      = .ok (Example.two_cycle_ensemble [] [{ i := 0, value := NTYPE.num 5 }]) ∧
    find_leaf (Example.two_cycle_ensemble [] [{ i := 0, value := NTYPE.num 5 }]) (some 0)
      Example.zero_row = .ok (some 1) ∧
    deref (Example.two_cycle_ensemble [] [{ i := 0, value := NTYPE.num 5 }]).nodes_ (some 1)
      = .ok (Example.two_cycle_node1 [{ i := 0, value := NTYPE.num 5 }]) ∧
    (Example.two_cycle_node1 [{ i := 0, value := NTYPE.num 5 }]).mode = NODE_MODE.BRANCH_LEQ ∧
    ProcessTreeNode (Example.two_cycle_ensemble [] [{ i := 0, value := NTYPE.num 5 }])
      [NTYPE.zero] (some 0) Example.zero_row [false] = .ok ([NTYPE.num 5], [true]) := by
  refine ⟨by decide!, two_cycle_find_leaf _ _ _, rfl, rfl, ?_⟩
  unfold ProcessTreeNode
  rw [two_cycle_find_leaf]
  decide!

open RuntimeTreeEnsembleRegressorP in
/-- C4 (amended). Whenever the descent of `ProcessTreeNode` returns with `root` at a node
`stop` - in particular when the depth bound stopped it at a branch node - that pointer is
not null and `ProcessTreeNode` aggregates the weights attached to `stop`, exactly as it does
for a leaf; when the descent was cut at a branch node that carries no weights, no error is
raised and the prediction and has-prediction buffers are unchanged. The flat walker of the
classifier behaves alike: after the descent it collects the leaf data registered in
`leafdata_map_` for the node at which it stopped, and returns the class map unchanged when
none is registered. -/
theorem C4_depth_cut_applies_weights_of_stop_node
    (self : RuntimeTreeEnsembleRegressorP) (predictions : List NTYPE)
    (has_predictions : List Bool) (root stop : Option Nat) (x : Int → NTYPE)
    (hstop : find_leaf self root x = .ok stop) :
    (∃ node, deref self.nodes_ stop = .ok node ∧
      ProcessTreeNode self predictions root x has_predictions
        = aggregate self.aggregate_function_ (predictions, has_predictions) node.weights ∧
      (node.mode ≠ NODE_MODE.LEAF → node.weights = [] →
        ProcessTreeNode self predictions root x has_predictions
          = .ok (predictions, has_predictions))) ∧
    (∀ (c : RuntimeTreeEnsembleClassifier) (classes : ClassMap)
        (treeindex feature_base flat_stop : Int) (mode : NODE_MODE),
      vec_at_int c.nodes_modes_ treeindex = .ok mode →
      c.descend x feature_base treeindex
        RuntimeTreeEnsembleClassifier.kMaxTreeDepth_.toNat mode treeindex = .ok flat_stop →
      c.ProcessTreeNode classes treeindex x feature_base = c.collect classes flat_stop ∧
      (∀ tid nid : Int, vec_at_int c.nodes_treeids_ flat_stop = .ok tid →
        vec_at_int c.nodes_nodeids_ flat_stop = .ok nid →
        RuntimeTreeEnsembleClassifier.leafdata_find c.leafdata_map_
          (tid * RuntimeTreeEnsembleClassifier.kOffset_ + nid) = none →
        c.ProcessTreeNode classes treeindex x feature_base = .ok classes)) := by
  obtain ⟨node, hnode⟩ := find_leaf_deref self root stop x hstop
  have hagg : ProcessTreeNode self predictions root x has_predictions
      = aggregate self.aggregate_function_ (predictions, has_predictions) node.weights := by
    simp [ProcessTreeNode, hstop, hnode, bind, Except.bind]
  refine ⟨⟨node, hnode, hagg, ?_⟩, ?_⟩
  · intro _ hw
    rw [hagg, hw]
    cases self.aggregate_function_ <;> rfl
  · intro c classes treeindex feature_base flat_stop mode hmode hflat
    have hflat2 : c.ProcessTreeNode classes treeindex x feature_base
        = c.collect classes flat_stop := by
      simp [RuntimeTreeEnsembleClassifier.ProcessTreeNode, hmode, hflat, bind, Except.bind]
    refine ⟨hflat2, ?_⟩
    intro tid nid ht hn hfind
    rw [hflat2]
    simp [RuntimeTreeEnsembleClassifier.collect, ht, hn, hfind, bind, Except.bind, pure,
      Except.pure]

open RuntimeTreeEnsembleRegressorP in
/-- C4 (witness): the amended statement applied to the two-node cycle whose only weight is
attached to node 0. The descent from node 0 is cut at node 1, a branch without weights, and
the buffers come back unchanged; the flat walker is applied to the flat stump. -/
theorem C4_depth_cut_applies_weights_of_stop_node_witness :
    find_leaf (Example.two_cycle_ensemble [{ i := 0, value := NTYPE.num 5 }] []) (some 0)
      Example.zero_row = .ok (some 1) ∧
    vec_at_int (Example.flat_stump NODE_MODE.BRANCH_LEQ).nodes_modes_ 0
      = .ok NODE_MODE.BRANCH_LEQ ∧
    (Example.flat_stump NODE_MODE.BRANCH_LEQ).descend Example.zero_row 0 0
      RuntimeTreeEnsembleClassifier.kMaxTreeDepth_.toNat NODE_MODE.BRANCH_LEQ 0 = .ok 1 ∧
    ProcessTreeNode (Example.two_cycle_ensemble [{ i := 0, value := NTYPE.num 5 }] [])
      [NTYPE.zero] (some 0) Example.zero_row [false] = .ok ([NTYPE.zero], [false]) ∧
    (Example.flat_stump NODE_MODE.BRANCH_LEQ).ProcessTreeNode [] 0 Example.zero_row 0
      = .ok [] := by
  have hflat : (Example.flat_stump NODE_MODE.BRANCH_LEQ).descend Example.zero_row 0 0
      RuntimeTreeEnsembleClassifier.kMaxTreeDepth_.toNat NODE_MODE.BRANCH_LEQ 0 = .ok 1 := by
    decide!
  have hmode : vec_at_int (Example.flat_stump NODE_MODE.BRANCH_LEQ).nodes_modes_ 0
      = .ok NODE_MODE.BRANCH_LEQ := by decide!
  obtain ⟨⟨node, hnode, -, hunchanged⟩, hflatpart⟩ :=
    C4_depth_cut_applies_weights_of_stop_node
      (Example.two_cycle_ensemble [{ i := 0, value := NTYPE.num 5 }] [])
      [NTYPE.zero] [false] (some 0) (some 1) Example.zero_row
      (two_cycle_find_leaf _ _ _)
  have hflat3 := (hflatpart (Example.flat_stump NODE_MODE.BRANCH_LEQ) [] 0 0 1
    NODE_MODE.BRANCH_LEQ hmode hflat).2 0 1 (by decide!) (by decide!) (by decide!)
  refine ⟨two_cycle_find_leaf _ _ _, hmode, hflat, ?_, hflat3⟩
  have h1 : deref (Example.two_cycle_ensemble [{ i := 0, value := NTYPE.num 5 }] []).nodes_
      (some 1) = .ok (Example.two_cycle_node1 []) := rfl
  rw [h1] at hnode
  have hn : node = Example.two_cycle_node1 [] := (Except.ok.inj hnode).symm
  subst hn
  exact hunchanged (by decide) rfl

/-! ## Accumulation of leaf weights, target by target -/

theorem vec_at_int_ofNat {α : Type} (v : List α) (k : Nat) (h : k < v.length) :
    vec_at_int v (k : Int) = .ok v[k] := by
  show vec_at v k = _
  simp [vec_at, List.getElem?_eq_getElem h]

theorem vec_set_int_ofNat {α : Type} (v : List α) (k : Nat) (a : α) (h : k < v.length) :
    vec_set_int v (k : Int) a = .ok (v.set k a) := by
  show (if k < v.length then Except.ok (v.set k a) else _) = _
  simp [h]

/-- A successful signed read comes from a natural index inside the vector. -/
theorem vec_at_int_ok {α : Type} (v : List α) (i : Int) (a : α) (h : vec_at_int v i = .ok a) :
    ∃ k : Nat, i = k ∧ k < v.length ∧ v[k]? = some a := by
  cases i with
  | ofNat k =>
    refine ⟨k, rfl, ?_⟩
    change vec_at v k = .ok a at h
    unfold vec_at at h
    cases hk : v[k]? with
    | none => simp [hk] at h
    | some b =>
      simp [hk] at h
      subst h
      exact ⟨(List.getElem?_eq_some_iff.mp hk).1, rfl⟩
  | negSucc k => simp [vec_at_int] at h

/-- A successful signed write hits a natural index inside the vector. -/
theorem vec_set_int_ok {α : Type} (v v2 : List α) (i : Int) (a : α)
    (h : vec_set_int v i a = .ok v2) :
    ∃ k : Nat, i = k ∧ k < v.length ∧ v2 = v.set k a := by
  cases i with
  | ofNat k =>
    refine ⟨k, rfl, ?_⟩
    change (if k < v.length then Except.ok (v.set k a) else _) = _ at h
    by_cases hk : k < v.length
    · simp [hk] at h
      exact ⟨hk, h.symm⟩
    · simp [hk] at h
  | negSucc k => simp [vec_set_int] at h

/-- The three accumulation steps written with the per-target update they perform. -/
theorem sum_weight_eq (p : List NTYPE) (h : List Bool) (w : SparseValue) (k : Nat)
    (hk : w.i = k) (hp : k < p.length) (hh : k < h.length) :
    sum_weight (p, h) w
      = .ok (p.set k (Spec.upd_sum (p[k], h[k]) w).1, h.set k (Spec.upd_sum (p[k], h[k]) w).2) := by
  simp [sum_weight, hk, vec_at_int_ofNat, vec_set_int_ofNat, hp, hh, Spec.upd_sum, bind,
    Except.bind, pure, Except.pure]

theorem min_weight_eq (p : List NTYPE) (h : List Bool) (w : SparseValue) (k : Nat)
    (hk : w.i = k) (hp : k < p.length) (hh : k < h.length) :
    min_weight (p, h) w
      = .ok (p.set k (Spec.upd_min (p[k], h[k]) w).1, h.set k (Spec.upd_min (p[k], h[k]) w).2) := by
  simp [min_weight, hk, vec_at_int_ofNat, vec_set_int_ofNat, hp, hh, Spec.upd_min, bind,
    Except.bind, pure, Except.pure]

theorem max_weight_eq (p : List NTYPE) (h : List Bool) (w : SparseValue) (k : Nat)
    (hk : w.i = k) (hp : k < p.length) (hh : k < h.length) :
    max_weight (p, h) w
      = .ok (p.set k (Spec.upd_max (p[k], h[k]) w).1, h.set k (Spec.upd_max (p[k], h[k]) w).2) := by
  simp [max_weight, hk, vec_at_int_ofNat, vec_set_int_ofNat, hp, hh, Spec.upd_max, bind,
    Except.bind, pure, Except.pure]

/-- Accumulating weights whose target indices are in range succeeds, keeps the extent of
both buffers, and leaves at every target the value its own history predicts. -/
theorem foldlM_pointwise (step : Buffers → SparseValue → Result Buffers)
    (upd : NTYPE × Bool → SparseValue → NTYPE × Bool)
    (hstep : ∀ (p : List NTYPE) (h : List Bool) (w : SparseValue) (k : Nat)
      (_ : w.i = k) (hp : k < p.length) (hh : k < h.length),
      step (p, h) w = .ok (p.set k (upd (p[k], h[k]) w).1, h.set k (upd (p[k], h[k]) w).2))
    (n : Nat) :
    ∀ (ws : List SparseValue) (p : List NTYPE) (h : List Bool),
      p.length = n → h.length = n → (∀ w ∈ ws, 0 ≤ w.i ∧ w.i < (n : Int)) →
      ∃ p2 h2, ws.foldlM step (p, h) = .ok (p2, h2) ∧ p2.length = n ∧ h2.length = n ∧
        ∀ (i : Nat) (s : NTYPE) (b : Bool), p[i]? = some s → h[i]? = some b →
          p2[i]? = some (Spec.track upd ws i (s, b)).1 ∧
          h2[i]? = some (Spec.track upd ws i (s, b)).2 := by
  intro ws
  induction ws with
  | nil =>
    intro p h hp hh _
    exact ⟨p, h, rfl, hp, hh, fun i s b hs hb => ⟨by simpa [Spec.track] using hs,
      by simpa [Spec.track] using hb⟩⟩
  | cons w rest ih =>
    intro p h hp hh hr
    have hw := hr w (List.mem_cons_self _ _)
    obtain ⟨k, hk⟩ := Int.eq_ofNat_of_zero_le hw.1
    have hkn : k < n := by
      have := hw.2
      rw [hk] at this
      exact_mod_cast this
    have hkp : k < p.length := hp ▸ hkn
    have hkh : k < h.length := hh ▸ hkn
    have h1 := hstep p h w k hk hkp hkh
    obtain ⟨p2, h2, hfold, hp2, hh2, hval⟩ :=
      ih (p.set k (upd (p[k], h[k]) w).1) (h.set k (upd (p[k], h[k]) w).2)
        (by simp [hp]) (by simp [hh]) (fun w2 hw2 => hr w2 (List.mem_cons_of_mem _ hw2))
    refine ⟨p2, h2, ?_, hp2, hh2, ?_⟩
    · rw [List.foldlM_cons, h1]
      exact hfold
    · intro i s b hs hb
      by_cases hik : k = i
      · subst hik
        have hs2 : p[k] = s := by
          rw [List.getElem?_eq_getElem hkp] at hs
          exact Option.some.inj hs
        have hb2 : h[k] = b := by
          rw [List.getElem?_eq_getElem hkh] at hb
          exact Option.some.inj hb
        have := hval k (upd (s, b) w).1 (upd (s, b) w).2
          (by simp [List.getElem?_set, hkp, hs2, hb2])
          (by simp [List.getElem?_set, hkh, hs2, hb2])
        simpa [Spec.track, hk] using this
      · have hne : ¬ (w.i = (i : Int)) := by
          rw [hk]
          intro hcontra
          exact hik (by exact_mod_cast hcontra)
        have := hval i s b
          (by simp [List.getElem?_set, hik, hs])
          (by simp [List.getElem?_set, hik, hb])
        simpa [Spec.track, hne] using this

/-- Handing the leaves one by one to a `ProcessTreeNodePrediction` method accumulates their
weights in order. -/
theorem accumulate_leaves_eq (step : Buffers → SparseValue → Result Buffers)
    (process : List NTYPE → TreeNodeElement → List Bool → Result Buffers)
    (hproc : ∀ p leaf h, process p leaf h = leaf.weights.foldlM step (p, h)) :
    ∀ (leaves : List TreeNodeElement) (b : Buffers),
      accumulate_leaves process leaves b = (Spec.accumulated leaves).foldlM step b := by
  intro leaves
  induction leaves with
  | nil => intro b; rfl
  | cons leaf rest ih =>
    intro b
    have hacc : Spec.accumulated (leaf :: rest) = leaf.weights ++ Spec.accumulated rest := by
      simp [Spec.accumulated]
    rw [hacc, List.foldlM_append]
    show (process b.1 leaf b.2 >>= fun acc => accumulate_leaves process rest acc) = _
    rw [hproc]
    cases hstep : leaf.weights.foldlM step (b.1, b.2) with
    | error e => rfl
    | ok acc => exact ih acc

theorem NTYPE.add_zero (a : NTYPE) : NTYPE.add a NTYPE.zero = a := by
  cases a <;> simp [NTYPE.add, NTYPE.zero]

theorem Spec.track_sum (ws : List SparseValue) (i : Int) :
    ∀ (s : NTYPE) (b : Bool),
      Spec.track Spec.upd_sum ws i (s, b)
        = (Spec.weight_sum_from s ws i, b || Spec.names ws i) := by
  induction ws with
  | nil => intro s b; simp [Spec.track, Spec.weight_sum_from, Spec.names]
  | cons w rest ih =>
    intro s b
    by_cases hw : w.i = i
    · have := ih (NTYPE.add s w.value) true
      simp only [Spec.track, Spec.weight_sum_from, Spec.names, List.foldl_cons, hw, if_true,
        Spec.upd_sum, List.any_cons, decide_True, Bool.true_or, Bool.or_true] at this ⊢
      exact this
    · have := ih s b
      simp only [Spec.track, Spec.weight_sum_from, Spec.names, List.foldl_cons, hw, if_false,
        List.any_cons, decide_False, Bool.false_or] at this ⊢
      exact this

theorem Spec.weight_sum_from_of_not_names (ws : List SparseValue) (i : Int)
    (h : Spec.names ws i = false) : ∀ s, Spec.weight_sum_from s ws i = s := by
  induction ws with
  | nil => intro s; rfl
  | cons w rest ih =>
    intro s
    simp only [Spec.names, List.any_cons, Bool.or_eq_false_iff, decide_eq_false_iff_not] at h
    simp only [Spec.weight_sum_from, List.foldl_cons, h.1, if_false]
    exact ih h.2 s

/-- The base-value loop of the SUM aggregator adds the base value of the same position. -/
theorem _AggregatorSum.add_base_values_ok :
    ∀ (scores base_values : List NTYPE), scores.length ≤ base_values.length →
      ∃ out, _AggregatorSum.add_base_values scores base_values = .ok out ∧
        out.length = scores.length ∧
        ∀ (i : Nat) (s : NTYPE), scores[i]? = some s →
          out[i]? = some (NTYPE.add s (base_values.getD i NTYPE.zero)) := by
  intro scores
  induction scores with
  | nil => intro bv _; exact ⟨[], rfl, rfl, fun i s h => by simp at h⟩
  | cons s0 rest ih =>
    intro bv hlen
    cases bv with
    | nil => simp at hlen
    | cons v vs =>
      obtain ⟨out, hout, hl, hval⟩ := ih vs (by simpa using hlen)
      refine ⟨NTYPE.add s0 v :: out, ?_, by simp [hl], ?_⟩
      · simp [_AggregatorSum.add_base_values, hout, bind, Except.bind, pure, Except.pure]
      · intro i s hs
        cases i with
        | zero =>
          simp at hs
          simp [hs]
        | succ j =>
          simp at hs
          simpa using hval j s hs

/-- C5. For the SUM aggregator built for `n` targets, accumulating any sequence of leaves
whose target indices lie in `[0, n)` into zero-initialised buffers succeeds; the flag of
target `i` is set exactly when some accumulated weight names `i`, the score of target `i` is
the sum `s[i]` of the accumulated weights naming `i`, and `FinalizeScores` hands to
`write_scores` the vector whose entry `i` is
`(has[i] ? s[i] : 0) + (use_bv ? base_values[i] : 0)` with
`use_bv = (base_values.len() == n)`, together with the post-transform and the
`add_second_class` it was given. -/
theorem C5_sum_finalize_scores (n_trees n : Nat) (post : POST_EVAL_TRANSFORM)
    (base_values : List NTYPE) (leaves : List TreeNodeElement) (add_second_class : Int)
    (hrange : ∀ w ∈ Spec.accumulated leaves, 0 ≤ w.i ∧ w.i < (n : Int)) :
    ∃ s has call,
      accumulate_leaves _AggregatorSum.ProcessTreeNodePrediction leaves
        (List.replicate n NTYPE.zero, List.replicate n false) = .ok (s, has) ∧
      _AggregatorSum.FinalizeScores (_Aggregator.new n_trees n post base_values) s has
        add_second_class = .ok call ∧
      call.post_transform = post ∧ call.add_second_class = add_second_class ∧
      call.scores.length = n ∧
      ∀ i < n,
        has[i]? = some (Spec.names (Spec.accumulated leaves) i) ∧
        s[i]? = some (Spec.weight_sum (Spec.accumulated leaves) i) ∧
        call.scores[i]? = some
          (NTYPE.add
            (if Spec.names (Spec.accumulated leaves) i
              then Spec.weight_sum (Spec.accumulated leaves) i else NTYPE.zero)
            (if base_values.length = n then base_values.getD i NTYPE.zero else NTYPE.zero)) := by
  obtain ⟨s, has, hfold, hs, hh, hval⟩ :=
    foldlM_pointwise sum_weight Spec.upd_sum sum_weight_eq n (Spec.accumulated leaves)
      (List.replicate n NTYPE.zero) (List.replicate n false) (by simp) (by simp) hrange
  have hacc := accumulate_leaves_eq sum_weight _AggregatorSum.ProcessTreeNodePrediction
    (fun _ _ _ => rfl) leaves (List.replicate n NTYPE.zero, List.replicate n false)
  have hpoint : ∀ i < n,
      has[i]? = some (Spec.names (Spec.accumulated leaves) i) ∧
      s[i]? = some (Spec.weight_sum (Spec.accumulated leaves) i) := by
    intro i hi
    have := hval i NTYPE.zero false (by simp [List.getElem?_replicate, hi])
      (by simp [List.getElem?_replicate, hi])
    rw [Spec.track_sum] at this
    exact ⟨by simpa using this.2, this.1⟩
  have hite : ∀ i : Nat,
      (if Spec.names (Spec.accumulated leaves) i
        then Spec.weight_sum (Spec.accumulated leaves) i else NTYPE.zero)
      = Spec.weight_sum (Spec.accumulated leaves) i := by
    intro i
    cases hn : Spec.names (Spec.accumulated leaves) i with
    | true => simp
    | false =>
      simp only [Bool.false_eq_true, if_false]
      exact (Spec.weight_sum_from_of_not_names _ _ hn NTYPE.zero).symm
  by_cases hbv : base_values.length = n
  · obtain ⟨out, hout, hl, hov⟩ := _AggregatorSum.add_base_values_ok s base_values
      (by rw [hs, hbv])
    refine ⟨s, has, ⟨out, post, add_second_class⟩, hacc.trans hfold, ?_, rfl, rfl,
      by simp [hl, hs], ?_⟩
    · simp [_AggregatorSum.FinalizeScores, _Aggregator.new, hbv, hout, bind, Except.bind,
        pure, Except.pure]
    · intro i hi
      obtain ⟨h1, h2⟩ := hpoint i hi
      refine ⟨h1, h2, ?_⟩
      rw [hite i, if_pos hbv]
      exact hov i _ h2
  · refine ⟨s, has, ⟨s, post, add_second_class⟩, hacc.trans hfold, ?_, rfl, rfl, hs, ?_⟩
    · have hbv2 : ¬ ((base_values.length : Int) = (n : Int)) := by
        intro hcontra
        exact hbv (by exact_mod_cast hcontra)
      simp [_AggregatorSum.FinalizeScores, _Aggregator.new, hbv2, bind, Except.bind, pure,
        Except.pure]
    · intro i hi
      obtain ⟨h1, h2⟩ := hpoint i hi
      refine ⟨h1, h2, ?_⟩
      rw [hite i, if_neg hbv, NTYPE.add_zero]
      exact h2

/-- C5 (witness): the statement applied to two leaves of a two-target regressor with base
values `[1, 10]`. -/
theorem C5_sum_finalize_scores_witness :
    (∀ w ∈ Spec.accumulated Example.two_leaves, 0 ≤ w.i ∧ w.i < ((2 : Nat) : Int)) ∧
    ∃ s has call,
      accumulate_leaves _AggregatorSum.ProcessTreeNodePrediction Example.two_leaves
        (List.replicate 2 NTYPE.zero, List.replicate 2 false) = .ok (s, has) ∧
      _AggregatorSum.FinalizeScores
        (_Aggregator.new 2 2 POST_EVAL_TRANSFORM.NONE [NTYPE.num 1, NTYPE.num 10]) s has (-1)
        = .ok call ∧
      call.scores.length = 2 := by
  have hr : ∀ w ∈ Spec.accumulated Example.two_leaves, 0 ≤ w.i ∧ w.i < ((2 : Nat) : Int) := by
    decide
  obtain ⟨s, has, call, h1, h2, -, -, h3, -⟩ :=
    C5_sum_finalize_scores 2 2 POST_EVAL_TRANSFORM.NONE [NTYPE.num 1, NTYPE.num 10]
      Example.two_leaves (-1) hr
  exact ⟨hr, s, has, call, h1, h2, h3⟩

/-! ## AVERAGE against SUM -/

theorem NTYPE.zero_add (a : NTYPE) : NTYPE.add NTYPE.zero a = a := by
  cases a <;> simp [NTYPE.add, NTYPE.zero]

theorem NTYPE.divNat_zero (n : Nat) : NTYPE.divNat NTYPE.zero n = NTYPE.zero := by
  simp [NTYPE.divNat, NTYPE.zero]

/-- The base-value loop of the AVERAGE aggregator divides by the number of trees and adds
the base value of the same position. -/
theorem _AggregatorAverage.average_add_base_values_ok (n_trees : Nat) :
    ∀ (scores base_values : List NTYPE), scores.length ≤ base_values.length →
      ∃ out, _AggregatorAverage.average_add_base_values n_trees scores base_values = .ok out ∧
        out.length = scores.length ∧
        ∀ (i : Nat) (s : NTYPE), scores[i]? = some s →
          out[i]? = some (NTYPE.add (NTYPE.divNat s n_trees) (base_values.getD i NTYPE.zero)) := by
  intro scores
  induction scores with
  | nil => intro bv _; exact ⟨[], rfl, rfl, fun i s h => by simp at h⟩
  | cons s0 rest ih =>
    intro bv hlen
    cases bv with
    | nil => simp at hlen
    | cons v vs =>
      obtain ⟨out, hout, hl, hval⟩ := ih vs (by simpa using hlen)
      refine ⟨NTYPE.add (NTYPE.divNat s0 n_trees) v :: out, ?_, by simp [hl], ?_⟩
      · simp [_AggregatorAverage.average_add_base_values, hout, bind, Except.bind, pure,
          Except.pure]
      · intro i s hs
        cases i with
        | zero =>
          simp at hs
          simp [hs]
        | succ j =>
          simp at hs
          simpa using hval j s hs

namespace RuntimeTreeEnsembleRegressorP

theorem sum_weight_untouched (b b2 : Buffers) (w : SparseValue)
    (h : sum_weight b w = .ok b2) (hinv : Untouched b) : Untouched b2 := by
  obtain ⟨p, hs⟩ := b
  unfold sum_weight at h
  cases h1 : vec_at_int p w.i with
  | error e => simp [h1, bind, Except.bind] at h
  | ok v =>
    cases h2 : vec_set_int p w.i (NTYPE.add v w.value) with
    | error e => simp [h1, h2, bind, Except.bind] at h
    | ok p2 =>
      cases h3 : vec_set_int hs w.i true with
      | error e => simp [h1, h2, h3, bind, Except.bind] at h
      | ok hs2 =>
        simp [h1, h2, h3, bind, Except.bind, pure, Except.pure] at h
        subst h
        obtain ⟨k, hk, hkp, hp2⟩ := vec_set_int_ok _ _ _ _ h2
        obtain ⟨k2, hk2, hkh, hh2⟩ := vec_set_int_ok _ _ _ _ h3
        have hkk : k2 = k := by
          have : (k2 : Int) = (k : Int) := hk2.symm.trans hk
          exact_mod_cast this
        subst hkk
        intro i hi
        simp only [hh2, hp2] at hi ⊢
        by_cases hik : k2 = i
        · subst hik
          simp [List.getElem?_set, hkh] at hi
        · simp only [List.getElem?_set, hik, if_false] at hi ⊢
          exact hinv i hi

theorem foldlM_sum_weight_untouched :
    ∀ (ws : List SparseValue) (b b2 : Buffers),
      ws.foldlM sum_weight b = .ok b2 → Untouched b → Untouched b2 := by
  intro ws
  induction ws with
  | nil =>
    intro b b2 h hinv
    simp [List.foldlM, pure, Except.pure] at h
    exact h ▸ hinv
  | cons w rest ih =>
    intro b b2 h hinv
    rw [List.foldlM_cons] at h
    cases h1 : sum_weight b w with
    | error e => simp [h1, bind, Except.bind] at h
    | ok b1 =>
      simp only [h1, bind, Except.bind] at h
      exact ih b1 b2 h (sum_weight_untouched b b1 w h1 hinv)

/-- The walker of an AVERAGE ensemble accumulates exactly as the walker of the same ensemble
with the SUM aggregate. -/
theorem ProcessTreeNode_average (self : RuntimeTreeEnsembleRegressorP)
    (havg : self.aggregate_function_ = AGGREGATE_FUNCTION.AVERAGE)
    (p : List NTYPE) (root : Option Nat) (x : Int → NTYPE) (h : List Bool) :
    ProcessTreeNode self p root x h
      = ProcessTreeNode { self with aggregate_function_ := AGGREGATE_FUNCTION.SUM } p root x h := by
  cases self
  simp only at havg
  subst havg
  rfl

theorem walk_roots_average (self : RuntimeTreeEnsembleRegressorP)
    (havg : self.aggregate_function_ = AGGREGATE_FUNCTION.AVERAGE)
    (x : Int → NTYPE) (b : Buffers) :
    walk_roots self x b
      = walk_roots { self with aggregate_function_ := AGGREGATE_FUNCTION.SUM } x b := by
  unfold walk_roots
  have hfun : (fun (acc : Buffers) (r : Nat) => ProcessTreeNode self acc.1 (some r) x acc.2)
      = (fun (acc : Buffers) (r : Nat) =>
          ProcessTreeNode { self with aggregate_function_ := AGGREGATE_FUNCTION.SUM }
            acc.1 (some r) x acc.2) := by
    funext acc r
    exact ProcessTreeNode_average self havg _ _ _ _
  rw [hfun]

/-- Walking the roots of a SUM ensemble never leaves a score at a target whose flag is
clear. -/
theorem walk_roots_sum_untouched (self : RuntimeTreeEnsembleRegressorP)
    (hsum : self.aggregate_function_ = AGGREGATE_FUNCTION.SUM) (x : Int → NTYPE) :
    ∀ (roots : List Nat) (b b2 : Buffers),
      roots.foldlM (fun acc r => ProcessTreeNode self acc.1 (some r) x acc.2) b = .ok b2 →
      Untouched b → Untouched b2 := by
  intro roots
  induction roots with
  | nil =>
    intro b b2 h hinv
    simp [List.foldlM, pure, Except.pure] at h
    exact h ▸ hinv
  | cons r rest ih =>
    intro b b2 h hinv
    rw [List.foldlM_cons] at h
    cases h1 : ProcessTreeNode self b.1 (some r) x b.2 with
    | error e => simp [h1, bind, Except.bind] at h
    | ok b1 =>
      simp only [h1, bind, Except.bind] at h
      refine ih b1 b2 h ?_
      unfold ProcessTreeNode at h1
      cases h2 : find_leaf self (some r) x with
      | error e => simp [h2, bind, Except.bind] at h1
      | ok stop =>
        cases h3 : deref self.nodes_ stop with
        | error e => simp [h2, h3, bind, Except.bind] at h1
        | ok node =>
          simp only [h2, h3, bind, Except.bind, hsum, aggregate] at h1
          exact foldlM_sum_weight_untouched node.weights _ b1 h1 hinv

end RuntimeTreeEnsembleRegressorP

open RuntimeTreeEnsembleRegressorP in
/-- C6. Let `n_trees >= 1`. For every accumulated score vector of an aggregator for `n`
targets, `_AggregatorAverage::FinalizeScores` hands to `write_scores` the vector whose entry
`i` is `scores[i] / n_trees + base_values[i]` when base values are used
(`base_values.len() == n`) and `scores[i] / n_trees` otherwise, where `scores` is what the
SUM accumulation (inherited by the AVERAGE aggregator) produced; `FinalizeScores1` returns
`val / n_trees + origin`. In the single-target branch of the regressor, an AVERAGE ensemble
yields `s / roots_.size() + origin`, where `s` is the score the same ensemble accumulates
under SUM. Scenario 2 of the specification (weights 3.0 and 5.0, base value 1.0) gives 5.0
on each of the three paths. -/
theorem C6_average_is_sum_over_n_trees (n_trees n : Nat) (_hn : 1 ≤ n_trees)
    (post : POST_EVAL_TRANSFORM) (base_values scores : List NTYPE) (has_scores : List Bool)
    (add_second_class : Int) (hlen : scores.length = n) :
    (∃ call,
      _AggregatorAverage.FinalizeScores (_Aggregator.new n_trees n post base_values) scores
        has_scores add_second_class = .ok call ∧
      call.scores.length = n ∧
      ∀ i < n, ∀ si, scores[i]? = some si →
        call.scores[i]? = some
          (if base_values.length = n
            then NTYPE.add (NTYPE.divNat si n_trees) (base_values.getD i NTYPE.zero)
            else NTYPE.divNat si n_trees)) ∧
    (∀ (val : NTYPE) (has_score : Bool),
      _AggregatorAverage.FinalizeScores1 (_Aggregator.new n_trees n post base_values) val
          has_score
        = NTYPE.add (NTYPE.divNat val n_trees)
            (if base_values.length = 1 then base_values.headD NTYPE.zero else NTYPE.zero)) ∧
    (∀ (self : RuntimeTreeEnsembleRegressorP) (x : Int → NTYPE) (s : NTYPE) (h : Bool),
      self.aggregate_function_ = AGGREGATE_FUNCTION.AVERAGE →
      walk_roots { self with aggregate_function_ := AGGREGATE_FUNCTION.SUM } x
        ([NTYPE.zero], [false]) = .ok ([s], [h]) →
      row_val_single self x
        = .ok (NTYPE.add (NTYPE.divNat s self.roots_.length)
            (if self.base_values_.length = 1 then self.base_values_.headD NTYPE.zero
             else NTYPE.zero))) ∧
    (accumulate_leaves _AggregatorSum.ProcessTreeNodePrediction Example.leaves_3_5
        ([NTYPE.zero], [false]) = .ok ([NTYPE.num 8], [true]) ∧
      _AggregatorAverage.FinalizeScores
        (_Aggregator.new 2 1 POST_EVAL_TRANSFORM.NONE [NTYPE.num 1]) [NTYPE.num 8] [true] (-1)
        = .ok { scores := [NTYPE.num 5], post_transform := POST_EVAL_TRANSFORM.NONE,
                add_second_class := -1 } ∧
      _AggregatorAverage.FinalizeScores1
        (_Aggregator.new 2 1 POST_EVAL_TRANSFORM.NONE [NTYPE.num 1]) (NTYPE.num 8) true
        = NTYPE.num 5 ∧
      init (Example.two_tree_regressor "AVERAGE")
        = .ok (Example.two_tree_ensemble AGGREGATE_FUNCTION.AVERAGE) ∧
      row_val_single (Example.two_tree_ensemble AGGREGATE_FUNCTION.AVERAGE) Example.zero_row
        = .ok (NTYPE.num 5)) := by
  refine ⟨?_, ?_, ?_, by decide!⟩
  · by_cases hbv : base_values.length = n
    · obtain ⟨out, hout, hl, hov⟩ :=
        _AggregatorAverage.average_add_base_values_ok n_trees scores base_values
          (by rw [hlen, hbv])
      refine ⟨⟨out, post, add_second_class⟩, ?_, by simp [hl, hlen], ?_⟩
      · simp [_AggregatorAverage.FinalizeScores, _Aggregator.new, hbv, hout, bind,
          Except.bind, pure, Except.pure]
      · intro i _ si hsi
        rw [if_pos hbv]
        exact hov i si hsi
    · have hbv2 : ¬ ((base_values.length : Int) = (n : Int)) := by
        intro hcontra
        exact hbv (by exact_mod_cast hcontra)
      refine ⟨⟨scores.map (fun s => NTYPE.divNat s n_trees), post, add_second_class⟩, ?_,
        by simp [hlen], ?_⟩
      · simp [_AggregatorAverage.FinalizeScores, _Aggregator.new, hbv2, bind, Except.bind,
          pure, Except.pure]
      · intro i _ si hsi
        rw [if_neg hbv]
        simp [List.getElem?_map, hsi]
  · intro val has_score
    simp [_AggregatorAverage.FinalizeScores1, _Aggregator.new]
  · intro self x s h havg hsum
    have hwalk := walk_roots_average self havg x ([NTYPE.zero], [false])
    rw [hsum] at hwalk
    have hinv : Untouched ([s], [h]) :=
      walk_roots_sum_untouched { self with aggregate_function_ := AGGREGATE_FUNCTION.SUM } rfl
        x self.roots_ ([NTYPE.zero], [false]) ([s], [h]) hsum
        (by
          intro i hi
          cases i with
          | zero => rfl
          | succ j => simp at hi)
    have hs0 : h = false → s = NTYPE.zero := by
      intro hf
      have := hinv 0 (by simp [hf])
      simpa using this
    by_cases hone : self.base_values_.length = 1
    · obtain ⟨v, hv⟩ : ∃ v, self.base_values_ = [v] := List.length_eq_one.mp hone
      cases h with
      | true =>
        simp [row_val_single, hwalk, havg, hv, vec_at, bind, Except.bind, pure, Except.pure]
      | false =>
        rw [hs0 rfl]
        simp [row_val_single, hwalk, hv, vec_at, bind, Except.bind, pure, Except.pure,
          NTYPE.divNat_zero, NTYPE.zero_add]
    · cases h with
      | true =>
        simp [row_val_single, hwalk, havg, hone, vec_at, bind, Except.bind, pure, Except.pure]
      | false =>
        rw [hs0 rfl]
        simp [row_val_single, hwalk, hone, vec_at, bind, Except.bind, pure, Except.pure,
          NTYPE.divNat_zero, NTYPE.zero_add]

open RuntimeTreeEnsembleRegressorP in
/-- C6 (witness): the statement applied to two trees, one target, base value 1.0, the
accumulated score 8 and the two-tree AVERAGE ensemble of scenario 2. -/
theorem C6_average_is_sum_over_n_trees_witness :
    1 ≤ 2 ∧ [NTYPE.num 8].length = 1 ∧
    (Example.two_tree_ensemble AGGREGATE_FUNCTION.AVERAGE).aggregate_function_
      = AGGREGATE_FUNCTION.AVERAGE ∧
    walk_roots
      { Example.two_tree_ensemble AGGREGATE_FUNCTION.AVERAGE with
        aggregate_function_ := AGGREGATE_FUNCTION.SUM }
      Example.zero_row ([NTYPE.zero], [false]) = .ok ([NTYPE.num 8], [true]) ∧
    row_val_single (Example.two_tree_ensemble AGGREGATE_FUNCTION.AVERAGE) Example.zero_row
      = .ok (NTYPE.add
          (NTYPE.divNat (NTYPE.num 8)
            (Example.two_tree_ensemble AGGREGATE_FUNCTION.AVERAGE).roots_.length)
          (if (Example.two_tree_ensemble AGGREGATE_FUNCTION.AVERAGE).base_values_.length = 1
            then (Example.two_tree_ensemble AGGREGATE_FUNCTION.AVERAGE).base_values_.headD
              NTYPE.zero
            else NTYPE.zero)) := by
  have hw : walk_roots
      { Example.two_tree_ensemble AGGREGATE_FUNCTION.AVERAGE with
        aggregate_function_ := AGGREGATE_FUNCTION.SUM }
      Example.zero_row ([NTYPE.zero], [false]) = .ok ([NTYPE.num 8], [true]) := by decide!
  exact ⟨by decide, rfl, rfl, hw,
    (C6_average_is_sum_over_n_trees 2 1 (by decide) POST_EVAL_TRANSFORM.NONE [NTYPE.num 1]
      [NTYPE.num 8] [true] (-1) rfl).2.2.1
      (Example.two_tree_ensemble AGGREGATE_FUNCTION.AVERAGE) Example.zero_row (NTYPE.num 8)
      true rfl hw⟩

/-! ## MIN and MAX accumulation -/

theorem NTYPE.lt_irrefl (a : NTYPE) : NTYPE.lt a a = false := by
  cases a <;> simp [NTYPE.lt]

theorem NTYPE.gt_irrefl (a : NTYPE) : NTYPE.gt a a = false := by
  cases a <;> simp [NTYPE.gt]

theorem NTYPE.lt_of_not_lt_of_lt (a v w : NTYPE) (h1 : NTYPE.lt a v = false)
    (h2 : NTYPE.lt w v = true) : NTYPE.lt a w = false := by
  cases a <;> cases v <;> cases w <;> simp [NTYPE.lt] at h1 h2 ⊢
  exact le_trans (le_of_lt h2) h1

theorem NTYPE.gt_of_not_gt_of_gt (a v w : NTYPE) (h1 : NTYPE.gt a v = false)
    (h2 : NTYPE.gt w v = true) : NTYPE.gt a w = false := by
  cases a <;> cases v <;> cases w <;> simp [NTYPE.gt] at h1 h2 ⊢
  exact le_trans h1 (le_of_lt h2)

/-- The history of one target under a keep-the-better update: the flag tells whether some
weight named the target, and the kept value is one of the weights naming it which no weight
naming it beats. -/
theorem Spec.track_extremum (cmp : NTYPE → NTYPE → Bool)
    (upd : NTYPE × Bool → SparseValue → NTYPE × Bool)
    (hupd : ∀ s w, upd s w = (if !s.2 || cmp w.value s.1 then w.value else s.1, true))
    (hirr : ∀ a, cmp a a = false)
    (htr : ∀ a v w, cmp a v = false → cmp w v = true → cmp a w = false)
    (i : Int) :
    ∀ (ws pre : List SparseValue) (s : NTYPE × Bool),
      (s.2 = Spec.names pre i ∧
        (s.2 = true → (∃ w ∈ pre, w.i = i ∧ w.value = s.1) ∧
          ∀ w ∈ pre, w.i = i → cmp w.value s.1 = false)) →
      ((Spec.track upd ws i s).2 = Spec.names (pre ++ ws) i ∧
        ((Spec.track upd ws i s).2 = true →
          (∃ w ∈ pre ++ ws, w.i = i ∧ w.value = (Spec.track upd ws i s).1) ∧
          ∀ w ∈ pre ++ ws, w.i = i → cmp w.value (Spec.track upd ws i s).1 = false)) := by
  intro ws
  induction ws with
  | nil => intro pre s h; simpa [Spec.track] using h
  | cons w rest ih =>
    intro pre s h
    have hgoal := ih (pre ++ [w]) (if w.i = i then upd s w else s) ?_
    · simpa [Spec.track, List.append_assoc] using hgoal
    · obtain ⟨v, b⟩ := s
      obtain ⟨hb, hrest⟩ := h
      simp only at hb hrest
      by_cases hw : w.i = i
      · simp only [hw, if_true, hupd]
        refine ⟨by simp [Spec.names, hw], fun _ => ?_⟩
        cases b with
        | false =>
          have hnone : ∀ w2 ∈ pre, ¬ (w2.i = i) := by
            intro w2 hw2 hcontra
            have : Spec.names pre i = true := by
              simp only [Spec.names, List.any_eq_true, decide_eq_true_eq]
              exact ⟨w2, hw2, hcontra⟩
            rw [← hb] at this
            exact Bool.false_ne_true this
          refine ⟨⟨w, by simp, hw, by simp⟩, ?_⟩
          intro w2 hw2 hi2
          simp only [List.mem_append, List.mem_singleton] at hw2
          rcases hw2 with hw2 | hw2
          · exact absurd hi2 (hnone w2 hw2)
          · subst hw2
            simpa using hirr w2.value
        | true =>
          obtain ⟨⟨w0, hw0, hi0, hv0⟩, hall⟩ := hrest rfl
          cases hc : cmp w.value v with
          | true =>
            refine ⟨⟨w, by simp, hw, by simp [hc]⟩, ?_⟩
            intro w2 hw2 hi2
            simp only [List.mem_append, List.mem_singleton] at hw2
            simp only [Bool.not_true, Bool.false_or, hc, if_true]
            rcases hw2 with hw2 | hw2
            · exact htr _ _ _ (hall w2 hw2 hi2) hc
            · subst hw2
              exact hirr w2.value
          | false =>
            refine ⟨⟨w0, by simp [hw0], hi0, by simp [hc, hv0]⟩, ?_⟩
            intro w2 hw2 hi2
            simp only [List.mem_append, List.mem_singleton] at hw2
            simp only [Bool.not_true, Bool.false_or, hc, Bool.false_eq_true, if_false]
            rcases hw2 with hw2 | hw2
            · exact hall w2 hw2 hi2
            · subst hw2
              exact hc
      · simp only [hw, if_false]
        refine ⟨by simp [Spec.names, hw, hb], fun hbt => ?_⟩
        obtain ⟨⟨w0, hw0, hi0, hv0⟩, hall⟩ := hrest hbt
        refine ⟨⟨w0, by simp [hw0], hi0, hv0⟩, ?_⟩
        intro w2 hw2 hi2
        simp only [List.mem_append, List.mem_singleton] at hw2
        rcases hw2 with hw2 | hw2
        · exact hall w2 hw2 hi2
        · subst hw2
          exact absurd hi2 hw

/-- Accumulating in-range weights with a keep-the-better step into fresh zeroed buffers
succeeds, sets exactly the flags of the targets named, and leaves at each of them an
extremum of the weights naming it. -/
theorem accumulate_extremum (better : NTYPE → NTYPE → Bool)
    (step : Buffers → SparseValue → Result Buffers)
    (upd : NTYPE × Bool → SparseValue → NTYPE × Bool)
    (process : List NTYPE → TreeNodeElement → List Bool → Result Buffers)
    (hstep : ∀ (p : List NTYPE) (h : List Bool) (w : SparseValue) (k : Nat)
      (_ : w.i = k) (hp : k < p.length) (hh : k < h.length),
      step (p, h) w = .ok (p.set k (upd (p[k], h[k]) w).1, h.set k (upd (p[k], h[k]) w).2))
    (hupd : ∀ s w, upd s w = (if !s.2 || better w.value s.1 then w.value else s.1, true))
    (hirr : ∀ a, better a a = false)
    (htr : ∀ a v w, better a v = false → better w v = true → better a w = false)
    (hproc : ∀ p leaf h, process p leaf h = leaf.weights.foldlM step (p, h))
    (n : Nat) (leaves : List TreeNodeElement)
    (hrange : ∀ w ∈ Spec.accumulated leaves, 0 ≤ w.i ∧ w.i < (n : Int)) :
    ∃ pred has,
      accumulate_leaves process leaves (List.replicate n NTYPE.zero, List.replicate n false)
        = .ok (pred, has) ∧
      pred.length = n ∧ has.length = n ∧
      ∀ i < n,
        has[i]? = some (Spec.names (Spec.accumulated leaves) i) ∧
        (Spec.names (Spec.accumulated leaves) i = true →
          ∃ v, pred[i]? = some v ∧ Spec.is_extremum better (Spec.accumulated leaves) i v) := by
  obtain ⟨p, h, hfold, hp, hh, hval⟩ :=
    foldlM_pointwise step upd hstep n (Spec.accumulated leaves)
      (List.replicate n NTYPE.zero) (List.replicate n false) (by simp) (by simp) hrange
  have hacc := accumulate_leaves_eq step process hproc leaves
    (List.replicate n NTYPE.zero, List.replicate n false)
  refine ⟨p, h, hacc.trans hfold, hp, hh, ?_⟩
  intro i hi
  obtain ⟨hpi, hhi⟩ := hval i NTYPE.zero false (by simp [List.getElem?_replicate, hi])
    (by simp [List.getElem?_replicate, hi])
  have htrack := Spec.track_extremum better upd hupd hirr htr (i : Int)
    (Spec.accumulated leaves) [] (NTYPE.zero, false)
    ⟨by simp [Spec.names], fun hf => absurd hf (by simp)⟩
  simp only [List.nil_append] at htrack
  refine ⟨by rw [hhi, htrack.1], fun hn => ?_⟩
  exact ⟨_, hpi, htrack.2 (htrack.1.trans hn)⟩

/-- C7. For the MIN aggregator (respectively MAX), accumulating any sequence of leaves whose
target indices lie in `[0, n)` into fresh zeroed buffers succeeds; for every target `i` the
flag `has[i]` is set exactly when some accumulated weight names `i`, and then `pred[i]` is
one of the accumulated weights naming `i` and no accumulated weight naming `i` is smaller
(respectively greater): for weights that are numbers, `pred[i]` is their minimum
(respectively maximum). Scenario 5 of the specification (weights 2 and 5 for target 0, 7 and
3 for target 1) gives `[2, 3]` under MIN and `[5, 7]` under MAX. -/
theorem C7_min_max_accumulate (n : Nat) (leaves : List TreeNodeElement)
    (hrange : ∀ w ∈ Spec.accumulated leaves, 0 ≤ w.i ∧ w.i < (n : Int)) :
    (∃ pred has,
      accumulate_leaves _AggregatorMin.ProcessTreeNodePrediction leaves
        (List.replicate n NTYPE.zero, List.replicate n false) = .ok (pred, has) ∧
      pred.length = n ∧ has.length = n ∧
      ∀ i < n,
        has[i]? = some (Spec.names (Spec.accumulated leaves) i) ∧
        (Spec.names (Spec.accumulated leaves) i = true →
          ∃ v, pred[i]? = some v ∧ Spec.is_extremum NTYPE.lt (Spec.accumulated leaves) i v)) ∧
    (∃ pred has,
      accumulate_leaves _AggregatorMax.ProcessTreeNodePrediction leaves
        (List.replicate n NTYPE.zero, List.replicate n false) = .ok (pred, has) ∧
      pred.length = n ∧ has.length = n ∧
      ∀ i < n,
        has[i]? = some (Spec.names (Spec.accumulated leaves) i) ∧
        (Spec.names (Spec.accumulated leaves) i = true →
          ∃ v, pred[i]? = some v ∧ Spec.is_extremum NTYPE.gt (Spec.accumulated leaves) i v)) ∧
    (∀ (ws : List SparseValue) (i : Int) (m : ℚ),
      (Spec.is_extremum NTYPE.lt ws i (NTYPE.num m) →
        ∀ w ∈ ws, w.i = i → ∀ q, w.value = NTYPE.num q → m ≤ q) ∧
      (Spec.is_extremum NTYPE.gt ws i (NTYPE.num m) →
        ∀ w ∈ ws, w.i = i → ∀ q, w.value = NTYPE.num q → q ≤ m)) ∧
    accumulate_leaves _AggregatorMin.ProcessTreeNodePrediction Example.leaves_min
      ([NTYPE.zero, NTYPE.zero], [false, false])
      = .ok ([NTYPE.num 2, NTYPE.num 3], [true, true]) ∧
    accumulate_leaves _AggregatorMax.ProcessTreeNodePrediction Example.leaves_min
      ([NTYPE.zero, NTYPE.zero], [false, false])
      = .ok ([NTYPE.num 5, NTYPE.num 7], [true, true]) := by
  refine ⟨?_, ?_, ?_, by decide!, by decide!⟩
  · exact accumulate_extremum NTYPE.lt min_weight Spec.upd_min
      _AggregatorMin.ProcessTreeNodePrediction min_weight_eq (fun _ _ => rfl)
      NTYPE.lt_irrefl NTYPE.lt_of_not_lt_of_lt (fun _ _ _ => rfl) n leaves hrange
  · exact accumulate_extremum NTYPE.gt max_weight Spec.upd_max
      _AggregatorMax.ProcessTreeNodePrediction max_weight_eq (fun _ _ => rfl)
      NTYPE.gt_irrefl NTYPE.gt_of_not_gt_of_gt (fun _ _ _ => rfl) n leaves hrange
  · intro ws i m
    constructor
    · intro hext w hw hi q hq
      have := hext.2 w hw hi
      rw [hq] at this
      simpa [NTYPE.lt] using this
    · intro hext w hw hi q hq
      have := hext.2 w hw hi
      rw [hq] at this
      simpa [NTYPE.gt] using this

/-- C7 (witness): the statement applied to the leaves of scenario 5 and two targets. -/
theorem C7_min_max_accumulate_witness :
    (∀ w ∈ Spec.accumulated Example.leaves_min, 0 ≤ w.i ∧ w.i < ((2 : Nat) : Int)) ∧
    ∃ pred has,
      accumulate_leaves _AggregatorMin.ProcessTreeNodePrediction Example.leaves_min
        (List.replicate 2 NTYPE.zero, List.replicate 2 false) = .ok (pred, has) ∧
      pred.length = 2 ∧ has.length = 2 ∧
      ∀ i : Nat, i < 2 →
        has[i]? = some (Spec.names (Spec.accumulated Example.leaves_min) i) ∧
        (Spec.names (Spec.accumulated Example.leaves_min) i = true →
          ∃ v, pred[i]? = some v ∧
            Spec.is_extremum NTYPE.lt (Spec.accumulated Example.leaves_min) i v) := by
  have hr : ∀ w ∈ Spec.accumulated Example.leaves_min, 0 ≤ w.i ∧ w.i < ((2 : Nat) : Int) := by
    decide
  exact ⟨hr, (C7_min_max_accumulate 2 Example.leaves_min hr).1⟩

/-! ## The winning class of a multi-class finalization -/

theorem NTYPE.ge_of_not_gt_of_gt (a v w : NTYPE) (h1 : NTYPE.gt a v = false)
    (h2 : NTYPE.gt w v = true) : NTYPE.ge a w = false := by
  cases a <;> cases v <;> cases w <;> simp [NTYPE.gt, NTYPE.ge] at h1 h2 ⊢
  exact lt_of_le_of_lt h1 h2

namespace _AggregatorClassifier

/-- One iteration of the loop of `get_max_weight` re-establishes its invariant. -/
theorem MaxInv_step (S : List NTYPE) (H : List Bool) (pos : Nat) (st : Int × NTYPE)
    (c : NTYPE) (b : Bool) (hc : S[pos]? = some c) (hb : H[pos]? = some b)
    (hinv : MaxInv S H pos st) :
    MaxInv S H (pos + 1)
      (if (b && (decide (st.1 = -1) || NTYPE.gt c st.2)) = true then ((pos : Int), c) else st) := by
  obtain ⟨mc, mw⟩ := st
  cases b with
  | false =>
    simp only [Bool.false_and, Bool.false_eq_true, if_false]
    rcases hinv with ⟨h1, h2⟩ | ⟨k, hk, h1, h2, h3, h4, h5⟩
    · left
      refine ⟨h1, fun j hj => ?_⟩
      rcases Nat.lt_succ_iff_lt_or_eq.mp hj with hlt | heq
      · exact h2 j hlt
      · subst heq; simp [hb]
    · right
      refine ⟨k, Nat.lt_succ_of_lt hk, h1, h2, h3, fun j v hj hjh hjs => ?_, h5⟩
      rcases Nat.lt_succ_iff_lt_or_eq.mp hj with hlt | heq
      · exact h4 j v hlt hjh hjs
      · subst heq; simp [hb] at hjh
  | true =>
    simp only [Bool.true_and]
    rcases hinv with ⟨h1, h2⟩ | ⟨k, hk, h1, h2, h3, h4, h5⟩
    · simp only at h1
      simp only [h1, decide_True, Bool.true_or, if_true]
      right
      refine ⟨pos, Nat.lt_succ_self _, rfl, hb, hc, fun j v hj hjh hjs => ?_,
        fun j v hj hjh _ => absurd hjh (h2 j hj)⟩
      rcases Nat.lt_succ_iff_lt_or_eq.mp hj with hlt | heq
      · exact absurd hjh (h2 j hlt)
      · subst heq
        rw [hc] at hjs
        cases Option.some.inj hjs
        exact NTYPE.gt_irrefl _
    · simp only at h1 h3 h4 h5
      have hne : ¬ (mc = -1) := by
        rw [h1]
        intro hcontra
        have : (0 : Int) ≤ (k : Int) := Int.ofNat_nonneg k
        omega
      simp only [hne, decide_False, Bool.false_or]
      cases hgt : NTYPE.gt c mw with
      | true =>
        simp only [if_true]
        right
        refine ⟨pos, Nat.lt_succ_self _, rfl, hb, hc, fun j v hj hjh hjs => ?_,
          fun j v hj hjh hjs => ?_⟩
        · rcases Nat.lt_succ_iff_lt_or_eq.mp hj with hlt | heq
          · exact NTYPE.gt_of_not_gt_of_gt _ _ _ (h4 j v hlt hjh hjs) hgt
          · subst heq
            rw [hc] at hjs
            cases Option.some.inj hjs
            exact NTYPE.gt_irrefl _
        · exact NTYPE.ge_of_not_gt_of_gt _ _ _ (h4 j v hj hjh hjs) hgt
      | false =>
        simp only [Bool.false_eq_true, if_false]
        right
        refine ⟨k, Nat.lt_succ_of_lt hk, h1, h2, h3, fun j v hj hjh hjs => ?_, h5⟩
        rcases Nat.lt_succ_iff_lt_or_eq.mp hj with hlt | heq
        · exact h4 j v hlt hjh hjs
        · subst heq
          rw [hc] at hjs
          cases Option.some.inj hjs
          exact hgt

/-- The loop of `get_max_weight`, started on the classes from position `pos` on with its
invariant, returns with the invariant for all the classes. -/
theorem get_max_weight_loop_inv (S : List NTYPE) (H : List Bool) :
    ∀ (classes : List NTYPE) (has_scores : List Bool) (pos : Nat) (st : Int × NTYPE),
      S.drop pos = classes → H.drop pos = has_scores → classes.length ≤ has_scores.length →
      MaxInv S H pos st →
      ∃ st2, get_max_weight_loop classes has_scores pos st = .ok st2 ∧
        MaxInv S H S.length st2 := by
  intro classes
  induction classes with
  | nil =>
    intro hs pos st hS _ _ hinv
    refine ⟨st, by simp [get_max_weight_loop, pure, Except.pure], ?_⟩
    have hpos : S.length ≤ pos := List.drop_eq_nil_iff.mp hS
    rcases hinv with ⟨h1, h2⟩ | ⟨k, hk, h1, h2, h3, h4, h5⟩
    · exact Or.inl ⟨h1, fun j hj => h2 j (Nat.lt_of_lt_of_le hj hpos)⟩
    · have hkS : k < S.length := (List.getElem?_eq_some_iff.mp h3).1
      exact Or.inr ⟨k, hkS, h1, h2, h3,
        fun j v hj => h4 j v (Nat.lt_of_lt_of_le hj hpos), h5⟩
  | cons c rest ih =>
    intro hs pos st hS hH hlen hinv
    cases hs with
    | nil => simp at hlen
    | cons b hs2 =>
      have hposS : pos < S.length := by
        by_contra hcontra
        rw [List.drop_eq_nil_of_le (Nat.le_of_not_lt hcontra)] at hS
        cases hS
      have hposH : pos < H.length := by
        by_contra hcontra
        rw [List.drop_eq_nil_of_le (Nat.le_of_not_lt hcontra)] at hH
        cases hH
      rw [List.drop_eq_getElem_cons hposS] at hS
      rw [List.drop_eq_getElem_cons hposH] at hH
      have hc : S[pos]? = some c := by
        rw [List.getElem?_eq_getElem hposS]
        exact congrArg some (List.cons.inj hS).1
      have hb : H[pos]? = some b := by
        rw [List.getElem?_eq_getElem hposH]
        exact congrArg some (List.cons.inj hH).1
      have hstep := MaxInv_step S H pos st c b hc hb hinv
      obtain ⟨mc, mw⟩ := st
      by_cases hcond : (b && (decide (mc = -1) || NTYPE.gt c mw)) = true
      · simp only [hcond, if_true] at hstep
        obtain ⟨st2, h1, h2⟩ := ih hs2 (pos + 1) ((pos : Int), c) (List.cons.inj hS).2
          (List.cons.inj hH).2 (by simpa using hlen) hstep
        refine ⟨st2, ?_, h2⟩
        rw [← h1]
        simp only [get_max_weight_loop, hcond, if_true]
        rfl
      · simp only [hcond, if_false] at hstep
        obtain ⟨st2, h1, h2⟩ := ih hs2 (pos + 1) (mc, mw) (List.cons.inj hS).2
          (List.cons.inj hH).2 (by simpa using hlen) hstep
        refine ⟨st2, ?_, h2⟩
        rw [← h1]
        simp only [get_max_weight_loop, hcond, if_false]
        rfl

/-- The method `get_max_weight` returns the first maximum of the scored classes when some
class has a score. -/
theorem get_max_weight_first_maximum (scores : List NTYPE) (has_scores : List Bool)
    (hlen : scores.length ≤ has_scores.length)
    (hsome : ∃ j, j < scores.length ∧ has_scores[j]? = some true) :
    ∃ (k : Nat) (m : NTYPE), get_max_weight scores has_scores = .ok ((k : Int), m) ∧
      k < scores.length ∧ Spec.is_first_maximum scores has_scores k := by
  obtain ⟨st2, h1, h2⟩ := get_max_weight_loop_inv scores has_scores scores has_scores 0
    (-1, NTYPE.zero) rfl rfl hlen (Or.inl ⟨rfl, fun j hj => absurd hj (Nat.not_lt_zero j)⟩)
  obtain ⟨mc, mw⟩ := st2
  rcases h2 with ⟨_, hnone⟩ | ⟨k, hk, hmc, hhk, hsk, hall, hfirst⟩
  · obtain ⟨j, hj, hjt⟩ := hsome
    exact absurd hjt (hnone j hj)
  · simp only at hmc hsk hall hfirst
    subst hmc
    refine ⟨k, mw, h1, hk, hhk, mw, hsk, fun j v hjh hjs => ?_, hfirst⟩
    exact hall j v (List.getElem?_eq_some_iff.mp hjs).1 hjh hjs

end _AggregatorClassifier

namespace _AggregatorClassifier

/-- One iteration of the base-value loop of the multi-class branch, on buffers of extent
`n`, succeeds and touches only class `k`. -/
theorem add_base_value_ok (base_values scores : List NTYPE) (has_scores : List Bool)
    (k : Nat) (v s : NTYPE) (b : Bool) (hv : base_values[k]? = some v)
    (hs : scores[k]? = some s) (hb : has_scores[k]? = some b) :
    add_base_value base_values (scores, has_scores) k
      = .ok (scores.set k (if b then NTYPE.add s v else v), has_scores.set k true) := by
  have hks : k < scores.length := (List.getElem?_eq_some_iff.mp hs).1
  have hkh : k < has_scores.length := (List.getElem?_eq_some_iff.mp hb).1
  cases b with
  | false =>
    simp [add_base_value, vec_at, hv, hb, vec_set_int_ofNat, hks, hkh, bind, Except.bind,
      pure, Except.pure]
  | true =>
    have hset : has_scores.set k true = has_scores := by
      apply List.ext_getElem?
      intro j
      by_cases hjk : k = j
      · subst hjk; simp [List.getElem?_set, hkh, hb]
      · simp [List.getElem?_set, hjk]
    simp [add_base_value, vec_at, hv, hb, hs, vec_set_int_ofNat, hks, hset, bind,
      Except.bind, pure, Except.pure]

/-- The base-value loop of the multi-class branch, run over the first `m` base values. -/
theorem adjust_prefix (base_values scores : List NTYPE) (has_scores : List Bool) (n : Nat)
    (hs : scores.length = n) (hh : has_scores.length = n) (hbv : base_values.length ≤ n) :
    ∀ m ≤ base_values.length,
      ∃ s2 h2, (List.range m).foldlM (add_base_value base_values) (scores, has_scores)
          = .ok (s2, h2) ∧ s2.length = n ∧ h2.length = n ∧
        ∀ (j : Nat) (s : NTYPE) (b : Bool), scores[j]? = some s → has_scores[j]? = some b →
          s2[j]? = some (if j < m then Spec.adjusted_score base_values j s b else s) ∧
          h2[j]? = some (b || decide (j < m)) := by
  intro m
  induction m with
  | zero =>
    intro _
    exact ⟨scores, has_scores, rfl, hs, hh, fun j s b hjs hjb => ⟨by simpa using hjs,
      by simpa using hjb⟩⟩
  | succ m ih =>
    intro hm
    obtain ⟨s1, h1, hfold, hs1, hh1, hval⟩ := ih (Nat.le_of_succ_le hm)
    have hmbv : m < base_values.length := hm
    have hmn : m < n := Nat.lt_of_lt_of_le hmbv hbv
    obtain ⟨hsm, hhm⟩ := hval m scores[m] has_scores[m]
      (List.getElem?_eq_getElem (hs ▸ hmn)) (List.getElem?_eq_getElem (hh ▸ hmn))
    simp only [Nat.lt_irrefl, if_false, decide_False, Bool.or_false] at hsm hhm
    have hstep := add_base_value_ok base_values s1 h1 m base_values[m] scores[m]
      has_scores[m] (List.getElem?_eq_getElem hmbv) hsm hhm
    refine ⟨s1.set m (if has_scores[m] then NTYPE.add scores[m] base_values[m]
        else base_values[m]), h1.set m true, ?_, by simp [hs1], by simp [hh1], ?_⟩
    · rw [List.range_succ, List.foldlM_append, hfold]
      simp only [bind, Except.bind, List.foldlM, hstep]
      rfl
    · intro j s b hjs hjb
      obtain ⟨hj1, hj2⟩ := hval j s b hjs hjb
      by_cases hjm : m = j
      · subst hjm
        have e1 : scores[m] = s := by
          rw [List.getElem?_eq_getElem (hs ▸ hmn)] at hjs
          exact Option.some.inj hjs
        have e2 : has_scores[m] = b := by
          rw [List.getElem?_eq_getElem (hh ▸ hmn)] at hjb
          exact Option.some.inj hjb
        constructor
        · simp [List.getElem?_set, hs1, hmn, Spec.adjusted_score,
            List.getElem?_eq_getElem hmbv, e1, e2]
        · simp [List.getElem?_set, hh1, hmn]
      · have hlt : (j < m + 1) = (j < m) := by
          apply propext
          constructor
          · intro h
            rcases Nat.lt_succ_iff_lt_or_eq.mp h with h | h
            · exact h
            · exact absurd h.symm hjm
          · exact Nat.lt_succ_of_lt
        constructor
        · simp only [List.getElem?_set, hjm, if_false, hlt]
          exact hj1
        · simp only [List.getElem?_set, hjm, if_false, hlt]
          exact hj2

end _AggregatorClassifier

/-! ## Class maps -/

theorem map_find_eq_none_iff (classes : ClassMap) (key : Int) :
    map_find classes key = none ↔ ∀ e ∈ classes, e.1 ≠ key := by
  induction classes with
  | nil => simp [map_find]
  | cons e rest ih =>
    obtain ⟨k, v⟩ := e
    by_cases hk : k = key
    · simp [map_find, hk]
    · simp [map_find, hk, ih]

theorem map_find_mem (classes : ClassMap) (key : Int) (v : NTYPE)
    (h : map_find classes key = some v) : (key, v) ∈ classes := by
  induction classes with
  | nil => simp [map_find] at h
  | cons e rest ih =>
    obtain ⟨k, u⟩ := e
    by_cases hk : k = key
    · simp [map_find, hk] at h
      simp [hk, h]
    · simp [map_find, hk] at h
      exact List.mem_cons_of_mem _ (ih h)

theorem map_find_none_of_lt (classes : ClassMap) (key : Int)
    (h : ∀ e ∈ classes, key < e.1) : map_find classes key = none := by
  rw [map_find_eq_none_iff]
  intro e he hcontra
  have := h e he
  omega

/-- Membership after `insert` into a sorted map: the old entries, plus the new one when its
key was absent. -/
theorem mem_map_insert (classes : ClassMap) (key : Int) (val : NTYPE) (e : Int × NTYPE)
    (hs : map_sorted classes) :
    e ∈ map_insert classes key val ↔
      e ∈ classes ∨ (e = (key, val) ∧ map_find classes key = none) := by
  induction classes with
  | nil => simp [map_insert, map_find]
  | cons e0 rest ih =>
    obtain ⟨k, v⟩ := e0
    have hs2 := List.pairwise_cons.mp hs
    by_cases h1 : key < k
    · have hnone : map_find ((k, v) :: rest) key = none := by
        apply map_find_none_of_lt
        intro e1 he1
        rcases List.mem_cons.mp he1 with h | h
        · subst h; exact h1
        · have := hs2.1 e1 h
          simp only at this
          omega
      simp only [map_insert, h1, if_true, List.mem_cons, hnone, and_true]
      tauto
    · by_cases h2 : key = k
      · simp [map_insert, h1, h2, map_find]
      · have hne : ¬ (k = key) := fun h => h2 h.symm
        simp only [map_insert, h1, h2, if_false, List.mem_cons, ih hs2.2, map_find, hne]
        tauto

/-- The call `insert` keeps a map sorted. -/
theorem map_insert_sorted (classes : ClassMap) (key : Int) (val : NTYPE)
    (hs : map_sorted classes) : map_sorted (map_insert classes key val) := by
  induction classes with
  | nil => simp [map_insert, map_sorted]
  | cons e0 rest ih =>
    obtain ⟨k, v⟩ := e0
    have hs2 := List.pairwise_cons.mp hs
    by_cases h1 : key < k
    · simp only [map_insert, h1, if_true]
      refine List.pairwise_cons.mpr ⟨?_, hs⟩
      intro e1 he1
      rcases List.mem_cons.mp he1 with h | h
      · subst h; exact h1
      · have := hs2.1 e1 h
        simp only at this ⊢
        omega
    · by_cases h2 : key = k
      · simpa [map_insert, h1, h2] using hs
      · simp only [map_insert, h1, h2, if_false]
        refine List.pairwise_cons.mpr ⟨?_, ih hs2.2⟩
        intro e1 he1
        rcases (mem_map_insert rest key val e1 hs2.2).mp he1 with h | ⟨h, _⟩
        · exact hs2.1 e1 h
        · subst h
          simp only
          omega

/-- Assigning through an iterator changes no key. -/
theorem map_modify_keys (classes : ClassMap) (key : Int) (f : NTYPE → NTYPE) :
    (map_modify classes key f).map Prod.fst = classes.map Prod.fst := by
  induction classes with
  | nil => rfl
  | cons e0 rest ih =>
    obtain ⟨k, v⟩ := e0
    by_cases hk : k = key
    · simp [map_modify, hk]
    · simp [map_modify, hk, ih]

theorem map_sorted_iff_keys (classes : ClassMap) :
    map_sorted classes ↔ (classes.map Prod.fst).Pairwise (fun a b => a < b) := by
  simp [map_sorted, List.pairwise_map]

/-- Assigning through an iterator keeps a map sorted. -/
theorem map_modify_sorted (classes : ClassMap) (key : Int) (f : NTYPE → NTYPE)
    (hs : map_sorted classes) : map_sorted (map_modify classes key f) := by
  rw [map_sorted_iff_keys] at hs ⊢
  rw [map_modify_keys]
  exact hs

theorem map_modify_nonneg (classes : ClassMap) (key : Int) (f : NTYPE → NTYPE)
    (h : ∀ e ∈ classes, 0 ≤ e.1) : ∀ e ∈ map_modify classes key f, 0 ≤ e.1 := by
  intro e he
  have hmem : e.1 ∈ (map_modify classes key f).map Prod.fst := List.mem_map_of_mem _ he
  rw [map_modify_keys] at hmem
  obtain ⟨e2, he2, heq⟩ := List.mem_map.mp hmem
  rw [← heq]
  exact h e2 he2

theorem map_modify_ne_nil (classes : ClassMap) (key : Int) (f : NTYPE → NTYPE)
    (h : classes ≠ []) : map_modify classes key f ≠ [] := by
  intro hcontra
  have := congrArg (List.map Prod.fst) hcontra
  rw [map_modify_keys] at this
  simp at this
  exact h this

theorem map_insert_ne_nil (classes : ClassMap) (key : Int) (val : NTYPE) :
    map_insert classes key val ≠ [] := by
  cases classes with
  | nil => simp [map_insert]
  | cons e0 rest =>
    obtain ⟨k, v⟩ := e0
    simp only [map_insert]
    split
    · simp
    · split <;> simp

/-- The loop of the free function `get_max_weight` keeps its invariant on a sorted map with
non-negative class ids. -/
theorem get_max_weight_inv :
    ∀ (rest seen : ClassMap) (st : Int × NTYPE),
      map_sorted (seen ++ rest) → (∀ e ∈ seen ++ rest, 0 ≤ e.1) → MapMaxInv seen st →
      MapMaxInv (seen ++ rest) (get_max_weight rest st) := by
  intro rest
  induction rest with
  | nil => intro seen st _ _ h; simpa [get_max_weight] using h
  | cons e0 rest ih =>
    intro seen st hs hpos hinv
    obtain ⟨k, v⟩ := e0
    obtain ⟨mc, mw⟩ := st
    have happ : seen ++ (k, v) :: rest = (seen ++ [(k, v)]) ++ rest := by simp
    have hk0 : 0 ≤ k := hpos (k, v) (by simp)
    have hlt : ∀ e ∈ seen, e.1 < k := by
      intro e he
      have := List.pairwise_append.mp hs
      exact this.2.2 e he (k, v) (by simp)
    rw [happ] at hs hpos ⊢
    by_cases hcond : mc = -1 ∨ NTYPE.gt v mw = true
    · have hstep : MapMaxInv (seen ++ [(k, v)]) (k, v) := by
        right
        refine ⟨by simp, ?_, ?_⟩
        · intro j u hju
          rcases List.mem_append.mp hju with h | h
          · rcases hinv with ⟨h1, _⟩ | ⟨hmem, hall, _⟩
            · subst h1; simp at h
            · rcases hcond with hc | hc
              · have hmc : 0 ≤ mc := hpos (mc, mw) (by simp [hmem])
                omega
              · exact NTYPE.gt_of_not_gt_of_gt _ _ _ (hall j u h) hc
          · simp only [List.mem_singleton, Prod.mk.injEq] at h
            rw [h.2]
            exact NTYPE.gt_irrefl _
        · intro j u hju hjk
          rcases List.mem_append.mp hju with h | h
          · rcases hinv with ⟨h1, _⟩ | ⟨hmem, hall, _⟩
            · subst h1; simp at h
            · rcases hcond with hc | hc
              · have hmc : 0 ≤ mc := hpos (mc, mw) (by simp [hmem])
                omega
              · exact NTYPE.ge_of_not_gt_of_gt _ _ _ (hall j u h) hc
          · simp only [List.mem_singleton, Prod.mk.injEq] at h
            simp only at hjk
            omega
      have := ih (seen ++ [(k, v)]) (k, v) hs hpos hstep
      simpa [get_max_weight, hcond] using this
    · have hstep : MapMaxInv (seen ++ [(k, v)]) (mc, mw) := by
        rcases hinv with ⟨_, h2⟩ | ⟨hmem, hall, hfirst⟩
        · exact absurd (Or.inl h2) hcond
        · right
          have hgt : NTYPE.gt v mw = false := by
            cases hg : NTYPE.gt v mw with
            | true => exact absurd (Or.inr hg) hcond
            | false => rfl
          refine ⟨by simp [hmem], ?_, ?_⟩
          · intro j u hju
            rcases List.mem_append.mp hju with h | h
            · exact hall j u h
            · simp only [List.mem_singleton, Prod.mk.injEq] at h
              rw [h.2]
              exact hgt
          · intro j u hju hjk
            rcases List.mem_append.mp hju with h | h
            · exact hfirst j u h hjk
            · simp only [List.mem_singleton, Prod.mk.injEq] at h
              have := hlt (mc, mw) hmem
              simp only at this hjk
              omega
      have := ih (seen ++ [(k, v)]) (mc, mw) hs hpos hstep
      simpa [get_max_weight, hcond] using this

/-- The free function `get_max_weight` returns the first maximum of a non-empty sorted map
with non-negative class ids. -/
theorem map_get_max_weight_first_maximum (classes : ClassMap) (hs : map_sorted classes)
    (hpos : ∀ e ∈ classes, 0 ≤ e.1) (hne : classes ≠ []) :
    Spec.is_first_maximum_of_map classes (get_max_weight classes (-1, NTYPE.zero)).1 ∧
    (get_max_weight classes (-1, NTYPE.zero)) ∈ classes := by
  have h := get_max_weight_inv classes [] (-1, NTYPE.zero) (by simpa using hs)
    (by simpa using hpos) (Or.inl ⟨rfl, rfl⟩)
  simp only [List.nil_append] at h
  rcases h with ⟨h1, _⟩ | ⟨hmem, hall, hfirst⟩
  · exact absurd h1 hne
  · exact ⟨⟨_, hmem, hall, hfirst⟩, hmem⟩

theorem map_find_insert (classes : ClassMap) (key : Int) (val : NTYPE) (j : Int)
    (hs : map_sorted classes) :
    map_find (map_insert classes key val) j
      = if j = key then some ((map_find classes key).getD val) else map_find classes j := by
  induction classes with
  | nil =>
    by_cases hj : j = key
    · simp [map_insert, map_find, hj]
    · have hj2 : ¬ (key = j) := fun h => hj h.symm
      simp [map_insert, map_find, hj, hj2]
  | cons e0 rest ih =>
    obtain ⟨k, v⟩ := e0
    have hs2 := List.pairwise_cons.mp hs
    by_cases h1 : key < k
    · have hnone : map_find ((k, v) :: rest) key = none := by
        apply map_find_none_of_lt
        intro e1 he1
        rcases List.mem_cons.mp he1 with h | h
        · subst h; exact h1
        · have := hs2.1 e1 h
          simp only at this
          omega
      by_cases hj : j = key
      · subst hj
        rw [hnone]
        simp [map_insert, h1, map_find]
      · have hj2 : ¬ (key = j) := fun h => hj h.symm
        simp only [map_insert, h1, if_true, hj, if_false]
        show (if key = j then some val else map_find ((k, v) :: rest) j) = _
        simp [hj2]
    · by_cases h2 : key = k
      · subst h2
        by_cases hj : j = key
        · simp [map_insert, map_find, hj]
        · simp [map_insert, hj]
      · have hne : ¬ (k = key) := fun h => h2 h.symm
        simp only [map_insert, h1, h2, if_false, map_find, hne]
        by_cases hkj : k = j
        · have hj : ¬ (j = key) := by rw [← hkj]; exact hne
          simp [hkj, hj]
        · simp only [hkj, if_false]
          exact ih hs2.2

theorem map_find_modify (classes : ClassMap) (key : Int) (f : NTYPE → NTYPE) (j : Int) :
    map_find (map_modify classes key f) j
      = if j = key then (map_find classes key).map f else map_find classes j := by
  induction classes with
  | nil => simp [map_modify, map_find]
  | cons e0 rest ih =>
    obtain ⟨k, v⟩ := e0
    by_cases hk : k = key
    · subst hk
      by_cases hj : j = k
      · simp [map_modify, map_find, hj]
      · have hj2 : ¬ (k = j) := fun h => hj h.symm
        simp [map_modify, map_find, hj, hj2]
    · simp only [map_modify, hk, if_false, map_find]
      by_cases hkj : k = j
      · have hj : ¬ (j = key) := by rw [← hkj]; exact hk
        simp [hkj, hj]
      · simp only [hkj, if_false]
        exact ih

namespace RuntimeTreeEnsembleClassifier

/-- One iteration of the base-value loop of the multi-class branch of `compute`: it
succeeds for a position inside the base values, keeps the map sorted with non-negative
class ids, leaves it non-empty, and changes only the entry of class `k`. -/
theorem add_base_value_spec (base_values : List NTYPE) (classes : ClassMap) (k : Nat)
    (v : NTYPE) (hv : base_values[k]? = some v) (hs : map_sorted classes)
    (hpos : ∀ e ∈ classes, 0 ≤ e.1) :
    ∃ c2, add_base_value base_values classes k = .ok c2 ∧ map_sorted c2 ∧
      (∀ e ∈ c2, 0 ≤ e.1) ∧ c2 ≠ [] ∧
      ∀ j : Int, map_find c2 j =
        if j = (k : Int) then
          some (match map_find classes k with
                | some s => NTYPE.add s v
                | none => v)
        else map_find classes j := by
  cases hf : map_find classes (k : Int) with
  | none =>
    refine ⟨map_insert classes k v, ?_, map_insert_sorted _ _ _ hs, ?_,
      map_insert_ne_nil _ _ _, ?_⟩
    · simp [add_base_value, vec_at, hv, hf, bind, Except.bind, pure, Except.pure]
    · intro e he
      rcases (mem_map_insert classes k v e hs).mp he with h | ⟨h, _⟩
      · exact hpos e h
      · subst h
        exact Int.ofNat_nonneg k
    · intro j
      rw [map_find_insert _ _ _ _ hs, hf]
      rfl
  | some s =>
    have hne : classes ≠ [] := by
      intro hcontra
      subst hcontra
      simp [map_find] at hf
    refine ⟨map_modify classes k (fun s => NTYPE.add s v), ?_, map_modify_sorted _ _ _ hs,
      map_modify_nonneg _ _ _ hpos, map_modify_ne_nil _ _ _ hne, ?_⟩
    · simp [add_base_value, vec_at, hv, hf, bind, Except.bind, pure, Except.pure]
    · intro j
      rw [map_find_modify, hf]
      rfl

/-- The base-value loop of the multi-class branch of `compute`, run over the first `m` base
values. -/
theorem base_value_loop_spec (base_values : List NTYPE) (classes : ClassMap)
    (hs : map_sorted classes) (hpos : ∀ e ∈ classes, 0 ≤ e.1) :
    ∀ m ≤ base_values.length,
      ∃ c2, (List.range m).foldlM (add_base_value base_values) classes = .ok c2 ∧
        map_sorted c2 ∧ (∀ e ∈ c2, 0 ≤ e.1) ∧ (classes ≠ [] ∨ 0 < m → c2 ≠ []) ∧
        ∀ j : Int, map_find c2 j = Spec.adjusted_entry base_values m classes j := by
  intro m
  induction m with
  | zero =>
    intro _
    refine ⟨classes, rfl, hs, hpos, ?_, ?_⟩
    · rintro (h | h)
      · exact h
      · exact absurd h (Nat.lt_irrefl 0)
    · intro j
      have : ¬ (0 ≤ j ∧ j < 0) := by omega
      simp [Spec.adjusted_entry, this]
  | succ m ih =>
    intro hm
    obtain ⟨c1, hfold, hs1, hpos1, _, hfind1⟩ := ih (Nat.le_of_succ_le hm)
    have hmbv : m < base_values.length := hm
    obtain ⟨c2, hstep, hs2, hpos2, hne2, hfind2⟩ :=
      add_base_value_spec base_values c1 m base_values[m] (List.getElem?_eq_getElem hmbv)
        hs1 hpos1
    refine ⟨c2, ?_, hs2, hpos2, fun _ => hne2, ?_⟩
    · rw [List.range_succ, List.foldlM_append, hfold]
      simp only [bind, Except.bind, List.foldlM, hstep]
      rfl
    · intro j
      rw [hfind2 j]
      by_cases hj : j = (m : Int)
      · subst hj
        have h1 : ¬ ((m : Int) < (m : Int)) := by omega
        have h2 : (0 : Int) ≤ (m : Int) ∧ (m : Int) < ((m + 1 : Nat) : Int) := by
          constructor
          · exact Int.ofNat_nonneg m
          · push_cast; omega
        rw [hfind1 (m : Int)]
        simp only [Spec.adjusted_entry, h1, and_false, if_false, if_true, h2, and_self,
          Int.toNat_ofNat, List.getElem?_eq_getElem hmbv]
        cases map_find classes (m : Int) <;> rfl
      · simp only [hj, if_false]
        rw [hfind1 j]
        have hiff : (0 ≤ j ∧ j < ((m + 1 : Nat) : Int)) ↔ (0 ≤ j ∧ j < (m : Int)) := by
          push_cast
          constructor
          · rintro ⟨h1, h2⟩
            exact ⟨h1, by omega⟩
          · rintro ⟨h1, h2⟩
            exact ⟨h1, by omega⟩
        simp only [Spec.adjusted_entry, hiff]

end RuntimeTreeEnsembleClassifier

/-- C8. Multi-class finalization (`n_classes > 2`) with at least one class that has a score
or a base value. In the aggregator, `FinalizeScores` first adds the base values (the
adjusted score of class `j` is `Spec.adjusted_score`), then returns the label
`class_labels[k]` where `k` is the first maximum of the adjusted scores of the classes that
have one: no scored class has a greater adjusted score and every scored class of smaller
index has a strictly smaller one (`Spec.is_first_maximum`). In the flat classifier,
`compute` does the same on the class map (`Spec.adjusted_entry`,
`Spec.is_first_maximum_of_map`), for class ids inside the label vector. The comparisons are
those of C++: on numbers, `NTYPE.gt a b = false` is `a <= b` and `NTYPE.ge a b = false` is
`a < b`. Raw scores `[1, 2, 3]` give `class_labels[2]`, and the tie `[3, 3, 1]` gives
`class_labels[0]`. -/
theorem C8_multiclass_label_is_first_maximum
    (self : _AggregatorClassifier) (scores : List NTYPE) (has_scores : List Bool)
    (add_second_class : Int) (n : Nat)
    (hmulti : self.n_targets_or_classes_ > 2)
    (hs : scores.length = n) (hh : has_scores.length = n)
    (hlabels : self.class_labels_.length = n) (hbv : self.base_values_.length ≤ n)
    (hsome : ∃ j, j < n ∧ (has_scores[j]? = some true ∨ j < self.base_values_.length)) :
    (∃ scores2 has2 k label,
      self.adjust_multiclass scores has_scores = .ok (scores2, has2) ∧
      (∀ (j : Nat) (s : NTYPE) (b : Bool), scores[j]? = some s → has_scores[j]? = some b →
        scores2[j]? = some (Spec.adjusted_score self.base_values_ j s b) ∧
        has2[j]? = some (b || decide (j < self.base_values_.length))) ∧
      Spec.is_first_maximum scores2 has2 k ∧
      self.class_labels_[k]? = some label ∧
      self.FinalizeScores scores has_scores add_second_class
        = .ok (label, { scores := scores2, post_transform := self.post_transform_,
                        add_second_class := -1 })) ∧
    (∀ (c : RuntimeTreeEnsembleClassifier) (classes : ClassMap),
      map_sorted classes →
      (∀ e ∈ classes, 0 ≤ e.1 ∧ e.1 < (c.classlabels_int64s_.length : Int)) →
      c.base_values_.length ≤ c.classlabels_int64s_.length →
      (classes ≠ [] ∨ 0 < c.base_values_.length) →
      ∃ classes2 k label,
        (List.range c.base_values_.length).foldlM
          (RuntimeTreeEnsembleClassifier.add_base_value c.base_values_) classes
          = .ok classes2 ∧
        (∀ j : Int, map_find classes2 j
          = Spec.adjusted_entry c.base_values_ c.base_values_.length classes j) ∧
        Spec.is_first_maximum_of_map classes2 k ∧
        vec_at_int c.classlabels_int64s_ k = .ok label ∧
        c.finalize_multiclass classes = .ok (classes2, label)) ∧
    (∀ a b : ℚ, (NTYPE.gt (NTYPE.num a) (NTYPE.num b) = false ↔ a ≤ b) ∧
      (NTYPE.ge (NTYPE.num a) (NTYPE.num b) = false ↔ a < b)) ∧
    (Example.three_class_aggregator.FinalizeScores
        [NTYPE.num 1, NTYPE.num 2, NTYPE.num 3] [true, true, true] (-1)
      = .ok (30, { scores := [NTYPE.num 1, NTYPE.num 2, NTYPE.num 3],
                   post_transform := POST_EVAL_TRANSFORM.NONE, add_second_class := -1 }) ∧
     Example.three_class_aggregator.FinalizeScores
        [NTYPE.num 3, NTYPE.num 3, NTYPE.num 1] [true, true, true] (-1)
      = .ok (10, { scores := [NTYPE.num 3, NTYPE.num 3, NTYPE.num 1],
                   post_transform := POST_EVAL_TRANSFORM.NONE, add_second_class := -1 }) ∧
     Example.flat_three_class.finalize_multiclass
        [(0, NTYPE.num 1), (1, NTYPE.num 2), (2, NTYPE.num 3)]
      = .ok ([(0, NTYPE.num 1), (1, NTYPE.num 2), (2, NTYPE.num 3)], 30) ∧
     Example.flat_three_class.finalize_multiclass
        [(0, NTYPE.num 3), (1, NTYPE.num 3), (2, NTYPE.num 1)]
      = .ok ([(0, NTYPE.num 3), (1, NTYPE.num 3), (2, NTYPE.num 1)], 10)) := by
  refine ⟨?_, ?_, ?_, by decide!⟩
  · obtain ⟨s2, h2, hfold, hs2, hh2, hval⟩ :=
      _AggregatorClassifier.adjust_prefix self.base_values_ scores has_scores n hs hh hbv
        self.base_values_.length (Nat.le_refl _)
    have hchar : ∀ (j : Nat) (s : NTYPE) (b : Bool), scores[j]? = some s →
        has_scores[j]? = some b →
        s2[j]? = some (Spec.adjusted_score self.base_values_ j s b) ∧
        h2[j]? = some (b || decide (j < self.base_values_.length)) := by
      intro j s b hjs hjb
      obtain ⟨h1, h2'⟩ := hval j s b hjs hjb
      refine ⟨?_, h2'⟩
      rw [h1]
      by_cases hj : j < self.base_values_.length
      · simp [hj]
      · have hnone : self.base_values_[j]? = none :=
          List.getElem?_eq_none (Nat.le_of_not_lt hj)
        simp [hj, Spec.adjusted_score, hnone]
    have hsome2 : ∃ j, j < s2.length ∧ h2[j]? = some true := by
      obtain ⟨j, hj, hor⟩ := hsome
      refine ⟨j, hs2 ▸ hj, ?_⟩
      have := (hchar j scores[j] has_scores[j] (List.getElem?_eq_getElem (hs ▸ hj))
        (List.getElem?_eq_getElem (hh ▸ hj))).2
      rw [this]
      rcases hor with hor | hor
      · rw [List.getElem?_eq_getElem (hh ▸ hj)] at hor
        simp [Option.some.inj hor]
      · simp [hor]
    obtain ⟨k, m, hmax, hk, hfirst⟩ :=
      _AggregatorClassifier.get_max_weight_first_maximum s2 h2 (by rw [hs2, hh2]) hsome2
    have hkl : k < self.class_labels_.length := by rw [hlabels, ← hs2]; exact hk
    refine ⟨s2, h2, k, self.class_labels_[k], hfold, hchar, hfirst,
      List.getElem?_eq_getElem hkl, ?_⟩
    have hadj : self.adjust_multiclass scores has_scores = .ok (s2, h2) := hfold
    simp [_AggregatorClassifier.FinalizeScores, hmulti, hadj, hmax,
      vec_at_int_ofNat _ _ hkl, bind, Except.bind, pure, Except.pure]
  · intro c classes hsorted hids hcbv hcsome
    have hpos : ∀ e ∈ classes, 0 ≤ e.1 := fun e he => (hids e he).1
    obtain ⟨c2, hfold, hs2, hpos2, hne2, hfind⟩ :=
      RuntimeTreeEnsembleClassifier.base_value_loop_spec c.base_values_ classes hsorted hpos
        c.base_values_.length (Nat.le_refl _)
    obtain ⟨hfirst, hmem⟩ := map_get_max_weight_first_maximum c2 hs2 hpos2 (hne2 hcsome)
    generalize hst : get_max_weight c2 (-1, NTYPE.zero) = st at hfirst hmem
    obtain ⟨k, m⟩ := st
    have hk0 : 0 ≤ k := hpos2 (k, m) hmem
    have hklt : k < (c.classlabels_int64s_.length : Int) := by
      have hsomek : map_find c2 k ≠ none := by
        rw [Ne, map_find_eq_none_iff]
        intro hcontra
        exact hcontra (k, m) hmem rfl
      rw [hfind k] at hsomek
      by_cases hin : 0 ≤ k ∧ k < (c.base_values_.length : Int)
      · have : (c.base_values_.length : Int) ≤ (c.classlabels_int64s_.length : Int) := by
          exact_mod_cast hcbv
        omega
      · simp only [Spec.adjusted_entry, hin, if_false] at hsomek
        obtain ⟨u, hu⟩ := Option.ne_none_iff_exists'.mp hsomek
        exact (hids (k, u) (map_find_mem classes k u hu)).2
    obtain ⟨kn, hkn⟩ := Int.eq_ofNat_of_zero_le hk0
    subst hkn
    have hknl : kn < c.classlabels_int64s_.length := by exact_mod_cast hklt
    refine ⟨c2, (kn : Int), c.classlabels_int64s_[kn], hfold, hfind, hfirst,
      vec_at_int_ofNat _ _ hknl, ?_⟩
    simp [RuntimeTreeEnsembleClassifier.finalize_multiclass, hfold, hst,
      vec_at_int_ofNat _ _ hknl, bind, Except.bind, pure, Except.pure]
  · intro a b
    simp [NTYPE.gt, NTYPE.ge]

/-- C8 (witness): the statement applied to the three-class aggregator and the three-class
flat classifier with the raw scores `[1, 2, 3]` of scenario 3. -/
theorem C8_multiclass_label_is_first_maximum_witness :
    Example.three_class_aggregator.n_targets_or_classes_ > 2 ∧
    [NTYPE.num 1, NTYPE.num 2, NTYPE.num 3].length = 3 ∧
    [true, true, true].length = 3 ∧
    Example.three_class_aggregator.class_labels_.length = 3 ∧
    Example.three_class_aggregator.base_values_.length ≤ 3 ∧
    (∃ j, j < 3 ∧ ([true, true, true][j]? = some true ∨
      j < Example.three_class_aggregator.base_values_.length)) ∧
    map_sorted [(0, NTYPE.num 1), (1, NTYPE.num 2), (2, NTYPE.num 3)] ∧
    (∃ k label,
      Spec.is_first_maximum_of_map [(0, NTYPE.num 1), (1, NTYPE.num 2), (2, NTYPE.num 3)] k ∧
      vec_at_int Example.flat_three_class.classlabels_int64s_ k = .ok label ∧
      Example.flat_three_class.finalize_multiclass
        [(0, NTYPE.num 1), (1, NTYPE.num 2), (2, NTYPE.num 3)]
        = .ok ([(0, NTYPE.num 1), (1, NTYPE.num 2), (2, NTYPE.num 3)], label)) := by
  have h1 : Example.three_class_aggregator.n_targets_or_classes_ > 2 := by decide
  have h2 : ∃ j, j < 3 ∧ ([true, true, true][j]? = some true ∨
      j < Example.three_class_aggregator.base_values_.length) := ⟨0, by decide, Or.inl rfl⟩
  have h3 : map_sorted [(0, NTYPE.num 1), (1, NTYPE.num 2), (2, NTYPE.num 3)] := by
    simp [map_sorted]
  have h4 : ∀ e ∈ [((0 : Int), NTYPE.num 1), (1, NTYPE.num 2), (2, NTYPE.num 3)],
      0 ≤ e.1 ∧ e.1 < (Example.flat_three_class.classlabels_int64s_.length : Int) := by
    simp [Example.flat_three_class]
  obtain ⟨-, hflat, -⟩ :=
    C8_multiclass_label_is_first_maximum Example.three_class_aggregator
      [NTYPE.num 1, NTYPE.num 2, NTYPE.num 3] [true, true, true] (-1) 3
      h1 rfl rfl rfl (by decide) h2
  obtain ⟨classes2, k, label, hfold, -, hfirst, hlabel, hfin⟩ :=
    hflat Example.flat_three_class [(0, NTYPE.num 1), (1, NTYPE.num 2), (2, NTYPE.num 3)]
      h3 h4 (by decide) (Or.inl (by simp))
  have hc2 : classes2 = [(0, NTYPE.num 1), (1, NTYPE.num 2), (2, NTYPE.num 3)] := by
    have : (List.range Example.flat_three_class.base_values_.length).foldlM
        (RuntimeTreeEnsembleClassifier.add_base_value Example.flat_three_class.base_values_)
        [((0 : Int), NTYPE.num 1), (1, NTYPE.num 2), (2, NTYPE.num 3)]
        = .ok [(0, NTYPE.num 1), (1, NTYPE.num 2), (2, NTYPE.num 3)] := rfl
    rw [this] at hfold
    exact (Except.ok.inj hfold).symm
  subst hc2
  exact ⟨h1, rfl, rfl, rfl, by decide, h2, h3, k, label, hfirst, hlabel, hfin⟩

/-! ## Binary finalization -/

/-- C9 (evaluation of the code at the failing input). A binary classifier with class labels
`[10, 20]` whose leaves mention both classes (`weights_classes_ = {0, 1}`): the free function
`_set_score_binary` returns the label 1, its argument `positive_label`, not
`class_labels[1] = 20`; `compute` on scenario 1 yields the label 1 on the row `[1.0]` (class
1 scored 0.9) and also on the row `[0.0]` (class 0 scored 0.8); the aggregator with
`binary_case_` false returns its member `positive_label_ = 1`. In all cases
`add_second_class` stays -1. -/
theorem C9_binary_label_is_positive_label_argument :
    _set_score_binary (-1) true [(1, NTYPE.num (9 / 10))] [10, 20] [0, 1] 1 0
      = .ok ([(1, NTYPE.num (9 / 10))], 1, -1) ∧
    Example.flat_binary_stump.compute_row (Example.const_row 1) 0
      = .ok (1, { scores := [NTYPE.num 0, NTYPE.num (9 / 10)],
                  post_transform := POST_EVAL_TRANSFORM.NONE, add_second_class := -1 }) ∧
    Example.flat_binary_stump.compute_row (Example.const_row 0) 0
      = .ok (1, { scores := [NTYPE.num (4 / 5), NTYPE.num 0],
                  post_transform := POST_EVAL_TRANSFORM.NONE, add_second_class := -1 }) ∧
    (Example.binary_aggregator false).FinalizeScores [NTYPE.num 0, NTYPE.num (9 / 10)]
        [false, true] (-1)
      = .ok (1, { scores := [NTYPE.num 0, NTYPE.num (9 / 10)],
                  post_transform := POST_EVAL_TRANSFORM.NONE, add_second_class := -1 }) := by
  decide!

namespace RuntimeTreeEnsembleClassifier

theorem all_positive_foldl (ws : List NTYPE) :
    ∀ b : Bool,
      ws.foldl (fun positive w => if NTYPE.lt w NTYPE.zero then false else positive) b
        = (b && ws.all (fun w => !NTYPE.lt w NTYPE.zero)) := by
  induction ws with
  | nil => intro b; simp
  | cons w rest ih =>
    intro b
    simp only [List.foldl_cons, List.all_cons, ih]
    cases NTYPE.lt w NTYPE.zero <;> cases b <;> simp

/-- The flag `weights_are_all_positive_` is set exactly when no class weight is `< 0`. -/
theorem Initialize_weights_are_all_positive_iff (ws : List NTYPE) :
    Initialize_weights_are_all_positive ws = true ↔ ∀ w ∈ ws, NTYPE.lt w NTYPE.zero = false := by
  unfold Initialize_weights_are_all_positive
  rw [all_positive_foldl]
  simp

theorem mem_set_insert (s : List Int) (id x : Int) :
    x ∈ set_insert s id ↔ x ∈ s ∨ x = id := by
  induction s with
  | nil => simp [set_insert]
  | cons k rest ih =>
    by_cases h1 : id < k
    · simp only [set_insert, h1, if_true, List.mem_cons]
      tauto
    · by_cases h2 : id = k
      · subst h2
        simp only [set_insert, lt_irrefl, if_false, if_true, List.mem_cons]
        tauto
      · simp only [set_insert, h1, h2, if_false, List.mem_cons, ih]
        tauto

theorem set_insert_sorted (s : List Int) (id : Int) (hs : s.Pairwise (fun a b => a < b)) :
    (set_insert s id).Pairwise (fun a b => a < b) := by
  induction s with
  | nil => simp [set_insert]
  | cons k rest ih =>
    have hs2 := List.pairwise_cons.mp hs
    by_cases h1 : id < k
    · simp only [set_insert, h1, if_true]
      refine List.pairwise_cons.mpr ⟨?_, hs⟩
      intro x hx
      rcases List.mem_cons.mp hx with h | h
      · subst h; exact h1
      · have := hs2.1 x h
        omega
    · by_cases h2 : id = k
      · simpa [set_insert, h1, h2] using hs
      · simp only [set_insert, h1, h2, if_false]
        refine List.pairwise_cons.mpr ⟨?_, ih hs2.2⟩
        intro x hx
        rcases (mem_set_insert rest id x).mp hx with h | h
        · exact hs2.1 x h
        · subst h; omega

theorem weights_classes_foldl (ids : List Int) :
    ∀ acc : List Int, acc.Pairwise (fun a b => a < b) →
      (ids.foldl set_insert acc).Pairwise (fun a b => a < b) ∧
      ∀ x, x ∈ ids.foldl set_insert acc ↔ x ∈ acc ∨ x ∈ ids := by
  induction ids with
  | nil => intro acc h; simp [h]
  | cons i rest ih =>
    intro acc h
    obtain ⟨h1, h2⟩ := ih (set_insert acc i) (set_insert_sorted acc i h)
    refine ⟨h1, fun x => ?_⟩
    simp only [List.foldl_cons, h2, mem_set_insert, List.mem_cons]
    tauto

/-- The set `weights_classes_` has one element exactly when the leaf descriptors mention
one class: there is a descriptor and all descriptors carry the same class id. -/
theorem Initialize_weights_classes_length_one (ids : List Int) :
    (Initialize_weights_classes ids).length = 1 ↔ ids ≠ [] ∧ ∃ c, ∀ i ∈ ids, i = c := by
  obtain ⟨hsorted, hmem⟩ := weights_classes_foldl ids [] List.Pairwise.nil
  simp only [List.not_mem_nil, false_or] at hmem
  constructor
  · intro h
    obtain ⟨c, hc⟩ := List.length_eq_one.mp h
    have hmem2 : ∀ x, x ∈ ids ↔ x = c := by
      intro x
      rw [← hmem x]
      show x ∈ Initialize_weights_classes ids ↔ _
      rw [hc]
      simp
    refine ⟨?_, c, fun i hi => (hmem2 i).mp hi⟩
    intro hnil
    have := (hmem2 c).mpr rfl
    rw [hnil] at this
    simp at this
  · rintro ⟨hne, c, hall⟩
    have hset : ∀ x, x ∈ Initialize_weights_classes ids → x = c :=
      fun x hx => hall x ((hmem x).mp hx)
    obtain ⟨i0, hi0⟩ := List.exists_mem_of_ne_nil ids hne
    have hc : c ∈ Initialize_weights_classes ids := by
      have := (hmem i0).mpr hi0
      rw [hall i0 hi0] at this
      exact this
    have hs : (Initialize_weights_classes ids).Pairwise (fun a b => a < b) := hsorted
    cases hl : Initialize_weights_classes ids with
    | nil => rw [hl] at hc; simp at hc
    | cons a rest =>
      cases rest with
      | nil => rfl
      | cons b rest2 =>
        rw [hl] at hs hset
        have ha := hset a (by simp)
        have hb := hset b (by simp)
        have hab : a < b := (List.pairwise_cons.mp hs).1 b (by simp)
        omega

end RuntimeTreeEnsembleClassifier

/-- The function `get_weight_class_positive` computes the positive weight of the
specification. -/
theorem get_weight_class_positive_snd (classes : ClassMap) :
    (get_weight_class_positive classes).2 = Spec.pos_weight_of_map classes := by
  unfold get_weight_class_positive Spec.pos_weight_of_map
  cases h1 : map_find classes 1 with
  | some v => rfl
  | none =>
    cases classes with
    | nil => simp [map_find]
    | cons e rest =>
      simp only [List.length_cons, gt_iff_lt, Nat.zero_lt_succ, if_true, map_subscript_value]
      cases map_find (e :: rest) 0 <;> rfl

/-- C10. A binary classifier in which exactly one class appears in the leaves
(`weights_classes_` has one element, that is, there is a leaf descriptor and all leaf
descriptors carry the same class id; for the aggregator, `binary_case_` is set). With
`pos_weight` the score of class 1 if present, else the score of class 0 if present, else 0:
if all class weights are non-negative (no weight is `< 0`), the label is `class_labels[1]`
with `add_second_class = 0` when `pos_weight > 0.5` and `class_labels[0]` with
`add_second_class = 1` otherwise; if some weight is negative, the label is `class_labels[1]`
with `add_second_class = 2` when `pos_weight > 0` and `class_labels[0]` with
`add_second_class = 3` otherwise. This holds for the free function `_set_score_binary` of
the flat classifier and for the method of the aggregator (on two scores, and on the single
score left when class 1 has none). -/
theorem C10_degenerate_binary_label (class_ids : List Int) (class_weights : List NTYPE)
    (l0 l1 : Int) (classes : ClassMap) (write_additional_scores : Int)
    (positive_label negative_label : Int)
    (hone : (RuntimeTreeEnsembleClassifier.Initialize_weights_classes class_ids).length = 1) :
    (class_ids ≠ [] ∧ ∃ c, ∀ i ∈ class_ids, i = c) ∧
    (RuntimeTreeEnsembleClassifier.Initialize_weights_are_all_positive class_weights = true ↔
      ∀ w ∈ class_weights, NTYPE.lt w NTYPE.zero = false) ∧
    (∃ classes2,
      _set_score_binary write_additional_scores
        (RuntimeTreeEnsembleClassifier.Initialize_weights_are_all_positive class_weights)
        classes [l0, l1] (RuntimeTreeEnsembleClassifier.Initialize_weights_classes class_ids)
        positive_label negative_label
      = .ok (classes2,
          Spec.degenerate_binary_outcome
            (RuntimeTreeEnsembleClassifier.Initialize_weights_are_all_positive class_weights)
            (Spec.pos_weight_of_map classes) l0 l1)) ∧
    (∀ (self : _AggregatorClassifier) (s0 s1 : NTYPE) (h0 h1 : Bool),
      self.binary_case_ = true → self.class_labels_ = [l0, l1] →
      self._set_score_binary write_additional_scores [s0, s1] [h0, h1]
        = .ok (Spec.degenerate_binary_outcome self.weights_are_all_positive_
            (Spec.pos_weight_of_scores s0 s1 h0 h1) l0 l1) ∧
      self._set_score_binary write_additional_scores [s0] [h0, false]
        = .ok (Spec.degenerate_binary_outcome self.weights_are_all_positive_
            (Spec.pos_weight_of_scores s0 s1 h0 false) l0 l1)) := by
  refine ⟨(RuntimeTreeEnsembleClassifier.Initialize_weights_classes_length_one class_ids).mp
    hone, RuntimeTreeEnsembleClassifier.Initialize_weights_are_all_positive_iff class_weights,
    ?_, ?_⟩
  · refine ⟨(get_weight_class_positive classes).1, ?_⟩
    rw [← get_weight_class_positive_snd classes]
    unfold _set_score_binary Spec.degenerate_binary_outcome
    simp only [List.length_cons, List.length_nil, hone, and_self, if_true]
    cases RuntimeTreeEnsembleClassifier.Initialize_weights_are_all_positive class_weights
    · cases hgt : NTYPE.gt (get_weight_class_positive classes).2 NTYPE.zero <;>
        simp [vec_at, hgt, bind, Except.bind, pure, Except.pure]
    · cases hgt : NTYPE.gt (get_weight_class_positive classes).2 (NTYPE.num (1 / 2)) <;>
        simp [vec_at, hgt, bind, Except.bind, pure, Except.pure]
  · intro self s0 s1 h0 h1 hbin hlab
    constructor
    · unfold _AggregatorClassifier._set_score_binary Spec.degenerate_binary_outcome
        Spec.pos_weight_of_scores
      cases h1 <;> cases h0 <;> cases self.weights_are_all_positive_ <;>
        simp [vec_at, hbin, hlab, bind, Except.bind, pure, Except.pure] <;>
        split <;> simp_all
    · unfold _AggregatorClassifier._set_score_binary Spec.degenerate_binary_outcome
        Spec.pos_weight_of_scores
      cases h0 <;> cases self.weights_are_all_positive_ <;>
        simp [vec_at, hbin, hlab, bind, Except.bind, pure, Except.pure] <;>
        split <;> simp_all

/-- C10 (witness): the statement applied to scenario 6 of the specification: only class 0
appears in the leaves, with the non-negative weight 0.7; the class map holds the score 0.7
for class 0 and the labels are 10 and 20. The label is `class_labels[1] = 20` with
`add_second_class = 0`. -/
theorem C10_degenerate_binary_label_witness :
    (RuntimeTreeEnsembleClassifier.Initialize_weights_classes [0]).length = 1 ∧
    (Example.binary_aggregator true).binary_case_ = true ∧
    (Example.binary_aggregator true).class_labels_ = [10, 20] ∧
    (∃ classes2,
      _set_score_binary (-1)
        (RuntimeTreeEnsembleClassifier.Initialize_weights_are_all_positive [NTYPE.num (7 / 10)])
        [(0, NTYPE.num (7 / 10))] [10, 20]
        (RuntimeTreeEnsembleClassifier.Initialize_weights_classes [0]) 1 0
      = .ok (classes2, 20, 0)) ∧
    (Example.binary_aggregator true)._set_score_binary (-1) [NTYPE.num (7 / 10)] [true, false]
      = .ok (20, 0) := by
  obtain ⟨-, -, ⟨classes2, h⟩, hagg⟩ :=
    C10_degenerate_binary_label [0] [NTYPE.num (7 / 10)] 10 20 [(0, NTYPE.num (7 / 10))] (-1)
      1 0 (by decide)
  have hout : Spec.degenerate_binary_outcome
      (RuntimeTreeEnsembleClassifier.Initialize_weights_are_all_positive [NTYPE.num (7 / 10)])
      (Spec.pos_weight_of_map [(0, NTYPE.num (7 / 10))]) 10 20 = (20, 0) := by decide!
  rw [hout] at h
  have h2 := (hagg (Example.binary_aggregator true) (NTYPE.num (7 / 10)) NTYPE.zero true false
    rfl rfl).2
  have hout2 : Spec.degenerate_binary_outcome
      (Example.binary_aggregator true).weights_are_all_positive_
      (Spec.pos_weight_of_scores (NTYPE.num (7 / 10)) NTYPE.zero true false) 10 20
      = (20, 0) := by decide!
  rw [hout2] at h2
  exact ⟨by decide, rfl, rfl, ⟨classes2, h⟩, h2⟩

/-! ## Binary finalization with two base values -/

/-- When class 1 is in the map, `_set_score_binary` leaves the map as it is and returns. -/
theorem _set_score_binary_of_class_1 (write_additional_scores : Int)
    (weights_are_all_positive_ : Bool) (classes : ClassMap) (classes_labels_ : List Int)
    (weights_classes_ : List Int) (positive_label negative_label : Int) (v : NTYPE)
    (h1 : map_find classes 1 = some v) :
    ∃ label w, _set_score_binary write_additional_scores weights_are_all_positive_ classes
      classes_labels_ weights_classes_ positive_label negative_label
        = .ok (classes, label, w) := by
  unfold _set_score_binary get_weight_class_positive
  simp only [h1]
  by_cases hc : classes_labels_.length = 2 ∧ weights_classes_.length = 1
  · obtain ⟨l0, l1, hl⟩ := List.length_eq_two.mp hc.1
    subst hl
    simp only [List.length_cons, List.length_nil, hc.2, and_self, if_true]
    cases weights_are_all_positive_ <;>
      simp only [Bool.false_eq_true, if_false, if_true] <;>
      split <;> simp [vec_at, bind, Except.bind, pure, Except.pure]
  · simp only [hc, if_false]
    split <;> simp [pure, Except.pure]

/-- C11 (counterexample). Binary finalization with base values `[0.1, 0.2]`. In `compute`,
when both classes have a score (0.3 and 0.4) each class gets its own base value: the scores
become 0.4 and 0.6, not -0.6 and 0.6; when class 1 has no score and class 0 has 0.3, the
scores become `-(0.2 + 0.3)` and `0.2 + 0.3`, not 0.4 and 0.2. In the aggregator, when class 1
has a score the new score of class 1 is `0.2 + 0.3`, computed from the score of class 0. -/
theorem C11_counterexample_base_values_of_length_two :
    Example.flat_binary_with_base_values.finalize_binary
        [(0, NTYPE.num (3 / 10)), (1, NTYPE.num (4 / 10))]
      = .ok ([(0, NTYPE.num (4 / 10)), (1, NTYPE.num (6 / 10))], 1, -1) ∧
    Example.flat_binary_with_base_values.finalize_binary [(0, NTYPE.num (3 / 10))]
      = .ok ([(0, NTYPE.num (-(5 / 10))), (1, NTYPE.num (5 / 10))], 1, -1) ∧
    Example.binary_aggregator_with_base_values.adjust_binary
        [NTYPE.num (3 / 10), NTYPE.num (4 / 10)] [true, true]
      = .ok ([NTYPE.num (-(5 / 10)), NTYPE.num (5 / 10)], [true, true]) := by
  decide!

/-- C11 (amended). Binary finalization of `compute` with two base values `b0, b1`, on a class
map in key order. If class 1 has no score and class 0 has the score `s0`, then with
`s1 = b1 + s0` the map on exit holds `-s1` for class 0 and `s1` for class 1. If class 1 has
the score `s1`, the map on exit holds `s1 + b1` for class 1 and the score of class 0 (0 when
it has none) plus `b0` for class 0. All other entries are unchanged. -/
theorem C11_binary_base_values_of_length_two (c : RuntimeTreeEnsembleClassifier)
    (classes : ClassMap) (b0 b1 : NTYPE) (hbv : c.base_values_ = [b0, b1])
    (hs : map_sorted classes) :
    (∀ s0, map_find classes 1 = none → map_find classes 0 = some s0 →
      ∃ classes2 label w, c.finalize_binary classes = .ok (classes2, label, w) ∧
        map_find classes2 0 = some (NTYPE.neg (NTYPE.add b1 s0)) ∧
        map_find classes2 1 = some (NTYPE.add b1 s0) ∧
        ∀ j, j ≠ 0 → j ≠ 1 → map_find classes2 j = map_find classes j) ∧
    (∀ s1, map_find classes 1 = some s1 →
      ∃ classes2 label w, c.finalize_binary classes = .ok (classes2, label, w) ∧
        map_find classes2 0 = some (NTYPE.add ((map_find classes 0).getD NTYPE.zero) b0) ∧
        map_find classes2 1 = some (NTYPE.add s1 b1) ∧
        ∀ j, j ≠ 0 → j ≠ 1 → map_find classes2 j = map_find classes j) := by
  constructor
  · intro s0 h1 h0
    have hf1 : map_find (map_modify (map_insert classes 1 (NTYPE.add b1 s0)) 0
        (fun _ => NTYPE.neg (NTYPE.add b1 s0))) 1 = some (NTYPE.add b1 s0) := by
      simp [map_find_modify, map_find_insert _ _ _ _ hs, h1]
    obtain ⟨label, w, hset⟩ := _set_score_binary_of_class_1 (-1) c.weights_are_all_positive_ _
      c.classlabels_int64s_ c.weights_classes_ 1 0 _ hf1
    refine ⟨_, label, w, ?_, ?_, hf1, ?_⟩
    · simp [RuntimeTreeEnsembleClassifier.finalize_binary, hbv, h1, h0, vec_at, hset, bind,
        Except.bind, pure, Except.pure]
    · simp [map_find_modify, map_find_insert _ _ _ _ hs, h0]
    · intro j hj0 hj1
      simp [map_find_modify, map_find_insert _ _ _ _ hs, hj0, hj1]
  · intro s1 h1
    have hs2 : map_sorted (map_modify classes 1 (fun s => NTYPE.add s b1)) :=
      map_modify_sorted classes 1 _ hs
    have hf1 : map_find (map_modify (map_subscript (map_modify classes 1
        (fun s => NTYPE.add s b1)) 0) 0 (fun s => NTYPE.add s b0)) 1
        = some (NTYPE.add s1 b1) := by
      simp [map_find_modify, map_subscript, map_find_insert _ _ _ _ hs2, h1]
    obtain ⟨label, w, hset⟩ := _set_score_binary_of_class_1 (-1) c.weights_are_all_positive_ _
      c.classlabels_int64s_ c.weights_classes_ 1 0 _ hf1
    refine ⟨_, label, w, ?_, ?_, hf1, ?_⟩
    · simp [RuntimeTreeEnsembleClassifier.finalize_binary, hbv, h1, vec_at, hset, bind,
        Except.bind, pure, Except.pure]
    · cases h0 : map_find classes 0 <;>
        simp [map_find_modify, map_subscript, map_find_insert _ _ _ _ hs2, h0]
    · intro j hj0 hj1
      simp [map_find_modify, map_subscript, map_find_insert _ _ _ _ hs2, hj0, hj1]

/-- C11 (witness): the amended statement applied to the base values 0.1 and 0.2 and the map
in which only class 0 has a score, 0.3: the scores on exit are -0.5 and 0.5. -/
theorem C11_binary_base_values_of_length_two_witness :
    Example.flat_binary_with_base_values.base_values_
      = [NTYPE.num (1 / 10), NTYPE.num (2 / 10)] ∧
    map_sorted [(0, NTYPE.num (3 / 10))] ∧
    ∃ classes2 label w,
      Example.flat_binary_with_base_values.finalize_binary [(0, NTYPE.num (3 / 10))]
        = .ok (classes2, label, w) ∧
      map_find classes2 0 = some (NTYPE.num (-(5 / 10))) ∧
      map_find classes2 1 = some (NTYPE.num (5 / 10)) := by
  have hs : map_sorted [((0 : Int), NTYPE.num (3 / 10))] := by simp [map_sorted]
  obtain ⟨classes2, label, w, h, h0, h1, -⟩ :=
    (C11_binary_base_values_of_length_two Example.flat_binary_with_base_values
      [(0, NTYPE.num (3 / 10))] (NTYPE.num (1 / 10)) (NTYPE.num (2 / 10)) rfl hs).1
      (NTYPE.num (3 / 10)) (by decide!) (by decide!)
  have e1 : NTYPE.add (NTYPE.num (2 / 10)) (NTYPE.num (3 / 10)) = NTYPE.num (5 / 10) := by
    decide!
  have e0 : NTYPE.neg (NTYPE.add (NTYPE.num (2 / 10)) (NTYPE.num (3 / 10)))
      = NTYPE.num (-(5 / 10)) := by decide!
  rw [e0] at h0
  rw [e1] at h1
  exact ⟨rfl, hs, classes2, label, w, h, h0, h1⟩

/-! ## The scores written by `write_scores` -/

/-- C12 (counterexample). Scenario 1: one stump on feature 0 with threshold 0.5 (LEQ), true
leaf with class 0 and weight 0.8, false leaf with class 1 and weight 0.9, class labels
`[10, 20]`, no base values, no post-transform. `compute` on the row `[0.0]` yields the label
1 and the scores `[0.8, 0]`, not the label 10 and the scores `[0.2, 0.8]`; on the row `[1.0]`
it yields the label 1 and the scores `[0, 0.9]`, not the label 20 and the scores
`[0.1, 0.9]`. -/
theorem C12_counterexample_scenario_1 :
    Example.flat_binary_stump.compute_row_output Example.cmath (Example.const_row 0) 0
      = .ok (1, [NTYPE.num (4 / 5), NTYPE.num 0]) ∧
    Example.flat_binary_stump.compute_row_output Example.cmath (Example.const_row 1) 0
      = .ok (1, [NTYPE.num 0, NTYPE.num (9 / 10)]) := by
  decide!

/-- C12 (amended). Scenario 1 with any `<cmath>`: both classes appear in the leaves, so
`compute` applies no binary shaping (`add_second_class` stays -1) and writes the dense score
vector: `[0.8, 0]` on the row `[0.0]` and `[0, 0.9]` on the row `[1.0]`. -/
theorem C12_scenario_1_scores (m : Cmath) :
    (∃ label, Example.flat_binary_stump.compute_row_output m (Example.const_row 0) 0
      = .ok (label, [NTYPE.num (4 / 5), NTYPE.num 0])) ∧
    (∃ label, Example.flat_binary_stump.compute_row_output m (Example.const_row 1) 0
      = .ok (label, [NTYPE.num 0, NTYPE.num (9 / 10)])) ∧
    (∃ label scores, Example.flat_binary_stump.compute_row (Example.const_row 0) 0
      = .ok (label, { scores := scores, post_transform := POST_EVAL_TRANSFORM.NONE,
                      add_second_class := -1 })) ∧
    (∃ label scores, Example.flat_binary_stump.compute_row (Example.const_row 1) 0
      = .ok (label, { scores := scores, post_transform := POST_EVAL_TRANSFORM.NONE,
                      add_second_class := -1 })) := by
  have h0 : Example.flat_binary_stump.compute_row (Example.const_row 0) 0
      = .ok (1, { scores := [NTYPE.num (4 / 5), NTYPE.num 0],
                  post_transform := POST_EVAL_TRANSFORM.NONE, add_second_class := -1 }) := by
    decide!
  have h1 : Example.flat_binary_stump.compute_row (Example.const_row 1) 0
      = .ok (1, { scores := [NTYPE.num 0, NTYPE.num (9 / 10)],
                  post_transform := POST_EVAL_TRANSFORM.NONE, add_second_class := -1 }) := by
    decide!
  refine ⟨⟨1, ?_⟩, ⟨1, ?_⟩, ⟨1, _, h0⟩, ⟨1, _, h1⟩⟩
  · simp [RuntimeTreeEnsembleClassifier.compute_row_output, h0, WriteScoresCall.written,
      write_scores, bind, Except.bind, pure, Except.pure]
  · simp [RuntimeTreeEnsembleClassifier.compute_row_output, h1, WriteScoresCall.written,
      write_scores, bind, Except.bind, pure, Except.pure]

/-- C13 (counterexample). With the post-transform PROBIT, `write_scores` on the single score
0.7 writes one value, `ComputeProbit(0.7)`, for `add_second_class` 0 and for 1: not the two
values `[0.3, 0.7]`. -/
theorem C13_counterexample_probit_single_score :
    write_scores Example.cmath [NTYPE.num (7 / 10)] POST_EVAL_TRANSFORM.PROBIT 0
      = [ComputeProbit Example.cmath (NTYPE.num (7 / 10))] ∧
    write_scores Example.cmath [NTYPE.num (7 / 10)] POST_EVAL_TRANSFORM.PROBIT 1
      = [ComputeProbit Example.cmath (NTYPE.num (7 / 10))] ∧
    (write_scores Example.cmath [NTYPE.num (7 / 10)] POST_EVAL_TRANSFORM.PROBIT 0).length
      = 1 := by
  refine ⟨rfl, rfl, rfl⟩

/-- C13 (amended). For a single score `s` and `add_second_class` 0 or 1, `write_scores`
writes the two values `[1 - s, s]` for every post-transform other than PROBIT, and the single
value `ComputeProbit(s)` for PROBIT. -/
theorem C13_add_second_class_0_or_1 (m : Cmath) (s : NTYPE)
    (post_transform : POST_EVAL_TRANSFORM) (add_second_class : Int)
    (hadd : add_second_class = 0 ∨ add_second_class = 1) :
    (post_transform ≠ POST_EVAL_TRANSFORM.PROBIT →
      write_scores m [s] post_transform add_second_class
        = [NTYPE.sub (NTYPE.num 1) s, s]) ∧
    (post_transform = POST_EVAL_TRANSFORM.PROBIT →
      write_scores m [s] post_transform add_second_class = [ComputeProbit m s]) := by
  constructor
  · intro hp
    rcases hadd with h | h <;> simp [write_scores, hp, h]
  · intro hp
    simp [write_scores, hp]

/-- C13 (witness): the amended statement applied to the score 0.7, no post-transform and
`add_second_class = 0`: the values written are `[0.3, 0.7]`. -/
theorem C13_add_second_class_0_or_1_witness :
    ((0 : Int) = 0 ∨ (0 : Int) = 1) ∧
    write_scores Example.cmath [NTYPE.num (7 / 10)] POST_EVAL_TRANSFORM.NONE 0
      = [NTYPE.num (3 / 10), NTYPE.num (7 / 10)] := by
  have h := (C13_add_second_class_0_or_1 Example.cmath (NTYPE.num (7 / 10))
    POST_EVAL_TRANSFORM.NONE 0 (Or.inl rfl)).1 (by decide)
  have e : NTYPE.sub (NTYPE.num 1) (NTYPE.num (7 / 10)) = NTYPE.num (3 / 10) := by decide!
  rw [e] at h
  exact ⟨Or.inl rfl, h⟩

/-- C14 (counterexample). With no post-transform, `write_scores` on the single score 0.7 with
`add_second_class = 3` writes the two values `[0.7, -0.7]`, not the single value `-0.7`. -/
theorem C14_counterexample_two_values :
    write_scores Example.cmath [NTYPE.num (7 / 10)] POST_EVAL_TRANSFORM.NONE 3
      = [NTYPE.num (7 / 10), NTYPE.num (-(7 / 10))] ∧
    (write_scores Example.cmath [NTYPE.num (7 / 10)] POST_EVAL_TRANSFORM.NONE 3).length
      = 2 := by
  decide!

/-- C14 (amended). For a single score `s` and `add_second_class = 3`, `write_scores` writes
`[ComputeLogistic(-s), ComputeLogistic(s)]` when the post-transform is LOGISTIC, the single
value `ComputeProbit(s)` when it is PROBIT, and the two values `[s, -s]` otherwise. -/
theorem C14_add_second_class_3 (m : Cmath) (s : NTYPE) :
    write_scores m [s] POST_EVAL_TRANSFORM.LOGISTIC 3
      = [ComputeLogistic m (NTYPE.neg s), ComputeLogistic m s] ∧
    write_scores m [s] POST_EVAL_TRANSFORM.PROBIT 3 = [ComputeProbit m s] ∧
    (∀ post_transform : POST_EVAL_TRANSFORM,
      post_transform ≠ POST_EVAL_TRANSFORM.LOGISTIC →
      post_transform ≠ POST_EVAL_TRANSFORM.PROBIT →
      write_scores m [s] post_transform 3 = [s, NTYPE.neg s]) := by
  refine ⟨by simp [write_scores], by simp [write_scores], ?_⟩
  intro post_transform h1 h2
  simp [write_scores, h1, h2]

/-! ## The post-transforms -/

theorem Example.exp_stand_in_pos (y : ℚ) : 0 < Example.exp_stand_in y := by
  unfold Example.exp_stand_in
  split
  · linarith
  · apply div_pos one_pos
    linarith

/-- C17. For every number `x` and every `std::exp` with non-negative values,
`ComputeLogistic(x)` is the number `1/(1+e^{-|x|})` when `x >= 0` and `1 - 1/(1+e^{-|x|})`
when `x < 0` (`Spec.logistic`), and it lies between 0 and 1. -/
theorem C17_logistic_formula_and_range (m : Cmath) (x : ℚ) (hexp : ∀ y, 0 ≤ m.exp y) :
    ComputeLogistic m (NTYPE.num x) = NTYPE.num (Spec.logistic m x) ∧
    (0 ≤ x → Spec.logistic m x = 1 / (1 + m.exp (-|x|))) ∧
    (x < 0 → Spec.logistic m x = 1 - 1 / (1 + m.exp (-|x|))) ∧
    0 ≤ Spec.logistic m x ∧ Spec.logistic m x ≤ 1 := by
  have he := hexp (-|x|)
  have hpos : 0 < 1 + m.exp (-|x|) := by linarith
  have hne : 1 + m.exp (-|x|) ≠ 0 := ne_of_gt hpos
  have hv0 : 0 ≤ 1 / (1 + m.exp (-|x|)) := le_of_lt (div_pos one_pos hpos)
  have hv1 : 1 / (1 + m.exp (-|x|)) ≤ 1 := by
    rw [div_le_one hpos]
    linarith
  refine ⟨?_, ?_, ?_, ?_, ?_⟩
  · unfold ComputeLogistic Spec.logistic
    by_cases hx : x < 0
    · simp [NTYPE.abs, NTYPE.neg, Cmath.std_exp, NTYPE.add, NTYPE.div, NTYPE.lt, NTYPE.zero,
        NTYPE.sub, hne, hx]
    · simp [NTYPE.abs, NTYPE.neg, Cmath.std_exp, NTYPE.add, NTYPE.div, NTYPE.lt, NTYPE.zero,
        NTYPE.sub, hne, hx]
  · intro hx
    simp [Spec.logistic, not_lt.mpr hx]
  · intro hx
    simp [Spec.logistic, hx]
  · unfold Spec.logistic
    split
    · linarith
    · exact hv0
  · unfold Spec.logistic
    split
    · linarith
    · exact hv1

/-- C17 (witness): the statement applied to `x = 0` and the stand-in for `std::exp`: the
value is 1/2. -/
theorem C17_logistic_formula_and_range_witness :
    (∀ y, 0 ≤ Example.cmath.exp y) ∧
    ComputeLogistic Example.cmath (NTYPE.num 0) = NTYPE.num (1 / 2) := by
  have hexp : ∀ y, 0 ≤ Example.cmath.exp y := fun y => le_of_lt (Example.exp_stand_in_pos y)
  have h := (C17_logistic_formula_and_range Example.cmath 0 hexp).1
  have e : Spec.logistic Example.cmath 0 = 1 / 2 := by decide!
  rw [e] at h
  exact ⟨hexp, h⟩

theorem softmax_v_max_fold (s : List ℚ) :
    ∀ acc : ℚ,
      (s.map NTYPE.num).foldl
          (fun v_max value => if NTYPE.gt value v_max then value else v_max) (NTYPE.num acc)
        = NTYPE.num (s.foldl max acc) := by
  induction s with
  | nil => intro acc; rfl
  | cons q rest ih =>
    intro acc
    have hstep : (if NTYPE.gt (NTYPE.num q) (NTYPE.num acc) then NTYPE.num q
        else NTYPE.num acc) = NTYPE.num (max acc q) := by
      by_cases h : acc < q
      · simp [NTYPE.gt, h, max_eq_right (le_of_lt h)]
      · simp [NTYPE.gt, h, max_eq_left (not_lt.mp h)]
    have h := ih (max acc q)
    rw [← hstep] at h
    exact h

theorem foldl_max_spec (s : List ℚ) :
    ∀ acc : ℚ, acc ≤ s.foldl max acc ∧ (∀ q ∈ s, q ≤ s.foldl max acc) ∧
      (s.foldl max acc = acc ∨ s.foldl max acc ∈ s) := by
  induction s with
  | nil => intro acc; simp
  | cons q rest ih =>
    intro acc
    obtain ⟨h1, h2, h3⟩ := ih (max acc q)
    simp only [List.foldl_cons, List.mem_cons]
    refine ⟨le_trans (le_max_left _ _) h1, ?_, ?_⟩
    · intro r hr
      rcases hr with hr | hr
      · subst hr; exact le_trans (le_max_right _ _) h1
      · exact h2 r hr
    · rcases h3 with h3 | h3
      · rcases max_choice acc q with hm | hm
        · left; rw [h3, hm]
        · right; left; rw [h3, hm]
      · right; right; exact h3

/-- On a non-empty vector of numbers that are at least `-FLT_MAX`, the first loop of the
softmax routines leaves the maximum of the vector in `v_max`. -/
theorem softmax_v_max_spec (s : List ℚ) (hne : s ≠ []) (hfin : ∀ q ∈ s, -FLT_MAX ≤ q) :
    ∃ vmax, vmax ∈ s ∧ (∀ q ∈ s, q ≤ vmax) ∧
      softmax_v_max (s.map NTYPE.num) = NTYPE.num vmax := by
  obtain ⟨h1, h2, h3⟩ := foldl_max_spec s (-FLT_MAX)
  refine ⟨s.foldl max (-FLT_MAX), ?_, h2, softmax_v_max_fold s (-FLT_MAX)⟩
  rcases h3 with h3 | h3
  · obtain ⟨q, hq⟩ := List.exists_mem_of_ne_nil s hne
    have hle := h2 q hq
    have hge := hfin q hq
    have : q = s.foldl max (-FLT_MAX) := by rw [h3] at hle ⊢; exact le_antisymm hle hge
    rw [← this]; exact hq
  · exact h3

theorem ComputeSoftmax_loop_fold (m : Cmath) (vmax : ℚ) (s : List ℚ) :
    ∀ (t : ℚ) (l : List NTYPE),
      (s.map NTYPE.num).foldl
          (fun st value =>
            let val2 := m.std_exp (NTYPE.sub value (NTYPE.num vmax))
            (NTYPE.add st.1 val2, st.2 ++ [val2]))
          (NTYPE.num t, l)
        = (NTYPE.num (t + (s.map (fun q => m.exp (q - vmax))).sum),
           l ++ s.map (fun q => NTYPE.num (m.exp (q - vmax)))) := by
  induction s with
  | nil => intro t l; simp
  | cons q rest ih =>
    intro t l
    have h := ih (t + m.exp (q - vmax)) (l ++ [NTYPE.num (m.exp (q - vmax))])
    simp only [List.map_cons, List.sum_cons, List.append_assoc, List.singleton_append,
      add_assoc] at h ⊢
    exact h

/-- C15. For every non-empty vector `s` of finite scores (numbers that are at least
`-FLT_MAX`) and every `std::exp` with non-negative values and a positive value at 0,
`ComputeSoftmax` replaces `s` by the vector of the same length with the entries
`exp(s_k - max s) / sum_j exp(s_j - max s)` (`Spec.softmax`), and these entries sum to 1. The
arithmetic is exact: rounding is not part of the statement. -/
theorem C15_softmax_formula_and_sum (m : Cmath) (s : List ℚ) (hne : s ≠ [])
    (hfin : ∀ q ∈ s, -FLT_MAX ≤ q) (hexp : ∀ y, 0 ≤ m.exp y) (hexp0 : 0 < m.exp 0) :
    ∃ vmax, vmax ∈ s ∧ (∀ q ∈ s, q ≤ vmax) ∧
      ComputeSoftmax m (s.map NTYPE.num) = (Spec.softmax m s vmax).map NTYPE.num ∧
      (ComputeSoftmax m (s.map NTYPE.num)).length = s.length ∧
      (Spec.softmax m s vmax).sum = 1 := by
  obtain ⟨vmax, hmem, hmax, hv⟩ := softmax_v_max_spec s hne hfin
  have hsum : 0 < (s.map (fun q => m.exp (q - vmax))).sum := by
    have hle : m.exp (vmax - vmax) ≤ (s.map (fun q => m.exp (q - vmax))).sum := by
      apply List.single_le_sum
      · intro x hx
        obtain ⟨q, -, rfl⟩ := List.mem_map.mp hx
        exact hexp _
      · exact List.mem_map.mpr ⟨vmax, hmem, rfl⟩
    rw [sub_self] at hle
    linarith
  have hcode : ComputeSoftmax m (s.map NTYPE.num) = (Spec.softmax m s vmax).map NTYPE.num := by
    unfold ComputeSoftmax ComputeSoftmax_loop
    rw [hv]
    simp only [NTYPE.zero, ComputeSoftmax_loop_fold, zero_add, List.nil_append, List.map_map,
      Spec.softmax]
    apply List.map_congr_left
    intro q _
    simp [NTYPE.div, ne_of_gt hsum]
  refine ⟨vmax, hmem, hmax, hcode, ?_, ?_⟩
  · rw [hcode]; simp [Spec.softmax]
  · unfold Spec.softmax
    have : (fun q => m.exp (q - vmax) / (s.map (fun r => m.exp (r - vmax))).sum)
        = (fun q => m.exp (q - vmax) * ((s.map (fun r => m.exp (r - vmax))).sum)⁻¹) := by
      funext q; rw [div_eq_mul_inv]
    rw [this, List.sum_map_mul_right]
    exact mul_inv_cancel₀ (ne_of_gt hsum)

/-- C15 (witness): the statement applied to the vector `[0, 1]` and the stand-in for
`std::exp`; the entries written are 1/3 and 2/3. -/
theorem C15_softmax_formula_and_sum_witness :
    ([0, 1] : List ℚ) ≠ [] ∧ (∀ q ∈ ([0, 1] : List ℚ), -FLT_MAX ≤ q) ∧
    (∀ y, 0 ≤ Example.cmath.exp y) ∧ 0 < Example.cmath.exp 0 ∧
    (ComputeSoftmax Example.cmath [NTYPE.num 0, NTYPE.num 1]).length = 2 ∧
    ComputeSoftmax Example.cmath [NTYPE.num 0, NTYPE.num 1]
      = [NTYPE.num (1 / 3), NTYPE.num (2 / 3)] := by
  have hfin : ∀ q ∈ ([0, 1] : List ℚ), -FLT_MAX ≤ q := by
    intro q hq
    simp only [List.mem_cons, List.mem_singleton, List.not_mem_nil, or_false] at hq
    rcases hq with rfl | rfl <;> norm_num [FLT_MAX]
  have hexp : ∀ y, 0 ≤ Example.cmath.exp y := fun y => le_of_lt (Example.exp_stand_in_pos y)
  obtain ⟨vmax, -, -, -, hlen, -⟩ :=
    C15_softmax_formula_and_sum Example.cmath [0, 1] (by simp) hfin hexp
      (Example.exp_stand_in_pos 0)
  exact ⟨by simp, hfin, hexp, Example.exp_stand_in_pos 0, hlen, by decide!⟩

theorem ComputeSoftmaxZero_loop_fold (m : Cmath) (vmax e : ℚ) (s : List ℚ) :
    ∀ (t : ℚ) (l : List NTYPE),
      (s.map NTYPE.num).foldl
          (fun st value =>
            if NTYPE.gt value (NTYPE.num (1 / 10000000))
                || NTYPE.lt value (NTYPE.num (-(1 / 10000000))) then
              let val2 := m.std_exp (NTYPE.sub value (NTYPE.num vmax))
              (NTYPE.add st.1 val2, st.2 ++ [val2])
            else
              (st.1, st.2 ++ [NTYPE.mul value (NTYPE.num e)]))
          (NTYPE.num t, l)
        = (NTYPE.num (t + ((s.filter (fun q => !decide (|q| ≤ 1 / 10000000))).map
              (fun q => m.exp (q - vmax))).sum),
           l ++ s.map (fun q => NTYPE.num
              (if decide (|q| ≤ 1 / 10000000) = true then q * e else m.exp (q - vmax)))) := by
  induction s with
  | nil => intro t l; simp
  | cons q rest ih =>
    intro t l
    by_cases hq : |q| ≤ 1 / 10000000
    · have hc : (NTYPE.gt (NTYPE.num q) (NTYPE.num (1 / 10000000))
          || NTYPE.lt (NTYPE.num q) (NTYPE.num (-(1 / 10000000)))) = false := by
        have := abs_le.mp hq
        simp only [NTYPE.gt, NTYPE.lt, Bool.or_eq_false_iff, decide_eq_false_iff_not, not_lt]
        exact ⟨this.2, this.1⟩
      have h := ih t (l ++ [NTYPE.num (q * e)])
      simp only [List.map_cons, List.foldl_cons, hc, Bool.false_eq_true, if_false, NTYPE.mul,
        List.filter_cons, hq, decide_True, Bool.not_true, if_true, List.append_assoc,
        List.singleton_append] at h ⊢
      exact h
    · have hc : (NTYPE.gt (NTYPE.num q) (NTYPE.num (1 / 10000000))
          || NTYPE.lt (NTYPE.num q) (NTYPE.num (-(1 / 10000000)))) = true := by
        simp only [NTYPE.gt, NTYPE.lt, Bool.or_eq_true, decide_eq_true_eq]
        by_contra hcon
        push_neg at hcon
        exact hq (abs_le.mpr ⟨hcon.2, hcon.1⟩)
      have h := ih (t + m.exp (q - vmax)) (l ++ [NTYPE.num (m.exp (q - vmax))])
      simp only [List.map_cons, List.foldl_cons, hc, if_true, NTYPE.sub, Cmath.std_exp,
        NTYPE.add, List.filter_cons, hq, decide_False, Bool.not_false, Bool.false_eq_true,
        if_false, List.sum_cons, List.append_assoc, List.singleton_append, add_assoc] at h ⊢
      exact h

/-- C16 (counterexample). On the vector `[1e-7, 1]`, with the stand-in for `std::exp`,
`ComputeSoftmaxZero` treats the value `1e-7` specially: it writes `1e-7 * exp(-1) / exp(0)`
for it and 1 for the other entry, the denominator being `exp(0)` alone. The specification's
wording, with the special treatment for magnitudes `< 1e-7` only, gives other values: the
denominator would also hold `exp(1e-7 - 1)`. -/
theorem C16_counterexample_magnitude_equal_bound :
    ComputeSoftmaxZero Example.cmath [NTYPE.num (1 / 10000000), NTYPE.num 1]
      = [NTYPE.num (1 / 20000000), NTYPE.num 1] ∧
    Spec.softmax_zero (fun q => decide (|q| < 1 / 10000000)) Example.cmath
        [1 / 10000000, 1] 1
      = [NTYPE.num (10000000 / 29999999), NTYPE.num (19999999 / 29999999)] := by
  decide!

/-- C16 (amended). For every non-empty vector `v` of numbers that are at least `-FLT_MAX`,
with maximum `vmax`, `ComputeSoftmaxZero` outputs for each `k` the value `n_k / D`, where
`n_k = v_k * e^{-vmax}` if `|v_k| <= 1e-7` and `n_k = e^{v_k - vmax}` otherwise, and `D` is
the sum of `e^{v_j - vmax}` over exactly those `j` with `|v_j| > 1e-7`
(`Spec.softmax_zero`). -/
theorem C16_softmax_zero_formula (m : Cmath) (v : List ℚ) (hne : v ≠ [])
    (hfin : ∀ q ∈ v, -FLT_MAX ≤ q) :
    ∃ vmax, vmax ∈ v ∧ (∀ q ∈ v, q ≤ vmax) ∧
      ComputeSoftmaxZero m (v.map NTYPE.num)
        = Spec.softmax_zero (fun q => decide (|q| ≤ 1 / 10000000)) m v vmax := by
  obtain ⟨vmax, hmem, hmax, hv⟩ := softmax_v_max_spec v hne hfin
  refine ⟨vmax, hmem, hmax, ?_⟩
  have hfold := ComputeSoftmaxZero_loop_fold m vmax (m.exp (-vmax)) v 0 []
  have hexp : m.std_exp (NTYPE.neg (NTYPE.num vmax)) = NTYPE.num (m.exp (-vmax)) := rfl
  unfold ComputeSoftmaxZero ComputeSoftmaxZero_loop
  rw [hv]
  dsimp only [NTYPE.zero]
  dsimp only at hfold
  rw [hexp, hfold]
  simp only [zero_add, List.nil_append, List.map_map, Spec.softmax_zero]
  rfl

/-- C16 (witness): the amended statement applied to the vector `[0, 1]` and the stand-in for
`std::exp`: the value 0 is treated specially and the entries written are 0 and 1. -/
theorem C16_softmax_zero_formula_witness :
    ([0, 1] : List ℚ) ≠ [] ∧ (∀ q ∈ ([0, 1] : List ℚ), -FLT_MAX ≤ q) ∧
    (∃ vmax, ComputeSoftmaxZero Example.cmath [NTYPE.num 0, NTYPE.num 1]
      = Spec.softmax_zero (fun q => decide (|q| ≤ 1 / 10000000)) Example.cmath [0, 1] vmax) ∧
    ComputeSoftmaxZero Example.cmath [NTYPE.num 0, NTYPE.num 1]
      = [NTYPE.num 0, NTYPE.num 1] := by
  have hfin : ∀ q ∈ ([0, 1] : List ℚ), -FLT_MAX ≤ q := by
    intro q hq
    simp only [List.mem_cons, List.mem_singleton, List.not_mem_nil, or_false] at hq
    rcases hq with rfl | rfl <;> norm_num [FLT_MAX]
  obtain ⟨vmax, -, -, h⟩ := C16_softmax_zero_formula Example.cmath [0, 1] (by simp) hfin
  exact ⟨by simp, hfin, ⟨vmax, h⟩, by decide!⟩
/-! ## The loops of `init` -/

/-- A property that holds before a loop over `0, ..., n-1` and is carried by every iteration
that returns holds after the loop, when the loop returns. -/
theorem foldlM_range_inv {σ : Type} (f : σ → Nat → Result σ) (I : Nat → σ → Prop) (n : Nat)
    (hstep : ∀ (k : Nat) (s s2 : σ), k < n → I k s → f s k = .ok s2 → I (k + 1) s2)
    (s0 : σ) (h0 : I 0 s0) :
    ∀ (k : Nat) (s : σ), k ≤ n → (List.range k).foldlM f s0 = .ok s → I k s := by
  intro k
  induction k with
  | zero =>
    intro s _ h
    simp only [List.range_zero, List.foldlM_nil, pure, Except.pure] at h
    cases h
    exact h0
  | succ k ih =>
    intro s hk h
    rw [List.range_succ, List.foldlM_append] at h
    cases hp : (List.range k).foldlM f s0 with
    | error e => simp [hp, bind, Except.bind] at h
    | ok s1 =>
      simp only [hp, bind, Except.bind, List.foldlM_cons, List.foldlM_nil, pure,
        Except.pure] at h
      have h1 := ih s1 (Nat.le_of_succ_le hk) hp
      cases hf : f s1 k with
      | error e => simp [hf] at h
      | ok s2 =>
        simp only [hf, Except.ok.injEq] at h
        subst h
        exact hstep k s1 s2 hk h1 hf

theorem vec_at_eq_ok {α : Type} (v : List α) (i : Nat) (x : α) :
    vec_at v i = .ok x ↔ v[i]? = some x := by
  unfold vec_at
  cases h : v[i]? <;> simp

namespace RuntimeTreeEnsembleRegressorP

theorem idi_find_mem (idi : IdIndex) (key : TreeNodeElementId) (p : Nat)
    (h : idi_find idi key = some p) : (key, p) ∈ idi := by
  induction idi with
  | nil => simp [idi_find] at h
  | cons e rest ih =>
    obtain ⟨k, q⟩ := e
    by_cases hk : k = key
    · simp only [idi_find, hk, if_true, Option.some.injEq] at h
      subst hk; subst h
      exact List.mem_cons_self _ _
    · simp only [idi_find, hk, if_false] at h
      exact List.mem_cons_of_mem _ (ih h)

theorem idi_find_eq_none_iff (idi : IdIndex) (key : TreeNodeElementId) :
    idi_find idi key = none ↔ ∀ e ∈ idi, e.1 ≠ key := by
  induction idi with
  | nil => simp [idi_find]
  | cons e rest ih =>
    obtain ⟨k, q⟩ := e
    by_cases hk : k = key
    · simp [idi_find, hk]
    · simp [idi_find, hk, ih]

/-- The stages of a call of `init` that returns. -/
theorem init_stages (a : Attributes) (self : RuntimeTreeEnsembleRegressorP)
    (h : init a = .ok self) :
    ∃ modes nodes0 idi nodes1 roots previous,
      a.nodes_modes.mapM to_NODE_MODE = .ok modes ∧
      (List.range a.nodes_treeids.length).foldlM (fill_node a modes) ([], [])
        = .ok (nodes0, idi) ∧
      (List.range a.nodes_treeids.length).foldlM
        (link_node a idi a.nodes_treeids.length) nodes0 = .ok nodes1 ∧
      (List.range a.nodes_treeids.length).foldlM (root_step nodes1) ([], -1)
        = .ok (roots, previous) ∧
      (List.range a.target_nodeids.length).foldlM (attach_weight a idi) nodes1
        = .ok self.nodes_ ∧
      self.roots_ = roots ∧ self.nbnodes_ = a.nodes_treeids.length ∧
      self.nbtrees_ = roots.length ∧
      self.same_mode_ = same_mode_scan modes none true ∧
      self.has_missing_tracks_
        = decide (a.nodes_missing_value_tracks_true.length = a.nodes_truenodeids.length) ∧
      self.base_values_ = a.base_values ∧ self.n_targets_ = a.n_targets ∧
      self.max_tree_depth_ = 1000 := by
  unfold init at h
  cases h1 : to_AGGREGATE_FUNCTION a.aggregate_function with
  | error e =>
    simp only [h1, bind, Except.bind] at h
    cases h
  | ok agg =>
  cases h2 : to_POST_EVAL_TRANSFORM a.post_transform with
  | error e =>
    simp only [h1, h2, bind, Except.bind] at h
    cases h
  | ok post =>
  cases h3 : a.nodes_modes.mapM to_NODE_MODE with
  | error e =>
    simp only [h1, h2, h3, bind, Except.bind] at h
    cases h
  | ok modes =>
  cases h4 : (List.range a.nodes_treeids.length).foldlM (fill_node a modes) ([], []) with
  | error e =>
    simp only [h1, h2, h3, h4, bind, Except.bind] at h
    cases h
  | ok st =>
  obtain ⟨nodes0, idi⟩ := st
  cases h5 : (List.range a.nodes_treeids.length).foldlM
      (link_node a idi a.nodes_treeids.length) nodes0 with
  | error e =>
    simp only [h1, h2, h3, h4, h5, bind, Except.bind] at h
    cases h
  | ok nodes1 =>
  cases h6 : (List.range a.nodes_treeids.length).foldlM (root_step nodes1) ([], -1) with
  | error e =>
    simp only [h1, h2, h3, h4, h5, h6, bind, Except.bind] at h
    cases h
  | ok st2 =>
  obtain ⟨roots, previous⟩ := st2
  cases h7 : (List.range a.target_nodeids.length).foldlM (attach_weight a idi) nodes1 with
  | error e =>
    simp only [h1, h2, h3, h4, h5, h6, h7, bind, Except.bind] at h
    cases h
  | ok nodes2 =>
  simp only [h1, h2, h3, h4, h5, h6, h7, bind, Except.bind, pure, Except.pure,
    Except.ok.injEq] at h
  subst h
  exact ⟨modes, nodes0, idi, nodes1, roots, previous, rfl, h4, h5, h6, h7, rfl, rfl, rfl,
    rfl, rfl, rfl, rfl, rfl⟩

end RuntimeTreeEnsembleRegressorP

theorem Result.bind_eq_ok {α β : Type} (x : Result α) (f : α → Result β) (b : β) :
    (x >>= f) = .ok b ↔ ∃ a, x = .ok a ∧ f a = .ok b := by
  cases x with
  | error e => simp [bind, Except.bind]
  | ok a => simp [bind, Except.bind]

theorem Result.pure_bind {α β : Type} (a : α) (f : α → Result β) :
    ((pure a : Result α) >>= f) = f a := rfl

namespace RuntimeTreeEnsembleRegressorP

theorem fill_node_ok (a : Attributes) (modes : List NODE_MODE) (k : Nat)
    (st st2 : List TreeNodeElement × IdIndex) (h : fill_node a modes st k = .ok st2) :
    ∃ nd, Filled a modes k nd ∧ nd.truenode = none ∧ nd.falsenode = none ∧ nd.weights = [] ∧
      idi_find st.2 nd.id = none ∧ st2 = (st.1 ++ [nd], st.2 ++ [(nd.id, k)]) := by
  unfold fill_node at h
  simp only [Result.bind_eq_ok, vec_at_eq_ok] at h
  obtain ⟨t, ht, n, hn, f, hf, v, hv, h⟩ := h
  by_cases hh : k < a.nodes_hitrates.length <;>
    by_cases hm : k < a.nodes_missing_value_tracks_true.length <;>
    simp only [hh, hm, if_true, if_false, Result.bind_eq_ok, Result.pure_bind,
      vec_at_eq_ok] at h
  · obtain ⟨hr, hhr, mode, hmode, mt, hmt, h⟩ := h
    cases hfind : idi_find st.2 ⟨toInt32 t, toInt32 n⟩ with
    | some p => simp only [hfind] at h; cases h
    | none =>
      simp only [hfind, pure, Except.pure, Except.ok.injEq] at h
      exact ⟨_, ⟨⟨t, ht, rfl⟩, ⟨n, hn, rfl⟩, ⟨f, hf, rfl⟩, hv, by simp [hhr], hmode,
        by simp [hmt]⟩, rfl, rfl, rfl, hfind, h.symm⟩
  · obtain ⟨hr, hhr, mode, hmode, h⟩ := h
    have hmt : a.nodes_missing_value_tracks_true[k]? = none :=
      List.getElem?_eq_none (Nat.le_of_not_lt hm)
    cases hfind : idi_find st.2 ⟨toInt32 t, toInt32 n⟩ with
    | some p => simp only [hfind] at h; cases h
    | none =>
      simp only [hfind, pure, Except.pure, Except.ok.injEq] at h
      exact ⟨_, ⟨⟨t, ht, rfl⟩, ⟨n, hn, rfl⟩, ⟨f, hf, rfl⟩, hv, by simp [hhr], hmode,
        by simp [hmt]⟩, rfl, rfl, rfl, hfind, h.symm⟩
  · obtain ⟨mode, hmode, mt, hmt, h⟩ := h
    have hhr : a.nodes_hitrates[k]? = none := List.getElem?_eq_none (Nat.le_of_not_lt hh)
    cases hfind : idi_find st.2 ⟨toInt32 t, toInt32 n⟩ with
    | some p => simp only [hfind] at h; cases h
    | none =>
      simp only [hfind, pure, Except.pure, Except.ok.injEq] at h
      exact ⟨_, ⟨⟨t, ht, rfl⟩, ⟨n, hn, rfl⟩, ⟨f, hf, rfl⟩, hv, by simp [hhr], hmode,
        by simp [hmt]⟩, rfl, rfl, rfl, hfind, h.symm⟩
  · obtain ⟨mode, hmode, h⟩ := h
    have hhr : a.nodes_hitrates[k]? = none := List.getElem?_eq_none (Nat.le_of_not_lt hh)
    have hmt : a.nodes_missing_value_tracks_true[k]? = none :=
      List.getElem?_eq_none (Nat.le_of_not_lt hm)
    cases hfind : idi_find st.2 ⟨toInt32 t, toInt32 n⟩ with
    | some p => simp only [hfind] at h; cases h
    | none =>
      simp only [hfind, pure, Except.pure, Except.ok.injEq] at h
      exact ⟨_, ⟨⟨t, ht, rfl⟩, ⟨n, hn, rfl⟩, ⟨f, hf, rfl⟩, hv, by simp [hhr], hmode,
        by simp [hmt]⟩, rfl, rfl, rfl, hfind, h.symm⟩

theorem fill_node_step (a : Attributes) (modes : List NODE_MODE) (k : Nat)
    (st st2 : List TreeNodeElement × IdIndex) (hinv : FillInv a modes k st)
    (h : fill_node a modes st k = .ok st2) : FillInv a modes (k + 1) st2 := by
  obtain ⟨hlen, hlen2, hall, hnodup⟩ := hinv
  obtain ⟨nd, hfilled, htn, hfn, hw, hfind, rfl⟩ := fill_node_ok a modes k st st2 h
  have hnotin : nd.id ∉ st.1.map (fun x => x.id) := by
    intro hmem
    obtain ⟨x, hx, hxid⟩ := List.mem_map.mp hmem
    obtain ⟨j, hj, hxj⟩ := List.getElem_of_mem hx
    have hsome : st.1[j]? = some x := by rw [List.getElem?_eq_getElem hj, hxj]
    have hidi := (hall j x hsome).1
    have := (idi_find_eq_none_iff st.2 nd.id).mp hfind (x.id, j) (List.getElem?_mem hidi)
    exact this hxid
  refine ⟨by simp [hlen], by simp [hlen2], ?_, ?_⟩
  · intro j x hx
    by_cases hj : j < k
    · have hx1 : st.1[j]? = some x := by
        rw [List.getElem?_append_left (by omega)] at hx; exact hx
      obtain ⟨h1, h2⟩ := hall j x hx1
      refine ⟨?_, h2⟩
      rw [List.getElem?_append_left (by omega)]; exact h1
    · have hjk : j = k := by
        have : j < (st.1 ++ [nd]).length := by
          by_contra hc
          rw [List.getElem?_eq_none (Nat.le_of_not_lt hc)] at hx
          cases hx
        simp only [List.length_append, List.length_singleton] at this
        omega
      subst hjk
      have hxnd : x = nd := by
        rw [List.getElem?_append_right (by omega)] at hx
        simp [hlen] at hx
        exact hx.symm
      subst hxnd
      refine ⟨?_, htn, hfn, hw, hfilled⟩
      rw [List.getElem?_append_right (by omega)]
      simp [hlen2]
  · rw [List.map_append, List.nodup_append]
    refine ⟨hnodup, by simp, ?_⟩
    intro x hx1 hx2
    simp only [List.map_cons, List.map_nil, List.mem_singleton] at hx2
    subst hx2
    exact hnotin hx1

end RuntimeTreeEnsembleRegressorP

namespace RuntimeTreeEnsembleRegressorP

/-- The first loop of `init`, when it returns, establishes its invariant for all nodes. -/
theorem fill_spec (a : Attributes) (modes : List NODE_MODE) (n : Nat)
    (st : List TreeNodeElement × IdIndex)
    (h : (List.range n).foldlM (fill_node a modes) ([], []) = .ok st) :
    FillInv a modes n st := by
  refine foldlM_range_inv (fill_node a modes) (FillInv a modes) n ?_ ([], []) ?_ n st
    (Nat.le_refl n) h
  · intro k s s2 _ hinv hs
    exact fill_node_step a modes k s s2 hinv hs
  · exact ⟨rfl, rfl, by simp, by simp⟩

/-- Under the invariant of the first loop, `idi.find` returns the position of the node that
has the identifier searched for. -/
theorem idi_find_of_FillInv (a : Attributes) (modes : List NODE_MODE) (n : Nat)
    (st : List TreeNodeElement × IdIndex) (hinv : FillInv a modes n st)
    (key : TreeNodeElementId) (p : Nat) :
    idi_find st.2 key = some p ↔ ∃ nd, st.1[p]? = some nd ∧ nd.id = key := by
  obtain ⟨hlen, hlen2, hall, hnodup⟩ := hinv
  have hentry : ∀ (j : Nat) (e : TreeNodeElementId × Nat), st.2[j]? = some e →
      ∃ nd, st.1[j]? = some nd ∧ e = (nd.id, j) := by
    intro j e he
    have hj : j < st.1.length := by
      rw [hlen, ← hlen2]
      exact (List.getElem?_eq_some_iff.mp he).1
    have h1 := (hall j st.1[j] (List.getElem?_eq_getElem hj)).1
    rw [h1] at he
    exact ⟨st.1[j], List.getElem?_eq_getElem hj, (Option.some.inj he).symm⟩
  constructor
  · intro h
    obtain ⟨j, hj⟩ := List.mem_iff_getElem?.mp (idi_find_mem st.2 key p h)
    obtain ⟨nd, hnd, he⟩ := hentry j (key, p) hj
    simp only [Prod.mk.injEq] at he
    obtain ⟨he1, he2⟩ := he
    subst he2
    exact ⟨nd, hnd, he1.symm⟩
  · rintro ⟨nd, hnd, rfl⟩
    cases hfind : idi_find st.2 nd.id with
    | none =>
      have := (idi_find_eq_none_iff st.2 nd.id).mp hfind (nd.id, p)
        (List.getElem?_mem (hall p nd hnd).1)
      exact absurd rfl this
    | some q =>
      obtain ⟨j, hj⟩ := List.mem_iff_getElem?.mp (idi_find_mem st.2 nd.id q hfind)
      obtain ⟨nd2, hnd2, he⟩ := hentry j (nd.id, q) hj
      simp only [Prod.mk.injEq] at he
      obtain ⟨he1, he2⟩ := he
      subst he2
      have hpq : p = q := by
        have hp : p < st.1.length := (List.getElem?_eq_some_iff.mp hnd).1
        have hq : q < st.1.length := (List.getElem?_eq_some_iff.mp hnd2).1
        have hinj := List.nodup_iff_injective_getElem.mp hnodup
        have hp2 : p < (st.1.map (fun x => x.id)).length := by simpa using hp
        have hq2 : q < (st.1.map (fun x => x.id)).length := by simpa using hq
        have heq : (st.1.map (fun x => x.id))[p] = (st.1.map (fun x => x.id))[q] := by
          simp only [List.getElem_map]
          have e1 : st.1[p] = nd := (List.getElem?_eq_some_iff.mp hnd).2
          have e2 : st.1[q] = nd2 := (List.getElem?_eq_some_iff.mp hnd2).2
          rw [e1, e2, he1]
        have := @hinj ⟨p, hp2⟩ ⟨q, hq2⟩ heq
        exact Fin.mk.inj this
      rw [hpq]

/-- The outcome of resolving one child id in the second loop of `init`, read from the array
the loop works on. -/
theorem link_false_part (a : Attributes) (idi : IdIndex) (nb : Int)
    (nodes nodes2 : List TreeNodeElement) (i : Nat) (it : TreeNodeElement) (y : Option Nat)
    (h : (do
      let f ← vec_at a.nodes_falsenodeids i
      let coor : TreeNodeElementId := { tree_id := it.id.tree_id, node_id := toInt32 f }
      let falsenode ←
        match idi_find idi coor with
        | none => throw (.runtime_error (.unable_to_find_falsenode coor.tree_id coor.node_id))
        | some found =>
          if 0 ≤ coor.node_id ∧ coor.node_id < nb then do
            let child ← vec_at nodes found
            if child.id.tree_id ≠ it.id.tree_id ∨ child.id.node_id = it.id.node_id then
              throw (.runtime_error .falsenode_self_or_other_tree)
            else pure (some found)
          else pure none
      pure (nodes.set i { it with truenode := y, falsenode := falsenode }) :
        Result (List TreeNodeElement)) = .ok nodes2) :
    ∃ f fn found, a.nodes_falsenodeids[i]? = some f ∧
      idi_find idi { tree_id := it.id.tree_id, node_id := toInt32 f } = some found ∧
      (if 0 ≤ toInt32 f ∧ toInt32 f < nb then
        fn = some found ∧ ∃ child, nodes[found]? = some child ∧
          child.id.tree_id = it.id.tree_id ∧ child.id.node_id ≠ it.id.node_id
       else fn = none) ∧
      nodes2 = nodes.set i { it with truenode := y, falsenode := fn } := by
  simp only [Result.bind_eq_ok, vec_at_eq_ok] at h
  obtain ⟨f, hf, h⟩ := h
  cases hfind : idi_find idi { tree_id := it.id.tree_id, node_id := toInt32 f } with
  | none =>
    simp only [hfind, Result.bind_eq_ok] at h
    obtain ⟨_, hy, _⟩ := h
    cases hy
  | some found =>
    simp only [hfind] at h
    by_cases hr : 0 ≤ toInt32 f ∧ toInt32 f < nb
    · simp only [hr, and_self, if_true, Result.bind_eq_ok, vec_at_eq_ok] at h
      obtain ⟨child, hchild, h⟩ := h
      by_cases hbad : child.id.tree_id ≠ it.id.tree_id ∨ child.id.node_id = it.id.node_id
      · simp only [hbad, if_true, Result.bind_eq_ok] at h
        obtain ⟨_, hy, _⟩ := h
        cases hy
      · simp only [hbad, if_false, pure, Except.pure, bind, Except.bind,
          Except.ok.injEq] at h
        push_neg at hbad
        refine ⟨f, some found, found, hf, hfind, ?_, h.symm⟩
        rw [if_pos hr]
        exact ⟨rfl, child, hchild, hbad.1, hbad.2⟩
    · simp only [hr, if_false, pure, Except.pure, bind, Except.bind, Except.ok.injEq] at h
      refine ⟨f, none, found, hf, hfind, ?_, h.symm⟩
      rw [if_neg hr]

/-- What an iteration of the second loop of `init` that returns has done. -/
theorem link_node_ok (a : Attributes) (idi : IdIndex) (nb : Int)
    (nodes nodes2 : List TreeNodeElement) (i : Nat)
    (h : link_node a idi nb nodes i = .ok nodes2) :
    ∃ it, nodes[i]? = some it ∧
      ((it.mode = NODE_MODE.LEAF ∧ nodes2 = nodes) ∨
       (it.mode ≠ NODE_MODE.LEAF ∧ ∃ t f tn fn foundt foundf,
          a.nodes_truenodeids[i]? = some t ∧ a.nodes_falsenodeids[i]? = some f ∧
          idi_find idi { tree_id := it.id.tree_id, node_id := toInt32 t } = some foundt ∧
          idi_find idi { tree_id := it.id.tree_id, node_id := toInt32 f } = some foundf ∧
          (if 0 ≤ toInt32 t ∧ toInt32 t < nb then
            tn = some foundt ∧ ∃ child, nodes[foundt]? = some child ∧
              child.id.tree_id = it.id.tree_id ∧ child.id.node_id ≠ it.id.node_id
           else tn = none) ∧
          (if 0 ≤ toInt32 f ∧ toInt32 f < nb then
            fn = some foundf ∧ ∃ child, nodes[foundf]? = some child ∧
              child.id.tree_id = it.id.tree_id ∧ child.id.node_id ≠ it.id.node_id
           else fn = none) ∧
          nodes2 = nodes.set i { it with truenode := tn, falsenode := fn })) := by
  unfold link_node at h
  simp only [Result.bind_eq_ok, vec_at_eq_ok] at h
  obtain ⟨it, hit, h⟩ := h
  refine ⟨it, hit, ?_⟩
  by_cases hleaf : it.mode = NODE_MODE.LEAF
  · simp only [hleaf, if_true, pure, Except.pure, Except.ok.injEq] at h
    exact Or.inl ⟨hleaf, h.symm⟩
  · right
    refine ⟨hleaf, ?_⟩
    simp only [hleaf, if_false, Result.bind_eq_ok, vec_at_eq_ok] at h
    obtain ⟨t, ht, h⟩ := h
    cases hfind : idi_find idi { tree_id := it.id.tree_id, node_id := toInt32 t } with
    | none =>
      simp only [hfind, Result.bind_eq_ok] at h
      obtain ⟨_, hy, _⟩ := h
      cases hy
    | some found =>
      simp only [hfind] at h
      by_cases hr : 0 ≤ toInt32 t ∧ toInt32 t < nb
      · simp only [hr, and_self, if_true, Result.bind_eq_ok, vec_at_eq_ok] at h
        obtain ⟨child, hchild, h⟩ := h
        by_cases hbad : child.id.tree_id ≠ it.id.tree_id ∨ child.id.node_id = it.id.node_id
        · simp only [hbad, if_true, Result.bind_eq_ok] at h
          obtain ⟨_, hy, _⟩ := h
          cases hy
        · simp only [hbad, if_false] at h
          push_neg at hbad
          obtain ⟨f, fn, foundf, hf, hff, hfn, hres⟩ :=
            link_false_part a idi nb nodes nodes2 i it (some found) h
          refine ⟨t, f, some found, fn, found, foundf, ht, hf, hfind, hff, ?_, hfn, hres⟩
          rw [if_pos hr]
          exact ⟨rfl, child, hchild, hbad.1, hbad.2⟩
      · simp only [hr, if_false] at h
        obtain ⟨f, fn, foundf, hf, hff, hfn, hres⟩ :=
          link_false_part a idi nb nodes nodes2 i it none h
        refine ⟨t, f, none, fn, found, foundf, ht, hf, hfind, hff, ?_, hfn, hres⟩
        rw [if_neg hr]

theorem SameFields.refl (nd : TreeNodeElement) : SameFields nd nd :=
  ⟨rfl, rfl, rfl, rfl, rfl, rfl⟩

theorem SameFields.trans {n1 n2 n3 : TreeNodeElement} (h12 : SameFields n1 n2)
    (h23 : SameFields n2 n3) : SameFields n1 n3 := by
  obtain ⟨a1, a2, a3, a4, a5, a6⟩ := h12
  obtain ⟨b1, b2, b3, b4, b5, b6⟩ := h23
  exact ⟨b1.trans a1, b2.trans a2, b3.trans a3, b4.trans a4, b5.trans a5, b6.trans a6⟩

theorem link_node_step (a : Attributes) (idi : IdIndex) (nodes0 : List TreeNodeElement)
    (hnone : ∀ (j : Nat) (nd0 : TreeNodeElement), nodes0[j]? = some nd0 →
      nd0.truenode = none ∧ nd0.falsenode = none)
    (hidi : ∀ (key : TreeNodeElementId) (p : Nat), idi_find idi key = some p →
      ∃ nd, nodes0[p]? = some nd ∧ nd.id = key)
    (k : Nat) (nodes nodes2 : List TreeNodeElement) (hinv : LinkInv a nodes0 k nodes)
    (h : link_node a idi a.nodes_treeids.length nodes k = .ok nodes2) :
    LinkInv a nodes0 (k + 1) nodes2 := by
  obtain ⟨hlen, hall⟩ := hinv
  obtain ⟨it, hit, hcase⟩ := link_node_ok a idi _ nodes nodes2 k h
  have hk : k < nodes.length := (List.getElem?_eq_some_iff.mp hit).1
  have hk0 : k < nodes0.length := hlen ▸ hk
  obtain ⟨nd, hnd, hsame, hw, hunch, -⟩ := hall k nodes0[k] (List.getElem?_eq_getElem hk0)
  have hitnd : it = nd := Option.some.inj (hit.symm.trans hnd)
  have hit0 : it = nodes0[k] := hitnd.trans (hunch (Nat.le_refl k))
  rcases hcase with ⟨hleaf, rfl⟩ | ⟨hleaf, t, f, tn, fn, foundt, foundf, ht, hf, hft, hff, htn, hfn,
    rfl⟩
  · refine ⟨hlen, ?_⟩
    intro j nd0 hnd0
    obtain ⟨x, hx, hxs, hxw, hxu, hxl⟩ := hall j nd0 hnd0
    refine ⟨x, hx, hxs, hxw, fun hj => hxu (by omega), ?_⟩
    intro hj
    by_cases hjk : j < k
    · exact hxl hjk
    · have hjeq : j = k := by omega
      subst hjeq
      have hx0 : x = nd0 := hxu (Nat.le_refl j)
      have hxit : x = it := Option.some.inj (hx.symm.trans hit)
      refine ⟨fun _ => ?_, fun hne => absurd (hxit ▸ hleaf) hne⟩
      rw [hx0]
      exact hnone j nd0 hnd0
  · refine ⟨by simp [hlen], ?_⟩
    intro j nd0 hnd0
    obtain ⟨x, hx, hxs, hxw, hxu, hxl⟩ := hall j nd0 hnd0
    by_cases hjk : j = k
    · subst hjk
      have hxit : x = it := Option.some.inj (hx.symm.trans hit)
      have hx0 : x = nd0 := hxu (Nat.le_refl j)
      have hit0' : it = nd0 := hxit.symm.trans hx0
      refine ⟨{ it with truenode := tn, falsenode := fn }, ?_, ?_, ?_, ?_, ?_⟩
      · simp [List.getElem?_set, hk]
      · rw [← hit0']; exact ⟨rfl, rfl, rfl, rfl, rfl, rfl⟩
      · rw [← hit0']
      · intro hj; omega
      · intro _
        refine ⟨fun hl => absurd hl hleaf, fun _ => ⟨t, f, ht, hf, ?_, ?_⟩⟩
        · obtain ⟨child0, hchild0, hid0⟩ := hidi _ _ hft
          refine ⟨foundt, child0, hchild0, hid0, ?_⟩
          by_cases hr : 0 ≤ toInt32 t ∧ toInt32 t < (a.nodes_treeids.length : Int)
          · rw [if_pos hr] at htn ⊢
            obtain ⟨htn1, child, hchild, -, hcn⟩ := htn
            refine ⟨htn1, ?_⟩
            obtain ⟨y, hy, hys, -⟩ := hall foundt child0 hchild0
            have hyc : y = child := Option.some.inj (hy.symm.trans hchild)
            have : child.id = child0.id := hyc ▸ hys.1
            rw [this, hid0] at hcn
            exact hcn
          · rw [if_neg hr] at htn ⊢
            exact htn
        · obtain ⟨child0, hchild0, hid0⟩ := hidi _ _ hff
          refine ⟨foundf, child0, hchild0, hid0, ?_⟩
          by_cases hr : 0 ≤ toInt32 f ∧ toInt32 f < (a.nodes_treeids.length : Int)
          · rw [if_pos hr] at hfn ⊢
            obtain ⟨hfn1, child, hchild, -, hcn⟩ := hfn
            refine ⟨hfn1, ?_⟩
            obtain ⟨y, hy, hys, -⟩ := hall foundf child0 hchild0
            have hyc : y = child := Option.some.inj (hy.symm.trans hchild)
            have : child.id = child0.id := hyc ▸ hys.1
            rw [this, hid0] at hcn
            exact hcn
          · rw [if_neg hr] at hfn ⊢
            exact hfn
    · refine ⟨x, ?_, hxs, hxw, fun hj => hxu (by omega), fun hj => hxl (by omega)⟩
      rw [List.getElem?_set_ne (fun hc => hjk hc.symm)]
      exact hx

/-- The second loop of `init`, when it returns, establishes its invariant for all nodes. -/
theorem link_spec (a : Attributes) (idi : IdIndex) (nodes0 nodes1 : List TreeNodeElement)
    (hnone : ∀ (j : Nat) (nd0 : TreeNodeElement), nodes0[j]? = some nd0 →
      nd0.truenode = none ∧ nd0.falsenode = none)
    (hidi : ∀ (key : TreeNodeElementId) (p : Nat), idi_find idi key = some p →
      ∃ nd, nodes0[p]? = some nd ∧ nd.id = key)
    (n : Nat)
    (h : (List.range n).foldlM (link_node a idi a.nodes_treeids.length) nodes0 = .ok nodes1) :
    LinkInv a nodes0 n nodes1 := by
  refine foldlM_range_inv (link_node a idi a.nodes_treeids.length) (LinkInv a nodes0) n ?_
    nodes0 ?_ n nodes1 (Nat.le_refl n) h
  · intro k s s2 _ hinv hs
    exact link_node_step a idi nodes0 hnone hidi k s s2 hinv hs
  · exact ⟨rfl, fun j nd0 hnd0 =>
      ⟨nd0, hnd0, SameFields.refl nd0, rfl, fun _ => rfl, fun hj => absurd hj (Nat.not_lt_zero j)⟩⟩

end RuntimeTreeEnsembleRegressorP

namespace RuntimeTreeEnsembleRegressorP

/-- What an iteration of the last loop of `init` that returns has done. -/
theorem attach_weight_ok (a : Attributes) (idi : IdIndex) (nodes nodes2 : List TreeNodeElement)
    (i : Nat) (h : attach_weight a idi nodes i = .ok nodes2) :
    ∃ t n p target weight node,
      a.target_treeids[i]? = some t ∧ a.target_nodeids[i]? = some n ∧
      idi_find idi { tree_id := toInt32 t, node_id := toInt32 n } = some p ∧
      a.target_ids[i]? = some target ∧ a.target_weights[i]? = some weight ∧
      nodes[p]? = some node ∧
      nodes2 = nodes.set p
        { node with weights := node.weights ++ [{ i := target, value := weight }] } := by
  unfold attach_weight at h
  simp only [Result.bind_eq_ok, vec_at_eq_ok] at h
  obtain ⟨t, ht, n, hn, h⟩ := h
  cases hfind : idi_find idi { tree_id := toInt32 t, node_id := toInt32 n } with
  | none =>
    simp only [hfind] at h
    cases h
  | some p =>
    simp only [hfind, Result.bind_eq_ok, vec_at_eq_ok, pure, Except.pure,
      Except.ok.injEq] at h
    obtain ⟨target, htarget, weight, hweight, node, hnode, h⟩ := h
    exact ⟨t, n, p, target, weight, node, ht, hn, hfind, htarget, hweight, hnode, h.symm⟩

end RuntimeTreeEnsembleRegressorP

theorem Spec.weights_of_succ (a : RuntimeTreeEnsembleRegressorP.Attributes) (k : Nat)
    (id : TreeNodeElementId) (t n target : Int) (weight : NTYPE)
    (ht : a.target_treeids[k]? = some t) (hn : a.target_nodeids[k]? = some n)
    (htarget : a.target_ids[k]? = some target) (hweight : a.target_weights[k]? = some weight) :
    Spec.weights_of a (k + 1) id
      = Spec.weights_of a k id ++
        (if ({ tree_id := toInt32 t, node_id := toInt32 n } : TreeNodeElementId) = id then
          [{ i := target, value := weight }] else []) := by
  unfold Spec.weights_of
  rw [List.range_succ, List.filterMap_append]
  congr 1
  by_cases hid : ({ tree_id := toInt32 t, node_id := toInt32 n } : TreeNodeElementId) = id
  · simp [List.filterMap_cons, ht, hn, htarget, hweight, hid]
  · simp [List.filterMap_cons, ht, hn, htarget, hweight, hid]

namespace RuntimeTreeEnsembleRegressorP

theorem attach_weight_step (a : Attributes) (idi : IdIndex) (nodes1 : List TreeNodeElement)
    (hidi : ∀ (key : TreeNodeElementId) (p : Nat),
      idi_find idi key = some p ↔ ∃ nd, nodes1[p]? = some nd ∧ nd.id = key)
    (k : Nat) (nodes nodes2 : List TreeNodeElement) (hinv : AttachInv a nodes1 k nodes)
    (h : attach_weight a idi nodes k = .ok nodes2) : AttachInv a nodes1 (k + 1) nodes2 := by
  obtain ⟨hlen, hall⟩ := hinv
  obtain ⟨t, n, p, target, weight, node, ht, hn, hfind, htarget, hweight, hnode, rfl⟩ :=
    attach_weight_ok a idi nodes nodes2 k h
  have hp : p < nodes.length := (List.getElem?_eq_some_iff.mp hnode).1
  refine ⟨by simp [hlen], ?_⟩
  intro j nd1 hnd1
  obtain ⟨x, hx, hxs, hxt, hxf, hxw⟩ := hall j nd1 hnd1
  rw [Spec.weights_of_succ a k nd1.id t n target weight ht hn htarget hweight]
  by_cases hjp : j = p
  · subst hjp
    have hxnode : x = node := Option.some.inj (hx.symm.trans hnode)
    subst hxnode
    have hid : ({ tree_id := toInt32 t, node_id := toInt32 n } : TreeNodeElementId) = nd1.id := by
      obtain ⟨nd, hnd, hndid⟩ := (hidi _ _).mp hfind
      rw [hnd1] at hnd
      rw [← hndid, Option.some.inj hnd]
    refine ⟨{ x with weights := x.weights ++ [{ i := target, value := weight }] }, ?_, hxs, hxt,
      hxf, ?_⟩
    · simp [List.getElem?_set, hp]
    · simp only [hid, if_true, hxw, List.append_assoc]
  · have hid : ({ tree_id := toInt32 t, node_id := toInt32 n } : TreeNodeElementId) ≠ nd1.id := by
      intro hc
      have := (hidi _ j).mpr ⟨nd1, hnd1, hc.symm⟩
      rw [hfind] at this
      exact hjp (Option.some.inj this).symm
    refine ⟨x, ?_, hxs, hxt, hxf, ?_⟩
    · rw [List.getElem?_set_ne (fun hc => hjp hc.symm)]
      exact hx
    · simp only [hid, if_false, List.append_nil, hxw]

/-- The last loop of `init`, when it returns, establishes its invariant for all descriptors. -/
theorem attach_spec (a : Attributes) (idi : IdIndex) (nodes1 nodes2 : List TreeNodeElement)
    (hidi : ∀ (key : TreeNodeElementId) (p : Nat),
      idi_find idi key = some p ↔ ∃ nd, nodes1[p]? = some nd ∧ nd.id = key)
    (n : Nat) (h : (List.range n).foldlM (attach_weight a idi) nodes1 = .ok nodes2) :
    AttachInv a nodes1 n nodes2 := by
  refine foldlM_range_inv (attach_weight a idi) (AttachInv a nodes1) n ?_ nodes1 ?_ n nodes2
    (Nat.le_refl n) h
  · intro k s s2 _ hinv hs
    exact attach_weight_step a idi nodes1 hidi k s s2 hinv hs
  · exact ⟨rfl, fun j nd1 hnd1 =>
      ⟨nd1, hnd1, SameFields.refl nd1, rfl, rfl, by simp [Spec.weights_of]⟩⟩

end RuntimeTreeEnsembleRegressorP

namespace RuntimeTreeEnsembleRegressorP

theorem Filled.of_SameFields {a : Attributes} {modes : List NODE_MODE} {j : Nat}
    {nd nd2 : TreeNodeElement} (h : Filled a modes j nd) (hs : SameFields nd nd2) :
    Filled a modes j nd2 := by
  obtain ⟨s1, s2, s3, s4, s5, s6⟩ := hs
  unfold Filled
  rw [s1, s2, s3, s4, s5, s6]
  exact h

theorem ChildLink.transfer {nodes nodes2 : List TreeNodeElement} {nb : Int}
    {nd nd2 : TreeNodeElement} {cid : Int} {link : Option Nat}
    (hnodes : ∀ (p : Nat) (c : TreeNodeElement), nodes[p]? = some c →
      ∃ c2, nodes2[p]? = some c2 ∧ c2.id = c.id)
    (hid : nd2.id = nd.id) (h : ChildLink nodes nb nd cid link) :
    ChildLink nodes2 nb nd2 cid link := by
  obtain ⟨found, child, hchild, hcid, hif⟩ := h
  obtain ⟨c2, hc2, hc2id⟩ := hnodes found child hchild
  refine ⟨found, c2, hc2, ?_, ?_⟩
  · rw [hc2id, hcid, hid]
  · rw [hid]; exact hif

theorem root_step_congr (nodes nodes2 : List TreeNodeElement)
    (hids : nodes.map (fun nd => nd.id) = nodes2.map (fun nd => nd.id))
    (st : List Nat × Int) (i : Nat) : root_step nodes st i = root_step nodes2 st i := by
  have h := congrArg (fun l => l[i]?) hids
  simp only [List.getElem?_map] at h
  unfold root_step vec_at
  cases h1 : nodes[i]? with
  | none =>
    rw [h1] at h
    cases h2 : nodes2[i]? with
    | none => rfl
    | some c => rw [h2] at h; cases h
  | some c =>
    rw [h1] at h
    cases h2 : nodes2[i]? with
    | none => rw [h2] at h; cases h
    | some c2 =>
      rw [h2] at h
      have hid : c.id = c2.id := Option.some.inj h
      simp only [bind, Except.bind, hid]

/-- What `init` builds: the node array has one node per position of `nodes_treeids`, with
distinct identifiers; the node at position `j` holds the fields of position `j` of the
arguments (`Filled`), its links are resolved as `Linked` says, and its weights are the leaf
descriptors that name it, in descriptor order; `roots_` is what the loop of lines 320-324
collects on this array. -/
theorem init_nodes_spec (a : Attributes) (self : RuntimeTreeEnsembleRegressorP)
    (h : init a = .ok self) :
    ∃ modes, a.nodes_modes.mapM to_NODE_MODE = .ok modes ∧
      self.nodes_.length = a.nodes_treeids.length ∧
      (self.nodes_.map (fun nd => nd.id)).Nodup ∧
      (∃ previous, (List.range self.nodes_.length).foldlM (root_step self.nodes_) ([], -1)
        = .ok (self.roots_, previous)) ∧
      ∀ (j : Nat) (nd : TreeNodeElement), self.nodes_[j]? = some nd →
        Filled a modes j nd ∧ Linked a self.nodes_ j nd ∧
        nd.weights = Spec.weights_of a a.target_nodeids.length nd.id := by
  obtain ⟨modes, nodes0, idi, nodes1, roots, previous, hmodes, hfill, hlink, hroot, hattach,
    hroots, -⟩ := init_stages a self h
  have hF := fill_spec a modes _ _ hfill
  have hidi0 := idi_find_of_FillInv a modes _ _ hF
  obtain ⟨hlen0, -, hall0, hnodup0⟩ := hF
  simp only at hlen0 hall0 hnodup0 hidi0
  have hL := link_spec a idi nodes0 nodes1
    (fun j nd0 hnd0 => ⟨(hall0 j nd0 hnd0).2.1, (hall0 j nd0 hnd0).2.2.1⟩)
    (fun key p hp => (hidi0 key p).mp hp) _ hlink
  obtain ⟨hlen1, hall1⟩ := hL
  have h01 : ∀ (p : Nat) (c : TreeNodeElement), nodes0[p]? = some c →
      ∃ c2, nodes1[p]? = some c2 ∧ c2.id = c.id := by
    intro p c hc
    obtain ⟨x, hx, hxs, -⟩ := hall1 p c hc
    exact ⟨x, hx, hxs.1⟩
  have h10 : ∀ (p : Nat) (c : TreeNodeElement), nodes1[p]? = some c →
      ∃ c0, nodes0[p]? = some c0 ∧ c.id = c0.id := by
    intro p c hc
    have hp : p < nodes0.length := hlen1 ▸ (List.getElem?_eq_some_iff.mp hc).1
    obtain ⟨x, hx, hxs, -⟩ := hall1 p nodes0[p] (List.getElem?_eq_getElem hp)
    have : x = c := Option.some.inj (hx.symm.trans hc)
    exact ⟨nodes0[p], List.getElem?_eq_getElem hp, this ▸ hxs.1⟩
  have hidi1 : ∀ (key : TreeNodeElementId) (p : Nat),
      idi_find idi key = some p ↔ ∃ nd, nodes1[p]? = some nd ∧ nd.id = key := by
    intro key p
    rw [hidi0 key p]
    constructor
    · rintro ⟨nd, hnd, hid⟩
      obtain ⟨c2, hc2, hc2id⟩ := h01 p nd hnd
      exact ⟨c2, hc2, hc2id.trans hid⟩
    · rintro ⟨nd, hnd, hid⟩
      obtain ⟨c0, hc0, hc0id⟩ := h10 p nd hnd
      exact ⟨c0, hc0, hc0id.symm.trans hid⟩
  obtain ⟨hlen2, hall2⟩ := attach_spec a idi nodes1 self.nodes_ hidi1 _ hattach
  have h12 : ∀ (p : Nat) (c : TreeNodeElement), nodes1[p]? = some c →
      ∃ c2, self.nodes_[p]? = some c2 ∧ c2.id = c.id := by
    intro p c hc
    obtain ⟨x, hx, hxs, -⟩ := hall2 p c hc
    exact ⟨x, hx, hxs.1⟩
  have hids : self.nodes_.map (fun nd => nd.id) = nodes0.map (fun nd => nd.id) := by
    apply List.ext_getElem?
    intro p
    simp only [List.getElem?_map]
    cases hc : nodes0[p]? with
    | none =>
      have : self.nodes_.length ≤ p := by
        rw [hlen2, hlen1]
        exact List.getElem?_eq_none_iff.mp hc
      simp [List.getElem?_eq_none this]
    | some c =>
      obtain ⟨c1, hc1, hc1id⟩ := h01 p c hc
      obtain ⟨c2, hc2, hc2id⟩ := h12 p c1 hc1
      simp [hc2, hc2id, hc1id]
  have hroot2 : (List.range self.nodes_.length).foldlM (root_step self.nodes_) ([], -1)
      = .ok (self.roots_, previous) := by
    have hfun : root_step self.nodes_ = root_step nodes1 := by
      funext st i
      apply root_step_congr
      apply List.ext_getElem?
      intro p
      simp only [List.getElem?_map]
      cases hc : nodes1[p]? with
      | none =>
        have : self.nodes_.length ≤ p := by
          rw [hlen2]
          exact List.getElem?_eq_none_iff.mp hc
        simp [List.getElem?_eq_none this]
      | some c =>
        obtain ⟨c2, hc2, hc2id⟩ := h12 p c hc
        simp [hc2, hc2id]
    rw [hfun, hroots, hlen2, hlen1, hlen0]
    exact hroot
  refine ⟨modes, hmodes, by rw [hlen2, hlen1, hlen0], by rw [hids]; exact hnodup0,
    ⟨previous, hroot2⟩, ?_⟩
  intro j nd hnd
  have hj : j < nodes0.length := by
    rw [← hlen1, ← hlen2]
    exact (List.getElem?_eq_some_iff.mp hnd).1
  obtain ⟨-, -, -, hw0, hfilled0⟩ := hall0 j nodes0[j] (List.getElem?_eq_getElem hj)
  obtain ⟨nd1, hnd1, hs1, hw1, -, hlinked⟩ := hall1 j nodes0[j] (List.getElem?_eq_getElem hj)
  obtain ⟨x, hx, hs2, htn, hfn, hw2⟩ := hall2 j nd1 hnd1
  have hxnd : x = nd := Option.some.inj (hx.symm.trans hnd)
  subst hxnd
  refine ⟨(hfilled0.of_SameFields hs1).of_SameFields hs2, ?_, ?_⟩
  · obtain ⟨hleaf, hbranch⟩ := hlinked (by omega)
    have hmode : x.mode = nd1.mode := hs2.2.2.2.2.1
    refine ⟨fun hl => ?_, fun hb => ?_⟩
    · rw [htn, hfn]; exact hleaf (hmode ▸ hl)
    · obtain ⟨t, f, ht, hf, hct, hcf⟩ := hbranch (hmode ▸ hb)
      have h02 : ∀ (p : Nat) (c : TreeNodeElement), nodes0[p]? = some c →
          ∃ c2, self.nodes_[p]? = some c2 ∧ c2.id = c.id := by
        intro p c hc
        obtain ⟨c1, hc1, hc1id⟩ := h01 p c hc
        obtain ⟨c2, hc2, hc2id⟩ := h12 p c1 hc1
        exact ⟨c2, hc2, hc2id.trans hc1id⟩
      refine ⟨t, f, ht, hf, ?_, ?_⟩
      · rw [htn]; exact hct.transfer h02 hs2.1
      · rw [hfn]; exact hcf.transfer h02 hs2.1
  · rw [hw2, hw1, hw0, hs2.1]
    rfl

end RuntimeTreeEnsembleRegressorP

/-! ## The roots collected by `init` -/

namespace Spec

theorem mem_first_positions (ids : List Int) (r : Nat) :
    r ∈ first_positions ids ↔
      ∃ (hr : r < ids.length), ∀ (j : Nat) (hj : j < r), ids[j] ≠ ids[r] := by
  unfold first_positions
  simp only [List.mem_filter, List.mem_range, Bool.not_eq_true', List.contains_eq_any_beq,
    List.any_eq_false, beq_iff_eq]
  constructor
  · rintro ⟨hr, h⟩
    refine ⟨hr, fun j hj => ?_⟩
    have hmem : ids[j] ∈ ids.take r :=
      List.mem_take_iff_getElem.mpr ⟨j, by simp; omega, rfl⟩
    have := h ids[j] hmem
    rw [List.getD_eq_getElem ids 0 hr] at this
    exact fun hc => this hc.symm
  · rintro ⟨hr, h⟩
    refine ⟨hr, fun x hx => ?_⟩
    obtain ⟨j, hj, rfl⟩ := List.mem_take_iff_getElem.mp hx
    rw [List.getD_eq_getElem ids 0 hr]
    have hjr : j < r := by
      simp only [lt_inf_iff] at hj
      exact hj.1
    exact fun hc => h j hjr hc.symm

theorem first_positions_sorted (ids : List Int) :
    (first_positions ids).Pairwise (fun r1 r2 => r1 < r2) :=
  List.Pairwise.filter _ (List.pairwise_lt_range _)

theorem first_positions_exists (ids : List Int) :
    ∀ (i : Nat) (hi : i < ids.length),
      ∃ r, r ∈ first_positions ids ∧ ∃ (hr : r < ids.length), ids[r] = ids[i] := by
  intro i
  induction i using Nat.strong_induction_on with
  | _ i ih =>
    intro hi
    by_cases hfirst : ∀ (j : Nat) (hj : j < i), ids[j] ≠ ids[i]
    · exact ⟨i, (mem_first_positions ids i).mpr ⟨hi, hfirst⟩, hi, rfl⟩
    · push_neg at hfirst
      obtain ⟨j, hj, hji⟩ := hfirst
      obtain ⟨r, hr, hrl, hrj⟩ := ih j hj (by omega)
      exact ⟨r, hr, hrl, hrj.trans hji⟩

theorem first_positions_unique (ids : List Int) (r1 r2 : Nat)
    (h1 : r1 ∈ first_positions ids) (h2 : r2 ∈ first_positions ids)
    (hl1 : r1 < ids.length) (hl2 : r2 < ids.length) (heq : ids[r1] = ids[r2]) : r1 = r2 := by
  obtain ⟨_, hf1⟩ := (mem_first_positions ids r1).mp h1
  obtain ⟨_, hf2⟩ := (mem_first_positions ids r2).mp h2
  rcases Nat.lt_trichotomy r1 r2 with h | h | h
  · exact absurd heq (hf2 r1 h)
  · exact h
  · exact absurd heq.symm (hf1 r2 h)

theorem first_positions_length (ids : List Int) :
    (first_positions ids).length = ids.toFinset.card := by
  have hnodup : (first_positions ids).Nodup :=
    (first_positions_sorted ids).imp (fun h => Nat.ne_of_lt h)
  have hlt : ∀ r ∈ first_positions ids, r < ids.length :=
    fun r hr => ((mem_first_positions ids r).mp hr).1
  have hmap : ((first_positions ids).map (fun r => ids.getD r 0)).Nodup := by
    apply List.Nodup.map_on _ hnodup
    intro x hx y hy hxy
    rw [List.getD_eq_getElem ids 0 (hlt x hx), List.getD_eq_getElem ids 0 (hlt y hy)] at hxy
    exact first_positions_unique ids x y hx hy (hlt x hx) (hlt y hy) hxy
  have hset : ((first_positions ids).map (fun r => ids.getD r 0)).toFinset = ids.toFinset := by
    ext t
    simp only [List.mem_toFinset, List.mem_map]
    constructor
    · rintro ⟨r, hr, rfl⟩
      rw [List.getD_eq_getElem ids 0 (hlt r hr)]
      exact List.getElem_mem _
    · intro ht
      obtain ⟨i, hi, rfl⟩ := List.getElem_of_mem ht
      obtain ⟨r, hr, hrl, hri⟩ := first_positions_exists ids i hi
      exact ⟨r, hr, by rw [List.getD_eq_getElem ids 0 hrl]; exact hri⟩
  rw [← hset, List.toFinset_card_of_nodup hmap, List.length_map]

/-- When the nodes of each tree are stored contiguously, a position holds the first node of
its tree exactly when it is position 0 or its tree id differs from the one just before. -/
theorem boundary_iff_first (ids : List Int) (hc : contiguous ids) (i : Nat)
    (hi : i < ids.length) :
    (i = 0 ∨ ids.getD (i - 1) 0 ≠ ids.getD i 0) ↔
      (!(ids.take i).contains (ids.getD i 0)) = true := by
  simp only [Bool.not_eq_true', List.contains_eq_any_beq, List.any_eq_false, beq_iff_eq]
  rw [List.getD_eq_getElem ids 0 hi]
  constructor
  · intro hb x hx hxi
    obtain ⟨j, hj, rfl⟩ := List.mem_take_iff_getElem.mp hx
    have hji : j < i := by
      simp only [lt_inf_iff] at hj
      exact hj.1
    rcases hb with hb | hb
    · omega
    · apply hb
      rw [List.getD_eq_getElem ids 0 (by omega)]
      by_cases hj1 : j = i - 1
      · subst hj1; exact hxi.symm
      · have h1 := hc j (i - 1) i ids[i] (by omega) (by omega)
          (by rw [List.getElem?_eq_getElem (by omega), hxi])
          (List.getElem?_eq_getElem hi)
        rw [List.getElem?_eq_getElem (by omega)] at h1
        exact Option.some.inj h1
  · intro h
    by_cases h0 : i = 0
    · exact Or.inl h0
    · right
      rw [List.getD_eq_getElem ids 0 (by omega)]
      intro hc2
      exact h ids[i - 1] (List.mem_take_iff_getElem.mpr ⟨i - 1, by simp; omega, rfl⟩) hc2.symm

end Spec

namespace RuntimeTreeEnsembleRegressorP

theorem root_step_ok (nodes : List TreeNodeElement) (st st2 : List Nat × Int) (i : Nat)
    (h : root_step nodes st i = .ok st2) :
    ∃ node, nodes[i]? = some node ∧
      st2 = (if st.2 = -1 ∨ st.2 ≠ node.id.tree_id then st.1 ++ [i] else st.1,
             node.id.tree_id) := by
  unfold root_step at h
  simp only [Result.bind_eq_ok, vec_at_eq_ok, pure, Except.pure, Except.ok.injEq] at h
  obtain ⟨node, hnode, h⟩ := h
  exact ⟨node, hnode, h.symm⟩

/-- When no tree id is -1, the loop of lines 320-324 collects position 0 and every position
whose tree id differs from the one just before. -/
theorem roots_boundaries (nodes : List TreeNodeElement)
    (hneg : ∀ t ∈ tree_ids nodes, t ≠ -1) (st : List Nat × Int)
    (h : (List.range nodes.length).foldlM (root_step nodes) ([], -1) = .ok st) :
    st.1 = (List.range nodes.length).filter
      (fun i => decide (i = 0 ∨ (tree_ids nodes).getD (i - 1) 0 ≠ (tree_ids nodes).getD i 0)) := by
  have hinv := foldlM_range_inv (root_step nodes)
    (fun k s => s.1 = (List.range k).filter
        (fun i => decide (i = 0 ∨ (tree_ids nodes).getD (i - 1) 0 ≠ (tree_ids nodes).getD i 0)) ∧
      s.2 = if k = 0 then -1 else (tree_ids nodes).getD (k - 1) 0)
    nodes.length ?_ ([], -1) ⟨rfl, rfl⟩ nodes.length st (Nat.le_refl _) h
  · exact hinv.1
  · intro k s s2 hk hs hstep
    obtain ⟨hs1, hs2⟩ := hs
    obtain ⟨node, hnode, rfl⟩ := root_step_ok nodes s s2 k hstep
    have hlen : (tree_ids nodes).length = nodes.length := by simp [tree_ids]
    have hidk : (tree_ids nodes).getD k 0 = node.id.tree_id := by
      rw [List.getD_eq_getElem _ 0 (by omega)]
      simp only [tree_ids, List.getElem_map]
      rw [(List.getElem?_eq_some_iff.mp hnode).2]
    have hcond : (s.2 = -1 ∨ s.2 ≠ node.id.tree_id) ↔
        (k = 0 ∨ (tree_ids nodes).getD (k - 1) 0 ≠ (tree_ids nodes).getD k 0) := by
      rw [hs2, hidk]
      by_cases hk0 : k = 0
      · simp [hk0]
      · have hmem : (tree_ids nodes).getD (k - 1) 0 ∈ tree_ids nodes := by
          rw [List.getD_eq_getElem _ 0 (by omega)]
          exact List.getElem_mem _
        have hne := hneg _ hmem
        rw [if_neg hk0]
        constructor
        · rintro (hx | hx)
          · exact absurd hx hne
          · exact Or.inr hx
        · rintro (hx | hx)
          · exact absurd hx hk0
          · exact Or.inr hx
    refine ⟨?_, ?_⟩
    · rw [List.range_succ, List.filter_append]
      by_cases hb : k = 0 ∨ (tree_ids nodes).getD (k - 1) 0 ≠ (tree_ids nodes).getD k 0
      · simp only [hcond.mpr hb, if_true, hs1, List.filter_cons, hb, decide_True,
          List.filter_nil]
      · simp only [mt hcond.mp hb, if_false, hs1, List.filter_cons, hb, decide_False,
          List.filter_nil, List.append_nil, Bool.false_eq_true]
    · show node.id.tree_id = if k + 1 = 0 then -1 else (tree_ids nodes).getD (k + 1 - 1) 0
      rw [if_neg (Nat.succ_ne_zero k), Nat.add_sub_cancel]
      exact hidk.symm

end RuntimeTreeEnsembleRegressorP

open RuntimeTreeEnsembleRegressorP in
/-- C18 (counterexample). `init` accepts the one-tree input whose three nodes have the tree
id -1, stored contiguously. There is one distinct tree id and the first stored node of the
tree is at position 0, but `roots_` holds the three positions 0, 1 and 2. -/
theorem C18_counterexample_tree_id_minus_one :
    (init Example.tree_minus_one).toOption.map (fun e => (tree_ids e.nodes_, e.roots_))
      = some ([-1, -1, -1], [0, 1, 2]) ∧
    Spec.first_positions [-1, -1, -1] = [0] ∧
    ([-1, -1, -1] : List Int).toFinset.card = 1 := by
  decide!

open RuntimeTreeEnsembleRegressorP in
/-- C18 (amended). For every input accepted by `init` in which the nodes of each tree are
stored contiguously and no node has the tree id -1 (tree ids as stored in the nodes, that is,
after the cast to `int`): `roots_` is the list of the positions that hold the first stored
node of a tree (`Spec.first_positions`), in ascending order, hence in the order in which the
tree ids first appear; every tree id has exactly one root; the number of roots is the number
of distinct tree ids, and it is `nbtrees_`. -/
theorem C18_roots_are_first_nodes_of_trees (a : Attributes)
    (self : RuntimeTreeEnsembleRegressorP) (h : init a = .ok self)
    (hcontig : Spec.contiguous (tree_ids self.nodes_))
    (hneg : ∀ t ∈ tree_ids self.nodes_, t ≠ -1) :
    self.roots_ = Spec.first_positions (tree_ids self.nodes_) ∧
    self.roots_.Pairwise (fun r1 r2 => r1 < r2) ∧
    (∀ r ∈ self.roots_, ∃ (hr : r < (tree_ids self.nodes_).length),
      ∀ (j : Nat) (hj : j < r), (tree_ids self.nodes_)[j] ≠ (tree_ids self.nodes_)[r]) ∧
    (∀ t ∈ tree_ids self.nodes_, ∃ r ∈ self.roots_,
      (tree_ids self.nodes_)[r]? = some t ∧
      ∀ r2 ∈ self.roots_, (tree_ids self.nodes_)[r2]? = some t → r2 = r) ∧
    self.roots_.length = (tree_ids self.nodes_).toFinset.card ∧
    self.nbtrees_ = self.roots_.length := by
  obtain ⟨modes, -, hlen, -, ⟨previous, hroot⟩, -⟩ := init_nodes_spec a self h
  have hb := roots_boundaries self.nodes_ hneg _ hroot
  have hlen2 : (tree_ids self.nodes_).length = self.nodes_.length := by simp [tree_ids]
  have hroots : self.roots_ = Spec.first_positions (tree_ids self.nodes_) := by
    simp only at hb
    rw [hb, Spec.first_positions, hlen2]
    apply List.filter_congr
    intro i hi
    have hi2 : i < (tree_ids self.nodes_).length := by
      rw [hlen2]; exact List.mem_range.mp hi
    have hiff := Spec.boundary_iff_first (tree_ids self.nodes_) hcontig i hi2
    by_cases hc : i = 0 ∨ (tree_ids self.nodes_).getD (i - 1) 0 ≠ (tree_ids self.nodes_).getD i 0
    · rw [hiff.mp hc]; exact decide_eq_true hc
    · have := mt hiff.mpr hc
      simp only [Bool.not_eq_true] at this
      rw [this]; exact decide_eq_false hc
  have hnb : self.nbtrees_ = self.roots_.length := by
    obtain ⟨_, _, _, _, _, _, _, _, _, _, _, hr, _, hn, _⟩ := init_stages a self h
    rw [hn, hr]
  refine ⟨hroots, ?_, ?_, ?_, ?_, hnb⟩
  · rw [hroots]; exact Spec.first_positions_sorted _
  · intro r hr
    rw [hroots] at hr
    exact (Spec.mem_first_positions _ r).mp hr
  · intro t ht
    obtain ⟨i, hi, rfl⟩ := List.getElem_of_mem ht
    obtain ⟨r, hr, hrl, hri⟩ := Spec.first_positions_exists (tree_ids self.nodes_) i hi
    refine ⟨r, hroots ▸ hr, by rw [List.getElem?_eq_getElem hrl, hri], ?_⟩
    intro r2 hr2 hr2t
    rw [hroots] at hr2
    obtain ⟨hr2l, hr2e⟩ := List.getElem?_eq_some_iff.mp hr2t
    exact Spec.first_positions_unique _ r2 r hr2 hr hr2l hrl (hr2e.trans hri.symm)
  · rw [hroots]; exact Spec.first_positions_length _

open RuntimeTreeEnsembleRegressorP in
/-- C18 (witness): the amended statement applied to the two-tree input `two_tree_regressor`,
whose nodes have the tree ids 0 and 1: the roots are the positions 0 and 1. -/
theorem C18_roots_are_first_nodes_of_trees_witness :
    init (Example.two_tree_regressor "SUM")
      = .ok (Example.two_tree_ensemble AGGREGATE_FUNCTION.SUM) ∧
    Spec.contiguous (tree_ids (Example.two_tree_ensemble AGGREGATE_FUNCTION.SUM).nodes_) ∧
    (∀ t ∈ tree_ids (Example.two_tree_ensemble AGGREGATE_FUNCTION.SUM).nodes_, t ≠ -1) ∧
    (Example.two_tree_ensemble AGGREGATE_FUNCTION.SUM).roots_ = [0, 1] ∧
    (Example.two_tree_ensemble AGGREGATE_FUNCTION.SUM).roots_.length
      = (tree_ids (Example.two_tree_ensemble AGGREGATE_FUNCTION.SUM).nodes_).toFinset.card := by
  have hinit : init (Example.two_tree_regressor "SUM")
      = .ok (Example.two_tree_ensemble AGGREGATE_FUNCTION.SUM) := by decide!
  have hids : tree_ids (Example.two_tree_ensemble AGGREGATE_FUNCTION.SUM).nodes_ = [0, 1] := rfl
  have hcontig : Spec.contiguous
      (tree_ids (Example.two_tree_ensemble AGGREGATE_FUNCTION.SUM).nodes_) := by
    rw [hids]
    intro i j k t hij hjk _ hk
    have : k < 2 := (List.getElem?_eq_some_iff.mp hk).1
    omega
  have hneg : ∀ t ∈ tree_ids (Example.two_tree_ensemble AGGREGATE_FUNCTION.SUM).nodes_,
      t ≠ -1 := by
    rw [hids]
    intro t ht
    simp only [List.mem_cons, List.mem_singleton, List.not_mem_nil, or_false] at ht
    rcases ht with rfl | rfl <;> decide
  obtain ⟨hroots, -, -, -, hcard, -⟩ :=
    C18_roots_are_first_nodes_of_trees _ _ hinit hcontig hneg
  refine ⟨hinit, hcontig, hneg, ?_, hcard⟩
  rw [hroots, hids]
  decide

/-! ## The nodes built by `init` -/

open RuntimeTreeEnsembleRegressorP in
/-- C19 (counterexample). `init` accepts the one-tree input whose nodes have the node ids 0, 7
and 8 and whose root, a BRANCH_LEQ node, has the child ids 7 and 8 and is named by a leaf
descriptor. The child ids name nodes of the tree but are not smaller than `nbnodes_ = 3`: the
root, which is not a leaf, is left with both links `NULL`, and its weights list is not
empty. -/
theorem C19_counterexample_branch_without_children :
    (init Example.sparse_node_ids).toOption.map
        (fun e => e.nodes_.map (fun nd => (nd.mode, nd.truenode, nd.falsenode, nd.weights)))
      = some [(NODE_MODE.BRANCH_LEQ, none, none, [{ i := 0, value := NTYPE.num 5 }]),
              (NODE_MODE.LEAF, none, none, []), (NODE_MODE.LEAF, none, none, [])] := by
  decide!

open RuntimeTreeEnsembleRegressorP in
/-- C19 (amended). For every input accepted by `init` and every node `n` of the built
ensemble, at position `i`: if the mode of `n` is LEAF then `truenode` and `falsenode` are
null; otherwise the array holds a node of the same tree for each of the two child ids of
position `i` (cast to `int`), and `truenode` (respectively `falsenode`) is non-null exactly
when that child id lies in `[0, nbnodes_)`. Whatever its mode, the weights list of `n` holds
the leaf descriptors that name `n`, in descriptor order (`Spec.weights_of`). -/
theorem C19_node_links_and_weights (a : Attributes) (self : RuntimeTreeEnsembleRegressorP)
    (h : init a = .ok self) (i : Nat) (n : TreeNodeElement) (hn : self.nodes_[i]? = some n) :
    (n.mode = NODE_MODE.LEAF → n.truenode = none ∧ n.falsenode = none) ∧
    (n.mode ≠ NODE_MODE.LEAF →
      ∃ t f, a.nodes_truenodeids[i]? = some t ∧ a.nodes_falsenodeids[i]? = some f ∧
        (∃ (p : Nat) (child : TreeNodeElement), self.nodes_[p]? = some child ∧
          child.id = { tree_id := n.id.tree_id, node_id := toInt32 t }) ∧
        (∃ (p : Nat) (child : TreeNodeElement), self.nodes_[p]? = some child ∧
          child.id = { tree_id := n.id.tree_id, node_id := toInt32 f }) ∧
        (n.truenode ≠ none ↔ 0 ≤ toInt32 t ∧ toInt32 t < self.nbnodes_) ∧
        (n.falsenode ≠ none ↔ 0 ≤ toInt32 f ∧ toInt32 f < self.nbnodes_)) ∧
    n.weights = Spec.weights_of a a.target_nodeids.length n.id := by
  obtain ⟨modes, -, -, -, -, hall⟩ := init_nodes_spec a self h
  obtain ⟨-, ⟨hleaf, hbranch⟩, hw⟩ := hall i n hn
  have hnb : self.nbnodes_ = a.nodes_treeids.length := by
    obtain ⟨_, _, _, _, _, _, _, _, _, _, _, _, hnb, _⟩ := init_stages a self h
    exact hnb
  refine ⟨hleaf, fun hb => ?_, hw⟩
  obtain ⟨t, f, ht, hf, ⟨pt, ct, hct, hctid, hift⟩, ⟨pf, cf, hcf, hcfid, hiff⟩⟩ := hbranch hb
  refine ⟨t, f, ht, hf, ⟨pt, ct, hct, hctid⟩, ⟨pf, cf, hcf, hcfid⟩, ?_, ?_⟩
  · rw [hnb]
    by_cases hr : 0 ≤ toInt32 t ∧ toInt32 t < (a.nodes_treeids.length : Int)
    · rw [if_pos hr] at hift
      simp [hift.1, hr]
    · rw [if_neg hr] at hift
      simp [hift, hr]
  · rw [hnb]
    by_cases hr : 0 ≤ toInt32 f ∧ toInt32 f < (a.nodes_treeids.length : Int)
    · rw [if_pos hr] at hiff
      simp [hiff.1, hr]
    · rw [if_neg hr] at hiff
      simp [hiff, hr]

open RuntimeTreeEnsembleRegressorP in
/-- C19 (witness): the amended statement applied to the root of the stump with mode
BRANCH_LEQ, whose child ids 1 and 2 lie in `[0, 3)`: both links are non-null. -/
theorem C19_node_links_and_weights_witness :
    init (Example.stump "BRANCH_LEQ" [])
      = .ok (Example.stump_ensemble NODE_MODE.BRANCH_LEQ MissingTrack.NONE MissingTrack.NONE
          false) ∧
    (Example.stump_ensemble NODE_MODE.BRANCH_LEQ MissingTrack.NONE MissingTrack.NONE
      false).nodes_[0]? = some (Example.stump_root NODE_MODE.BRANCH_LEQ MissingTrack.NONE) ∧
    (Example.stump_root NODE_MODE.BRANCH_LEQ MissingTrack.NONE).truenode ≠ none ∧
    (Example.stump_root NODE_MODE.BRANCH_LEQ MissingTrack.NONE).falsenode ≠ none := by
  have hinit : init (Example.stump "BRANCH_LEQ" [])
      = .ok (Example.stump_ensemble NODE_MODE.BRANCH_LEQ MissingTrack.NONE MissingTrack.NONE
          false) := by decide!
  obtain ⟨-, hbranch, -⟩ := C19_node_links_and_weights _ _ hinit 0
    (Example.stump_root NODE_MODE.BRANCH_LEQ MissingTrack.NONE) rfl
  obtain ⟨t, f, ht, hf, -, -, htn, hfn⟩ := hbranch (by decide)
  have ht1 : t = 1 := by
    have : (Example.stump "BRANCH_LEQ" []).nodes_truenodeids[0]? = some 1 := rfl
    rw [this] at ht
    exact (Option.some.inj ht).symm
  have hf2 : f = 2 := by
    have : (Example.stump "BRANCH_LEQ" []).nodes_falsenodeids[0]? = some 2 := rfl
    rw [this] at hf
    exact (Option.some.inj hf).symm
  subst ht1
  subst hf2
  exact ⟨hinit, rfl, htn.mpr (by decide), hfn.mpr (by decide)⟩

open RuntimeTreeEnsembleRegressorP in
/-- C20. For every input accepted by `init` and every node `n` of the built ensemble (branch
nodes in particular; a leaf has no link), each non-null child link of `n` refers to a node of
the array whose tree id equals the tree id of `n` and whose node id differs from the node id
of `n`. -/
theorem C20_child_links_stay_in_tree (a : Attributes) (self : RuntimeTreeEnsembleRegressorP)
    (h : init a = .ok self) (i : Nat) (n : TreeNodeElement) (hn : self.nodes_[i]? = some n) :
    (∀ c, n.truenode = some c → ∃ child, self.nodes_[c]? = some child ∧
      child.id.tree_id = n.id.tree_id ∧ child.id.node_id ≠ n.id.node_id) ∧
    (∀ c, n.falsenode = some c → ∃ child, self.nodes_[c]? = some child ∧
      child.id.tree_id = n.id.tree_id ∧ child.id.node_id ≠ n.id.node_id) := by
  obtain ⟨modes, -, -, -, -, hall⟩ := init_nodes_spec a self h
  obtain ⟨-, ⟨hleaf, hbranch⟩, -⟩ := hall i n hn
  have hlink : ∀ (cid : Int) (link : Option Nat),
      ChildLink self.nodes_ a.nodes_treeids.length n cid link →
      ∀ c, link = some c → ∃ child, self.nodes_[c]? = some child ∧
        child.id.tree_id = n.id.tree_id ∧ child.id.node_id ≠ n.id.node_id := by
    rintro cid link ⟨found, child, hchild, hid, hif⟩ c hc
    by_cases hr : 0 ≤ cid ∧ cid < (a.nodes_treeids.length : Int)
    · rw [if_pos hr] at hif
      have hcf : c = found := by
        rw [hif.1] at hc
        exact (Option.some.inj hc).symm
      subst hcf
      refine ⟨child, hchild, ?_, ?_⟩
      · rw [hid]
      · rw [hid]; exact hif.2
    · rw [if_neg hr] at hif
      rw [hif] at hc
      cases hc
  by_cases hmode : n.mode = NODE_MODE.LEAF
  · obtain ⟨h1, h2⟩ := hleaf hmode
    constructor
    · intro c hc; rw [h1] at hc; cases hc
    · intro c hc; rw [h2] at hc; cases hc
  · obtain ⟨t, f, -, -, hct, hcf⟩ := hbranch hmode
    exact ⟨hlink _ _ hct, hlink _ _ hcf⟩

open RuntimeTreeEnsembleRegressorP in
/-- C20 (witness): the statement applied to the root of the stump with mode BRANCH_LEQ: its
true child is the node at position 1, of tree 0 and node id 1. -/
theorem C20_child_links_stay_in_tree_witness :
    init (Example.stump "BRANCH_LEQ" [])
      = .ok (Example.stump_ensemble NODE_MODE.BRANCH_LEQ MissingTrack.NONE MissingTrack.NONE
          false) ∧
    (Example.stump_ensemble NODE_MODE.BRANCH_LEQ MissingTrack.NONE MissingTrack.NONE
      false).nodes_[0]? = some (Example.stump_root NODE_MODE.BRANCH_LEQ MissingTrack.NONE) ∧
    ∃ child, (Example.stump_ensemble NODE_MODE.BRANCH_LEQ MissingTrack.NONE MissingTrack.NONE
        false).nodes_[1]? = some child ∧
      child.id.tree_id = 0 ∧ child.id.node_id ≠ 0 := by
  have hinit : init (Example.stump "BRANCH_LEQ" [])
      = .ok (Example.stump_ensemble NODE_MODE.BRANCH_LEQ MissingTrack.NONE MissingTrack.NONE
          false) := by decide!
  exact ⟨hinit, rfl, (C20_child_links_stay_in_tree _ _ hinit 0
    (Example.stump_root NODE_MODE.BRANCH_LEQ MissingTrack.NONE) rfl).1 1 rfl⟩

/-! ## The weights attached by `init` -/

theorem toInt32_of_range (x : Int) (h1 : -2147483648 ≤ x) (h2 : x < 2147483648) :
    toInt32 x = x := by
  unfold toInt32
  rw [Int.emod_eq_of_lt (by omega) (by omega)]
  omega

/-- A `filterMap` whose function keeps `g x` exactly when `p x` is a `filter` followed by a
`map`. -/
theorem filterMap_eq_map_filter {α β : Type} (f : α → Option β) (p : α → Bool) (g : α → β)
    (l : List α) (h : ∀ x ∈ l, f x = if p x then some (g x) else none) :
    l.filterMap f = (l.filter p).map g := by
  induction l with
  | nil => rfl
  | cons x rest ih =>
    have hx := h x (List.mem_cons_self x rest)
    have hrest := ih (fun y hy => h y (List.mem_cons_of_mem x hy))
    by_cases hp : p x = true
    · rw [List.filterMap_cons, hx, if_pos hp, List.filter_cons_of_pos hp, List.map_cons, hrest]
    · rw [List.filterMap_cons, hx, if_neg hp, List.filter_cons_of_neg hp, hrest]

namespace RuntimeTreeEnsembleRegressorP

/-- When the last loop of `init` completes, every descriptor position below the bound has an
entry in each of the four target arrays. -/
theorem attach_all_present (a : Attributes) (idi : IdIndex) (nodes1 nodes2 : List TreeNodeElement)
    (n : Nat) (h : (List.range n).foldlM (attach_weight a idi) nodes1 = .ok nodes2) :
    ∀ i, i < n → i < a.target_treeids.length ∧ i < a.target_nodeids.length ∧
      i < a.target_ids.length ∧ i < a.target_weights.length := by
  have key := foldlM_range_inv (attach_weight a idi)
    (fun k _ => ∀ i, i < k → i < a.target_treeids.length ∧ i < a.target_nodeids.length ∧
      i < a.target_ids.length ∧ i < a.target_weights.length) n
    (by
      intro k s s2 _ hinv hs i hi
      obtain ⟨t, nn, p, target, weight, node, ht, hn, _, htarget, hweight, _, _⟩ :=
        attach_weight_ok a idi s s2 k hs
      by_cases hik : i < k
      · exact hinv i hik
      · have : i = k := by omega
        subst this
        exact ⟨(List.getElem?_eq_some_iff.mp ht).1, (List.getElem?_eq_some_iff.mp hn).1,
          (List.getElem?_eq_some_iff.mp htarget).1, (List.getElem?_eq_some_iff.mp hweight).1⟩)
    nodes1 (by intro i hi; omega)
  exact key n nodes2 (Nat.le_refl n) h

end RuntimeTreeEnsembleRegressorP

/-- With all four target arrays long enough, the descriptors that name `id` are the matching
positions in ascending order, each mapped to its `(target, weight)` pair. -/
theorem Spec.weights_of_eq_filter (a : RuntimeTreeEnsembleRegressorP.Attributes) (k : Nat)
    (id : TreeNodeElementId)
    (hall : ∀ i, i < k → i < a.target_treeids.length ∧ i < a.target_nodeids.length ∧
      i < a.target_ids.length ∧ i < a.target_weights.length) :
    Spec.weights_of a k id
      = ((List.range k).filter (fun i =>
          decide ((toInt32 (a.target_treeids.getD i 0), toInt32 (a.target_nodeids.getD i 0))
            = (id.tree_id, id.node_id)))).map
          (fun i => { i := a.target_ids.getD i 0, value := a.target_weights.getD i NTYPE.zero }) := by
  unfold Spec.weights_of
  apply filterMap_eq_map_filter
  intro i hi
  obtain ⟨h1, h2, h3, h4⟩ := hall i (List.mem_range.mp hi)
  rw [List.getElem?_eq_getElem h1, List.getElem?_eq_getElem h2, List.getElem?_eq_getElem h3,
    List.getElem?_eq_getElem h4]
  simp only [List.getD_eq_getElem?_getD, List.getElem?_eq_getElem h1,
    List.getElem?_eq_getElem h2, List.getElem?_eq_getElem h3, List.getElem?_eq_getElem h4,
    Option.getD_some]
  cases id with
  | mk tid nid =>
    simp only [TreeNodeElementId.mk.injEq, Prod.mk.injEq, decide_eq_true_eq]

namespace RuntimeTreeEnsembleRegressorP

end RuntimeTreeEnsembleRegressorP

/-! ## `init` as an update of the object, against `init` on a fresh object -/

theorem returned_ok {σ : Type} (s : σ) : returned (s, (none : Option Fault)) = .ok s := rfl

theorem returned_error {σ : Type} (s : σ) (e : Fault) : returned (s, some e) = .error e := rfl

theorem returned_throw_keeps {σ : Type} (body : σ → Nat → Result σ) (s : σ) (i : Nat) :
    returned (throw_keeps body s i) = body s i := by
  unfold throw_keeps
  cases body s i <;> rfl

theorem returned_loop_until_throw {σ : Type} (body : σ → Nat → σ × Option Fault)
    (f : σ → Nat → Result σ) (h : ∀ s i, returned (body s i) = f s i) :
    ∀ (l : List Nat) (s : σ), returned (loop_until_throw body l s) = l.foldlM f s := by
  intro l
  induction l with
  | nil => intro s; rfl
  | cons i rest ih =>
    intro s
    rw [List.foldlM_cons, ← h s i]
    unfold loop_until_throw
    rcases hb : body s i with ⟨s2, _ | e⟩
    · simp only [returned_ok]
      exact ih s2
    · rfl

namespace RuntimeTreeEnsembleRegressorP

theorem returned_convert_modes (l : List String) :
    returned (convert_modes l) = l.mapM to_NODE_MODE := by
  induction l with
  | nil => rfl
  | cons value rest ih =>
    rw [List.mapM_cons, ← ih]
    cases hm : to_NODE_MODE value with
    | error e => simp only [convert_modes, hm]; rfl
    | ok mode =>
      rcases hc : convert_modes rest with ⟨converted, _ | e⟩
      · simp only [convert_modes, hm, hc]; rfl
      · simp only [convert_modes, hm, hc]; rfl

theorem fill_node_eq (a : Attributes) (modes : List NODE_MODE)
    (st : List TreeNodeElement × IdIndex) (i : Nat) :
    fill_node a modes st i
      = (node_fields a modes i >>= fun node =>
          match idi_find st.2 node.id with
          | some _ => throw (.runtime_error (.already_there node.id.node_id node.id.tree_id))
          | none => pure (st.1 ++ [node], st.2 ++ [(node.id, i)])) := by
  unfold fill_node node_fields
  cases vec_at a.nodes_treeids i <;> try rfl
  cases vec_at a.nodes_nodeids i <;> try rfl
  cases vec_at a.nodes_featureids i <;> try rfl
  cases vec_at a.nodes_values i <;> try rfl
  by_cases hh : i < a.nodes_hitrates.length
  · simp only [if_pos hh]
    cases vec_at a.nodes_hitrates i <;> try rfl
    cases vec_at modes i <;> try rfl
    by_cases ht : i < a.nodes_missing_value_tracks_true.length
    · simp only [if_pos ht]
      cases vec_at a.nodes_missing_value_tracks_true i <;> rfl
    · simp only [if_neg ht]
      rfl
  · simp only [if_neg hh]
    cases vec_at modes i <;> try rfl
    by_cases ht : i < a.nodes_missing_value_tracks_true.length
    · simp only [if_pos ht]
      cases vec_at a.nodes_missing_value_tracks_true i <;> rfl
    · simp only [if_neg ht]
      rfl

theorem returned_fill_node_in_place (a : Attributes) (modes : List NODE_MODE)
    (st : List TreeNodeElement × IdIndex) (i : Nat) :
    returned (fill_node_in_place a modes st i) = fill_node a modes st i := by
  rw [fill_node_eq]
  unfold fill_node_in_place
  cases node_fields a modes i with
  | error e => rfl
  | ok node =>
    show returned (match idi_find st.2 node.id with
          | some _ =>
            ((st.1 ++ [node], st.2),
              some (.runtime_error (.already_there node.id.node_id node.id.tree_id)))
          | none => ((st.1 ++ [node], st.2 ++ [(node.id, i)]), none))
      = (match idi_find st.2 node.id with
          | some _ => throw (.runtime_error (.already_there node.id.node_id node.id.tree_id))
          | none => pure (st.1 ++ [node], st.2 ++ [(node.id, i)]))
    cases idi_find st.2 node.id <;> rfl

theorem returned_link_node_in_place (a : Attributes) (idi : IdIndex) (nb : Int)
    (nodes : List TreeNodeElement) (i : Nat) :
    returned (link_node_in_place a idi nb nodes i) = link_node a idi nb nodes i := by
  unfold link_node_in_place link_node vec_at
  cases nodes[i]? with
  | none => rfl
  | some it =>
    dsimp only [bind, Except.bind]
    by_cases hleaf : it.mode = NODE_MODE.LEAF
    · simp only [if_pos hleaf]; rfl
    · simp only [if_neg hleaf]
      cases a.nodes_truenodeids[i]? with
      | none => rfl
      | some t =>
        dsimp only
        cases idi_find idi { tree_id := it.id.tree_id, node_id := toInt32 t } with
        | none => rfl
        | some foundt =>
          dsimp only [link_check]
          by_cases hrt : 0 ≤ toInt32 t ∧ toInt32 t < nb
          · simp only [if_pos hrt]
            cases hct : nodes[foundt]? with
            | none => rfl
            | some childt =>
              dsimp only
              by_cases hbad : childt.id.tree_id ≠ it.id.tree_id ∨ childt.id.node_id = it.id.node_id
              · simp only [if_pos hbad]; rfl
              · simp only [if_neg hbad]
                dsimp only [pure, Except.pure]
                cases a.nodes_falsenodeids[i]? with
                | none => rfl
                | some f =>
                  dsimp only
                  cases idi_find idi { tree_id := it.id.tree_id, node_id := toInt32 f } with
                  | none => rfl
                  | some foundf =>
                    dsimp only
                    by_cases hrf : 0 ≤ toInt32 f ∧ toInt32 f < nb
                    · simp only [if_pos hrf]
                      cases hcf : nodes[foundf]? with
                      | none => rfl
                      | some childf =>
                        dsimp only
                        by_cases hbadf : childf.id.tree_id ≠ it.id.tree_id ∨
                            childf.id.node_id = it.id.node_id
                        · simp only [if_pos hbadf]; rfl
                        · simp only [if_neg hbadf]; rfl
                    · simp only [if_neg hrf]; rfl
          · simp only [if_neg hrt]
            dsimp only [pure, Except.pure]
            cases a.nodes_falsenodeids[i]? with
            | none => rfl
            | some f =>
              dsimp only
              cases idi_find idi { tree_id := it.id.tree_id, node_id := toInt32 f } with
              | none => rfl
              | some foundf =>
                dsimp only
                by_cases hrf : 0 ≤ toInt32 f ∧ toInt32 f < nb
                · simp only [if_pos hrf]
                  cases hcf : nodes[foundf]? with
                  | none => rfl
                  | some childf =>
                    dsimp only
                    by_cases hbadf : childf.id.tree_id ≠ it.id.tree_id ∨
                        childf.id.node_id = it.id.node_id
                    · simp only [if_pos hbadf]; rfl
                    · simp only [if_neg hbadf]; rfl
                · simp only [if_neg hrf]; rfl

end RuntimeTreeEnsembleRegressorP

namespace RuntimeTreeEnsembleRegressorP

theorem array2vector_nil {α : Type} (arr : List α) : array2vector [] arr = arr := by
  unfold array2vector
  cases arr with
  | nil => rfl
  | cons x rest => simp

/-- On an object that holds no base values, the caller of `init` sees what `init` on a fresh
object gives. -/
theorem returned_init_in_place (self : RuntimeTreeEnsembleRegressorP) (a : Attributes)
    (hfresh : self.base_values_ = []) : returned (init_in_place self a) = init a := by
  unfold init init_in_place
  cases to_AGGREGATE_FUNCTION a.aggregate_function with
  | error e => rfl
  | ok agg =>
    dsimp only [bind, Except.bind]
    cases to_POST_EVAL_TRANSFORM a.post_transform with
    | error e => rfl
    | ok post =>
      dsimp only
      have hmodes := returned_convert_modes a.nodes_modes
      rw [← hmodes]
      rcases convert_modes a.nodes_modes with ⟨modes, _ | e⟩
      · dsimp only [returned]
        have hfill := returned_loop_until_throw (fill_node_in_place a modes) (fill_node a modes)
          (returned_fill_node_in_place a modes) (List.range a.nodes_treeids.length) ([], [])
        rw [← hfill]
        rcases loop_until_throw (fill_node_in_place a modes) (List.range a.nodes_treeids.length)
          ([], []) with ⟨⟨nodes0, idi⟩, _ | e⟩
        · dsimp only [returned]
          have hlink := returned_loop_until_throw
            (link_node_in_place a idi a.nodes_treeids.length)
            (link_node a idi a.nodes_treeids.length)
            (returned_link_node_in_place a idi a.nodes_treeids.length)
            (List.range a.nodes_treeids.length) nodes0
          rw [← hlink]
          rcases loop_until_throw (link_node_in_place a idi a.nodes_treeids.length)
            (List.range a.nodes_treeids.length) nodes0 with ⟨nodes1, _ | e⟩
          · dsimp only [returned]
            have hroot := returned_loop_until_throw (throw_keeps (root_step nodes1))
              (root_step nodes1) (returned_throw_keeps (root_step nodes1))
              (List.range a.nodes_treeids.length) ([], -1)
            rw [← hroot]
            rcases loop_until_throw (throw_keeps (root_step nodes1))
              (List.range a.nodes_treeids.length) ([], -1) with ⟨⟨roots, previous⟩, _ | e⟩
            · dsimp only [returned]
              have hattach := returned_loop_until_throw (throw_keeps (attach_weight a idi))
                (attach_weight a idi) (returned_throw_keeps (attach_weight a idi))
                (List.range a.target_nodeids.length) nodes1
              rw [← hattach]
              rcases loop_until_throw (throw_keeps (attach_weight a idi))
                (List.range a.target_nodeids.length) nodes1 with ⟨nodes2, _ | e⟩
              · dsimp only [returned, pure, Except.pure]
                rw [hfresh, array2vector_nil]
              · rfl
            · rfl
          · rfl
        · rfl
      · rfl

end RuntimeTreeEnsembleRegressorP

namespace RuntimeTreeEnsembleRegressorP

/-- The first statements of `init` (lines 181-183): either the aggregate-function name is
rejected and the object is as it was, or the three members they assign hold their new values
when `init` returns or throws. -/
theorem init_in_place_first_members (self : RuntimeTreeEnsembleRegressorP) (a : Attributes)
    (s : RuntimeTreeEnsembleRegressorP) (r : Option Fault) (h : init_in_place self a = (s, r)) :
    (∃ e, to_AGGREGATE_FUNCTION a.aggregate_function = .error e ∧ r = some e ∧ s = self) ∨
    (∃ agg, to_AGGREGATE_FUNCTION a.aggregate_function = .ok agg ∧
      s.aggregate_function_ = agg ∧
      s.base_values_ = array2vector self.base_values_ a.base_values ∧
      s.n_targets_ = a.n_targets) := by
  revert h
  unfold init_in_place
  cases to_AGGREGATE_FUNCTION a.aggregate_function with
  | error e =>
    intro h
    simp only [Prod.mk.injEq] at h
    exact Or.inl ⟨e, rfl, h.2.symm, h.1.symm⟩
  | ok agg =>
    refine fun h => Or.inr ⟨agg, rfl, ?_⟩
    revert h
    dsimp only
    cases to_POST_EVAL_TRANSFORM a.post_transform with
    | error e =>
      intro h
      simp only [Prod.mk.injEq] at h
      rw [← h.1]
      exact ⟨rfl, rfl, rfl⟩
    | ok post =>
      dsimp only
      rcases convert_modes a.nodes_modes with ⟨modes, _ | e⟩
      · dsimp only
        rcases loop_until_throw (fill_node_in_place a modes) (List.range a.nodes_treeids.length)
          ([], []) with ⟨⟨nodes0, idi⟩, _ | e⟩
        · dsimp only
          rcases loop_until_throw (link_node_in_place a idi a.nodes_treeids.length)
            (List.range a.nodes_treeids.length) nodes0 with ⟨nodes1, _ | e⟩
          · dsimp only
            rcases loop_until_throw (throw_keeps (root_step nodes1))
              (List.range a.nodes_treeids.length) ([], -1) with ⟨⟨roots, previous⟩, _ | e⟩
            · dsimp only
              rcases loop_until_throw (throw_keeps (attach_weight a idi))
                (List.range a.target_nodeids.length) nodes1 with ⟨nodes2, _ | e⟩
              all_goals
                intro h
                simp only [Prod.mk.injEq] at h
                rw [← h.1]
                exact ⟨rfl, rfl, rfl⟩
            · intro h
              simp only [Prod.mk.injEq] at h
              rw [← h.1]
              exact ⟨rfl, rfl, rfl⟩
          · intro h
            simp only [Prod.mk.injEq] at h
            rw [← h.1]
            exact ⟨rfl, rfl, rfl⟩
        · intro h
          simp only [Prod.mk.injEq] at h
          rw [← h.1]
          exact ⟨rfl, rfl, rfl⟩
      · intro h
        simp only [Prod.mk.injEq] at h
        rw [← h.1]
        exact ⟨rfl, rfl, rfl⟩

end RuntimeTreeEnsembleRegressorP

namespace RuntimeTreeEnsembleClassifier

/-- The array members that `init` assigns before its first `throw` hold the argument arrays
that are not empty, whether `init` goes on to `Initialize()` or throws. -/
theorem init_members_arrays (self : RuntimeTreeEnsembleClassifier) (a : Attributes)
    (s : RuntimeTreeEnsembleClassifier) (r : Option Fault) (h : init_members self a = (s, r)) :
    s.nodes_treeids_ = array2vector self.nodes_treeids_ a.nodes_treeids ∧
    s.nodes_nodeids_ = array2vector self.nodes_nodeids_ a.nodes_nodeids ∧
    s.nodes_featureids_ = array2vector self.nodes_featureids_ a.nodes_featureids ∧
    s.nodes_values_ = array2vector self.nodes_values_ a.nodes_values ∧
    s.nodes_hitrates_ = array2vector self.nodes_hitrates_ a.nodes_hitrates ∧
    s.nodes_truenodeids_ = array2vector self.nodes_truenodeids_ a.nodes_truenodeids ∧
    s.nodes_falsenodeids_ = array2vector self.nodes_falsenodeids_ a.nodes_falsenodeids ∧
    s.missing_tracks_true_
      = array2vector self.missing_tracks_true_ a.nodes_missing_value_tracks_true ∧
    s.class_nodeids_ = array2vector self.class_nodeids_ a.class_nodeids ∧
    s.class_treeids_ = array2vector self.class_treeids_ a.class_treeids ∧
    s.class_ids_ = array2vector self.class_ids_ a.class_ids ∧
    s.class_weights_ = array2vector self.class_weights_ a.class_weights ∧
    s.base_values_ = array2vector self.base_values_ a.base_values ∧
    (r ≠ some (.runtime_error .only_handles_integers) →
      s.classlabels_int64s_ = array2vector self.classlabels_int64s_ a.classlabels_int64s) := by
  unfold init_members at h
  dsimp only at h
  by_cases hstr : a.classlabels_strings.length > 0
  · rw [if_pos hstr] at h
    simp only [Prod.mk.injEq] at h
    rw [← h.1, ← h.2]
    exact ⟨rfl, rfl, rfl, rfl, rfl, rfl, rfl, rfl, rfl, rfl, rfl, rfl, rfl,
      fun hne => absurd rfl hne⟩
  · rw [if_neg hstr] at h
    cases hpost : to_POST_EVAL_TRANSFORM a.post_transform with
    | error e =>
      rw [hpost] at h
      simp only [Prod.mk.injEq] at h
      rw [← h.1]
      exact ⟨rfl, rfl, rfl, rfl, rfl, rfl, rfl, rfl, rfl, rfl, rfl, rfl, rfl, fun _ => rfl⟩
    | ok post =>
      rw [hpost] at h
      simp only [Prod.mk.injEq] at h
      rw [← h.1]
      exact ⟨rfl, rfl, rfl, rfl, rfl, rfl, rfl, rfl, rfl, rfl, rfl, rfl, rfl, fun _ => rfl⟩

end RuntimeTreeEnsembleClassifier

/-! ## A call of `init` that throws -/

/-- C29, counterexample. The regressor that holds the two-tree ensemble with one target is
given an input with three targets, one base value and two nodes of the same identifier:
`init` throws the duplicate-node exception, and the object then has `n_targets_` 3, the new
base value and a new node array without roots. The classifier `flat_binary_stump`, which has
no base values, is given three base values and a string label: `init` throws "This runtime
only handles integers." and the object then holds the three base values. -/
theorem C29_counterexample_failed_init_changes_the_object :
    RuntimeTreeEnsembleRegressorP.init_in_place
        (Example.two_tree_ensemble AGGREGATE_FUNCTION.SUM) (Example.duplicate_nodes "NONE")
      = ({ Example.two_tree_ensemble AGGREGATE_FUNCTION.SUM with
            base_values_ := [NTYPE.num 7], n_targets_ := 3,
            nodes_ := [Example.leaf [], Example.leaf []], roots_ := [] },
         some (.runtime_error (.already_there 0 0))) ∧
    (Example.two_tree_ensemble AGGREGATE_FUNCTION.SUM).n_targets_ = 1 ∧
    (Example.two_tree_ensemble AGGREGATE_FUNCTION.SUM).base_values_ = [NTYPE.num 1] ∧
    (RuntimeTreeEnsembleClassifier.init_members Example.flat_binary_stump
        (Example.classifier_three_base_values ["a"])).2
      = some (.runtime_error .only_handles_integers) ∧
    (RuntimeTreeEnsembleClassifier.init_members Example.flat_binary_stump
        (Example.classifier_three_base_values ["a"])).1.base_values_
      = [NTYPE.num 1, NTYPE.num 2, NTYPE.num 3] ∧
    Example.flat_binary_stump.base_values_ = [] := by
  refine ⟨by decide!, by decide!, by decide!, by decide!, by decide!, by decide!⟩

/-- C29, amended. A call of `init` that throws does not restore the object: the members
assigned before the throw keep their new values. For the pointer-linked regressor, either the
aggregate-function name is rejected by the first statement and the object is as it was, or
`aggregate_function_`, `base_values_` (when the argument is not empty) and `n_targets_` hold
the values of the arguments. For the classifier, after every throw the thirteen array members
assigned first hold the argument arrays that are not empty, and `classlabels_int64s_` too
unless the throw is the one for string labels. -/
theorem C29_failed_init_keeps_the_members_assigned_before_the_throw
    (self : RuntimeTreeEnsembleRegressorP) (a : RuntimeTreeEnsembleRegressorP.Attributes)
    (s : RuntimeTreeEnsembleRegressorP) (e : Fault)
    (h : RuntimeTreeEnsembleRegressorP.init_in_place self a = (s, some e)) :
    ((to_AGGREGATE_FUNCTION a.aggregate_function = .error e ∧ s = self) ∨
     (∃ agg, to_AGGREGATE_FUNCTION a.aggregate_function = .ok agg ∧
        s.aggregate_function_ = agg ∧
        s.base_values_ = array2vector self.base_values_ a.base_values ∧
        s.n_targets_ = a.n_targets)) ∧
    (∀ (c : RuntimeTreeEnsembleClassifier) (ca : RuntimeTreeEnsembleClassifier.Attributes)
        (cs : RuntimeTreeEnsembleClassifier) (ce : Fault),
      RuntimeTreeEnsembleClassifier.init_members c ca = (cs, some ce) →
      cs.nodes_treeids_ = array2vector c.nodes_treeids_ ca.nodes_treeids ∧
      cs.nodes_nodeids_ = array2vector c.nodes_nodeids_ ca.nodes_nodeids ∧
      cs.nodes_featureids_ = array2vector c.nodes_featureids_ ca.nodes_featureids ∧
      cs.nodes_values_ = array2vector c.nodes_values_ ca.nodes_values ∧
      cs.nodes_hitrates_ = array2vector c.nodes_hitrates_ ca.nodes_hitrates ∧
      cs.nodes_truenodeids_ = array2vector c.nodes_truenodeids_ ca.nodes_truenodeids ∧
      cs.nodes_falsenodeids_ = array2vector c.nodes_falsenodeids_ ca.nodes_falsenodeids ∧
      cs.missing_tracks_true_
        = array2vector c.missing_tracks_true_ ca.nodes_missing_value_tracks_true ∧
      cs.class_nodeids_ = array2vector c.class_nodeids_ ca.class_nodeids ∧
      cs.class_treeids_ = array2vector c.class_treeids_ ca.class_treeids ∧
      cs.class_ids_ = array2vector c.class_ids_ ca.class_ids ∧
      cs.class_weights_ = array2vector c.class_weights_ ca.class_weights ∧
      cs.base_values_ = array2vector c.base_values_ ca.base_values ∧
      (ce ≠ .runtime_error .only_handles_integers →
        cs.classlabels_int64s_ = array2vector c.classlabels_int64s_ ca.classlabels_int64s)) := by
  constructor
  · rcases RuntimeTreeEnsembleRegressorP.init_in_place_first_members self a s (some e) h with
      ⟨e2, hagg, he, hs⟩ | hnew
    · left
      have : e = e2 := Option.some.inj he
      subst this
      exact ⟨hagg, hs⟩
    · exact Or.inr hnew
  · intro c ca cs ce hc
    obtain ⟨h1, h2, h3, h4, h5, h6, h7, h8, h9, h10, h11, h12, h13, h14⟩ :=
      RuntimeTreeEnsembleClassifier.init_members_arrays c ca cs (some ce) hc
    exact ⟨h1, h2, h3, h4, h5, h6, h7, h8, h9, h10, h11, h12, h13,
      fun hne => h14 (fun hsome => hne (Option.some.inj hsome))⟩

/-- The theorem `C29_failed_init_keeps_the_members_assigned_before_the_throw` at the call
that throws the duplicate-node exception. -/
theorem C29_failed_init_keeps_the_members_assigned_before_the_throw_witness :
    RuntimeTreeEnsembleRegressorP.init_in_place
        (Example.two_tree_ensemble AGGREGATE_FUNCTION.SUM) (Example.duplicate_nodes "NONE")
      = ({ Example.two_tree_ensemble AGGREGATE_FUNCTION.SUM with
            base_values_ := [NTYPE.num 7], n_targets_ := 3,
            nodes_ := [Example.leaf [], Example.leaf []], roots_ := [] },
         some (.runtime_error (.already_there 0 0))) ∧
    ((to_AGGREGATE_FUNCTION (Example.duplicate_nodes "NONE").aggregate_function
        = .error (.runtime_error (.already_there 0 0)) ∧
      ({ Example.two_tree_ensemble AGGREGATE_FUNCTION.SUM with
          base_values_ := [NTYPE.num 7], n_targets_ := 3,
          nodes_ := [Example.leaf [], Example.leaf []], roots_ := [] }
        : RuntimeTreeEnsembleRegressorP)
        = Example.two_tree_ensemble AGGREGATE_FUNCTION.SUM) ∨
     (∃ agg, to_AGGREGATE_FUNCTION (Example.duplicate_nodes "NONE").aggregate_function
          = .ok agg ∧
        ({ Example.two_tree_ensemble AGGREGATE_FUNCTION.SUM with
            base_values_ := [NTYPE.num 7], n_targets_ := 3,
            nodes_ := [Example.leaf [], Example.leaf []], roots_ := [] }
          : RuntimeTreeEnsembleRegressorP).aggregate_function_ = agg ∧
        ({ Example.two_tree_ensemble AGGREGATE_FUNCTION.SUM with
            base_values_ := [NTYPE.num 7], n_targets_ := 3,
            nodes_ := [Example.leaf [], Example.leaf []], roots_ := [] }
          : RuntimeTreeEnsembleRegressorP).base_values_
          = array2vector (Example.two_tree_ensemble AGGREGATE_FUNCTION.SUM).base_values_
              (Example.duplicate_nodes "NONE").base_values ∧
        ({ Example.two_tree_ensemble AGGREGATE_FUNCTION.SUM with
            base_values_ := [NTYPE.num 7], n_targets_ := 3,
            nodes_ := [Example.leaf [], Example.leaf []], roots_ := [] }
          : RuntimeTreeEnsembleRegressorP).n_targets_
          = (Example.duplicate_nodes "NONE").n_targets)) :=
  ⟨by decide!,
    (C29_failed_init_keeps_the_members_assigned_before_the_throw
      (Example.two_tree_ensemble AGGREGATE_FUNCTION.SUM) (Example.duplicate_nodes "NONE") _ _
      (by decide!)).1⟩

/-! ## The length of the stored base values -/

/-- C30, counterexample. The regressor accepts an input with two targets and three base
values, and the classifier reaches `Initialize()` with two class labels and three base
values: the stored `base_values_` has length 3, which is neither 0, 1 nor 2. -/
theorem C30_counterexample_three_base_values :
    (RuntimeTreeEnsembleRegressorP.init
        (Example.no_trees [NTYPE.num 1, NTYPE.num 2, NTYPE.num 3] 2)).toOption.map
        (fun e => (e.base_values_.length, e.n_targets_)) = some (3, 2) ∧
    (RuntimeTreeEnsembleClassifier.init_members Example.flat_binary_stump
        (Example.classifier_three_base_values [])).2 = none ∧
    (RuntimeTreeEnsembleClassifier.init_members Example.flat_binary_stump
        (Example.classifier_three_base_values [])).1.base_values_.length = 3 ∧
    RuntimeTreeEnsembleClassifier.Initialize_class_count
      (RuntimeTreeEnsembleClassifier.init_members Example.flat_binary_stump
        (Example.classifier_three_base_values [])).1 = 2 := by
  refine ⟨by decide!, by decide!, by decide!, by decide!⟩

/-- C30, amended. `init` stores the base values it is given, whatever their number: when the
regressor's `init` returns, `base_values_` is the argument (the member as it was when the
argument is empty) and `n_targets_` is the argument, and no comparison of the two takes
place; every list of base values is accepted with every number of targets. The classifier
reaches `Initialize()` with `base_values_` assigned in the same way, and `Initialize()` sets
`class_count_` to the number of integer class labels. -/
theorem C30_base_values_are_stored_whatever_their_length
    (self : RuntimeTreeEnsembleRegressorP) (a : RuntimeTreeEnsembleRegressorP.Attributes)
    (s : RuntimeTreeEnsembleRegressorP)
    (h : RuntimeTreeEnsembleRegressorP.init_in_place self a = (s, none)) :
    s.base_values_ = array2vector self.base_values_ a.base_values ∧
    s.n_targets_ = a.n_targets ∧
    (self.base_values_ = [] →
      RuntimeTreeEnsembleRegressorP.init a = .ok s ∧ s.base_values_ = a.base_values) ∧
    (∀ (c : RuntimeTreeEnsembleClassifier) (ca : RuntimeTreeEnsembleClassifier.Attributes)
        (cs : RuntimeTreeEnsembleClassifier),
      RuntimeTreeEnsembleClassifier.init_members c ca = (cs, none) →
      cs.base_values_ = array2vector c.base_values_ ca.base_values ∧
      RuntimeTreeEnsembleClassifier.Initialize_class_count cs
        = (array2vector c.classlabels_int64s_ ca.classlabels_int64s).length) ∧
    (∀ (base_values : List NTYPE) (n_targets : Int),
      ∃ e, RuntimeTreeEnsembleRegressorP.init (Example.no_trees base_values n_targets) = .ok e ∧
        e.base_values_ = base_values ∧ e.n_targets_ = n_targets) := by
  have hmem := RuntimeTreeEnsembleRegressorP.init_in_place_first_members self a s none h
  rcases hmem with ⟨e2, _, he, _⟩ | ⟨agg, _, _, hbv, hnt⟩
  · cases he
  · refine ⟨hbv, hnt, ?_, ?_, ?_⟩
    · intro hfresh
      have hret := RuntimeTreeEnsembleRegressorP.returned_init_in_place self a hfresh
      rw [h] at hret
      refine ⟨hret.symm, ?_⟩
      rw [hbv, hfresh, RuntimeTreeEnsembleRegressorP.array2vector_nil]
    · intro c ca cs hc
      have harr := RuntimeTreeEnsembleClassifier.init_members_arrays c ca cs none hc
      refine ⟨harr.2.2.2.2.2.2.2.2.2.2.2.2.1, ?_⟩
      unfold RuntimeTreeEnsembleClassifier.Initialize_class_count
      rw [harr.2.2.2.2.2.2.2.2.2.2.2.2.2 (by simp)]
    · intro base_values n_targets
      exact ⟨_, rfl, rfl, rfl⟩

/-- The theorem `C30_base_values_are_stored_whatever_their_length` at an input without nodes,
with two targets and three base values. -/
theorem C30_base_values_are_stored_whatever_their_length_witness :
    (RuntimeTreeEnsembleRegressorP.init_in_place
        (Example.two_tree_ensemble AGGREGATE_FUNCTION.SUM)
        (Example.no_trees [NTYPE.num 1, NTYPE.num 2, NTYPE.num 3] 2)).2 = none ∧
    (RuntimeTreeEnsembleRegressorP.init_in_place
        (Example.two_tree_ensemble AGGREGATE_FUNCTION.SUM)
        (Example.no_trees [NTYPE.num 1, NTYPE.num 2, NTYPE.num 3] 2)).1.base_values_
      = array2vector (Example.two_tree_ensemble AGGREGATE_FUNCTION.SUM).base_values_
          [NTYPE.num 1, NTYPE.num 2, NTYPE.num 3] ∧
    (RuntimeTreeEnsembleRegressorP.init_in_place
        (Example.two_tree_ensemble AGGREGATE_FUNCTION.SUM)
        (Example.no_trees [NTYPE.num 1, NTYPE.num 2, NTYPE.num 3] 2)).1.n_targets_ = 2 :=
  ⟨by decide!,
    (C30_base_values_are_stored_whatever_their_length
      (Example.two_tree_ensemble AGGREGATE_FUNCTION.SUM)
      (Example.no_trees [NTYPE.num 1, NTYPE.num 2, NTYPE.num 3] 2) _
      (by decide!)).1,
    by decide!⟩

/-! ## The output of an ensemble without trees -/

theorem mapM_ok_of_forall {α β : Type} (f : α → Result β) (g : α → β) :
    ∀ (l : List α), (∀ x ∈ l, f x = .ok (g x)) → l.mapM f = .ok (l.map g) := by
  intro l
  induction l with
  | nil => intro _; rfl
  | cons x rest ih =>
    intro h
    rw [List.mapM_cons, h x (List.mem_cons_self x rest),
      ih (fun y hy => h y (List.mem_cons_of_mem x hy))]
    rfl

theorem map_getD_range {α : Type} (l : List α) (d : α) :
    (List.range l.length).map (fun j => l.getD j d) = l := by
  apply List.ext_getElem
  · simp
  · intro i h1 h2
    simp [List.getD_eq_getElem?_getD, List.getElem?_eq_getElem h2]

namespace RuntimeTreeEnsembleRegressorP

/-- C25, counterexample. The input has no node, two targets and the single base value 1:
`init` accepts it with no root, and the vector handed to `write_scores` for a row is
`[0, 0]`, not the base value broadcast to both targets. -/
theorem C25_counterexample_single_base_value_is_not_broadcast :
    init (Example.no_trees [NTYPE.num 1] 2) = .ok (Example.no_trees_ensemble [NTYPE.num 1] 2) ∧
    (Example.no_trees_ensemble [NTYPE.num 1] 2).roots_ = [] ∧
    row_outputs (Example.no_trees_ensemble [NTYPE.num 1] 2) Example.zero_row
      = .ok [NTYPE.num 0, NTYPE.num 0] := by
  refine ⟨by decide!, by decide!, by decide!⟩

/-- C25, amended. For an ensemble without roots and every row: in the branch
`n_targets_ == 1` the value `val`, stored through `ComputeProbit` when the post-transform is
PROBIT and as it is otherwise, is `base_values_[0]` when `base_values_` has length 1 and 0
otherwise; in the branch `n_targets_ != 1` the vector handed to `write_scores` is
`base_values_` when its length is `n_targets_` and `n_targets_` zeros otherwise, so a single
base value is not broadcast to several targets. -/
theorem C25_output_without_trees (self : RuntimeTreeEnsembleRegressorP) (x_data : Int → NTYPE)
    (hroots : self.roots_ = []) :
    row_val_single self x_data
      = .ok (match self.base_values_ with
             | [v] => v
             | _ => NTYPE.zero) ∧
    row_outputs self x_data
      = .ok (if (self.base_values_.length : Int) = self.n_targets_ then self.base_values_
             else List.replicate self.n_targets_.toNat NTYPE.zero) := by
  constructor
  · unfold row_val_single walk_roots
    rw [hroots]
    match hb : self.base_values_ with
    | [] => rfl
    | [v] => rfl
    | v :: w :: rest => rfl
  · unfold row_outputs walk_roots
    rw [hroots]
    show (List.range self.n_targets_.toNat).mapM
        (output_entry self (List.replicate self.n_targets_.toNat NTYPE.zero,
          List.replicate self.n_targets_.toNat false)) = _
    by_cases hlen : (self.base_values_.length : Int) = self.n_targets_
    · rw [if_pos hlen]
      have hn : self.n_targets_.toNat = self.base_values_.length := by omega
      rw [mapM_ok_of_forall _ (fun j => self.base_values_.getD j NTYPE.zero)]
      · rw [hn, map_getD_range]
      · intro j hj
        have hj2 : j < self.base_values_.length := by
          rw [← hn]; exact List.mem_range.mp hj
        unfold output_entry
        rw [if_pos hlen]
        simp only [vec_at, List.getElem?_eq_getElem hj2, List.getD_eq_getElem?_getD,
          Option.getD_some]
        have hf : (List.replicate self.n_targets_.toNat false)[j]? = some false := by
          rw [List.getElem?_replicate]
          simp [List.mem_range.mp hj]
        rw [hf]
        rfl
    · rw [if_neg hlen]
      rw [mapM_ok_of_forall _ (fun _ => NTYPE.zero)]
      · congr 1
        apply List.ext_getElem
        · simp
        · intro i h1 h2
          simp
      · intro j hj
        unfold output_entry
        rw [if_neg hlen]
        have hf : (List.replicate self.n_targets_.toNat false)[j]? = some false := by
          rw [List.getElem?_replicate]
          simp [List.mem_range.mp hj]
        simp only [vec_at, hf]
        rfl

/-- The theorem `C25_output_without_trees` at the ensemble without nodes that has three
targets and three base values. -/
theorem C25_output_without_trees_witness :
    (Example.no_trees_ensemble [NTYPE.num 1, NTYPE.num 2, NTYPE.num 3] 3).roots_ = [] ∧
    row_outputs (Example.no_trees_ensemble [NTYPE.num 1, NTYPE.num 2, NTYPE.num 3] 3)
        Example.zero_row
      = .ok (if ((Example.no_trees_ensemble [NTYPE.num 1, NTYPE.num 2, NTYPE.num 3]
                3).base_values_.length : Int)
              = (Example.no_trees_ensemble [NTYPE.num 1, NTYPE.num 2, NTYPE.num 3] 3).n_targets_
             then (Example.no_trees_ensemble [NTYPE.num 1, NTYPE.num 2, NTYPE.num 3]
                3).base_values_
             else List.replicate
               (Example.no_trees_ensemble [NTYPE.num 1, NTYPE.num 2, NTYPE.num 3]
                 3).n_targets_.toNat NTYPE.zero) :=
  ⟨rfl, (C25_output_without_trees
    (Example.no_trees_ensemble [NTYPE.num 1, NTYPE.num 2, NTYPE.num 3] 3) Example.zero_row
    rfl).2⟩

end RuntimeTreeEnsembleRegressorP

/-! ## A leaf without weights -/

/-- C26. The single-output routines `ProcessTreeNodePrediction1` of the SUM aggregator
(inherited by the AVERAGE and classifier aggregators), of the MIN and of the MAX aggregator
read `root->weights[0]` without testing that the leaf has a weight: on a leaf whose `weights`
is empty the read is out of bounds. The N-output routines `ProcessTreeNodePrediction` of the
same classes, the aggregation switch of the pointer-linked regressor and the flat walker loop
over the entries of the leaf and leave the buffers, or the class map, unchanged. -/
theorem C26_single_output_routines_read_the_first_weight (predictions : NTYPE)
    (has_predictions : Bool) (scores : List NTYPE) (has_scores : List Bool) :
    _AggregatorSum.ProcessTreeNodePrediction1 predictions (Example.leaf []) has_predictions
      = .error Fault.out_of_range ∧
    _AggregatorMin.ProcessTreeNodePrediction1 predictions (Example.leaf []) has_predictions
      = .error Fault.out_of_range ∧
    _AggregatorMax.ProcessTreeNodePrediction1 predictions (Example.leaf []) has_predictions
      = .error Fault.out_of_range ∧
    _AggregatorSum.ProcessTreeNodePrediction scores (Example.leaf []) has_scores
      = .ok (scores, has_scores) ∧
    _AggregatorMin.ProcessTreeNodePrediction scores (Example.leaf []) has_scores
      = .ok (scores, has_scores) ∧
    _AggregatorMax.ProcessTreeNodePrediction scores (Example.leaf []) has_scores
      = .ok (scores, has_scores) ∧
    (∀ f : AGGREGATE_FUNCTION,
      RuntimeTreeEnsembleRegressorP.aggregate f (scores, has_scores) (Example.leaf []).weights
        = .ok (scores, has_scores)) ∧
    (∀ (self : RuntimeTreeEnsembleClassifier) (classes : ClassMap) (treeindex tid nid : Int),
      vec_at_int self.nodes_treeids_ treeindex = .ok tid →
      vec_at_int self.nodes_nodeids_ treeindex = .ok nid →
      RuntimeTreeEnsembleClassifier.leafdata_find self.leafdata_map_
        (tid * RuntimeTreeEnsembleClassifier.kOffset_ + nid) = none →
      self.collect classes treeindex = .ok classes) := by
  refine ⟨rfl, rfl, rfl, rfl, rfl, rfl, ?_, ?_⟩
  · intro f
    cases f <;> rfl
  · intro self classes treeindex tid nid ht hn hfind
    unfold RuntimeTreeEnsembleClassifier.collect
    rw [ht, hn]
    simp only [bind, Except.bind]
    rw [hfind]
    rfl

/-! ## The score vector of the flat classifier -/

namespace RuntimeTreeEnsembleClassifier

theorem add_vote_sorted (classes : ClassMap) (classid : Int) (weight : NTYPE)
    (hs : map_sorted classes) : map_sorted (add_vote classes classid weight) := by
  unfold add_vote
  cases map_find classes classid with
  | none => exact map_insert_sorted classes classid weight hs
  | some v => exact map_modify_sorted classes classid _ hs

theorem leaf_scan_sorted (tid nid : Int) :
    ∀ (data : List (Int × Int × Int × NTYPE)) (classes : ClassMap), map_sorted classes →
      map_sorted (leaf_scan data tid nid classes) := by
  intro data
  induction data with
  | nil => intro classes hs; exact hs
  | cons d rest ih =>
    intro classes hs
    obtain ⟨treeid, nodeid, classid, weight⟩ := d
    unfold leaf_scan
    by_cases hc : treeid = tid ∧ nodeid = nid
    · rw [if_pos hc]
      exact ih _ (add_vote_sorted classes classid weight hs)
    · rw [if_neg hc]
      exact hs

theorem collect_sorted (self : RuntimeTreeEnsembleClassifier) (classes c2 : ClassMap)
    (treeindex : Int) (hs : map_sorted classes) (h : collect self classes treeindex = .ok c2) :
    map_sorted c2 := by
  revert h
  unfold collect
  cases vec_at_int self.nodes_treeids_ treeindex with
  | error e => intro h; cases h
  | ok tid =>
    cases vec_at_int self.nodes_nodeids_ treeindex with
    | error e => intro h; cases h
    | ok nid =>
      dsimp only [bind, Except.bind]
      cases leafdata_find self.leafdata_map_ (tid * kOffset_ + nid) with
      | none =>
        intro h
        cases h
        exact hs
      | some index =>
        dsimp only
        cases vec_at_int self.leafnodedata_ index with
        | error e => intro h; cases h
        | ok d =>
          intro h
          cases h
          exact leaf_scan_sorted tid nid _ classes hs

theorem ProcessTreeNode_sorted (self : RuntimeTreeEnsembleClassifier) (classes c2 : ClassMap)
    (treeindex : Int) (x_data : Int → NTYPE) (feature_base : Int) (hs : map_sorted classes)
    (h : ProcessTreeNode self classes treeindex x_data feature_base = .ok c2) :
    map_sorted c2 := by
  unfold ProcessTreeNode at h
  simp only [Result.bind_eq_ok] at h
  obtain ⟨mode, _, stop, _, hcollect⟩ := h
  exact collect_sorted self classes c2 stop hs hcollect

theorem foldlM_sorted {α : Type} (f : ClassMap → α → Result ClassMap)
    (hf : ∀ c x c2, map_sorted c → f c x = .ok c2 → map_sorted c2) :
    ∀ (l : List α) (c c2 : ClassMap), map_sorted c → l.foldlM f c = .ok c2 → map_sorted c2 := by
  intro l
  induction l with
  | nil =>
    intro c c2 hs h
    cases h
    exact hs
  | cons x rest ih =>
    intro c c2 hs h
    rw [List.foldlM_cons] at h
    simp only [Result.bind_eq_ok] at h
    obtain ⟨c1, h1, h2⟩ := h
    exact ih c1 c2 (hf c x c1 hs h1) h2

theorem add_base_value_sorted (base_values : List NTYPE) (classes c2 : ClassMap) (k : Nat)
    (hs : map_sorted classes) (h : add_base_value base_values classes k = .ok c2) :
    map_sorted c2 := by
  revert h
  unfold add_base_value
  cases vec_at base_values k with
  | error e => intro h; cases h
  | ok v =>
    dsimp only [bind, Except.bind]
    cases map_find classes k with
    | none =>
      intro h
      cases h
      exact map_insert_sorted classes k v hs
    | some s =>
      intro h
      cases h
      exact map_modify_sorted classes k _ hs

theorem finalize_multiclass_sorted (self : RuntimeTreeEnsembleClassifier)
    (classes c2 : ClassMap) (label : Int) (hs : map_sorted classes)
    (h : finalize_multiclass self classes = .ok (c2, label)) : map_sorted c2 := by
  unfold finalize_multiclass at h
  simp only [Result.bind_eq_ok] at h
  obtain ⟨c1, hfold, hrest⟩ := h
  have hs1 := foldlM_sorted (add_base_value self.base_values_)
    (fun c x c3 hc hx => add_base_value_sorted self.base_values_ c c3 x hc hx)
    (List.range self.base_values_.length) classes c1 hs hfold
  obtain ⟨label2, _, hpure⟩ := hrest
  cases hpure
  exact hs1

end RuntimeTreeEnsembleClassifier

theorem get_weight_class_positive_sorted (classes : ClassMap) (hs : map_sorted classes) :
    map_sorted (get_weight_class_positive classes).1 := by
  unfold get_weight_class_positive
  cases map_find classes 1 with
  | none =>
    dsimp only
    by_cases hl : classes.length > 0
    · rw [if_pos hl]
      exact map_insert_sorted classes 0 NTYPE.zero hs
    · rw [if_neg hl]
      exact hs
  | some v => exact hs

theorem _set_score_binary_map (write_additional_scores : Int) (weights_are_all_positive_ : Bool)
    (classes : ClassMap) (classes_labels_ : List Int) (weights_classes_ : List Int)
    (positive_label negative_label : Int) (c2 : ClassMap) (label w : Int)
    (h : _set_score_binary write_additional_scores weights_are_all_positive_ classes
      classes_labels_ weights_classes_ positive_label negative_label = .ok (c2, label, w)) :
    c2 = (get_weight_class_positive classes).1 := by
  revert h
  unfold _set_score_binary
  rcases get_weight_class_positive classes with ⟨c1, pos_weight⟩
  dsimp only
  split
  · split
    · split
      · cases vec_at classes_labels_ 1 with
        | error e => intro h; cases h
        | ok l => intro h; cases h; rfl
      · cases vec_at classes_labels_ 0 with
        | error e => intro h; cases h
        | ok l => intro h; cases h; rfl
    · split
      · cases vec_at classes_labels_ 1 with
        | error e => intro h; cases h
        | ok l => intro h; cases h; rfl
      · cases vec_at classes_labels_ 0 with
        | error e => intro h; cases h
        | ok l => intro h; cases h; rfl
  · split
    · intro h; cases h; rfl
    · intro h; cases h; rfl

namespace RuntimeTreeEnsembleClassifier

theorem finalize_binary_sorted (self : RuntimeTreeEnsembleClassifier)
    (classes c2 : ClassMap) (label w : Int) (hs : map_sorted classes)
    (h : finalize_binary self classes = .ok (c2, label, w)) : map_sorted c2 := by
  revert h
  unfold finalize_binary
  by_cases hlen : self.base_values_.length = 2
  · simp only [if_pos hlen]
    cases map_find classes 1 with
    | none =>
      dsimp only
      cases map_find classes 0 with
      | none => intro h; cases h
      | some s0 =>
        dsimp only
        cases vec_at self.base_values_ 1 with
        | error e => intro h; cases h
        | ok b1 =>
          intro h
          rw [_set_score_binary_map _ _ _ _ _ _ _ _ _ _ h]
          exact get_weight_class_positive_sorted _
            (map_modify_sorted _ 0 _ (map_insert_sorted classes 1 _ hs))
    | some s1 =>
      dsimp only
      cases vec_at self.base_values_ 1 with
      | error e => intro h; cases h
      | ok b1 =>
        cases vec_at self.base_values_ 0 with
        | error e => intro h; cases h
        | ok b0 =>
          intro h
          rw [_set_score_binary_map _ _ _ _ _ _ _ _ _ _ h]
          exact get_weight_class_positive_sorted _
            (map_modify_sorted _ 0 _
              (map_insert_sorted _ 0 _ (map_modify_sorted classes 1 _ hs)))
  · simp only [if_neg hlen]
    intro h
    rw [_set_score_binary_map _ _ _ _ _ _ _ _ _ _ h]
    exact get_weight_class_positive_sorted _ hs

theorem dense_scores_spec (self : RuntimeTreeEnsembleClassifier) (classes : ClassMap) :
    ((self.weights_classes_.length : Int) = self.class_count_ →
      (dense_scores self classes).length = self.class_count_.toNat ∧
      ∀ k : Nat, k < self.class_count_.toNat →
        (dense_scores self classes)[k]? = some ((map_find classes k).getD NTYPE.zero)) ∧
    ((self.weights_classes_.length : Int) ≠ self.class_count_ →
      dense_scores self classes = classes.map Prod.snd) := by
  unfold dense_scores
  constructor
  · intro heq
    rw [if_pos heq]
    have hcoe : ∀ l : List Nat, (l : List Int) = l.map (fun k : Nat => (k : Int)) := by
      intro l
      induction l with
      | nil => rfl
      | cons x rest ih => simpa using ih
    rw [hcoe, List.map_map]
    refine ⟨by simp, ?_⟩
    intro k hk
    rw [List.getElem?_map, List.getElem?_range hk]
    rfl
  · intro hne
    rw [if_neg hne]

/-- C28. For every row on which `compute` reaches the call of `write_scores`, with `classes`
the class map of the row after the finalization (base values added, label chosen): the map
has strictly ascending keys; when `weights_classes_`, the set of the class ids of the leaf
descriptors, has `class_count_` elements, the score vector has length `class_count_` and
entry `k` is the score of class `k`, or 0 when `classes` has no entry for `k`; otherwise the
score vector is the list of the scores of the entries of `classes`, in the order of the map,
that is in ascending class id. -/
theorem C28_score_vector_handed_to_write_scores (self : RuntimeTreeEnsembleClassifier)
    (x_data : Int → NTYPE) (current_weight_0 : Int) (label : Int) (call : WriteScoresCall)
    (h : self.compute_row x_data current_weight_0 = .ok (label, call)) :
    ∃ classes0 classes : ClassMap,
      self.roots_.foldlM
        (fun classes r => ProcessTreeNode self classes r x_data current_weight_0) []
        = .ok classes0 ∧
      ((self.class_count_ > 2 ∧ self.finalize_multiclass classes0 = .ok (classes, label)) ∨
       (¬ self.class_count_ > 2 ∧
          ∃ w, self.finalize_binary classes0 = .ok (classes, label, w))) ∧
      map_sorted classes ∧
      ((self.weights_classes_.length : Int) = self.class_count_ →
        call.scores.length = self.class_count_.toNat ∧
        ∀ k : Nat, k < self.class_count_.toNat →
          call.scores[k]? = some ((map_find classes k).getD NTYPE.zero)) ∧
      ((self.weights_classes_.length : Int) ≠ self.class_count_ →
        call.scores = classes.map Prod.snd ∧
        (classes.map Prod.fst).Pairwise (fun k1 k2 => k1 < k2)) := by
  unfold compute_row at h
  simp only [Result.bind_eq_ok] at h
  obtain ⟨classes0, hfold, hrest⟩ := h
  have hs0 : map_sorted classes0 :=
    foldlM_sorted (fun classes r => ProcessTreeNode self classes r x_data current_weight_0)
      (fun c r c2 hc hr => ProcessTreeNode_sorted self c c2 r x_data current_weight_0 hc hr)
      self.roots_ [] classes0 List.Pairwise.nil hfold
  by_cases hcc : self.class_count_ > 2
  · rw [if_pos hcc] at hrest
    simp only [Result.bind_eq_ok] at hrest
    obtain ⟨⟨classes, label2⟩, hfin, hpure⟩ := hrest
    cases hpure
    have hs := finalize_multiclass_sorted self classes0 classes _ hs0 hfin
    refine ⟨classes0, classes, hfold, Or.inl ⟨hcc, hfin⟩, hs, ?_, ?_⟩
    · exact (dense_scores_spec self classes).1
    · intro hne
      exact ⟨(dense_scores_spec self classes).2 hne, (map_sorted_iff_keys classes).mp hs⟩
  · rw [if_neg hcc] at hrest
    simp only [Result.bind_eq_ok] at hrest
    obtain ⟨⟨classes, label2, w⟩, hfin, hpure⟩ := hrest
    cases hpure
    have hs := finalize_binary_sorted self classes0 classes _ w hs0 hfin
    refine ⟨classes0, classes, hfold, Or.inr ⟨hcc, w, hfin⟩, hs, ?_, ?_⟩
    · exact (dense_scores_spec self classes).1
    · intro hne
      exact ⟨(dense_scores_spec self classes).2 hne, (map_sorted_iff_keys classes).mp hs⟩

/-- The theorem `C28_score_vector_handed_to_write_scores` at scenario 1 of the
specification, for the row whose feature is 1: both classes occur in the leaves and the
vector is dense. -/
theorem C28_score_vector_handed_to_write_scores_witness :
    Example.flat_binary_stump.compute_row (Example.const_row 1) 0
      = .ok (1, { scores := [NTYPE.num 0, NTYPE.num (9 / 10)],
                  post_transform := POST_EVAL_TRANSFORM.NONE, add_second_class := -1 }) ∧
    ∃ classes0 classes : ClassMap,
      Example.flat_binary_stump.roots_.foldlM
        (fun classes r => ProcessTreeNode Example.flat_binary_stump classes r
          (Example.const_row 1) 0) [] = .ok classes0 ∧
      ((Example.flat_binary_stump.class_count_ > 2 ∧
          Example.flat_binary_stump.finalize_multiclass classes0 = .ok (classes, 1)) ∨
       (¬ Example.flat_binary_stump.class_count_ > 2 ∧
          ∃ w, Example.flat_binary_stump.finalize_binary classes0 = .ok (classes, 1, w))) ∧
      map_sorted classes ∧
      (((Example.flat_binary_stump.weights_classes_.length : Int)
          = Example.flat_binary_stump.class_count_ →
        ([NTYPE.num 0, NTYPE.num (9 / 10)] : List NTYPE).length
          = Example.flat_binary_stump.class_count_.toNat ∧
        ∀ k : Nat, k < Example.flat_binary_stump.class_count_.toNat →
          ([NTYPE.num 0, NTYPE.num (9 / 10)] : List NTYPE)[k]?
            = some ((map_find classes k).getD NTYPE.zero))) ∧
      ((Example.flat_binary_stump.weights_classes_.length : Int)
          ≠ Example.flat_binary_stump.class_count_ →
        ([NTYPE.num 0, NTYPE.num (9 / 10)] : List NTYPE) = classes.map Prod.snd ∧
        (classes.map Prod.fst).Pairwise (fun k1 k2 => k1 < k2)) :=
  ⟨by decide!,
    C28_score_vector_handed_to_write_scores Example.flat_binary_stump (Example.const_row 1) 0 1
      { scores := [NTYPE.num 0, NTYPE.num (9 / 10)],
        post_transform := POST_EVAL_TRANSFORM.NONE, add_second_class := -1 }
      (by decide!)⟩

end RuntimeTreeEnsembleClassifier

/-! ## The exceptions of the loops of `init` -/

theorem foldlM_range_succ {σ : Type} (f : σ → Nat → Result σ) (s0 : σ) (k : Nat) :
    (List.range (k + 1)).foldlM f s0 = ((List.range k).foldlM f s0 >>= fun s => f s k) := by
  rw [List.range_succ, List.foldlM_append]
  congr 1
  funext s
  simp [List.foldlM_cons]

/-- A loop that ends with an exception: some iteration `k` is reached normally and throws
it. -/
theorem foldlM_range_error {σ : Type} (f : σ → Nat → Result σ) (s0 : σ) (e : Fault) :
    ∀ n, (List.range n).foldlM f s0 = .error e →
      ∃ k s, k < n ∧ (List.range k).foldlM f s0 = .ok s ∧ f s k = .error e := by
  intro n
  induction n with
  | zero => intro h; cases h
  | succ n ih =>
    intro h
    rw [foldlM_range_succ] at h
    cases hn : (List.range n).foldlM f s0 with
    | error e2 =>
      rw [hn] at h
      have he : e2 = e := by cases h; rfl
      subst he
      obtain ⟨k, s, hk, hok, hf⟩ := ih hn
      exact ⟨k, s, Nat.lt_succ_of_lt hk, hok, hf⟩
    | ok s =>
      rw [hn] at h
      exact ⟨n, s, Nat.lt_succ_self n, hn, h⟩

theorem mapM_spec {α β : Type} (f : α → Result β) :
    ∀ (l : List α) (r : List β), l.mapM f = .ok r →
      r.length = l.length ∧
      ∀ (i : Nat) (x : α), l[i]? = some x → ∃ y, r[i]? = some y ∧ f x = .ok y := by
  intro l
  induction l with
  | nil =>
    intro r h
    cases h
    exact ⟨rfl, fun i x hx => by simp at hx⟩
  | cons x0 rest ih =>
    intro r h
    rw [List.mapM_cons] at h
    simp only [Result.bind_eq_ok] at h
    obtain ⟨y0, hy0, r2, hr2, hpure⟩ := h
    cases hpure
    obtain ⟨hlen, hall⟩ := ih r2 hr2
    refine ⟨by simp [hlen], ?_⟩
    intro i x hx
    cases i with
    | zero =>
      simp only [List.getElem?_cons_zero, Option.some.injEq] at hx
      subst hx
      exact ⟨y0, List.getElem?_cons_zero, hy0⟩
    | succ i =>
      simp only [List.getElem?_cons_succ] at hx
      obtain ⟨y, hy, hfy⟩ := hall i x hx
      exact ⟨y, by simpa using hy, hfy⟩

theorem to_NODE_MODE_leaf (s : String) (m : NODE_MODE) (h : to_NODE_MODE s = .ok m) :
    m = NODE_MODE.LEAF ↔ s = "LEAF" := by
  unfold to_NODE_MODE at h
  split_ifs at h with h1 h2 h3 h4 h5 h6 h7
  all_goals
    cases h
    subst_vars
    simp

namespace RuntimeTreeEnsembleRegressorP

theorem node_fields_ok (a : Attributes) (modes : List NODE_MODE) (k : Nat)
    (hk : k < a.nodes_treeids.length) (hcover : NodeArraysCover a)
    (hmodes : a.nodes_treeids.length ≤ modes.length) :
    ∃ nd, node_fields a modes k = .ok nd ∧ nd.id = node_key a k ∧ modes[k]? = some nd.mode := by
  obtain ⟨c1, c2, c3, _, _, _⟩ := hcover
  have h1 : k < a.nodes_nodeids.length := by omega
  have h2 : k < a.nodes_featureids.length := by omega
  have h3 : k < a.nodes_values.length := by omega
  have h4 : k < modes.length := by omega
  unfold node_fields
  simp only [vec_at, List.getElem?_eq_getElem hk, List.getElem?_eq_getElem h1,
    List.getElem?_eq_getElem h2, List.getElem?_eq_getElem h3, List.getElem?_eq_getElem h4]
  dsimp only [bind, Except.bind]
  have hkey : node_key a k
      = { tree_id := toInt32 a.nodes_treeids[k], node_id := toInt32 a.nodes_nodeids[k] } := by
    unfold node_key
    simp [List.getD_eq_getElem?_getD, List.getElem?_eq_getElem hk,
      List.getElem?_eq_getElem h1]
  by_cases hh : k < a.nodes_hitrates.length
  · simp only [if_pos hh, List.getElem?_eq_getElem hh]
    by_cases ht : k < a.nodes_missing_value_tracks_true.length
    · simp only [if_pos ht, List.getElem?_eq_getElem ht]
      exact ⟨_, rfl, hkey.symm, rfl⟩
    · simp only [if_neg ht]
      exact ⟨_, rfl, hkey.symm, rfl⟩
  · simp only [if_neg hh]
    by_cases ht : k < a.nodes_missing_value_tracks_true.length
    · simp only [if_pos ht, List.getElem?_eq_getElem ht]
      exact ⟨_, rfl, hkey.symm, rfl⟩
    · simp only [if_neg ht]
      exact ⟨_, rfl, hkey.symm, rfl⟩

theorem Filled.id_eq {a : Attributes} {modes : List NODE_MODE} {j : Nat} {nd : TreeNodeElement}
    (h : Filled a modes j nd) : nd.id = node_key a j := by
  obtain ⟨⟨t, ht, htid⟩, ⟨n, hn, hnid⟩, _⟩ := h
  unfold node_key
  cases hid : nd.id with
  | mk tid nid =>
    rw [hid] at htid hnid
    simp only at htid hnid
    simp [List.getD_eq_getElem?_getD, ht, hn, htid, hnid]

/-- The lookup in `idi` after `k` iterations of the first loop, in terms of the input: the
position `p` is found for a key when `p < k` and the key is the identifier of position `p`. -/
theorem idi_find_of_fill (a : Attributes) (modes : List NODE_MODE) (k : Nat)
    (st : List TreeNodeElement × IdIndex) (hinv : FillInv a modes k st)
    (key : TreeNodeElementId) (p : Nat) :
    idi_find st.2 key = some p → p < k ∧ node_key a p = key := by
  intro h
  obtain ⟨nd, hnd, hid⟩ := (idi_find_of_FillInv a modes k st hinv key p).mp h
  have hp : p < st.1.length := (List.getElem?_eq_some_iff.mp hnd).1
  refine ⟨by rw [← hinv.1]; exact hp, ?_⟩
  rw [← hid]
  exact ((hinv.2.2.1 p nd hnd).2.2.2.2).id_eq.symm

theorem idi_find_of_fill_none (a : Attributes) (modes : List NODE_MODE) (k : Nat)
    (st : List TreeNodeElement × IdIndex) (hinv : FillInv a modes k st)
    (key : TreeNodeElementId) :
    idi_find st.2 key = none ↔ ∀ p, p < k → node_key a p ≠ key := by
  constructor
  · intro hnone p hp heq
    have hlen : p < st.1.length := by rw [hinv.1]; exact hp
    have hnd : st.1[p]? = some st.1[p] := List.getElem?_eq_getElem hlen
    have hid : (st.1[p]).id = key := by
      rw [((hinv.2.2.1 p _ hnd).2.2.2.2).id_eq]; exact heq
    have := (idi_find_of_FillInv a modes k st hinv key p).mpr ⟨_, hnd, hid⟩
    rw [hnone] at this
    cases this
  · intro hall
    cases hfind : idi_find st.2 key with
    | none => rfl
    | some p =>
      obtain ⟨hp, hkey⟩ := idi_find_of_fill a modes k st hinv key p hfind
      exact absurd hkey (hall p hp)

theorem NoDuplicateNode.ne {a : Attributes} (h : NoDuplicateNode a) (i j : Nat) (hij : i < j)
    (hj : j < a.nodes_treeids.length) : node_key a i ≠ node_key a j := by
  intro heq
  unfold NoDuplicateNode at h
  have hinj := List.nodup_iff_injective_getElem.mp h
  have hi : i < a.nodes_treeids.length := by omega
  have hli : i < ((List.range a.nodes_treeids.length).map (node_key a)).length := by simpa using hi
  have hlj : j < ((List.range a.nodes_treeids.length).map (node_key a)).length := by simpa using hj
  have : (⟨i, hli⟩ : Fin _) = ⟨j, hlj⟩ := by
    apply hinj
    simp [heq]
  have : i = j := by simpa using congrArg Fin.val this
  omega

theorem fill_node_of_fields (a : Attributes) (modes : List NODE_MODE)
    (st : List TreeNodeElement × IdIndex) (k : Nat) (nd : TreeNodeElement)
    (h : node_fields a modes k = .ok nd) :
    fill_node a modes st k
      = (match idi_find st.2 nd.id with
         | some _ => Except.error (.runtime_error (.already_there nd.id.node_id nd.id.tree_id))
         | none => Except.ok (st.1 ++ [nd], st.2 ++ [(nd.id, k)])) := by
  rw [fill_node_eq, h]
  rfl

/-- Without duplicate nodes, and with arrays that cover the node positions, the first loop of
`init` completes. -/
theorem fill_total (a : Attributes) (modes : List NODE_MODE) (hcover : NodeArraysCover a)
    (hmodes : a.nodes_treeids.length ≤ modes.length) (hnodup : NoDuplicateNode a) :
    ∀ k, k ≤ a.nodes_treeids.length →
      ∃ st, (List.range k).foldlM (fill_node a modes) ([], []) = .ok st := by
  intro k
  induction k with
  | zero => intro _; exact ⟨_, rfl⟩
  | succ k ih =>
    intro hk
    obtain ⟨st, hst⟩ := ih (by omega)
    have hinv := fill_spec a modes k st hst
    obtain ⟨nd, hnd, hid, _⟩ := node_fields_ok a modes k (by omega) hcover hmodes
    have hnone : idi_find st.2 nd.id = none := by
      rw [hid]
      exact (idi_find_of_fill_none a modes k st hinv _).mpr
        (fun p hp => hnodup.ne p k hp (by omega))
    rw [foldlM_range_succ, hst]
    show ∃ st2, fill_node a modes st k = .ok st2
    rw [fill_node_of_fields a modes st k nd hnd, hnone]
    exact ⟨_, rfl⟩

/-- With two positions that carry the same identifier, and arrays that cover the node
positions, the first loop of `init` throws the duplicate-node exception. -/
theorem fill_fails_on_duplicate (a : Attributes) (modes : List NODE_MODE)
    (hcover : NodeArraysCover a) (hmodes : a.nodes_treeids.length ≤ modes.length)
    (hdup : ∃ i j, i < j ∧ j < a.nodes_treeids.length ∧ node_key a i = node_key a j) :
    ∃ node_id tree_id, (List.range a.nodes_treeids.length).foldlM (fill_node a modes) ([], [])
      = .error (.runtime_error (.already_there node_id tree_id)) := by
  cases hfold : (List.range a.nodes_treeids.length).foldlM (fill_node a modes) ([], []) with
  | ok st =>
    exfalso
    have hinv := fill_spec a modes _ st hfold
    obtain ⟨i, j, hij, hj, hkey⟩ := hdup
    have hi : i < st.1.length := by rw [hinv.1]; omega
    have hj2 : j < st.1.length := by rw [hinv.1]; omega
    have hidi := ((hinv.2.2.1 i _ (List.getElem?_eq_getElem hi)).2.2.2.2).id_eq
    have hidj := ((hinv.2.2.1 j _ (List.getElem?_eq_getElem hj2)).2.2.2.2).id_eq
    have hnodup := hinv.2.2.2
    have hinj := List.nodup_iff_injective_getElem.mp hnodup
    have hli : i < (st.1.map (fun nd => nd.id)).length := by simpa using hi
    have hlj : j < (st.1.map (fun nd => nd.id)).length := by simpa using hj2
    have : (⟨i, hli⟩ : Fin _) = ⟨j, hlj⟩ := by
      apply hinj
      simp only [List.getElem_map]
      rw [hidi, hidj, hkey]
    have : i = j := by simpa using congrArg Fin.val this
    omega
  | error e =>
    obtain ⟨k, st, hk, hst, hstep⟩ := foldlM_range_error (fill_node a modes) ([], []) e _ hfold
    obtain ⟨nd, hnd, _, _⟩ := node_fields_ok a modes k hk hcover hmodes
    rw [fill_node_of_fields a modes st k nd hnd] at hstep
    cases hfind : idi_find st.2 nd.id with
    | none => rw [hfind] at hstep; cases hstep
    | some p =>
      rw [hfind] at hstep
      cases hstep
      exact ⟨_, _, rfl⟩

end RuntimeTreeEnsembleRegressorP

namespace RuntimeTreeEnsembleRegressorP

theorem init_error_of_fill (a : Attributes) (modes : List NODE_MODE) (e : Fault)
    (hnames : NamesKnown a) (hmodes : a.nodes_modes.mapM to_NODE_MODE = .ok modes)
    (hfill : (List.range a.nodes_treeids.length).foldlM (fill_node a modes) ([], [])
      = .error e) : init a = .error e := by
  obtain ⟨⟨f, hf⟩, ⟨p, hp⟩, _⟩ := hnames
  unfold init
  simp only [hf, hp, hmodes, hfill, bind, Except.bind]

theorem init_error_of_link (a : Attributes) (modes : List NODE_MODE)
    (nodes0 : List TreeNodeElement) (idi : IdIndex) (e : Fault)
    (hnames : NamesKnown a) (hmodes : a.nodes_modes.mapM to_NODE_MODE = .ok modes)
    (hfill : (List.range a.nodes_treeids.length).foldlM (fill_node a modes) ([], [])
      = .ok (nodes0, idi))
    (hlink : (List.range a.nodes_treeids.length).foldlM
      (link_node a idi a.nodes_treeids.length) nodes0 = .error e) : init a = .error e := by
  obtain ⟨⟨f, hf⟩, ⟨p, hp⟩, _⟩ := hnames
  unfold init
  simp only [hf, hp, hmodes, hfill, hlink, bind, Except.bind]

theorem IsBranch.mode_ne_leaf {a : Attributes} {modes : List NODE_MODE} {j : Nat}
    {nd : TreeNodeElement} (hb : IsBranch a j)
    (hmodes : a.nodes_modes.mapM to_NODE_MODE = .ok modes) (hfilled : Filled a modes j nd) :
    nd.mode ≠ NODE_MODE.LEAF := by
  obtain ⟨_, s, hs, hne⟩ := hb
  obtain ⟨m, hm, hconv⟩ := (mapM_spec to_NODE_MODE a.nodes_modes modes hmodes).2 j s hs
  have hmode : modes[j]? = some nd.mode := hfilled.2.2.2.2.2.1
  rw [hm] at hmode
  have : m = nd.mode := Option.some.inj hmode
  subst this
  intro hleaf
  exact hne ((to_NODE_MODE_leaf s _ hconv).mp hleaf)

theorem IsBranch.of_mode {a : Attributes} {modes : List NODE_MODE} {j : Nat}
    {nd : TreeNodeElement} (hj : j < a.nodes_treeids.length) (hcover : NodeArraysCover a)
    (hmodes : a.nodes_modes.mapM to_NODE_MODE = .ok modes) (hfilled : Filled a modes j nd)
    (hmode : nd.mode ≠ NODE_MODE.LEAF) : IsBranch a j := by
  have hlen : j < a.nodes_modes.length := by
    have := hcover.2.2.2.1
    omega
  refine ⟨hj, a.nodes_modes[j], List.getElem?_eq_getElem hlen, ?_⟩
  obtain ⟨m, hm, hconv⟩ := (mapM_spec to_NODE_MODE a.nodes_modes modes hmodes).2 j _
    (List.getElem?_eq_getElem hlen)
  have hmode2 : modes[j]? = some nd.mode := hfilled.2.2.2.2.2.1
  rw [hm] at hmode2
  have : m = nd.mode := Option.some.inj hmode2
  subst this
  intro hleaf
  exact hmode ((to_NODE_MODE_leaf _ _ hconv).mpr hleaf)

/-- A link that the second loop of `init` has stored was not a rejected one. -/
theorem not_rejected_of_ChildLink (a : Attributes) (modes : List NODE_MODE)
    (st : List TreeNodeElement × IdIndex)
    (hinv : FillInv a modes a.nodes_treeids.length st) (j : Nat) (nd : TreeNodeElement)
    (hid : nd.id = node_key a j) (cid : Int) (link : Option Nat)
    (h : ChildLink st.1 a.nodes_treeids.length nd (toInt32 cid) link) :
    ¬ RejectedLink a j cid := by
  obtain ⟨found, child, hchild, hcid, hif⟩ := h
  have hfound : found < a.nodes_treeids.length := by
    rw [← hinv.1]; exact (List.getElem?_eq_some_iff.mp hchild).1
  have hkey : node_key a found = child.id :=
    ((hinv.2.2.1 found child hchild).2.2.2.2).id_eq.symm
  rintro (hd | ⟨hself, hr1, hr2⟩)
  · apply hd found hfound
    rw [hkey, hcid, hid]
  · rw [if_pos ⟨hr1, hr2⟩] at hif
    apply hif.2
    rw [hself, hid]

theorem not_rejected_of_LinkInv (a : Attributes) (modes : List NODE_MODE)
    (st : List TreeNodeElement × IdIndex)
    (hmodes : a.nodes_modes.mapM to_NODE_MODE = .ok modes)
    (hinv : FillInv a modes a.nodes_treeids.length st) (k : Nat)
    (nodes : List TreeNodeElement) (hlink : LinkInv a st.1 k nodes) (j : Nat) (hj : j < k)
    (hb : IsBranch a j) :
    ¬ RejectedLink a j (a.nodes_truenodeids.getD j 0) ∧
    ¬ RejectedLink a j (a.nodes_falsenodeids.getD j 0) := by
  have hjn : j < st.1.length := by rw [hinv.1]; exact hb.1
  have hnd0 : st.1[j]? = some st.1[j] := List.getElem?_eq_getElem hjn
  obtain ⟨nd, _, hsame, _, _, hlinked⟩ := hlink.2 j _ hnd0
  have hfilled0 := (hinv.2.2.1 j _ hnd0).2.2.2.2
  have hfilled : Filled a modes j nd := hfilled0.of_SameFields hsame
  have hmode := hb.mode_ne_leaf hmodes hfilled
  obtain ⟨t, f, ht, hf, hct, hcf⟩ := (hlinked hj).2 hmode
  have hgt : a.nodes_truenodeids.getD j 0 = t := by
    simp [List.getD_eq_getElem?_getD, ht]
  have hgf : a.nodes_falsenodeids.getD j 0 = f := by
    simp [List.getD_eq_getElem?_getD, hf]
  rw [hgt, hgf]
  exact ⟨not_rejected_of_ChildLink a modes st hinv j nd hfilled.id_eq t _ hct,
    not_rejected_of_ChildLink a modes st hinv j nd hfilled.id_eq f _ hcf⟩

end RuntimeTreeEnsembleRegressorP

namespace RuntimeTreeEnsembleRegressorP

theorem link_check_of_key (nodes : List TreeNodeElement) (found : Nat)
    (it child : TreeNodeElement) (kind : ErrorKind) (cid : Int)
    (hchild : nodes[found]? = some child)
    (hid : child.id = { tree_id := it.id.tree_id, node_id := cid }) :
    link_check nodes found it kind
      = if cid = it.id.node_id then some (.runtime_error kind) else none := by
  unfold link_check
  rw [hchild]
  simp [hid]

/-- The lookup and the test of one child id `cid` of the node at position `k`, during the
second loop of `init`. -/
theorem guard_check (a : Attributes) (modes : List NODE_MODE)
    (st : List TreeNodeElement × IdIndex)
    (hinv : FillInv a modes a.nodes_treeids.length st) (k j : Nat)
    (nodes : List TreeNodeElement) (hlink : LinkInv a st.1 j nodes) (it : TreeNodeElement)
    (hit : it.id = node_key a k) (cid : Int) (kind : ErrorKind) :
    (idi_find st.2 { tree_id := it.id.tree_id, node_id := toInt32 cid } = none →
      Dangling a k cid) ∧
    (∀ found, idi_find st.2 { tree_id := it.id.tree_id, node_id := toInt32 cid } = some found →
      ¬ Dangling a k cid ∧
      (GuardedSelfLoop a k cid →
        (if 0 ≤ toInt32 cid ∧ toInt32 cid < (a.nodes_treeids.length : Int)
          then link_check nodes found it kind else none) = some (.runtime_error kind)) ∧
      (¬ GuardedSelfLoop a k cid →
        (if 0 ≤ toInt32 cid ∧ toInt32 cid < (a.nodes_treeids.length : Int)
          then link_check nodes found it kind else none) = none)) := by
  constructor
  · intro hnone p hp
    have := (idi_find_of_fill_none a modes _ st hinv _).mp hnone p hp
    rw [hit] at this
    exact this
  · intro found hfind
    obtain ⟨hfound, hkey⟩ := idi_find_of_fill a modes _ st hinv _ found hfind
    have hf0 : found < st.1.length := by rw [hinv.1]; exact hfound
    have hnd0 : st.1[found]? = some st.1[found] := List.getElem?_eq_getElem hf0
    obtain ⟨child, hchild, hsame, _⟩ := hlink.2 found _ hnd0
    have hcid : child.id = { tree_id := it.id.tree_id, node_id := toInt32 cid } := by
      rw [hsame.1, ((hinv.2.2.1 found _ hnd0).2.2.2.2).id_eq, hkey]
    have hcheck := link_check_of_key nodes found it child kind (toInt32 cid) hchild hcid
    refine ⟨?_, ?_, ?_⟩
    · intro hd
      apply hd found hfound
      rw [hkey, hit]
    · rintro ⟨hself, hr1, hr2⟩
      rw [if_pos ⟨hr1, hr2⟩, hcheck, if_pos (by rw [hself, hit])]
    · intro hng
      by_cases hr : 0 ≤ toInt32 cid ∧ toInt32 cid < (a.nodes_treeids.length : Int)
      · rw [if_pos hr, hcheck, if_neg]
        intro hself
        exact hng ⟨by rw [hself, hit], hr.1, hr.2⟩
      · rw [if_neg hr]

/-- The exception of an iteration of the second loop of `init`, by its cause. -/
theorem link_node_error (a : Attributes) (modes : List NODE_MODE)
    (st : List TreeNodeElement × IdIndex)
    (hmodes : a.nodes_modes.mapM to_NODE_MODE = .ok modes) (hcover : NodeArraysCover a)
    (hinv : FillInv a modes a.nodes_treeids.length st) (k : Nat)
    (hk : k < a.nodes_treeids.length) (nodes : List TreeNodeElement)
    (hlink : LinkInv a st.1 k nodes) (e : Fault)
    (h : link_node a st.2 a.nodes_treeids.length nodes k = .error e) :
    IsBranch a k ∧
    ((Dangling a k (a.nodes_truenodeids.getD k 0) ∧
        e = .runtime_error (.unable_to_find_truenode (node_key a k).tree_id
          (toInt32 (a.nodes_truenodeids.getD k 0)))) ∨
     (GuardedSelfLoop a k (a.nodes_truenodeids.getD k 0) ∧
        e = .runtime_error (.truenode_self_or_other_tree k (node_key a k).node_id
          (node_key a k).tree_id)) ∨
     (¬ RejectedLink a k (a.nodes_truenodeids.getD k 0) ∧
        Dangling a k (a.nodes_falsenodeids.getD k 0) ∧
        e = .runtime_error (.unable_to_find_falsenode (node_key a k).tree_id
          (toInt32 (a.nodes_falsenodeids.getD k 0)))) ∨
     (¬ RejectedLink a k (a.nodes_truenodeids.getD k 0) ∧
        GuardedSelfLoop a k (a.nodes_falsenodeids.getD k 0) ∧
        e = .runtime_error .falsenode_self_or_other_tree)) := by
  have hk0 : k < st.1.length := by rw [hinv.1]; exact hk
  have hnd0 : st.1[k]? = some st.1[k] := List.getElem?_eq_getElem hk0
  obtain ⟨it, hitn, _, _, hsame0, _⟩ := hlink.2 k _ hnd0
  have hiteq : it = st.1[k] := hsame0 (Nat.le_refl k)
  have hfilled : Filled a modes k it := by
    rw [hiteq]; exact (hinv.2.2.1 k _ hnd0).2.2.2.2
  have hit : it.id = node_key a k := hfilled.id_eq
  have hkt : k < a.nodes_truenodeids.length := by have := hcover.2.2.2.2.1; omega
  have hkf : k < a.nodes_falsenodeids.length := by have := hcover.2.2.2.2.2; omega
  have hgt : a.nodes_truenodeids.getD k 0 = a.nodes_truenodeids[k] := by
    simp [List.getD_eq_getElem?_getD, List.getElem?_eq_getElem hkt]
  have hgf : a.nodes_falsenodeids.getD k 0 = a.nodes_falsenodeids[k] := by
    simp [List.getD_eq_getElem?_getD, List.getElem?_eq_getElem hkf]
  rw [hgt, hgf]
  have gt := guard_check a modes st hinv k k nodes hlink it hit a.nodes_truenodeids[k]
    (.truenode_self_or_other_tree k it.id.node_id it.id.tree_id)
  have gf := guard_check a modes st hinv k k nodes hlink it hit a.nodes_falsenodeids[k]
    .falsenode_self_or_other_tree
  rw [← returned_link_node_in_place] at h
  unfold link_node_in_place at h
  rw [hitn] at h
  dsimp only at h
  by_cases hleaf : it.mode = NODE_MODE.LEAF
  · rw [if_pos hleaf] at h
    cases h
  · rw [if_neg hleaf, List.getElem?_eq_getElem hkt] at h
    dsimp only at h
    refine ⟨IsBranch.of_mode hk hcover hmodes hfilled hleaf, ?_⟩
    rw [← hit]
    cases hfindt : idi_find st.2
        { tree_id := it.id.tree_id, node_id := toInt32 a.nodes_truenodeids[k] } with
    | none =>
      rw [hfindt] at h
      dsimp only [returned] at h
      cases h
      exact Or.inl ⟨gt.1 hfindt, rfl⟩
    | some foundt =>
      rw [hfindt] at h
      dsimp only at h
      obtain ⟨hndt, hguardt, hnguardt⟩ := gt.2 foundt hfindt
      by_cases hg : GuardedSelfLoop a k a.nodes_truenodeids[k]
      · rw [hguardt hg] at h
        dsimp only [returned] at h
        cases h
        exact Or.inr (Or.inl ⟨hg, rfl⟩)
      · rw [hnguardt hg, List.getElem?_eq_getElem hkf] at h
        dsimp only at h
        have hnrej : ¬ RejectedLink a k a.nodes_truenodeids[k] := fun hr => hr.elim hndt hg
        cases hfindf : idi_find st.2
            { tree_id := it.id.tree_id, node_id := toInt32 a.nodes_falsenodeids[k] } with
        | none =>
          rw [hfindf] at h
          dsimp only [returned] at h
          cases h
          exact Or.inr (Or.inr (Or.inl ⟨hnrej, gf.1 hfindf, rfl⟩))
        | some foundf =>
          rw [hfindf] at h
          dsimp only at h
          obtain ⟨hndf, hguardf, hnguardf⟩ := gf.2 foundf hfindf
          by_cases hgf2 : GuardedSelfLoop a k a.nodes_falsenodeids[k]
          · rw [hguardf hgf2] at h
            dsimp only [returned] at h
            cases h
            exact Or.inr (Or.inr (Or.inr ⟨hnrej, hgf2, rfl⟩))
          · rw [hnguardf hgf2] at h
            cases h

end RuntimeTreeEnsembleRegressorP

namespace RuntimeTreeEnsembleRegressorP

/-- With known names, arrays that cover the node positions and no duplicate node, an input
with a rejected link makes `init` throw at the first rejected link, in the order of the node
positions and with the true child before the false child: the dangling-child exception when
that link is dangling, the self-loop exception when it is a guarded self-loop. -/
theorem init_first_rejected_link (a : Attributes) (hnames : NamesKnown a)
    (hcover : NodeArraysCover a) (hnodup : NoDuplicateNode a)
    (hbad : ∃ i, IsBranch a i ∧ (RejectedLink a i (a.nodes_truenodeids.getD i 0) ∨
      RejectedLink a i (a.nodes_falsenodeids.getD i 0))) :
    ∃ k, IsBranch a k ∧
      (∀ j, j < k → IsBranch a j →
        ¬ RejectedLink a j (a.nodes_truenodeids.getD j 0) ∧
        ¬ RejectedLink a j (a.nodes_falsenodeids.getD j 0)) ∧
      ((Dangling a k (a.nodes_truenodeids.getD k 0) ∧
          init a = .error (.runtime_error (.unable_to_find_truenode (node_key a k).tree_id
            (toInt32 (a.nodes_truenodeids.getD k 0))))) ∨
       (GuardedSelfLoop a k (a.nodes_truenodeids.getD k 0) ∧
          init a = .error (.runtime_error (.truenode_self_or_other_tree k
            (node_key a k).node_id (node_key a k).tree_id))) ∨
       (¬ RejectedLink a k (a.nodes_truenodeids.getD k 0) ∧
          Dangling a k (a.nodes_falsenodeids.getD k 0) ∧
          init a = .error (.runtime_error (.unable_to_find_falsenode (node_key a k).tree_id
            (toInt32 (a.nodes_falsenodeids.getD k 0))))) ∨
       (¬ RejectedLink a k (a.nodes_truenodeids.getD k 0) ∧
          GuardedSelfLoop a k (a.nodes_falsenodeids.getD k 0) ∧
          init a = .error (.runtime_error .falsenode_self_or_other_tree))) := by
  obtain ⟨modes, hmodes⟩ := hnames.2.2
  have hmlen : a.nodes_treeids.length ≤ modes.length := by
    rw [(mapM_spec to_NODE_MODE a.nodes_modes modes hmodes).1]
    exact hcover.2.2.2.1
  obtain ⟨st, hfill⟩ := fill_total a modes hcover hmlen hnodup _ (Nat.le_refl _)
  have hinv := fill_spec a modes _ st hfill
  have hnone : ∀ (j : Nat) (nd0 : TreeNodeElement), st.1[j]? = some nd0 →
      nd0.truenode = none ∧ nd0.falsenode = none := fun j nd0 h =>
    ⟨(hinv.2.2.1 j nd0 h).2.1, (hinv.2.2.1 j nd0 h).2.2.1⟩
  have hidi : ∀ (key : TreeNodeElementId) (p : Nat), idi_find st.2 key = some p →
      ∃ nd, st.1[p]? = some nd ∧ nd.id = key := fun key p h =>
    (idi_find_of_FillInv a modes _ st hinv key p).mp h
  cases hlink : (List.range a.nodes_treeids.length).foldlM
      (link_node a st.2 a.nodes_treeids.length) st.1 with
  | ok nodes1 =>
    exfalso
    have hl := link_spec a st.2 st.1 nodes1 hnone hidi _ hlink
    obtain ⟨i, hb, hrej⟩ := hbad
    have := not_rejected_of_LinkInv a modes st hmodes hinv _ nodes1 hl i hb.1 hb
    exact hrej.elim this.1 this.2
  | error e =>
    obtain ⟨k, nodes, hk, hok, hstep⟩ :=
      foldlM_range_error (link_node a st.2 a.nodes_treeids.length) st.1 e _ hlink
    have hl := link_spec a st.2 st.1 nodes hnone hidi k hok
    obtain ⟨hb, hcases⟩ := link_node_error a modes st hmodes hcover hinv k hk nodes hl e hstep
    have hinit : init a = .error e :=
      init_error_of_link a modes st.1 st.2 e hnames hmodes hfill hlink
    refine ⟨k, hb, ?_, ?_⟩
    · intro j hj hbj
      exact not_rejected_of_LinkInv a modes st hmodes hinv k nodes hl j hj hbj
    · rw [hinit]
      rcases hcases with ⟨h1, he⟩ | ⟨h1, he⟩ | ⟨h0, h1, he⟩ | ⟨h0, h1, he⟩
      · exact Or.inl ⟨h1, by rw [he]⟩
      · exact Or.inr (Or.inl ⟨h1, by rw [he]⟩)
      · exact Or.inr (Or.inr (Or.inl ⟨h0, h1, by rw [he]⟩))
      · exact Or.inr (Or.inr (Or.inr ⟨h0, h1, by rw [he]⟩))

/-! ## Duplicate nodes -/

/-- C22, counterexample. The input has two leaves with the identifier (tree 0, node 0) and
the post-transform name "FOO": `init` throws the exception of `to_POST_EVAL_TRANSFORM`, which
it calls before it fills the nodes, and not the duplicate-node exception. With the name
"NONE" the same nodes give the duplicate-node exception. -/
theorem C22_counterexample_unknown_name_is_reported_first :
    node_key (Example.duplicate_nodes "FOO") 0 = node_key (Example.duplicate_nodes "FOO") 1 ∧
    init (Example.duplicate_nodes "FOO")
      = .error (.runtime_error (.unknown_post_transform "FOO")) ∧
    init (Example.duplicate_nodes "NONE") = .error (.runtime_error (.already_there 0 0)) := by
  refine ⟨by decide!, by decide!, by decide!⟩

/-- C22, amended. For every input of `init` whose aggregate-function, post-transform and
node-mode names are known, whose node arrays have an entry for every node position, and in
which two node positions carry the same (tree id, node id) pair, compared as `int`: `init`
throws the duplicate-node exception "Node %d in tree %d is already there." and returns no
ensemble. -/
theorem C22_duplicate_node_is_rejected (a : Attributes) (hnames : NamesKnown a)
    (hcover : NodeArraysCover a)
    (hdup : ∃ i j, i < j ∧ j < a.nodes_treeids.length ∧ node_key a i = node_key a j) :
    ∃ node_id tree_id, init a = .error (.runtime_error (.already_there node_id tree_id)) := by
  obtain ⟨modes, hmodes⟩ := hnames.2.2
  have hmlen : a.nodes_treeids.length ≤ modes.length := by
    rw [(mapM_spec to_NODE_MODE a.nodes_modes modes hmodes).1]
    exact hcover.2.2.2.1
  obtain ⟨node_id, tree_id, hfill⟩ := fill_fails_on_duplicate a modes hcover hmlen hdup
  exact ⟨node_id, tree_id, init_error_of_fill a modes _ hnames hmodes hfill⟩

/-- The theorem `C22_duplicate_node_is_rejected` at the input with two leaves of identifier
(tree 0, node 0) and known names. -/
theorem C22_duplicate_node_is_rejected_witness :
    NamesKnown (Example.duplicate_nodes "NONE") ∧
    NodeArraysCover (Example.duplicate_nodes "NONE") ∧
    node_key (Example.duplicate_nodes "NONE") 0 = node_key (Example.duplicate_nodes "NONE") 1 ∧
    ∃ node_id tree_id, init (Example.duplicate_nodes "NONE")
      = .error (.runtime_error (.already_there node_id tree_id)) :=
  ⟨⟨⟨AGGREGATE_FUNCTION.SUM, by decide!⟩, ⟨POST_EVAL_TRANSFORM.NONE, by decide!⟩,
      ⟨[NODE_MODE.LEAF, NODE_MODE.LEAF], by decide!⟩⟩,
    by unfold NodeArraysCover; decide!, by decide!,
    C22_duplicate_node_is_rejected (Example.duplicate_nodes "NONE")
      ⟨⟨AGGREGATE_FUNCTION.SUM, by decide!⟩, ⟨POST_EVAL_TRANSFORM.NONE, by decide!⟩,
        ⟨[NODE_MODE.LEAF, NODE_MODE.LEAF], by decide!⟩⟩
      (by unfold NodeArraysCover; decide!) ⟨0, 1, by decide, by decide!, by decide!⟩⟩

end RuntimeTreeEnsembleRegressorP

namespace RuntimeTreeEnsembleRegressorP

/-! ## Dangling children and self-loops -/

theorem lone_branch_names (node_id true_id false_id : Int) :
    NamesKnown (Example.lone_branch node_id true_id false_id) :=
  ⟨⟨AGGREGATE_FUNCTION.SUM, by show to_AGGREGATE_FUNCTION "SUM" = _; decide!⟩,
    ⟨POST_EVAL_TRANSFORM.NONE, by show to_POST_EVAL_TRANSFORM "NONE" = _; decide!⟩,
    ⟨[NODE_MODE.BRANCH_LEQ], by show ["BRANCH_LEQ"].mapM to_NODE_MODE = _; decide!⟩⟩

theorem lone_branch_is_branch (node_id true_id false_id : Int) :
    IsBranch (Example.lone_branch node_id true_id false_id) 0 :=
  ⟨Nat.one_pos, "BRANCH_LEQ", rfl, by decide⟩

theorem lone_branch_dangling (node_id true_id false_id cid : Int)
    (h : toInt32 cid ≠ toInt32 node_id) :
    Dangling (Example.lone_branch node_id true_id false_id) 0 cid := by
  intro j hj
  have hj0 : j = 0 := by
    have : j < 1 := hj
    omega
  subst hj0
  intro heq
  apply h
  have := congrArg TreeNodeElementId.node_id heq
  exact this.symm

/-- C23, counterexample. The input has one BRANCH_LEQ node, of node id 0, whose true child
id is 0 and whose false child id is 7: there is no duplicate node and the false child id is
the node id of no node, yet `init` throws the self-loop exception of the true child, which it
tests first, and not the dangling-child exception. -/
theorem C23_counterexample_self_loop_is_reported_first :
    NoDuplicateNode (Example.lone_branch 0 0 7) ∧
    IsBranch (Example.lone_branch 0 0 7) 0 ∧
    Dangling (Example.lone_branch 0 0 7) 0
      ((Example.lone_branch 0 0 7).nodes_falsenodeids.getD 0 0) ∧
    init (Example.lone_branch 0 0 7)
      = .error (.runtime_error (.truenode_self_or_other_tree 0 0 0)) := by
  refine ⟨by unfold NoDuplicateNode; decide!, lone_branch_is_branch 0 0 7,
    lone_branch_dangling 0 0 7 _ (by decide!), by decide!⟩

/-- C23, amended. For every input of `init` with known names, node arrays that cover the
node positions and no duplicate node, in which some branch node has a dangling true or false
child id: `init` throws at the first rejected link, in the order of the node positions and
with the true child before the false child, the dangling-child exception when that link is
dangling and the self-loop exception when it is a self-loop that passes the guard; so
`init` throws a dangling-child exception whenever no branch node has such a self-loop. -/
theorem C23_dangling_child_is_rejected (a : Attributes) (hnames : NamesKnown a)
    (hcover : NodeArraysCover a) (hnodup : NoDuplicateNode a)
    (hdangling : ∃ i, IsBranch a i ∧ (Dangling a i (a.nodes_truenodeids.getD i 0) ∨
      Dangling a i (a.nodes_falsenodeids.getD i 0))) :
    (∃ k, IsBranch a k ∧
      (∀ j, j < k → IsBranch a j →
        ¬ RejectedLink a j (a.nodes_truenodeids.getD j 0) ∧
        ¬ RejectedLink a j (a.nodes_falsenodeids.getD j 0)) ∧
      ((Dangling a k (a.nodes_truenodeids.getD k 0) ∧
          init a = .error (.runtime_error (.unable_to_find_truenode (node_key a k).tree_id
            (toInt32 (a.nodes_truenodeids.getD k 0))))) ∨
       (GuardedSelfLoop a k (a.nodes_truenodeids.getD k 0) ∧
          init a = .error (.runtime_error (.truenode_self_or_other_tree k
            (node_key a k).node_id (node_key a k).tree_id))) ∨
       (¬ RejectedLink a k (a.nodes_truenodeids.getD k 0) ∧
          Dangling a k (a.nodes_falsenodeids.getD k 0) ∧
          init a = .error (.runtime_error (.unable_to_find_falsenode (node_key a k).tree_id
            (toInt32 (a.nodes_falsenodeids.getD k 0))))) ∨
       (¬ RejectedLink a k (a.nodes_truenodeids.getD k 0) ∧
          GuardedSelfLoop a k (a.nodes_falsenodeids.getD k 0) ∧
          init a = .error (.runtime_error .falsenode_self_or_other_tree)))) ∧
    ((∀ i, IsBranch a i → ¬ GuardedSelfLoop a i (a.nodes_truenodeids.getD i 0) ∧
        ¬ GuardedSelfLoop a i (a.nodes_falsenodeids.getD i 0)) →
      ∃ tree_id node_id,
        init a = .error (.runtime_error (.unable_to_find_truenode tree_id node_id)) ∨
        init a = .error (.runtime_error (.unable_to_find_falsenode tree_id node_id))) := by
  have hbad : ∃ i, IsBranch a i ∧ (RejectedLink a i (a.nodes_truenodeids.getD i 0) ∨
      RejectedLink a i (a.nodes_falsenodeids.getD i 0)) := by
    obtain ⟨i, hb, hd⟩ := hdangling
    exact ⟨i, hb, hd.elim (fun h => Or.inl (Or.inl h)) (fun h => Or.inr (Or.inl h))⟩
  have hfirst := init_first_rejected_link a hnames hcover hnodup hbad
  refine ⟨hfirst, ?_⟩
  intro hnoself
  obtain ⟨k, hb, _, hcases⟩ := hfirst
  rcases hcases with ⟨_, he⟩ | ⟨hg, _⟩ | ⟨_, _, he⟩ | ⟨_, hg, _⟩
  · exact ⟨_, _, Or.inl he⟩
  · exact absurd hg (hnoself k hb).1
  · exact ⟨_, _, Or.inr he⟩
  · exact absurd hg (hnoself k hb).2

/-- The theorem `C23_dangling_child_is_rejected` at the input with one branch node of node
id 0 whose child ids are both 5. -/
theorem C23_dangling_child_is_rejected_witness :
    NamesKnown (Example.lone_branch 0 5 5) ∧ NodeArraysCover (Example.lone_branch 0 5 5) ∧
    NoDuplicateNode (Example.lone_branch 0 5 5) ∧
    IsBranch (Example.lone_branch 0 5 5) 0 ∧
    Dangling (Example.lone_branch 0 5 5) 0
      ((Example.lone_branch 0 5 5).nodes_truenodeids.getD 0 0) ∧
    init (Example.lone_branch 0 5 5)
      = .error (.runtime_error (.unable_to_find_truenode 0 5)) ∧
    ∃ k, IsBranch (Example.lone_branch 0 5 5) k ∧
      (∀ j, j < k → IsBranch (Example.lone_branch 0 5 5) j →
        ¬ RejectedLink (Example.lone_branch 0 5 5) j
            ((Example.lone_branch 0 5 5).nodes_truenodeids.getD j 0) ∧
        ¬ RejectedLink (Example.lone_branch 0 5 5) j
            ((Example.lone_branch 0 5 5).nodes_falsenodeids.getD j 0)) ∧
      ((Dangling (Example.lone_branch 0 5 5) k
            ((Example.lone_branch 0 5 5).nodes_truenodeids.getD k 0) ∧
          init (Example.lone_branch 0 5 5)
            = .error (.runtime_error (.unable_to_find_truenode
                (node_key (Example.lone_branch 0 5 5) k).tree_id
                (toInt32 ((Example.lone_branch 0 5 5).nodes_truenodeids.getD k 0))))) ∨
       (GuardedSelfLoop (Example.lone_branch 0 5 5) k
            ((Example.lone_branch 0 5 5).nodes_truenodeids.getD k 0) ∧
          init (Example.lone_branch 0 5 5)
            = .error (.runtime_error (.truenode_self_or_other_tree k
                (node_key (Example.lone_branch 0 5 5) k).node_id
                (node_key (Example.lone_branch 0 5 5) k).tree_id))) ∨
       (¬ RejectedLink (Example.lone_branch 0 5 5) k
            ((Example.lone_branch 0 5 5).nodes_truenodeids.getD k 0) ∧
          Dangling (Example.lone_branch 0 5 5) k
            ((Example.lone_branch 0 5 5).nodes_falsenodeids.getD k 0) ∧
          init (Example.lone_branch 0 5 5)
            = .error (.runtime_error (.unable_to_find_falsenode
                (node_key (Example.lone_branch 0 5 5) k).tree_id
                (toInt32 ((Example.lone_branch 0 5 5).nodes_falsenodeids.getD k 0))))) ∨
       (¬ RejectedLink (Example.lone_branch 0 5 5) k
            ((Example.lone_branch 0 5 5).nodes_truenodeids.getD k 0) ∧
          GuardedSelfLoop (Example.lone_branch 0 5 5) k
            ((Example.lone_branch 0 5 5).nodes_falsenodeids.getD k 0) ∧
          init (Example.lone_branch 0 5 5)
            = .error (.runtime_error .falsenode_self_or_other_tree))) :=
  ⟨lone_branch_names 0 5 5, by unfold NodeArraysCover; decide!,
    by unfold NoDuplicateNode; decide!, lone_branch_is_branch 0 5 5,
    lone_branch_dangling 0 5 5 _ (by decide!), by decide!,
    (C23_dangling_child_is_rejected (Example.lone_branch 0 5 5)
      (lone_branch_names 0 5 5) (by unfold NodeArraysCover; decide!)
      (by unfold NoDuplicateNode; decide!)
      ⟨0, lone_branch_is_branch 0 5 5,
        Or.inl (lone_branch_dangling 0 5 5 _ (by decide!))⟩).1⟩

/-- C24, counterexample. The input has one BRANCH_LEQ node, of node id 5, whose two child ids
are 5: there is no duplicate node and both child ids equal the node id of the node, yet
`init` accepts the input. The node id 5 is not smaller than the number of nodes, 1, so the
guard of lines 284 and 304 skips the test and stores a NULL link. -/
theorem C24_counterexample_self_loop_outside_the_guard :
    NoDuplicateNode (Example.lone_branch 5 5 5) ∧
    IsBranch (Example.lone_branch 5 5 5) 0 ∧
    toInt32 ((Example.lone_branch 5 5 5).nodes_truenodeids.getD 0 0)
      = (node_key (Example.lone_branch 5 5 5) 0).node_id ∧
    toInt32 ((Example.lone_branch 5 5 5).nodes_falsenodeids.getD 0 0)
      = (node_key (Example.lone_branch 5 5 5) 0).node_id ∧
    (init (Example.lone_branch 5 5 5)).toOption.map
        (fun e => e.nodes_.map (fun nd => (nd.id.node_id, nd.mode, nd.truenode, nd.falsenode)))
      = some [(5, NODE_MODE.BRANCH_LEQ, none, none)] := by
  refine ⟨by unfold NoDuplicateNode; decide!, lone_branch_is_branch 5 5 5,
    by decide!, by decide!, by decide!⟩

/-- C24, amended. For every input of `init` with known names, node arrays that cover the
node positions and no duplicate node, in which some branch node has a true or false child id
equal to its own node id, with that node id in `[0, nbnodes_)`: `init` throws at the first
rejected link, in the order of the node positions and with the true child before the false
child, the self-loop exception when that link is such a self-loop and the dangling-child
exception when it is dangling; so `init` throws a self-loop exception whenever no branch node
has a dangling child. A self-loop whose node id is outside `[0, nbnodes_)` is not tested. -/
theorem C24_guarded_self_loop_is_rejected (a : Attributes) (hnames : NamesKnown a)
    (hcover : NodeArraysCover a) (hnodup : NoDuplicateNode a)
    (hself : ∃ i, IsBranch a i ∧ (GuardedSelfLoop a i (a.nodes_truenodeids.getD i 0) ∨
      GuardedSelfLoop a i (a.nodes_falsenodeids.getD i 0))) :
    (∃ k, IsBranch a k ∧
      (∀ j, j < k → IsBranch a j →
        ¬ RejectedLink a j (a.nodes_truenodeids.getD j 0) ∧
        ¬ RejectedLink a j (a.nodes_falsenodeids.getD j 0)) ∧
      ((Dangling a k (a.nodes_truenodeids.getD k 0) ∧
          init a = .error (.runtime_error (.unable_to_find_truenode (node_key a k).tree_id
            (toInt32 (a.nodes_truenodeids.getD k 0))))) ∨
       (GuardedSelfLoop a k (a.nodes_truenodeids.getD k 0) ∧
          init a = .error (.runtime_error (.truenode_self_or_other_tree k
            (node_key a k).node_id (node_key a k).tree_id))) ∨
       (¬ RejectedLink a k (a.nodes_truenodeids.getD k 0) ∧
          Dangling a k (a.nodes_falsenodeids.getD k 0) ∧
          init a = .error (.runtime_error (.unable_to_find_falsenode (node_key a k).tree_id
            (toInt32 (a.nodes_falsenodeids.getD k 0))))) ∨
       (¬ RejectedLink a k (a.nodes_truenodeids.getD k 0) ∧
          GuardedSelfLoop a k (a.nodes_falsenodeids.getD k 0) ∧
          init a = .error (.runtime_error .falsenode_self_or_other_tree)))) ∧
    ((∀ i, IsBranch a i → ¬ Dangling a i (a.nodes_truenodeids.getD i 0) ∧
        ¬ Dangling a i (a.nodes_falsenodeids.getD i 0)) →
      (∃ i node_id tree_id,
        init a = .error (.runtime_error (.truenode_self_or_other_tree i node_id tree_id))) ∨
      init a = .error (.runtime_error .falsenode_self_or_other_tree)) := by
  have hbad : ∃ i, IsBranch a i ∧ (RejectedLink a i (a.nodes_truenodeids.getD i 0) ∨
      RejectedLink a i (a.nodes_falsenodeids.getD i 0)) := by
    obtain ⟨i, hb, hd⟩ := hself
    exact ⟨i, hb, hd.elim (fun h => Or.inl (Or.inr h)) (fun h => Or.inr (Or.inr h))⟩
  have hfirst := init_first_rejected_link a hnames hcover hnodup hbad
  refine ⟨hfirst, ?_⟩
  intro hnodangling
  obtain ⟨k, hb, _, hcases⟩ := hfirst
  rcases hcases with ⟨hd, _⟩ | ⟨_, he⟩ | ⟨_, hd, _⟩ | ⟨_, _, he⟩
  · exact absurd hd (hnodangling k hb).1
  · exact Or.inl ⟨_, _, _, he⟩
  · exact absurd hd (hnodangling k hb).2
  · exact Or.inr he

/-- The theorem `C24_guarded_self_loop_is_rejected` at the input with one branch node of node
id 0 whose child ids are both 0. -/
theorem C24_guarded_self_loop_is_rejected_witness :
    NamesKnown (Example.lone_branch 0 0 0) ∧ NodeArraysCover (Example.lone_branch 0 0 0) ∧
    NoDuplicateNode (Example.lone_branch 0 0 0) ∧
    IsBranch (Example.lone_branch 0 0 0) 0 ∧
    GuardedSelfLoop (Example.lone_branch 0 0 0) 0
      ((Example.lone_branch 0 0 0).nodes_truenodeids.getD 0 0) ∧
    init (Example.lone_branch 0 0 0)
      = .error (.runtime_error (.truenode_self_or_other_tree 0 0 0)) ∧
    ((∀ i, IsBranch (Example.lone_branch 0 0 0) i →
        ¬ Dangling (Example.lone_branch 0 0 0) i
            ((Example.lone_branch 0 0 0).nodes_truenodeids.getD i 0) ∧
        ¬ Dangling (Example.lone_branch 0 0 0) i
            ((Example.lone_branch 0 0 0).nodes_falsenodeids.getD i 0)) →
      (∃ i node_id tree_id, init (Example.lone_branch 0 0 0)
        = .error (.runtime_error (.truenode_self_or_other_tree i node_id tree_id))) ∨
      init (Example.lone_branch 0 0 0)
        = .error (.runtime_error .falsenode_self_or_other_tree)) :=
  ⟨lone_branch_names 0 0 0, by unfold NodeArraysCover; decide!,
    by unfold NoDuplicateNode; decide!, lone_branch_is_branch 0 0 0,
    by unfold GuardedSelfLoop; decide!, by decide!,
    (C24_guarded_self_loop_is_rejected (Example.lone_branch 0 0 0)
      (lone_branch_names 0 0 0) (by unfold NodeArraysCover; decide!)
      (by unfold NoDuplicateNode; decide!)
      ⟨0, lone_branch_is_branch 0 0 0,
        Or.inl (by unfold GuardedSelfLoop; decide!)⟩).2⟩

end RuntimeTreeEnsembleRegressorP

/-! ## Rows without NaN and the missing-track array -/

namespace RuntimeTreeEnsembleRegressorP

theorem deref_agree (nodes1 nodes2 : List TreeNodeElement)
    (h : nodes1.map drop_track = nodes2.map drop_track) (p : Option Nat) :
    (∀ e, deref nodes1 p = .error e → deref nodes2 p = .error e) ∧
    (∀ n1, deref nodes1 p = .ok n1 →
      ∃ n2, deref nodes2 p = .ok n2 ∧ drop_track n1 = drop_track n2) := by
  cases p with
  | none =>
    constructor
    · intro e he; exact he
    · intro n1 h1; cases h1
  | some i =>
    have hi : (nodes1.map drop_track)[i]? = (nodes2.map drop_track)[i]? := by rw [h]
    simp only [List.getElem?_map] at hi
    cases h1 : nodes1[i]? with
    | none =>
      cases h2 : nodes2[i]? with
      | none =>
        constructor
        · intro e he
          simp only [deref, vec_at, h1] at he
          simp only [deref, vec_at, h2]
          exact he
        · intro n1 hn
          simp only [deref, vec_at, h1] at hn
          cases hn
      | some n2 => simp [h1, h2] at hi
    | some n1 =>
      cases h2 : nodes2[i]? with
      | none => simp [h1, h2] at hi
      | some n2 =>
        have hd : drop_track n1 = drop_track n2 := by simpa [h1, h2] using hi
        constructor
        · intro e he
          simp only [deref, vec_at, h1] at he
          cases he
        · intro n hn
          simp only [deref, vec_at, h1, Except.ok.injEq] at hn
          subst hn
          exact ⟨n2, by simp only [deref, vec_at, h2], hd⟩

theorem drop_track_fields {n1 n2 : TreeNodeElement} (h : drop_track n1 = drop_track n2) :
    n1.id = n2.id ∧ n1.feature_id = n2.feature_id ∧ n1.value = n2.value ∧
    n1.mode = n2.mode ∧ n1.truenode = n2.truenode ∧ n1.falsenode = n2.falsenode ∧
    n1.weights = n2.weights := by
  unfold drop_track at h
  cases n1
  cases n2
  simp only [TreeNodeElement.mk.injEq] at h
  simp only
  tauto

/-- On a value that is not NaN the two bodies of `TREE_FIND_VALUE` go to the same child,
whatever the missing-track fields. -/
theorem next_agree (CMP : NTYPE → NTYPE → Bool) (x_data : Int → NTYPE)
    (hrow : ∀ i, NTYPE.isnan (x_data i) = false) (n1 n2 : TreeNodeElement)
    (h : drop_track n1 = drop_track n2) :
    TREE_FIND_VALUE_next_tracked CMP x_data n1 = TREE_FIND_VALUE_next_plain CMP x_data n2 ∧
    TREE_FIND_VALUE_next_tracked CMP x_data n1 = TREE_FIND_VALUE_next_tracked CMP x_data n2 ∧
    TREE_FIND_VALUE_next_plain CMP x_data n1 = TREE_FIND_VALUE_next_plain CMP x_data n2 ∧
    TREE_FIND_VALUE_next_plain CMP x_data n1 = TREE_FIND_VALUE_next_tracked CMP x_data n2 := by
  obtain ⟨_, hf, hv, _, ht, hfn, _⟩ := drop_track_fields h
  unfold TREE_FIND_VALUE_next_tracked TREE_FIND_VALUE_next_plain
  simp only [hrow, Bool.and_false, Bool.or_false, hf, hv, ht, hfn, and_self]

theorem general_next_agree (x_data : Int → NTYPE)
    (hrow : ∀ i, NTYPE.isnan (x_data i) = false) (n1 n2 : TreeNodeElement)
    (h : drop_track n1 = drop_track n2) : general_next x_data n1 = general_next x_data n2 := by
  obtain ⟨_, hf, hv, hm, ht, hfn, _⟩ := drop_track_fields h
  unfold general_next
  simp only [hrow, Bool.and_false, Bool.or_false, hf, hv, hm, ht, hfn]

theorem TREE_FIND_VALUE_loop_agree (nodes1 nodes2 : List TreeNodeElement)
    (h : nodes1.map drop_track = nodes2.map drop_track)
    (next1 next2 : TreeNodeElement → Option Nat)
    (hnext : ∀ n1 n2, drop_track n1 = drop_track n2 → next1 n1 = next2 n2) :
    ∀ (k : Nat) (root : Option Nat),
      TREE_FIND_VALUE_loop nodes1 next1 k root = TREE_FIND_VALUE_loop nodes2 next2 k root := by
  intro k
  induction k with
  | zero =>
    intro root
    unfold TREE_FIND_VALUE_loop
    obtain ⟨herr, hok⟩ := deref_agree nodes1 nodes2 h root
    cases h1 : deref nodes1 root with
    | error e => rw [herr e h1]; try rfl
    | ok n1 =>
      obtain ⟨n2, h2, _⟩ := hok n1 h1
      rw [h2]; try rfl
  | succ k ih =>
    intro root
    unfold TREE_FIND_VALUE_loop
    obtain ⟨herr, hok⟩ := deref_agree nodes1 nodes2 h root
    cases h1 : deref nodes1 root with
    | error e => rw [herr e h1]; try rfl
    | ok n1 =>
      obtain ⟨n2, h2, hd⟩ := hok n1 h1
      rw [h2]
      dsimp only [bind, Except.bind]
      rw [(drop_track_fields hd).2.2.2.1, hnext n1 n2 hd, ih]

theorem general_loop_agree (nodes1 nodes2 : List TreeNodeElement)
    (h : nodes1.map drop_track = nodes2.map drop_track) (x_data : Int → NTYPE)
    (hrow : ∀ i, NTYPE.isnan (x_data i) = false) :
    ∀ (k : Nat) (root : Option Nat),
      general_loop nodes1 x_data k root = general_loop nodes2 x_data k root := by
  intro k
  induction k with
  | zero =>
    intro root
    unfold general_loop
    obtain ⟨herr, hok⟩ := deref_agree nodes1 nodes2 h root
    cases h1 : deref nodes1 root with
    | error e => rw [herr e h1]; try rfl
    | ok n1 =>
      obtain ⟨n2, h2, _⟩ := hok n1 h1
      rw [h2]; try rfl
  | succ k ih =>
    intro root
    unfold general_loop
    obtain ⟨herr, hok⟩ := deref_agree nodes1 nodes2 h root
    cases h1 : deref nodes1 root with
    | error e => rw [herr e h1]; try rfl
    | ok n1 =>
      obtain ⟨n2, h2, hd⟩ := hok n1 h1
      rw [h2]
      dsimp only [bind, Except.bind]
      rw [(drop_track_fields hd).2.2.2.1, general_next_agree x_data hrow n1 n2 hd]
      by_cases hleaf : n2.mode = NODE_MODE.LEAF
      · rw [if_pos hleaf, if_pos hleaf]
      · rw [if_neg hleaf, if_neg hleaf]
        cases general_next x_data n2 with
        | error e => rfl
        | ok next => exact ih next

theorem TREE_FIND_VALUE_agree (s1 s2 : RuntimeTreeEnsembleRegressorP)
    (h : SameUpToTracks s1 s2) (CMP : NTYPE → NTYPE → Bool) (x_data : Int → NTYPE)
    (hrow : ∀ i, NTYPE.isnan (x_data i) = false) (root : Option Nat) :
    TREE_FIND_VALUE s1 CMP x_data root = TREE_FIND_VALUE s2 CMP x_data root := by
  unfold TREE_FIND_VALUE
  rw [h.2.2.2.1]
  cases s1.has_missing_tracks_ <;> cases s2.has_missing_tracks_
  · exact TREE_FIND_VALUE_loop_agree _ _ h.1 _ _
      (fun n1 n2 hd => (next_agree CMP x_data hrow n1 n2 hd).2.2.1) _ _
  · exact TREE_FIND_VALUE_loop_agree _ _ h.1 _ _
      (fun n1 n2 hd => (next_agree CMP x_data hrow n1 n2 hd).2.2.2) _ _
  · exact TREE_FIND_VALUE_loop_agree _ _ h.1 _ _
      (fun n1 n2 hd => (next_agree CMP x_data hrow n1 n2 hd).1) _ _
  · exact TREE_FIND_VALUE_loop_agree _ _ h.1 _ _
      (fun n1 n2 hd => (next_agree CMP x_data hrow n1 n2 hd).2.1) _ _

theorem find_leaf_agree (s1 s2 : RuntimeTreeEnsembleRegressorP)
    (h : SameUpToTracks s1 s2) (x_data : Int → NTYPE)
    (hrow : ∀ i, NTYPE.isnan (x_data i) = false) (root : Option Nat) :
    find_leaf s1 root x_data = find_leaf s2 root x_data := by
  unfold find_leaf
  rw [h.2.2.1]
  by_cases hsame : s2.same_mode_ = true
  · rw [if_pos hsame, if_pos hsame]
    obtain ⟨herr, hok⟩ := deref_agree s1.nodes_ s2.nodes_ h.1 root
    cases h1 : deref s1.nodes_ root with
    | error e => rw [herr e h1]; try rfl
    | ok n1 =>
      obtain ⟨n2, h2, hd⟩ := hok n1 h1
      rw [h2]
      dsimp only [bind, Except.bind]
      rw [(drop_track_fields hd).2.2.2.1]
      cases n2.mode <;> first | rfl | exact TREE_FIND_VALUE_agree s1 s2 h _ x_data hrow root
  · rw [if_neg hsame, if_neg hsame, h.2.2.2.1]
    exact general_loop_agree _ _ h.1 x_data hrow _ _

theorem ProcessTreeNode_agree (s1 s2 : RuntimeTreeEnsembleRegressorP)
    (h : SameUpToTracks s1 s2) (x_data : Int → NTYPE)
    (hrow : ∀ i, NTYPE.isnan (x_data i) = false) (predictions : List NTYPE)
    (root : Option Nat) (has_predictions : List Bool) :
    ProcessTreeNode s1 predictions root x_data has_predictions
      = ProcessTreeNode s2 predictions root x_data has_predictions := by
  unfold ProcessTreeNode
  rw [find_leaf_agree s1 s2 h x_data hrow root, h.2.2.2.2.1]
  cases find_leaf s2 root x_data with
  | error e => rfl
  | ok stop =>
    dsimp only [bind, Except.bind]
    obtain ⟨herr, hok⟩ := deref_agree s1.nodes_ s2.nodes_ h.1 stop
    cases h1 : deref s1.nodes_ stop with
    | error e => rw [herr e h1]; try rfl
    | ok n1 =>
      obtain ⟨n2, h2, hd⟩ := hok n1 h1
      rw [h2]
      dsimp only
      rw [(drop_track_fields hd).2.2.2.2.2.2]

theorem rows_agree (s1 s2 : RuntimeTreeEnsembleRegressorP)
    (h : SameUpToTracks s1 s2) (x_data : Int → NTYPE)
    (hrow : ∀ i, NTYPE.isnan (x_data i) = false) :
    (∀ b, walk_roots s1 x_data b = walk_roots s2 x_data b) ∧
    row_val_single s1 x_data = row_val_single s2 x_data ∧
    row_outputs s1 x_data = row_outputs s2 x_data := by
  have hwalk : ∀ b, walk_roots s1 x_data b = walk_roots s2 x_data b := by
    intro b
    unfold walk_roots
    rw [h.2.1]
    congr 1
    funext acc r
    exact ProcessTreeNode_agree s1 s2 h x_data hrow _ _ _
  refine ⟨hwalk, ?_, ?_⟩
  · unfold row_val_single
    rw [hwalk, h.2.2.2.2.2.2.1, h.2.2.2.2.1, h.2.1]
  · have hentry : output_entry s1 = output_entry s2 := by
      funext b j
      unfold output_entry
      rw [h.2.2.2.2.2.2.1, h.2.2.2.2.2.2.2.1, h.2.2.2.2.1, h.2.1]
    unfold row_outputs
    dsimp only
    rw [hwalk, h.2.2.2.2.2.2.2.1, hentry]

end RuntimeTreeEnsembleRegressorP

namespace RuntimeTreeEnsembleRegressorP

theorem init_names (a : Attributes) (self : RuntimeTreeEnsembleRegressorP)
    (h : init a = .ok self) :
    to_AGGREGATE_FUNCTION a.aggregate_function = .ok self.aggregate_function_ ∧
    to_POST_EVAL_TRANSFORM a.post_transform = .ok self.post_transform_ := by
  unfold init at h
  cases h1 : to_AGGREGATE_FUNCTION a.aggregate_function with
  | error e =>
    simp only [h1, bind, Except.bind] at h
    cases h
  | ok agg =>
  cases h2 : to_POST_EVAL_TRANSFORM a.post_transform with
  | error e =>
    simp only [h1, h2, bind, Except.bind] at h
    cases h
  | ok post =>
  cases h3 : a.nodes_modes.mapM to_NODE_MODE with
  | error e =>
    simp only [h1, h2, h3, bind, Except.bind] at h
    cases h
  | ok modes =>
  cases h4 : (List.range a.nodes_treeids.length).foldlM (fill_node a modes) ([], []) with
  | error e =>
    simp only [h1, h2, h3, h4, bind, Except.bind] at h
    cases h
  | ok st =>
  obtain ⟨nodes0, idi⟩ := st
  cases h5 : (List.range a.nodes_treeids.length).foldlM
      (link_node a idi a.nodes_treeids.length) nodes0 with
  | error e =>
    simp only [h1, h2, h3, h4, h5, bind, Except.bind] at h
    cases h
  | ok nodes1 =>
  cases h6 : (List.range a.nodes_treeids.length).foldlM (root_step nodes1) ([], -1) with
  | error e =>
    simp only [h1, h2, h3, h4, h5, h6, bind, Except.bind] at h
    cases h
  | ok st2 =>
  obtain ⟨roots, previous⟩ := st2
  cases h7 : (List.range a.target_nodeids.length).foldlM (attach_weight a idi) nodes1 with
  | error e =>
    simp only [h1, h2, h3, h4, h5, h6, h7, bind, Except.bind] at h
    cases h
  | ok nodes2 =>
  simp only [h1, h2, h3, h4, h5, h6, h7, bind, Except.bind, pure, Except.pure,
    Except.ok.injEq] at h
  subst h
  exact ⟨rfl, rfl⟩

theorem getElem?_inj_of_nodup {α : Type} (l : List α) (hn : l.Nodup) (i j : Nat) (x : α)
    (hi : l[i]? = some x) (hj : l[j]? = some x) : i = j := by
  obtain ⟨hi1, hi2⟩ := List.getElem?_eq_some_iff.mp hi
  obtain ⟨hj1, hj2⟩ := List.getElem?_eq_some_iff.mp hj
  have hinj := List.nodup_iff_injective_getElem.mp hn
  have : (⟨i, hi1⟩ : Fin l.length) = ⟨j, hj1⟩ := by
    apply hinj
    show l[i] = l[j]
    rw [hi2, hj2]
  simpa using congrArg Fin.val this

theorem ChildLink.unique {nodes1 nodes2 : List TreeNodeElement} {nb : Int}
    {nd1 nd2 : TreeNodeElement} {cid : Int} {l1 l2 : Option Nat}
    (h1 : ChildLink nodes1 nb nd1 cid l1) (h2 : ChildLink nodes2 nb nd2 cid l2)
    (hid : nd1.id = nd2.id)
    (hids : nodes1.map (fun nd => nd.id) = nodes2.map (fun nd => nd.id))
    (hnodup : (nodes1.map (fun nd => nd.id)).Nodup) : l1 = l2 := by
  obtain ⟨found1, child1, hc1, hk1, hif1⟩ := h1
  obtain ⟨found2, child2, hc2, hk2, hif2⟩ := h2
  by_cases hr : 0 ≤ cid ∧ cid < nb
  · rw [if_pos hr] at hif1 hif2
    rw [hif1.1, hif2.1]
    have e1 : (nodes1.map (fun nd => nd.id))[found1]? = some child1.id := by
      rw [List.getElem?_map, hc1]; rfl
    have e2 : (nodes1.map (fun nd => nd.id))[found2]? = some child1.id := by
      rw [hids, List.getElem?_map, hc2, hk1, hid]
      show some child2.id = _
      rw [hk2]
    rw [getElem?_inj_of_nodup _ hnodup found1 found2 _ e1 e2]
  · rw [if_neg hr] at hif1 hif2
    rw [hif1, hif2]

/-- Two inputs that differ only in `nodes_missing_value_tracks_true` give ensembles that
differ at most in the missing-track fields and in `has_missing_tracks_`. -/
theorem init_same_up_to_tracks (a : Attributes) (tracks : List Int)
    (s1 s2 : RuntimeTreeEnsembleRegressorP) (h1 : init a = .ok s1)
    (h2 : init { a with nodes_missing_value_tracks_true := tracks } = .ok s2) :
    SameUpToTracks s1 s2 := by
  obtain ⟨modes1, hm1, hlen1, hnodup1, ⟨prev1, hroots1⟩, hnodes1⟩ := init_nodes_spec a s1 h1
  obtain ⟨modes2, hm2, hlen2, _, ⟨prev2, hroots2⟩, hnodes2⟩ := init_nodes_spec _ s2 h2
  have hmodes : modes2 = modes1 := by
    have : Except.ok modes2 = (Except.ok modes1 : Result (List NODE_MODE)) := by
      rw [← hm1, ← hm2]
    exact Except.ok.inj this
  subst hmodes
  obtain ⟨m1, _, _, _, _, _, hmm1, _, _, _, _, hr1, hnb1, hnt1, hsm1, _, hbv1, hn1, hd1⟩ :=
    init_stages a s1 h1
  obtain ⟨m2, _, _, _, _, _, hmm2, _, _, _, _, hr2, hnb2, hnt2, hsm2, _, hbv2, hn2, hd2⟩ :=
    init_stages _ s2 h2
  have hm12 : m2 = m1 := by
    have : Except.ok m2 = (Except.ok m1 : Result (List NODE_MODE)) := by
      rw [← hmm1, ← hmm2]
    exact Except.ok.inj this
  subst hm12
  obtain ⟨ha1, hp1⟩ := init_names a s1 h1
  obtain ⟨ha2, hp2⟩ := init_names _ s2 h2
  have hagg : s1.aggregate_function_ = s2.aggregate_function_ := by
    have : Except.ok s1.aggregate_function_
        = (Except.ok s2.aggregate_function_ : Result AGGREGATE_FUNCTION) := by
      rw [← ha1, ← ha2]
    exact Except.ok.inj this
  have hpost : s1.post_transform_ = s2.post_transform_ := by
    have : Except.ok s1.post_transform_
        = (Except.ok s2.post_transform_ : Result POST_EVAL_TRANSFORM) := by
      rw [← hp1, ← hp2]
    exact Except.ok.inj this
  have hlen2' : s2.nodes_.length = a.nodes_treeids.length := hlen2
  -- the identifiers agree position by position
  have hids : s1.nodes_.map (fun nd => nd.id) = s2.nodes_.map (fun nd => nd.id) := by
    apply List.ext_getElem
    · simp [hlen1, hlen2']
    · intro j hj1 hj2
      simp only [List.length_map] at hj1 hj2
      simp only [List.getElem_map]
      have f1 := (hnodes1 j _ (List.getElem?_eq_getElem hj1)).1
      have f2 := (hnodes2 j _ (List.getElem?_eq_getElem hj2)).1
      rw [f1.id_eq, f2.id_eq]
      rfl
  have hnodes : s1.nodes_.map drop_track = s2.nodes_.map drop_track := by
    apply List.ext_getElem
    · simp [hlen1, hlen2']
    · intro j hj1 hj2
      simp only [List.length_map] at hj1 hj2
      simp only [List.getElem_map]
      have e1 : s1.nodes_[j]? = some s1.nodes_[j] := List.getElem?_eq_getElem hj1
      have e2 : s2.nodes_[j]? = some s2.nodes_[j] := List.getElem?_eq_getElem hj2
      obtain ⟨f1, l1, w1⟩ := hnodes1 j _ e1
      obtain ⟨f2, l2, w2⟩ := hnodes2 j _ e2
      generalize s1.nodes_[j] = nd1 at f1 l1 w1 e1
      generalize s2.nodes_[j] = nd2 at f2 l2 w2 e2
      have hid : nd1.id = nd2.id := by rw [f1.id_eq, f2.id_eq]; rfl
      obtain ⟨_, _, ⟨ft1, hft1, hfe1⟩, hv1, hh1, hmo1, _⟩ := f1
      obtain ⟨_, _, ⟨ft2, hft2, hfe2⟩, hv2, hh2, hmo2, _⟩ := f2
      dsimp only at hft2 hv2 hh2
      have hfeat : nd1.feature_id = nd2.feature_id := by
        rw [hfe1, hfe2]
        rw [hft1] at hft2
        rw [Option.some.inj hft2]
      have hval : nd1.value = nd2.value := by
        rw [hv1] at hv2
        exact Option.some.inj hv2
      have hhit : nd1.hitrates = nd2.hitrates := by rw [hh1, hh2]
      have hmode : nd1.mode = nd2.mode := by
        rw [hmo1] at hmo2
        exact Option.some.inj hmo2
      have hw : nd1.weights = nd2.weights := by
        rw [w1, w2, hid]
        rfl
      have hlinks : nd1.truenode = nd2.truenode ∧ nd1.falsenode = nd2.falsenode := by
        by_cases hleaf : nd1.mode = NODE_MODE.LEAF
        · have hleaf2 : nd2.mode = NODE_MODE.LEAF := by rw [← hmode]; exact hleaf
          obtain ⟨a1, b1⟩ := l1.1 hleaf
          obtain ⟨a2, b2⟩ := l2.1 hleaf2
          exact ⟨by rw [a1, a2], by rw [b1, b2]⟩
        · have hleaf2 : nd2.mode ≠ NODE_MODE.LEAF := by rw [← hmode]; exact hleaf
          obtain ⟨t1, fa1, ht1, hfa1, ct1, cf1⟩ := l1.2 hleaf
          obtain ⟨t2, fa2, ht2, hfa2, ct2, cf2⟩ := l2.2 hleaf2
          dsimp only at ht2 hfa2 ct2 cf2
          rw [ht1] at ht2
          rw [hfa1] at hfa2
          have htt : t2 = t1 := (Option.some.inj ht2).symm
          have hff : fa2 = fa1 := (Option.some.inj hfa2).symm
          subst htt
          subst hff
          exact ⟨ct1.unique ct2 hid hids hnodup1, cf1.unique cf2 hid hids hnodup1⟩
      cases nd1
      cases nd2
      simp only [drop_track, TreeNodeElement.mk.injEq] at *
      exact ⟨hid, hfeat, hval, hhit, hmode, hlinks.1, hlinks.2, trivial, hw⟩
  have hroots : s1.roots_ = s2.roots_ := by
    have hstep : root_step s1.nodes_ = root_step s2.nodes_ := by
      funext st i
      exact root_step_congr s1.nodes_ s2.nodes_ hids st i
    rw [hlen1] at hroots1
    rw [hlen2', ← hstep, hroots1] at hroots2
    have := Except.ok.inj hroots2
    exact (congrArg Prod.fst this)
  refine ⟨hnodes, hroots, ?_, ?_, hagg, hpost, ?_, ?_, ?_, ?_⟩
  · rw [hsm1, hsm2]
  · rw [hd1, hd2]
  · rw [hbv1, hbv2]
  · rw [hn1, hn2]
  · rw [hnb1, hnb2]
  · rw [hnt1, hnt2, ← hr1, ← hr2, hroots]

end RuntimeTreeEnsembleRegressorP

namespace RuntimeTreeEnsembleRegressorP

/-- C27. Two ensembles are built by `init` from inputs that differ only in the array
`nodes_missing_value_tracks_true` (any contents, any length, empty when absent), and the row
holds no NaN. Then from every root the descent of `ProcessTreeNode` stops at the same node
position in both ensembles, the nodes at that position have the same identifier and the same
weights, and the two ensembles have the same roots, the same number of targets and the same
post-transform and give the same value `val` (branch `n_targets_ == 1`) and the same vector
handed to `write_scores` (branch `n_targets_ != 1`): `compute` returns the same output. -/
theorem C27_rows_without_nan_ignore_missing_tracks (a : Attributes) (tracks : List Int)
    (s1 s2 : RuntimeTreeEnsembleRegressorP) (h1 : init a = .ok s1)
    (h2 : init { a with nodes_missing_value_tracks_true := tracks } = .ok s2)
    (x_data : Int → NTYPE) (hrow : ∀ i, NTYPE.isnan (x_data i) = false) :
    (∀ root, find_leaf s1 root x_data = find_leaf s2 root x_data) ∧
    (∀ root stop leaf, find_leaf s1 root x_data = .ok stop →
      deref s1.nodes_ stop = .ok leaf →
      ∃ leaf2, deref s2.nodes_ stop = .ok leaf2 ∧ leaf2.id = leaf.id ∧
        leaf2.weights = leaf.weights) ∧
    s1.roots_ = s2.roots_ ∧ s1.n_targets_ = s2.n_targets_ ∧
    s1.post_transform_ = s2.post_transform_ ∧
    row_val_single s1 x_data = row_val_single s2 x_data ∧
    row_outputs s1 x_data = row_outputs s2 x_data := by
  have hsame := init_same_up_to_tracks a tracks s1 s2 h1 h2
  obtain ⟨_, hval, hout⟩ := rows_agree s1 s2 hsame x_data hrow
  refine ⟨fun root => find_leaf_agree s1 s2 hsame x_data hrow root, ?_, hsame.2.1,
    hsame.2.2.2.2.2.2.2.1, hsame.2.2.2.2.2.1, hval, hout⟩
  intro root stop leaf _ hleaf
  obtain ⟨leaf2, hl2, hd⟩ := (deref_agree s1.nodes_ s2.nodes_ hsame.1 stop).2 leaf hleaf
  exact ⟨leaf2, hl2, (drop_track_fields hd).1.symm, (drop_track_fields hd).2.2.2.2.2.2.symm⟩

/-- The theorem `C27_rows_without_nan_ignore_missing_tracks` at the stump with BRANCH_LEQ,
built without a missing-track array and with the array `[1, 0, 0]`, on the row of zeros. -/
theorem C27_rows_without_nan_ignore_missing_tracks_witness :
    init (Example.stump "BRANCH_LEQ" [])
      = .ok (Example.stump_ensemble NODE_MODE.BRANCH_LEQ MissingTrack.NONE MissingTrack.NONE
          false) ∧
    init { Example.stump "BRANCH_LEQ" [] with nodes_missing_value_tracks_true := [1, 0, 0] }
      = .ok (Example.stump_ensemble NODE_MODE.BRANCH_LEQ MissingTrack.TRUE MissingTrack.FALSE
          true) ∧
    (∀ i, NTYPE.isnan (Example.zero_row i) = false) ∧
    row_outputs
        (Example.stump_ensemble NODE_MODE.BRANCH_LEQ MissingTrack.NONE MissingTrack.NONE false)
        Example.zero_row
      = row_outputs
        (Example.stump_ensemble NODE_MODE.BRANCH_LEQ MissingTrack.TRUE MissingTrack.FALSE true)
        Example.zero_row :=
  ⟨by decide!, by decide!, fun _ => rfl,
    (C27_rows_without_nan_ignore_missing_tracks (Example.stump "BRANCH_LEQ" []) [1, 0, 0]
      (Example.stump_ensemble NODE_MODE.BRANCH_LEQ MissingTrack.NONE MissingTrack.NONE false)
      (Example.stump_ensemble NODE_MODE.BRANCH_LEQ MissingTrack.TRUE MissingTrack.FALSE true)
      (by decide!) (by decide!) Example.zero_row (fun _ => rfl)).2.2.2.2.2.2⟩

end RuntimeTreeEnsembleRegressorP

/-! ## The flag `same_mode_` -/

namespace RuntimeTreeEnsembleRegressorP

/-- Once `fpos` is set, the scan keeps `same_mode_` true exactly when every later mode is LEAF
or the mode at `fpos`. -/
theorem same_mode_scan_some (first : NODE_MODE) :
    ∀ (l : List NODE_MODE) (b : Bool),
      same_mode_scan l (some first) b = true ↔
        b = true ∧ ∀ m ∈ l, m ≠ NODE_MODE.LEAF → m = first := by
  intro l
  induction l with
  | nil => intro b; simp [same_mode_scan]
  | cons m rest ih =>
    intro b
    by_cases hm : m = NODE_MODE.LEAF
    · simp only [same_mode_scan, if_pos hm]
      rw [ih]
      simp [hm]
    · simp only [same_mode_scan, if_neg hm]
      rw [ih]
      by_cases hf : m = first
      · simp [hf]
      · simp [hf, hm]

/-- While `fpos` is unset, the scan keeps `same_mode_` true exactly when the modes that are
not LEAF are all equal. -/
theorem same_mode_scan_none :
    ∀ (l : List NODE_MODE),
      same_mode_scan l none true = true ↔
        ∀ m1 ∈ l, ∀ m2 ∈ l, m1 ≠ NODE_MODE.LEAF → m2 ≠ NODE_MODE.LEAF → m1 = m2 := by
  intro l
  induction l with
  | nil => simp [same_mode_scan]
  | cons m rest ih =>
    by_cases hm : m = NODE_MODE.LEAF
    · simp only [same_mode_scan, if_pos hm]
      rw [ih]
      constructor
      · intro h m1 h1 m2 h2 n1 n2
        rcases List.mem_cons.1 h1 with e1 | e1
        · exact absurd (e1.trans hm) n1
        · rcases List.mem_cons.1 h2 with e2 | e2
          · exact absurd (e2.trans hm) n2
          · exact h m1 e1 m2 e2 n1 n2
      · intro h m1 h1 m2 h2 n1 n2
        exact h m1 (List.mem_cons_of_mem _ h1) m2 (List.mem_cons_of_mem _ h2) n1 n2
    · simp only [same_mode_scan, if_neg hm]
      rw [same_mode_scan_some]
      constructor
      · rintro ⟨_, h⟩ m1 h1 m2 h2 n1 n2
        have e1 : m1 = m := by
          rcases List.mem_cons.1 h1 with e | e
          · exact e
          · exact h m1 e n1
        have e2 : m2 = m := by
          rcases List.mem_cons.1 h2 with e | e
          · exact e
          · exact h m2 e n2
        rw [e1, e2]
      · intro h
        exact ⟨rfl, fun m2 h2 n2 =>
          h m2 (List.mem_cons_of_mem _ h2) m (List.mem_cons_self _ _) n2 hm⟩

end RuntimeTreeEnsembleRegressorP

namespace RuntimeTreeEnsembleRegressorP

/-- When `nodes_modes` has one entry per node, the modes of the nodes built by `init` are the
converted modes, in order. -/
theorem init_node_modes (a : Attributes) (self : RuntimeTreeEnsembleRegressorP)
    (h : init a = .ok self) (modes : List NODE_MODE)
    (hmodes : a.nodes_modes.mapM to_NODE_MODE = .ok modes)
    (hlen : a.nodes_modes.length = a.nodes_treeids.length) :
    self.nodes_.map (fun nd => nd.mode) = modes := by
  obtain ⟨modes2, hm2, hn, _, _, hfill⟩ := init_nodes_spec a self h
  have hmm : modes2 = modes := by
    rw [hmodes] at hm2
    exact (Except.ok.inj hm2).symm
  subst hmm
  have hl := (mapM_spec to_NODE_MODE a.nodes_modes modes2 hmodes).1
  apply List.ext_getElem?
  intro j
  rw [List.getElem?_map]
  cases hj : self.nodes_[j]? with
  | none =>
    have : modes2.length ≤ j := by
      have := List.getElem?_eq_none_iff.1 hj
      omega
    rw [List.getElem?_eq_none_iff.2 this]
    rfl
  | some nd =>
    have := (hfill j nd hj).1.2.2.2.2.2.1
    rw [this]
    rfl

/-- C33. For every input accepted by `RuntimeTreeEnsembleRegressorP::init`, with `modes` the
converted list of node modes: `same_mode_` is true if and only if all the modes that are not
LEAF are one and the same comparison mode; in particular it is true when every mode is LEAF
(no branch node). When `nodes_modes` has one entry per node, this reads on the nodes built:
`same_mode_` is true if and only if all nodes whose mode is not LEAF have the same mode. -/
theorem C33_same_mode_iff_one_branch_mode (a : Attributes)
    (self : RuntimeTreeEnsembleRegressorP) (h : init a = .ok self) :
    ∃ modes, a.nodes_modes.mapM to_NODE_MODE = .ok modes ∧
      (self.same_mode_ = true ↔
        ∀ m1 ∈ modes, ∀ m2 ∈ modes, m1 ≠ NODE_MODE.LEAF → m2 ≠ NODE_MODE.LEAF → m1 = m2) ∧
      ((∀ m ∈ modes, m = NODE_MODE.LEAF) → self.same_mode_ = true) ∧
      (a.nodes_modes.length = a.nodes_treeids.length →
        (self.same_mode_ = true ↔
          ∀ n1 ∈ self.nodes_, ∀ n2 ∈ self.nodes_,
            n1.mode ≠ NODE_MODE.LEAF → n2.mode ≠ NODE_MODE.LEAF → n1.mode = n2.mode)) := by
  obtain ⟨modes, _, _, _, _, _, hmodes, _, _, _, _, _, _, _, hsame, _⟩ := init_stages a self h
  have hiff := same_mode_scan_none modes
  rw [← hsame] at hiff
  refine ⟨modes, hmodes, hiff, ?_, ?_⟩
  · intro hall
    exact hiff.2 (fun m1 h1 _ _ n1 _ => absurd (hall m1 h1) n1)
  · intro hlen
    have hmap := init_node_modes a self h modes hmodes hlen
    rw [hiff, ← hmap]
    constructor
    · intro hh n1 h1 n2 h2 e1 e2
      exact hh n1.mode (List.mem_map_of_mem _ h1) n2.mode (List.mem_map_of_mem _ h2) e1 e2
    · intro hh m1 h1 m2 h2 e1 e2
      obtain ⟨n1, hn1, rfl⟩ := List.mem_map.1 h1
      obtain ⟨n2, hn2, rfl⟩ := List.mem_map.1 h2
      exact hh n1 hn1 n2 hn2 e1 e2

/-- The theorem `C33_same_mode_iff_one_branch_mode` at the stump with BRANCH_LEQ (one branch
node and two leaves): `same_mode_` is true. -/
theorem C33_same_mode_iff_one_branch_mode_witness :
    init (Example.stump "BRANCH_LEQ" [])
      = .ok (Example.stump_ensemble NODE_MODE.BRANCH_LEQ MissingTrack.NONE MissingTrack.NONE
          false) ∧
    ∃ modes, (Example.stump "BRANCH_LEQ" []).nodes_modes.mapM to_NODE_MODE = .ok modes ∧
      ((Example.stump_ensemble NODE_MODE.BRANCH_LEQ MissingTrack.NONE MissingTrack.NONE
          false).same_mode_ = true ↔
        ∀ m1 ∈ modes, ∀ m2 ∈ modes, m1 ≠ NODE_MODE.LEAF → m2 ≠ NODE_MODE.LEAF → m1 = m2) := by
  refine ⟨by decide!, ?_⟩
  obtain ⟨modes, hm, hiff, _⟩ := C33_same_mode_iff_one_branch_mode
    (Example.stump "BRANCH_LEQ" [])
    (Example.stump_ensemble NODE_MODE.BRANCH_LEQ MissingTrack.NONE MissingTrack.NONE false)
    (by decide!)
  exact ⟨modes, hm, hiff⟩

end RuntimeTreeEnsembleRegressorP

/-! ## The index returned by `get_max_weight` -/

namespace _AggregatorClassifier

/-- The method `get_max_weight` returns, and its loop invariant holds of the pair returned. -/
theorem get_max_weight_inv_final (scores : List NTYPE) (has_scores : List Bool)
    (hlen : scores.length ≤ has_scores.length) :
    ∃ st, get_max_weight scores has_scores = .ok st ∧
      MaxInv scores has_scores scores.length st :=
  get_max_weight_loop_inv scores has_scores scores has_scores 0 (-1, NTYPE.zero) rfl rfl hlen
    (Or.inl ⟨rfl, fun j hj => absurd hj (Nat.not_lt_zero j)⟩)

/-- The index returned by `get_max_weight` on vectors of equal length: -1 exactly when no flag
is set, and otherwise the position of a set flag. -/
theorem get_max_weight_index (scores : List NTYPE) (has_scores : List Bool)
    (hlen : scores.length = has_scores.length) :
    ∃ maxclass maxweight, get_max_weight scores has_scores = .ok (maxclass, maxweight) ∧
      (maxclass = -1 ↔ ∀ j : Nat, has_scores[j]? ≠ some true) ∧
      ((∃ j : Nat, has_scores[j]? = some true) →
        ∃ k : Nat, maxclass = (k : Int) ∧ k < scores.length ∧ has_scores[k]? = some true) := by
  obtain ⟨⟨mc, mw⟩, hget, hinv⟩ := get_max_weight_inv_final scores has_scores (le_of_eq hlen)
  refine ⟨mc, mw, hget, ?_, ?_⟩
  · constructor
    · intro hmc j hj
      rcases hinv with ⟨_, hnone⟩ | ⟨k, _, hk, _⟩
      · have hjl : j < has_scores.length := (List.getElem?_eq_some_iff.mp hj).1
        exact hnone j (hlen ▸ hjl) hj
      · simp only at hk
        omega
    · intro hnone
      rcases hinv with ⟨h1, _⟩ | ⟨k, _, _, hflag, _⟩
      · exact h1
      · exact absurd hflag (hnone k)
  · rintro ⟨j, hj⟩
    rcases hinv with ⟨_, hnone⟩ | ⟨k, hk, hmc, hflag, _⟩
    · have hjl : j < has_scores.length := (List.getElem?_eq_some_iff.mp hj).1
      exact absurd hj (hnone j (hlen ▸ hjl))
    · exact ⟨k, hmc, hk, hflag⟩

end _AggregatorClassifier

namespace _AggregatorClassifier

/-- The multi-class branch of `FinalizeScores` on buffers of extent `n` with `n` class labels:
it returns when some class has a score or a base value, and reads `class_labels_[-1]`
otherwise. -/
theorem FinalizeScores_multiclass_lookup (self : _AggregatorClassifier) (scores : List NTYPE)
    (has_scores : List Bool) (add_second_class : Int)
    (hmulti : self.n_targets_or_classes_ > 2)
    (hlen : scores.length = has_scores.length)
    (hlabels : self.class_labels_.length = scores.length)
    (hbv : self.base_values_.length ≤ scores.length) :
    ((∃ j : Nat, j < scores.length ∧
        (has_scores[j]? = some true ∨ j < self.base_values_.length)) →
      ∃ out, self.FinalizeScores scores has_scores add_second_class = .ok out) ∧
    ((¬ ∃ j : Nat, j < scores.length ∧
        (has_scores[j]? = some true ∨ j < self.base_values_.length)) →
      self.FinalizeScores scores has_scores add_second_class = .error Fault.out_of_range) := by
  obtain ⟨s2, h2, hadj, hs2, hh2, hval⟩ := adjust_prefix self.base_values_ scores has_scores
    scores.length rfl hlen.symm hbv self.base_values_.length (le_refl _)
  obtain ⟨mc, mw, hget, hminus, hidx⟩ := get_max_weight_index s2 h2 (hs2.trans hh2.symm)
  have hfin : self.FinalizeScores scores has_scores add_second_class
      = (vec_at_int self.class_labels_ mc >>= fun label =>
          pure (label, { scores := s2, post_transform := self.post_transform_,
                         add_second_class := -1 })) := by
    unfold FinalizeScores adjust_multiclass
    simp only [if_pos hmulti, hadj, hget, bind, Except.bind]
  have hflag : ∀ j : Nat, j < scores.length →
      h2[j]? = some (has_scores[j]?.getD false || decide (j < self.base_values_.length)) := by
    intro j hj
    have hjh : j < has_scores.length := hlen ▸ hj
    have := (hval j scores[j] has_scores[j] (List.getElem?_eq_getElem hj)
      (List.getElem?_eq_getElem hjh)).2
    rw [this, List.getElem?_eq_getElem hjh]
    rfl
  constructor
  · rintro ⟨j, hj, hor⟩
    have hset : h2[j]? = some true := by
      rw [hflag j hj]
      rcases hor with h | h
      · simp [h]
      · simp [h]
    obtain ⟨k, hk, hklt, _⟩ := hidx ⟨j, hset⟩
    have hkl : k < self.class_labels_.length := by omega
    rw [hfin, hk]
    exact ⟨_, by
      show (vec_at self.class_labels_ k >>= _) = _
      simp only [vec_at, List.getElem?_eq_getElem hkl, bind, Except.bind]
      rfl⟩
  · intro hno
    have hnone : ∀ j : Nat, h2[j]? ≠ some true := by
      intro j hj
      have hjl : j < h2.length := (List.getElem?_eq_some_iff.mp hj).1
      have hjs : j < scores.length := by omega
      rw [hflag j hjs] at hj
      apply hno
      refine ⟨j, hjs, ?_⟩
      have hjh : j < has_scores.length := hlen ▸ hjs
      rw [List.getElem?_eq_getElem hjh] at hj ⊢
      simp only [Option.getD_some, Option.some.injEq, Bool.or_eq_true, decide_eq_true_eq] at hj
      rcases hj with h | h
      · exact Or.inl (by rw [h])
      · exact Or.inr h
    rw [hfin, hminus.2 hnone]
    rfl

/-- C38. For every score vector and has-score vector of equal length `n`, `get_max_weight`
returns; the index it returns is -1 if and only if no flag is set, and when some flag is set it
is an index in `[0, n)` whose flag is set. Hence in the multi-class branch of `FinalizeScores`
(buffers of extent `n`, `n` class labels, at most `n` base values) the lookup
`class_labels_[maxclass]` is in range, and the method returns, exactly when some class has a
score or a base value; otherwise the lookup is at index -1. -/
theorem C38_get_max_weight_index_and_label_lookup (scores : List NTYPE)
    (has_scores : List Bool) (hlen : scores.length = has_scores.length) :
    (∃ maxclass maxweight, get_max_weight scores has_scores = .ok (maxclass, maxweight) ∧
      (maxclass = -1 ↔ ∀ j : Nat, has_scores[j]? ≠ some true) ∧
      ((∃ j : Nat, has_scores[j]? = some true) →
        ∃ k : Nat, maxclass = (k : Int) ∧ k < scores.length ∧ has_scores[k]? = some true)) ∧
    (∀ (self : _AggregatorClassifier) (add_second_class : Int),
      self.n_targets_or_classes_ > 2 →
      self.class_labels_.length = scores.length →
      self.base_values_.length ≤ scores.length →
      ((∃ j : Nat, j < scores.length ∧
          (has_scores[j]? = some true ∨ j < self.base_values_.length)) ↔
        ∃ out, self.FinalizeScores scores has_scores add_second_class = .ok out) ∧
      ((¬ ∃ j : Nat, j < scores.length ∧
          (has_scores[j]? = some true ∨ j < self.base_values_.length)) →
        self.FinalizeScores scores has_scores add_second_class
          = .error Fault.out_of_range)) := by
  refine ⟨get_max_weight_index scores has_scores hlen, ?_⟩
  intro self add_second_class hmulti hlabels hbv
  obtain ⟨h1, h2⟩ := FinalizeScores_multiclass_lookup self scores has_scores add_second_class
    hmulti hlen hlabels hbv
  refine ⟨⟨h1, ?_⟩, h2⟩
  rintro ⟨out, hout⟩
  by_contra hno
  rw [h2 hno] at hout
  cases hout

/-- The theorem `C38_get_max_weight_index_and_label_lookup` at three classes of which the
last two have scores 2 and 3: the index returned is 2. -/
theorem C38_get_max_weight_index_and_label_lookup_witness :
    [NTYPE.num 0, NTYPE.num 2, NTYPE.num 3].length = [false, true, true].length ∧
    get_max_weight [NTYPE.num 0, NTYPE.num 2, NTYPE.num 3] [false, true, true]
      = .ok (2, NTYPE.num 3) ∧
    get_max_weight [NTYPE.num 0, NTYPE.num 2, NTYPE.num 3] [false, false, false]
      = .ok (-1, NTYPE.zero) ∧
    ∃ maxclass maxweight,
      get_max_weight [NTYPE.num 0, NTYPE.num 2, NTYPE.num 3] [false, true, true]
        = .ok (maxclass, maxweight) ∧
      (maxclass = -1 ↔ ∀ j : Nat, [false, true, true][j]? ≠ some true) :=
  ⟨rfl, by decide!, by decide!,
    (C38_get_max_weight_index_and_label_lookup [NTYPE.num 0, NTYPE.num 2, NTYPE.num 3]
      [false, true, true] rfl).1.imp fun _ h => h.imp fun _ h2 => ⟨h2.1, h2.2.1⟩⟩

end _AggregatorClassifier

/-! ## The denominator of `ComputeSoftmaxZero` -/

/-- The maximum computed by the first loop of the softmax routines is a number, whatever the
entries (a NaN entry never replaces it). -/
theorem softmax_v_max_num (values : List NTYPE) : ∃ q, softmax_v_max values = NTYPE.num q := by
  unfold softmax_v_max
  generalize (-FLT_MAX) = q0
  induction values generalizing q0 with
  | nil => exact ⟨q0, rfl⟩
  | cons v rest ih =>
    rw [List.foldl_cons]
    cases v with
    | nan =>
      have : NTYPE.gt NTYPE.nan (NTYPE.num q0) = false := rfl
      simp only [this, Bool.false_eq_true, if_false]
      exact ih q0
    | num a =>
      by_cases h : NTYPE.gt (NTYPE.num a) (NTYPE.num q0) = true
      · simp only [h, if_true]
        exact ih a
      · simp only [h, if_false]
        exact ih q0

/-- The sum kept by the second loop of `ComputeSoftmaxZero`, started at the number `t` with a
numeric maximum and a non-negative `exp`: it is a number not below `t`, and it is `t` exactly
when every entry above `1e-7` or below `-1e-7` has the exponential 0. -/
theorem ComputeSoftmaxZero_loop_sum (m : Cmath) (hexp : ∀ y, 0 ≤ m.exp y) (vmax : ℚ)
    (e : NTYPE) :
    ∀ (values : List NTYPE) (t : ℚ) (l : List NTYPE),
      ∃ q, (values.foldl
          (fun st value =>
            if NTYPE.gt value (NTYPE.num (1 / 10000000))
                || NTYPE.lt value (NTYPE.num (-(1 / 10000000))) then
              let val2 := m.std_exp (NTYPE.sub value (NTYPE.num vmax))
              (NTYPE.add st.1 val2, st.2 ++ [val2])
            else
              (st.1, st.2 ++ [NTYPE.mul value e]))
          (NTYPE.num t, l)).1 = NTYPE.num q ∧ t ≤ q ∧
        (q = t ↔ ∀ v ∈ values,
          (NTYPE.gt v (NTYPE.num (1 / 10000000))
            || NTYPE.lt v (NTYPE.num (-(1 / 10000000)))) = true →
          m.std_exp (NTYPE.sub v (NTYPE.num vmax)) = NTYPE.num 0) := by
  intro values
  induction values with
  | nil => intro t l; exact ⟨t, rfl, le_refl _, by simp⟩
  | cons v rest ih =>
    intro t l
    rw [List.foldl_cons]
    by_cases hc : (NTYPE.gt v (NTYPE.num (1 / 10000000))
        || NTYPE.lt v (NTYPE.num (-(1 / 10000000)))) = true
    · simp only [hc, if_true]
      cases v with
      | nan => exact absurd hc (by decide)
      | num a =>
        obtain ⟨q, hq, hle, hiff⟩ := ih (t + m.exp (a - vmax))
          (l ++ [NTYPE.num (m.exp (a - vmax))])
        have hpos := hexp (a - vmax)
        refine ⟨q, hq, by linarith, ?_⟩
        constructor
        · intro h w hw hcw
          have h0 : m.exp (a - vmax) = 0 := by linarith
          rcases List.mem_cons.1 hw with rfl | hw
          · show NTYPE.num (m.exp (a - vmax)) = NTYPE.num 0
            rw [h0]
          · exact hiff.1 (by linarith) w hw hcw
        · intro h
          have h1 := h (NTYPE.num a) (List.mem_cons_self _ _) hc
          have h0 : m.exp (a - vmax) = 0 := NTYPE.num.inj h1
          have h2 := hiff.2 (fun w hw hcw => h w (List.mem_cons_of_mem _ hw) hcw)
          linarith
    · have hf : (NTYPE.gt v (NTYPE.num (1 / 10000000))
          || NTYPE.lt v (NTYPE.num (-(1 / 10000000)))) = false := by
        cases hb : (NTYPE.gt v (NTYPE.num (1 / 10000000))
          || NTYPE.lt v (NTYPE.num (-(1 / 10000000))))
        · rfl
        · exact absurd hb hc
      simp only [hf, Bool.false_eq_true, if_false]
      obtain ⟨q, hq, hle, hiff⟩ := ih t (l ++ [NTYPE.mul v e])
      refine ⟨q, hq, hle, ?_⟩
      rw [hiff]
      constructor
      · intro h w hw hcw
        rcases List.mem_cons.1 hw with rfl | hw
        · rw [hf] at hcw
          cases hcw
        · exact h w hw hcw
      · intro h w hw hcw
        exact h w (List.mem_cons_of_mem _ hw) hcw

/-- The second loop of `ComputeSoftmaxZero` pushes one value per entry. -/
theorem ComputeSoftmaxZero_loop_length (m : Cmath) (v_max e : NTYPE) :
    ∀ (values : List NTYPE) (st : NTYPE × List NTYPE),
      (values.foldl
          (fun st value =>
            if NTYPE.gt value (NTYPE.num (1 / 10000000))
                || NTYPE.lt value (NTYPE.num (-(1 / 10000000))) then
              let val2 := m.std_exp (NTYPE.sub value v_max)
              (NTYPE.add st.1 val2, st.2 ++ [val2])
            else
              (st.1, st.2 ++ [NTYPE.mul value e]))
          st).2.length = st.2.length + values.length := by
  intro values
  induction values with
  | nil => intro st; rfl
  | cons v rest ih =>
    intro st
    rw [List.foldl_cons, ih]
    split <;> simp <;> omega

theorem Example.exp_binary32_nonneg (y : ℚ) : 0 ≤ Example.cmath_binary32.exp y := by
  show 0 ≤ Example.exp_binary32 y
  unfold Example.exp_binary32
  split
  · exact le_refl _
  · split
    · norm_num
    · split
      · norm_num
      · exact le_of_lt (Example.exp_stand_in_pos y)

/-- C39 (counterexample). `ComputeSoftmaxZero` on the vector `[0, -1000]` with a `std::exp`
that underflows, as the one of `float` does: the entry -1000 is less than `-1e-7`, the
maximum is 0 and `exp(-1000 - 0)` is 0, so `this_sum` is 0 although an entry is below
`-1e-7`, and the two values written are quotients by zero (NaN in the carrier). -/
theorem C39_counterexample_exp_underflow :
    NTYPE.lt (NTYPE.num (-1000)) (NTYPE.num (-(1 / 10000000))) = true ∧
    softmax_v_max [NTYPE.num 0, NTYPE.num (-1000)] = NTYPE.num 0 ∧
    Example.cmath_binary32.std_exp (NTYPE.sub (NTYPE.num (-1000)) (NTYPE.num 0))
      = NTYPE.num 0 ∧
    (ComputeSoftmaxZero_loop Example.cmath_binary32
      (softmax_v_max [NTYPE.num 0, NTYPE.num (-1000)])
      (Example.cmath_binary32.std_exp
        (NTYPE.neg (softmax_v_max [NTYPE.num 0, NTYPE.num (-1000)])))
      [NTYPE.num 0, NTYPE.num (-1000)]).1 = NTYPE.num 0 ∧
    ComputeSoftmaxZero Example.cmath_binary32 [NTYPE.num 0, NTYPE.num (-1000)]
      = [NTYPE.nan, NTYPE.nan] := by
  refine ⟨by decide!, by decide!, by decide!, by decide!, by decide!⟩

/-- C39. For every score vector (the non-empty ones in particular) and every `std::exp` with
non-negative values: the denominator `this_sum` by which `ComputeSoftmaxZero` divides is a
number, and it is non-zero if and only if at least one entry `v` greater than `1e-7` or less
than `-1e-7` has `exp(v - v_max)` different from 0. When no entry is greater than `1e-7` or
less than `-1e-7`, `this_sum` is zero and every value written is the result of a division by
zero (NaN in the carrier). When `exp(0)` is positive and the maximum is an entry greater
than `1e-7` or less than `-1e-7`, `this_sum` is not zero. -/
theorem C39_softmax_zero_denominator_and_underflow (m : Cmath) (hexp : ∀ y, 0 ≤ m.exp y)
    (values : List NTYPE) :
    ∃ this_sum : ℚ,
      (ComputeSoftmaxZero_loop m (softmax_v_max values)
        (m.std_exp (NTYPE.neg (softmax_v_max values))) values).1 = NTYPE.num this_sum ∧
      (this_sum ≠ 0 ↔ ∃ v ∈ values,
        (NTYPE.gt v (NTYPE.num (1 / 10000000)) = true
          ∨ NTYPE.lt v (NTYPE.num (-(1 / 10000000))) = true) ∧
        m.std_exp (NTYPE.sub v (softmax_v_max values)) ≠ NTYPE.num 0) ∧
      ((∀ v ∈ values, NTYPE.gt v (NTYPE.num (1 / 10000000)) = false
          ∧ NTYPE.lt v (NTYPE.num (-(1 / 10000000))) = false) →
        this_sum = 0 ∧ (ComputeSoftmaxZero m values).length = values.length ∧
        ∀ z ∈ ComputeSoftmaxZero m values, z = NTYPE.nan) ∧
      (0 < m.exp 0 → softmax_v_max values ∈ values →
        (NTYPE.gt (softmax_v_max values) (NTYPE.num (1 / 10000000)) = true
          ∨ NTYPE.lt (softmax_v_max values) (NTYPE.num (-(1 / 10000000))) = true) →
        this_sum ≠ 0) := by
  obtain ⟨vmax, hv⟩ := softmax_v_max_num values
  obtain ⟨q, hq, _, hiff⟩ := ComputeSoftmaxZero_loop_sum m hexp vmax
    (m.std_exp (NTYPE.neg (NTYPE.num vmax))) values 0 []
  have hsum : (ComputeSoftmaxZero_loop m (softmax_v_max values)
        (m.std_exp (NTYPE.neg (softmax_v_max values))) values).1 = NTYPE.num q := by
    rw [hv]
    exact hq
  have hmain : q ≠ 0 ↔ ∃ v ∈ values,
      (NTYPE.gt v (NTYPE.num (1 / 10000000)) = true
        ∨ NTYPE.lt v (NTYPE.num (-(1 / 10000000))) = true) ∧
      m.std_exp (NTYPE.sub v (softmax_v_max values)) ≠ NTYPE.num 0 := by
    rw [Ne, hiff, hv]
    constructor
    · intro h
      by_contra hno
      apply h
      intro v hv2 hcv
      by_contra hne
      apply hno
      refine ⟨v, hv2, ?_, hne⟩
      simpa using hcv
    · rintro ⟨v, hv2, hor, hne⟩ h
      apply hne
      apply h v hv2
      rcases hor with h1 | h1
      · rw [h1]; rfl
      · rw [h1, Bool.or_true]
  refine ⟨q, hsum, hmain, ?_, ?_⟩
  · intro hall
    have hq0 : q = 0 := hiff.2 (fun v hv2 hcv => by
      rw [(hall v hv2).1, (hall v hv2).2] at hcv
      cases hcv)
    have hout : ComputeSoftmaxZero m values
        = (ComputeSoftmaxZero_loop m (softmax_v_max values)
            (m.std_exp (NTYPE.neg (softmax_v_max values))) values).2.map
            (fun s => NTYPE.div s (NTYPE.num 0)) := by
      unfold ComputeSoftmaxZero
      simp only
      rw [← hq0, ← hsum]
    refine ⟨hq0, ?_, ?_⟩
    · rw [hout, List.length_map]
      have := ComputeSoftmaxZero_loop_length m (softmax_v_max values)
        (m.std_exp (NTYPE.neg (softmax_v_max values))) values (NTYPE.zero, [])
      simpa [ComputeSoftmaxZero_loop] using this
    · intro z hz
      rw [hout] at hz
      obtain ⟨s, _, rfl⟩ := List.mem_map.1 hz
      cases s <;> simp [NTYPE.div]
  · intro h0 hmem hor
    rw [hmain]
    refine ⟨softmax_v_max values, hmem, hor, ?_⟩
    rw [hv]
    show NTYPE.num (m.exp (vmax - vmax)) ≠ NTYPE.num 0
    rw [sub_self]
    intro hc
    have := NTYPE.num.inj hc
    linarith

/-- The theorem `C39_softmax_zero_denominator_and_underflow` with the underflowing stand-in for
`std::exp`: on the vector `[0, 1]` the denominator is `exp(1 - 1) = 1`; on the vector `[0]` it
is zero and the value written is NaN. -/
theorem C39_softmax_zero_denominator_and_underflow_witness :
    (∀ y, 0 ≤ Example.cmath_binary32.exp y) ∧
    (ComputeSoftmaxZero_loop Example.cmath_binary32 (NTYPE.num 1) (NTYPE.num (1 / 2))
      [NTYPE.num 0, NTYPE.num 1]).1 = NTYPE.num 1 ∧
    ComputeSoftmaxZero Example.cmath_binary32 [NTYPE.num 0] = [NTYPE.nan] ∧
    ∃ this_sum : ℚ,
      (ComputeSoftmaxZero_loop Example.cmath_binary32
        (softmax_v_max [NTYPE.num 0, NTYPE.num 1])
        (Example.cmath_binary32.std_exp (NTYPE.neg (softmax_v_max [NTYPE.num 0, NTYPE.num 1])))
        [NTYPE.num 0, NTYPE.num 1]).1 = NTYPE.num this_sum ∧
      (this_sum ≠ 0 ↔ ∃ v ∈ [NTYPE.num 0, NTYPE.num 1],
        (NTYPE.gt v (NTYPE.num (1 / 10000000)) = true
          ∨ NTYPE.lt v (NTYPE.num (-(1 / 10000000))) = true) ∧
        Example.cmath_binary32.std_exp
          (NTYPE.sub v (softmax_v_max [NTYPE.num 0, NTYPE.num 1])) ≠ NTYPE.num 0) :=
  ⟨Example.exp_binary32_nonneg, by decide!, by decide!,
    (C39_softmax_zero_denominator_and_underflow Example.cmath_binary32
      Example.exp_binary32_nonneg [NTYPE.num 0, NTYPE.num 1]).imp
      fun _ h => ⟨h.1, h.2.1⟩⟩

/-! ## Merging two buffers against accumulating into one -/

/-- A `MergePrediction` loop on buffers of extent `n`, whose body rewrites the pair of target
`i` by the pointwise function `mp`: it succeeds and rewrites every pair. -/
theorem merge_loop_pointwise (me : Buffers → Nat → Result Buffers)
    (mp : NTYPE × Bool → NTYPE × Bool → NTYPE × Bool) (p2 : List NTYPE) (h2 : List Bool)
    (n : Nat) (hp2 : p2.length = n) (hh2 : h2.length = n)
    (hstep : ∀ (p : List NTYPE) (h : List Bool) (i : Nat) (hp : i < p.length)
      (hh : i < h.length) (hi2 : i < p2.length) (hj2 : i < h2.length),
      me (p, h) i = .ok (p.set i (mp (p[i], h[i]) (p2[i], h2[i])).1,
                        h.set i (mp (p[i], h[i]) (p2[i], h2[i])).2))
    (p : List NTYPE) (h : List Bool) (hp : p.length = n) (hh : h.length = n) :
    ∀ k ≤ n, ∃ q g, (List.range k).foldlM me (p, h) = .ok (q, g) ∧ q.length = n ∧
      g.length = n ∧
      ∀ (i : Nat) (s : NTYPE) (b : Bool) (s2 : NTYPE) (b2 : Bool),
        p[i]? = some s → h[i]? = some b → p2[i]? = some s2 → h2[i]? = some b2 →
        q[i]? = some (if i < k then (mp (s, b) (s2, b2)).1 else s) ∧
        g[i]? = some (if i < k then (mp (s, b) (s2, b2)).2 else b) := by
  intro k
  induction k with
  | zero =>
    intro _
    exact ⟨p, h, rfl, hp, hh, fun i s b s2 b2 hs hb _ _ => ⟨by simpa using hs, by simpa using hb⟩⟩
  | succ k ih =>
    intro hk
    obtain ⟨q, g, hfold, hq, hg, hval⟩ := ih (Nat.le_of_succ_le hk)
    have hkn : k < n := hk
    have hkq : k < q.length := hq ▸ hkn
    have hkg : k < g.length := hg ▸ hkn
    have hkp : k < p.length := hp ▸ hkn
    have hkh : k < h.length := hh ▸ hkn
    have hk2 : k < p2.length := hp2 ▸ hkn
    have hj2 : k < h2.length := hh2 ▸ hkn
    obtain ⟨hqk, hgk⟩ := hval k p[k] h[k] p2[k] h2[k] (List.getElem?_eq_getElem hkp)
      (List.getElem?_eq_getElem hkh) (List.getElem?_eq_getElem hk2)
      (List.getElem?_eq_getElem hj2)
    simp only [Nat.lt_irrefl, if_false] at hqk hgk
    have eq1 : q[k] = p[k] := by
      rw [List.getElem?_eq_getElem hkq] at hqk
      exact Option.some.inj hqk
    have eg1 : g[k] = h[k] := by
      rw [List.getElem?_eq_getElem hkg] at hgk
      exact Option.some.inj hgk
    have hs := hstep q g k hkq hkg hk2 hj2
    rw [eq1, eg1] at hs
    refine ⟨q.set k (mp (p[k], h[k]) (p2[k], h2[k])).1,
      g.set k (mp (p[k], h[k]) (p2[k], h2[k])).2, ?_, by simp [hq], by simp [hg], ?_⟩
    · rw [foldlM_range_succ, hfold]
      exact hs
    · intro i s b s2 b2 his hib his2 hib2
      obtain ⟨h1, h2'⟩ := hval i s b s2 b2 his hib his2 hib2
      by_cases hik : k = i
      · subst hik
        have e1 : p[k] = s := by
          rw [List.getElem?_eq_getElem hkp] at his
          exact Option.some.inj his
        have e2 : h[k] = b := by
          rw [List.getElem?_eq_getElem hkh] at hib
          exact Option.some.inj hib
        have e3 : p2[k] = s2 := by
          rw [List.getElem?_eq_getElem hk2] at his2
          exact Option.some.inj his2
        have e4 : h2[k] = b2 := by
          rw [List.getElem?_eq_getElem hj2] at hib2
          exact Option.some.inj hib2
        simp [List.getElem?_set, hkq, hkg, e1, e2, e3, e4]
      · have hlt : (i < k + 1) = (i < k) := by
          apply propext
          constructor
          · intro hh1
            rcases Nat.lt_succ_iff_lt_or_eq.mp hh1 with hh1 | hh1
            · exact hh1
            · exact absurd hh1.symm hik
          · exact Nat.lt_succ_of_lt
        constructor
        · simp only [List.getElem?_set, hik, if_false, hlt]
          exact h1
        · simp only [List.getElem?_set, hik, if_false, hlt]
          exact h2'

/-- Writing back the value an entry holds leaves the vector as it is. -/
theorem vec_set_same {α : Type} (l : List α) (i : Nat) (h : i < l.length) :
    l.set i l[i] = l := by
  apply List.ext_getElem?
  intro j
  by_cases hij : i = j
  · subst hij
    simp [List.getElem?_set, h]
  · simp [List.getElem?_set, hij]

theorem _AggregatorSum.merge_entry_eq_sum (p2 : List NTYPE) (h2 : List Bool)
    (p : List NTYPE) (h : List Bool) (i : Nat) (hp : i < p.length)
    (hh : i < h.length) (hi2 : i < p2.length) (hj2 : i < h2.length) :
    _AggregatorSum.merge_entry p2 h2 (p, h) i
      = .ok (p.set i (Spec.merge_sum (p[i], h[i]) (p2[i], h2[i])).1,
             h.set i (Spec.merge_sum (p[i], h[i]) (p2[i], h2[i])).2) := by
  cases hb : h2[i] with
  | false =>
    simp [_AggregatorSum.merge_entry, Spec.merge_sum, vec_at, List.getElem?_eq_getElem, hp, hh,
      hi2, hj2, hb, bind, Except.bind, pure, Except.pure, vec_set_same]
  | true =>
    simp [_AggregatorSum.merge_entry, Spec.merge_sum, vec_at, List.getElem?_eq_getElem, hp, hh,
      hi2, hj2, hb, vec_set_int_ofNat, bind, Except.bind, pure, Except.pure]

theorem _AggregatorMin.merge_entry_eq_min (p2 : List NTYPE) (h2 : List Bool)
    (p : List NTYPE) (h : List Bool) (i : Nat) (hp : i < p.length)
    (hh : i < h.length) (hi2 : i < p2.length) (hj2 : i < h2.length) :
    _AggregatorMin.merge_entry p2 h2 (p, h) i
      = .ok (p.set i (Spec.merge_min (p[i], h[i]) (p2[i], h2[i])).1,
             h.set i (Spec.merge_min (p[i], h[i]) (p2[i], h2[i])).2) := by
  cases hb : h2[i] with
  | false =>
    simp [_AggregatorMin.merge_entry, Spec.merge_min, vec_at, List.getElem?_eq_getElem, hp, hh,
      hi2, hj2, hb, bind, Except.bind, pure, Except.pure, vec_set_same]
  | true =>
    cases hc : h[i] <;>
    simp [_AggregatorMin.merge_entry, Spec.merge_min, vec_at, List.getElem?_eq_getElem, hp, hh,
      hi2, hj2, hb, hc, vec_set_int_ofNat, bind, Except.bind, pure, Except.pure]

theorem _AggregatorMax.merge_entry_eq_max (p2 : List NTYPE) (h2 : List Bool)
    (p : List NTYPE) (h : List Bool) (i : Nat) (hp : i < p.length)
    (hh : i < h.length) (hi2 : i < p2.length) (hj2 : i < h2.length) :
    _AggregatorMax.merge_entry p2 h2 (p, h) i
      = .ok (p.set i (Spec.merge_max (p[i], h[i]) (p2[i], h2[i])).1,
             h.set i (Spec.merge_max (p[i], h[i]) (p2[i], h2[i])).2) := by
  cases hb : h2[i] with
  | false =>
    simp [_AggregatorMax.merge_entry, Spec.merge_max, vec_at, List.getElem?_eq_getElem, hp, hh,
      hi2, hj2, hb, bind, Except.bind, pure, Except.pure, vec_set_same]
  | true =>
    cases hc : h[i] <;>
    simp [_AggregatorMax.merge_entry, Spec.merge_max, vec_at, List.getElem?_eq_getElem, hp, hh,
      hi2, hj2, hb, hc, vec_set_int_ofNat, bind, Except.bind, pure, Except.pure]

/-- Merging commutes with accumulating: when the pointwise merge `mp` commutes with one
update on the states that satisfy `inv`, and `inv` is kept by the updates, merging the
history of `ws` started at `st` equals continuing the history of `ws` from the merged
state. -/
theorem Spec.track_merge (upd : NTYPE × Bool → SparseValue → NTYPE × Bool)
    (mp : NTYPE × Bool → NTYPE × Bool → NTYPE × Bool) (inv : NTYPE × Bool → Prop)
    (good : SparseValue → Prop) (a : NTYPE × Bool) (i : Int)
    (hpres : ∀ st w, inv st → good w → inv (upd st w))
    (hcomm : ∀ st w, inv st → good w → mp a (upd st w) = upd (mp a st) w) :
    ∀ (ws : List SparseValue) (st : NTYPE × Bool), inv st → (∀ w ∈ ws, good w) →
      mp a (Spec.track upd ws i st) = Spec.track upd ws i (mp a st) := by
  intro ws
  induction ws with
  | nil => intro st _ _; rfl
  | cons w rest ih =>
    intro st hst hgood
    have hw := hgood w (List.mem_cons_self _ _)
    have hrest : ∀ w2 ∈ rest, good w2 := fun w2 h2 => hgood w2 (List.mem_cons_of_mem _ h2)
    show mp a (Spec.track upd rest i (if w.i = i then upd st w else st))
      = Spec.track upd rest i (if w.i = i then upd (mp a st) w else mp a st)
    by_cases hi : w.i = i
    · simp only [if_pos hi]
      rw [ih (upd st w) (hpres st w hst hw) hrest, hcomm st w hst hw]
    · simp only [if_neg hi]
      exact ih st hst hrest

theorem Spec.track_append (upd : NTYPE × Bool → SparseValue → NTYPE × Bool)
    (ws1 ws2 : List SparseValue) (i : Int) (st : NTYPE × Bool) :
    Spec.track upd (ws1 ++ ws2) i st = Spec.track upd ws2 i (Spec.track upd ws1 i st) := by
  unfold Spec.track
  rw [List.foldl_append]

theorem NTYPE.add_add (a b c : NTYPE) :
    NTYPE.add (NTYPE.add a b) c = NTYPE.add a (NTYPE.add b c) := by
  cases a <;> cases b <;> cases c <;> simp [NTYPE.add, add_assoc]

/-- SUM: merging the history of `ws2` into a state equals continuing with `ws2`. -/
theorem Spec.track_merge_sum (a : NTYPE × Bool) (ws2 : List SparseValue) (i : Int) :
    Spec.merge_sum a (Spec.track Spec.upd_sum ws2 i (NTYPE.zero, false))
      = Spec.track Spec.upd_sum ws2 i a := by
  have h := Spec.track_merge Spec.upd_sum Spec.merge_sum
    (fun st => st.2 = false → st.1 = NTYPE.zero) (fun _ => True) a i
    (fun st w _ _ hf => by simp [Spec.upd_sum] at hf)
    (fun st w hst _ => by
      obtain ⟨t, c⟩ := st
      cases c with
      | false =>
        have ht : t = NTYPE.zero := hst rfl
        subst ht
        simp [Spec.merge_sum, Spec.upd_sum, NTYPE.zero_add]
      | true => simp [Spec.merge_sum, Spec.upd_sum, NTYPE.add_add])
    ws2 (NTYPE.zero, false) (fun _ => rfl) (fun _ _ => trivial)
  rw [h]
  rfl

/-- The history of a target under MIN or MAX updates holds a number when it starts from a
number and the weights are numbers. -/
theorem Spec.track_num (upd : NTYPE × Bool → SparseValue → NTYPE × Bool)
    (hupd : ∀ st w, (upd st w).1 = w.value ∨ (upd st w).1 = st.1) (i : Int) :
    ∀ (ws : List SparseValue) (st : NTYPE × Bool), st.1 ≠ NTYPE.nan →
      (∀ w ∈ ws, w.value ≠ NTYPE.nan) → (Spec.track upd ws i st).1 ≠ NTYPE.nan := by
  intro ws
  induction ws with
  | nil => intro st hst _; exact hst
  | cons w rest ih =>
    intro st hst hgood
    have hw := hgood w (List.mem_cons_self _ _)
    have hrest : ∀ w2 ∈ rest, w2.value ≠ NTYPE.nan :=
      fun w2 h2 => hgood w2 (List.mem_cons_of_mem _ h2)
    show (Spec.track upd rest i (if w.i = i then upd st w else st)).1 ≠ NTYPE.nan
    by_cases hi : w.i = i
    · simp only [if_pos hi]
      apply ih _ _ hrest
      rcases hupd st w with h | h
      · rw [h]; exact hw
      · rw [h]; exact hst
    · simp only [if_neg hi]
      exact ih st hst hrest

/-- MIN: merging the history of `ws2` into a numeric state equals continuing with `ws2`,
when the weights are numbers. -/
theorem Spec.track_merge_min (a : NTYPE × Bool) (ha : a.1 ≠ NTYPE.nan)
    (ws2 : List SparseValue) (hnum : ∀ w ∈ ws2, w.value ≠ NTYPE.nan) (i : Int) :
    Spec.merge_min a (Spec.track Spec.upd_min ws2 i (NTYPE.zero, false))
      = Spec.track Spec.upd_min ws2 i a := by
  have h := Spec.track_merge Spec.upd_min Spec.merge_min
    (fun st => st.1 ≠ NTYPE.nan) (fun w => w.value ≠ NTYPE.nan) a i
    (fun st w hst hw => by
      simp only [Spec.upd_min]
      split
      · exact hw
      · exact hst)
    (fun st w hst hw => by
      obtain ⟨t, c⟩ := st
      obtain ⟨s1, b1⟩ := a
      cases t with
      | nan => exact absurd rfl hst
      | num t =>
      cases hv : w.value with
      | nan => exact absurd hv hw
      | num v =>
      cases s1 with
      | nan => exact absurd rfl ha
      | num s1 =>
        by_cases h1 : v < t <;> by_cases h2 : s1 < t <;> by_cases h3 : s1 < v <;>
          by_cases h4 : v < s1 <;> by_cases h5 : t < v <;> by_cases h6 : t < s1 <;>
          cases c <;> cases b1 <;>
          simp [Spec.merge_min, Spec.upd_min, hv, NTYPE.lt, h1, h2, h3, h4, h5, h6] <;>
          linarith)
    ws2 (NTYPE.zero, false) (by simp [NTYPE.zero]) hnum
  rw [h]
  rfl

/-- MAX: merging the history of `ws2` into a numeric state equals continuing with `ws2`,
when the weights are numbers. -/
theorem Spec.track_merge_max (a : NTYPE × Bool) (ha : a.1 ≠ NTYPE.nan)
    (ws2 : List SparseValue) (hnum : ∀ w ∈ ws2, w.value ≠ NTYPE.nan) (i : Int) :
    Spec.merge_max a (Spec.track Spec.upd_max ws2 i (NTYPE.zero, false))
      = Spec.track Spec.upd_max ws2 i a := by
  have h := Spec.track_merge Spec.upd_max Spec.merge_max
    (fun st => st.1 ≠ NTYPE.nan) (fun w => w.value ≠ NTYPE.nan) a i
    (fun st w hst hw => by
      simp only [Spec.upd_max]
      split
      · exact hw
      · exact hst)
    (fun st w hst hw => by
      obtain ⟨t, c⟩ := st
      obtain ⟨s1, b1⟩ := a
      cases t with
      | nan => exact absurd rfl hst
      | num t =>
      cases hv : w.value with
      | nan => exact absurd hv hw
      | num v =>
      cases s1 with
      | nan => exact absurd rfl ha
      | num s1 =>
        by_cases h1 : v < t <;> by_cases h2 : s1 < t <;> by_cases h3 : s1 < v <;>
          by_cases h4 : v < s1 <;> by_cases h5 : t < v <;> by_cases h6 : t < s1 <;>
          cases c <;> cases b1 <;>
          simp [Spec.merge_max, Spec.upd_max, hv, NTYPE.gt, h1, h2, h3, h4, h5, h6] <;>
          linarith)
    ws2 (NTYPE.zero, false) (by simp [NTYPE.zero]) hnum
  rw [h]
  rfl

theorem Spec.accumulated_append (l1 l2 : List TreeNodeElement) :
    Spec.accumulated (l1 ++ l2) = Spec.accumulated l1 ++ Spec.accumulated l2 := by
  simp [Spec.accumulated]

/-- Two fresh buffers accumulated separately and merged hold what one fresh buffer holds after
the concatenated sequence, for an aggregator whose accumulation and merge act target by
target and whose pointwise merge continues the history of the first buffer. -/
theorem accumulate_and_merge_eq (step : Buffers → SparseValue → Result Buffers)
    (upd : NTYPE × Bool → SparseValue → NTYPE × Bool)
    (mp : NTYPE × Bool → NTYPE × Bool → NTYPE × Bool)
    (process : List NTYPE → TreeNodeElement → List Bool → Result Buffers)
    (me : List NTYPE → List Bool → Buffers → Nat → Result Buffers)
    (merge : Int → List NTYPE → List Bool → List NTYPE → List Bool → Result Buffers)
    (hstep : ∀ (p : List NTYPE) (h : List Bool) (w : SparseValue) (k : Nat)
      (_ : w.i = k) (hp : k < p.length) (hh : k < h.length),
      step (p, h) w = .ok (p.set k (upd (p[k], h[k]) w).1, h.set k (upd (p[k], h[k]) w).2))
    (hproc : ∀ p leaf h, process p leaf h = leaf.weights.foldlM step (p, h))
    (hmerge : ∀ (n : Int) p h p2 h2,
      merge n p h p2 h2 = (List.range n.toNat).foldlM (me p2 h2) (p, h))
    (hme : ∀ (p2 : List NTYPE) (h2 : List Bool) (p : List NTYPE) (h : List Bool) (i : Nat)
      (hp : i < p.length) (hh : i < h.length) (hi2 : i < p2.length) (hj2 : i < h2.length),
      me p2 h2 (p, h) i = .ok (p.set i (mp (p[i], h[i]) (p2[i], h2[i])).1,
                              h.set i (mp (p[i], h[i]) (p2[i], h2[i])).2))
    (n : Nat) (leaves1 leaves2 : List TreeNodeElement)
    (hrange : ∀ w ∈ Spec.accumulated (leaves1 ++ leaves2), 0 ≤ w.i ∧ w.i < (n : Int))
    (halg : ∀ i : Int,
      mp (Spec.track upd (Spec.accumulated leaves1) i (NTYPE.zero, false))
          (Spec.track upd (Spec.accumulated leaves2) i (NTYPE.zero, false))
        = Spec.track upd (Spec.accumulated leaves1 ++ Spec.accumulated leaves2) i
            (NTYPE.zero, false)) :
    ∃ b, accumulate_and_merge process merge n leaves1 leaves2 = .ok b ∧
      accumulate_leaves process (leaves1 ++ leaves2)
        (List.replicate n NTYPE.zero, List.replicate n false) = .ok b := by
  rw [Spec.accumulated_append] at hrange
  have hr1 : ∀ w ∈ Spec.accumulated leaves1, 0 ≤ w.i ∧ w.i < (n : Int) :=
    fun w hw => hrange w (List.mem_append_left _ hw)
  have hr2 : ∀ w ∈ Spec.accumulated leaves2, 0 ≤ w.i ∧ w.i < (n : Int) :=
    fun w hw => hrange w (List.mem_append_right _ hw)
  obtain ⟨p1, h1, hf1, hp1, hh1, hv1⟩ := foldlM_pointwise step upd hstep n
    (Spec.accumulated leaves1) (List.replicate n NTYPE.zero) (List.replicate n false)
    (by simp) (by simp) hr1
  obtain ⟨p2, h2, hf2, hp2, hh2, hv2⟩ := foldlM_pointwise step upd hstep n
    (Spec.accumulated leaves2) (List.replicate n NTYPE.zero) (List.replicate n false)
    (by simp) (by simp) hr2
  obtain ⟨p, h, hf, hp, hh, hv⟩ := foldlM_pointwise step upd hstep n
    (Spec.accumulated leaves1 ++ Spec.accumulated leaves2) (List.replicate n NTYPE.zero)
    (List.replicate n false) (by simp) (by simp) hrange
  obtain ⟨q, g, hm, hq, hg, hvm⟩ := merge_loop_pointwise (me p2 h2) mp p2 h2 n hp2 hh2
    (hme p2 h2) p1 h1 hp1 hh1 n (le_refl n)
  have ha1 := accumulate_leaves_eq step process hproc leaves1
    (List.replicate n NTYPE.zero, List.replicate n false)
  have ha2 := accumulate_leaves_eq step process hproc leaves2
    (List.replicate n NTYPE.zero, List.replicate n false)
  have ha := accumulate_leaves_eq step process hproc (leaves1 ++ leaves2)
    (List.replicate n NTYPE.zero, List.replicate n false)
  rw [Spec.accumulated_append] at ha
  have hqp : q = p ∧ g = h := by
    constructor
    · apply List.ext_getElem?
      intro i
      by_cases hi : i < n
      · have z1 : (List.replicate n NTYPE.zero)[i]? = some NTYPE.zero := by
          simp [List.getElem?_replicate, hi]
        have z2 : (List.replicate n false)[i]? = some false := by
          simp [List.getElem?_replicate, hi]
        obtain ⟨a1, a2⟩ := hv1 i _ _ z1 z2
        obtain ⟨b1, b2⟩ := hv2 i _ _ z1 z2
        obtain ⟨c1, _⟩ := hv i _ _ z1 z2
        obtain ⟨d1, _⟩ := hvm i _ _ _ _ a1 a2 b1 b2
        rw [d1, c1, if_pos hi]
        exact congrArg (fun x => some x.1) (halg i)
      · rw [List.getElem?_eq_none_iff.2 (by omega), List.getElem?_eq_none_iff.2 (by omega)]
    · apply List.ext_getElem?
      intro i
      by_cases hi : i < n
      · have z1 : (List.replicate n NTYPE.zero)[i]? = some NTYPE.zero := by
          simp [List.getElem?_replicate, hi]
        have z2 : (List.replicate n false)[i]? = some false := by
          simp [List.getElem?_replicate, hi]
        obtain ⟨a1, a2⟩ := hv1 i _ _ z1 z2
        obtain ⟨b1, b2⟩ := hv2 i _ _ z1 z2
        obtain ⟨_, c2⟩ := hv i _ _ z1 z2
        obtain ⟨_, d2⟩ := hvm i _ _ _ _ a1 a2 b1 b2
        rw [d2, c2, if_pos hi]
        exact congrArg (fun x => some x.2) (halg i)
      · rw [List.getElem?_eq_none_iff.2 (by omega), List.getElem?_eq_none_iff.2 (by omega)]
  refine ⟨(p, h), ?_, ha.trans hf⟩
  unfold accumulate_and_merge
  rw [ha1, hf1, ha2, hf2]
  show merge n p1 h1 p2 h2 = _
  rw [hmerge, Int.toNat_ofNat, hm, hqp.1, hqp.2]

/-- C36. For each of the SUM, MIN and MAX aggregators, every extent `n` and all leaf lists `L1`
and `L2` whose target indices lie in `[0, n)`: accumulating `L1` and `L2` into two separate
fresh zeroed buffers and merging the second into the first with `MergePrediction` succeeds
and gives the same predictions and has-prediction flags as accumulating the concatenation
`L1 ++ L2` into one fresh buffer. Arithmetic is exact; for MIN and MAX the weights are numbers
(no NaN). -/
theorem C36_merge_equals_concatenation (n : Nat) (leaves1 leaves2 : List TreeNodeElement)
    (hrange : ∀ w ∈ Spec.accumulated (leaves1 ++ leaves2), 0 ≤ w.i ∧ w.i < (n : Int)) :
    (∃ b, accumulate_and_merge _AggregatorSum.ProcessTreeNodePrediction
        _AggregatorSum.MergePrediction n leaves1 leaves2 = .ok b ∧
      accumulate_leaves _AggregatorSum.ProcessTreeNodePrediction (leaves1 ++ leaves2)
        (List.replicate n NTYPE.zero, List.replicate n false) = .ok b) ∧
    ((∀ w ∈ Spec.accumulated (leaves1 ++ leaves2), w.value ≠ NTYPE.nan) →
      (∃ b, accumulate_and_merge _AggregatorMin.ProcessTreeNodePrediction
          _AggregatorMin.MergePrediction n leaves1 leaves2 = .ok b ∧
        accumulate_leaves _AggregatorMin.ProcessTreeNodePrediction (leaves1 ++ leaves2)
          (List.replicate n NTYPE.zero, List.replicate n false) = .ok b) ∧
      (∃ b, accumulate_and_merge _AggregatorMax.ProcessTreeNodePrediction
          _AggregatorMax.MergePrediction n leaves1 leaves2 = .ok b ∧
        accumulate_leaves _AggregatorMax.ProcessTreeNodePrediction (leaves1 ++ leaves2)
          (List.replicate n NTYPE.zero, List.replicate n false) = .ok b)) := by
  refine ⟨?_, fun hnum => ⟨?_, ?_⟩⟩
  · refine accumulate_and_merge_eq sum_weight Spec.upd_sum Spec.merge_sum
      _AggregatorSum.ProcessTreeNodePrediction _AggregatorSum.merge_entry
      _AggregatorSum.MergePrediction sum_weight_eq (fun _ _ _ => rfl) (fun _ _ _ _ _ => rfl)
      _AggregatorSum.merge_entry_eq_sum n leaves1 leaves2 hrange ?_
    intro i
    rw [Spec.track_merge_sum, Spec.track_append]
  · rw [Spec.accumulated_append] at hnum
    refine accumulate_and_merge_eq min_weight Spec.upd_min Spec.merge_min
      _AggregatorMin.ProcessTreeNodePrediction _AggregatorMin.merge_entry
      _AggregatorMin.MergePrediction min_weight_eq (fun _ _ _ => rfl) (fun _ _ _ _ _ => rfl)
      _AggregatorMin.merge_entry_eq_min n leaves1 leaves2 hrange ?_
    intro i
    rw [Spec.track_merge_min _ ?_ _ (fun w hw => hnum w (List.mem_append_right _ hw)),
      Spec.track_append]
    exact Spec.track_num Spec.upd_min
      (fun st w => by simp only [Spec.upd_min]; split <;> simp) i _ _ (by simp [NTYPE.zero])
      (fun w hw => hnum w (List.mem_append_left _ hw))
  · rw [Spec.accumulated_append] at hnum
    refine accumulate_and_merge_eq max_weight Spec.upd_max Spec.merge_max
      _AggregatorMax.ProcessTreeNodePrediction _AggregatorMax.merge_entry
      _AggregatorMax.MergePrediction max_weight_eq (fun _ _ _ => rfl) (fun _ _ _ _ _ => rfl)
      _AggregatorMax.merge_entry_eq_max n leaves1 leaves2 hrange ?_
    intro i
    rw [Spec.track_merge_max _ ?_ _ (fun w hw => hnum w (List.mem_append_right _ hw)),
      Spec.track_append]
    exact Spec.track_num Spec.upd_max
      (fun st w => by simp only [Spec.upd_max]; split <;> simp) i _ _ (by simp [NTYPE.zero])
      (fun w hw => hnum w (List.mem_append_left _ hw))

/-- The hypothesis on NaN in `C36_merge_equals_concatenation` is needed for MIN: with the
weights 3 in the first list and NaN in the second, for the same target, the merged buffer
holds NaN (the comparison `3 < NaN` is false) and the single buffer holds 3. -/
theorem merge_min_with_nan_weight :
    accumulate_and_merge _AggregatorMin.ProcessTreeNodePrediction
        _AggregatorMin.MergePrediction 1 [Example.leaf [{ i := 0, value := NTYPE.num 3 }]]
        [Example.leaf [{ i := 0, value := NTYPE.nan }]]
      = .ok ([NTYPE.nan], [true]) ∧
    accumulate_leaves _AggregatorMin.ProcessTreeNodePrediction
        ([Example.leaf [{ i := 0, value := NTYPE.num 3 }]]
          ++ [Example.leaf [{ i := 0, value := NTYPE.nan }]])
        (List.replicate 1 NTYPE.zero, List.replicate 1 false)
      = .ok ([NTYPE.num 3], [true]) := by
  constructor <;> decide!

/-- The theorem `C36_merge_equals_concatenation` at two targets, with the weights 2 and 7 in
the first list and 5 and 3 in the second: SUM gives `[7, 10]` both ways. -/
theorem C36_merge_equals_concatenation_witness :
    (∀ w ∈ Spec.accumulated
        ([Example.leaf [{ i := 0, value := NTYPE.num 2 }, { i := 1, value := NTYPE.num 7 }]]
          ++ [Example.leaf [{ i := 0, value := NTYPE.num 5 }, { i := 1, value := NTYPE.num 3 }]]),
      0 ≤ w.i ∧ w.i < ((2 : Nat) : Int)) ∧
    accumulate_and_merge _AggregatorSum.ProcessTreeNodePrediction
        _AggregatorSum.MergePrediction 2
        [Example.leaf [{ i := 0, value := NTYPE.num 2 }, { i := 1, value := NTYPE.num 7 }]]
        [Example.leaf [{ i := 0, value := NTYPE.num 5 }, { i := 1, value := NTYPE.num 3 }]]
      = .ok ([NTYPE.num 7, NTYPE.num 10], [true, true]) ∧
    ∃ b, accumulate_and_merge _AggregatorSum.ProcessTreeNodePrediction
        _AggregatorSum.MergePrediction 2
        [Example.leaf [{ i := 0, value := NTYPE.num 2 }, { i := 1, value := NTYPE.num 7 }]]
        [Example.leaf [{ i := 0, value := NTYPE.num 5 }, { i := 1, value := NTYPE.num 3 }]]
        = .ok b ∧
      accumulate_leaves _AggregatorSum.ProcessTreeNodePrediction
        ([Example.leaf [{ i := 0, value := NTYPE.num 2 }, { i := 1, value := NTYPE.num 7 }]]
          ++ [Example.leaf [{ i := 0, value := NTYPE.num 5 }, { i := 1, value := NTYPE.num 3 }]])
        (List.replicate 2 NTYPE.zero, List.replicate 2 false) = .ok b :=
  ⟨by decide, by decide!,
    (C36_merge_equals_concatenation 2
      [Example.leaf [{ i := 0, value := NTYPE.num 2 }, { i := 1, value := NTYPE.num 7 }]]
      [Example.leaf [{ i := 0, value := NTYPE.num 5 }, { i := 1, value := NTYPE.num 3 }]]
      (by decide)).1⟩

/-! ## A single base value in the binary finalization -/

namespace _AggregatorClassifier

/-- C32. The single-score routine `FinalizeScores1` discards a single base value: for every
aggregator, accumulated value and flag, the label and the arguments of `write_scores2` are
those obtained with empty base values; so does the binary branch of the flat classifier's
`compute`. The two-score routine `FinalizeScores` does not: it
adds the base value to `scores[0]`. With class labels 10 and 20, all weights positive, the
accumulated scores `[0.3, 0]` and the flags `[1, 0]`, the base value 1 gives the label 20 and
the score 1.3 (`add_second_class` 0), and empty base values give the label 10 and the score
0.3 (`add_second_class` 1). -/
theorem C32_two_score_routine_keeps_the_single_base_value :
    (∀ (n_trees : Nat) (n : Int) (post : POST_EVAL_TRANSFORM) (b0 : NTYPE)
        (class_labels : List Int) (binary_case all_positive : Bool)
        (positive_label negative_label : Int) (val : NTYPE) (has_score : Bool),
      (_AggregatorClassifier.new n_trees n post [b0] class_labels binary_case all_positive
          positive_label negative_label).FinalizeScores1 val has_score
        = (_AggregatorClassifier.new n_trees n post [] class_labels binary_case all_positive
            positive_label negative_label).FinalizeScores1 val has_score) ∧
    (∀ (c : RuntimeTreeEnsembleClassifier) (b0 : NTYPE) (classes : ClassMap),
      RuntimeTreeEnsembleClassifier.finalize_binary { c with base_values_ := [b0] } classes
        = RuntimeTreeEnsembleClassifier.finalize_binary { c with base_values_ := [] }
            classes) ∧
    (Example.binary_aggregator_with [NTYPE.num 1]).FinalizeScores
        [NTYPE.num (3 / 10), NTYPE.num 0] [true, false] (-1)
      = .ok (20, { scores := [NTYPE.num (13 / 10)],
                   post_transform := POST_EVAL_TRANSFORM.NONE, add_second_class := 0 }) ∧
    (Example.binary_aggregator_with []).FinalizeScores
        [NTYPE.num (3 / 10), NTYPE.num 0] [true, false] (-1)
      = .ok (10, { scores := [NTYPE.num (3 / 10)],
                   post_transform := POST_EVAL_TRANSFORM.NONE, add_second_class := 1 }) ∧
    (Example.binary_aggregator_with [NTYPE.num 1]).FinalizeScores1 (NTYPE.num (3 / 10)) true
      = .ok (10, { scores := [NTYPE.num (3 / 10)],
                   post_transform := POST_EVAL_TRANSFORM.NONE, add_second_class := 1 }) := by
  refine ⟨?_, fun _ _ _ => rfl, by decide!, by decide!, by decide!⟩
  intro n_trees n post b0 class_labels binary_case all_positive positive_label negative_label
    val has_score
  rfl

end _AggregatorClassifier

/-! ## The number of iterations of the descent loops -/

/-- A loop whose condition is false does no iteration. -/
theorem while_loop_stop {σ : Type} (cond : σ → Result Bool) (body : σ → Result σ) (s : σ)
    (hc : cond s = .ok false) :
    ∀ fuel, while_loop cond body fuel s = .ok (some (s, 0)) := by
  intro fuel
  cases fuel <;> simp [while_loop, hc, bind, Except.bind, pure, Except.pure]

/-- A loop whose condition is true does one iteration and goes on from the new state. -/
theorem while_loop_step {σ : Type} (cond : σ → Result Bool) (body : σ → Result σ) (s s2 : σ)
    (hc : cond s = .ok true) (hb : body s = .ok s2) (fuel : Nat) (s3 : σ) (k : Nat)
    (hrun : while_loop cond body fuel s2 = .ok (some (s3, k))) :
    while_loop cond body (fuel + 1) s = .ok (some (s3, k + 1)) := by
  simp [while_loop, hc, hb, hrun, bind, Except.bind, pure, Except.pure]

namespace RuntimeTreeEnsembleRegressorP

theorem deref_some (nodes : List TreeNodeElement) (root : Nat) (h : root < nodes.length) :
    deref nodes (some root) = .ok nodes[root] := by
  simp [deref, vec_at, List.getElem?_eq_getElem h]

/-- The loops of `TREE_FIND_VALUE`, entered with `loopcount = c - 1`, on nodes whose branch
nodes have resolved children: the loop stops within `c` iterations, at the node the walker
`TREE_FIND_VALUE_loop` returns. -/
theorem TREE_FIND_VALUE_while (nodes : List TreeNodeElement) (hres : ResolvedChildren nodes)
    (next : TreeNodeElement → Option Nat)
    (hnext : ∀ n, next n = n.truenode ∨ next n = n.falsenode) :
    ∀ (c : Nat) (root : Nat), root < nodes.length → ∀ fuel, c ≤ fuel →
      ∃ (stop : Nat) (cnt : Int) (k : Nat),
        while_loop (TREE_FIND_VALUE_cond nodes) (TREE_FIND_VALUE_body nodes next) fuel
          (some root, (c : Int) - 1) = .ok (some ((some stop, cnt), k)) ∧
        k ≤ c ∧ stop < nodes.length ∧
        TREE_FIND_VALUE_loop nodes next c (some root) = .ok (some stop) := by
  intro c
  induction c with
  | zero =>
    intro root hroot fuel _
    have hc : TREE_FIND_VALUE_cond nodes (some root, ((0 : Nat) : Int) - 1) = .ok false := by
      simp [TREE_FIND_VALUE_cond, deref_some nodes root hroot, bind, Except.bind, pure,
        Except.pure]
    refine ⟨root, ((0 : Nat) : Int) - 1, 0, ?_, le_refl _, hroot, ?_⟩
    · exact while_loop_stop _ _ _ hc fuel
    · simp [TREE_FIND_VALUE_loop, deref_some nodes root hroot, bind, Except.bind, pure,
        Except.pure]
  | succ c ih =>
    intro root hroot fuel hfuel
    by_cases hleaf : nodes[root].mode = NODE_MODE.LEAF
    · have hc : TREE_FIND_VALUE_cond nodes (some root, ((c + 1 : Nat) : Int) - 1)
          = .ok false := by
        simp [TREE_FIND_VALUE_cond, deref_some nodes root hroot, hleaf, bind, Except.bind,
          pure, Except.pure]
      refine ⟨root, ((c + 1 : Nat) : Int) - 1, 0, ?_, Nat.zero_le _, hroot, ?_⟩
      · exact while_loop_stop _ _ _ hc fuel
      · simp [TREE_FIND_VALUE_loop, deref_some nodes root hroot, hleaf, bind, Except.bind,
          pure, Except.pure]
    · have hc : TREE_FIND_VALUE_cond nodes (some root, ((c + 1 : Nat) : Int) - 1)
          = .ok true := by
        have : (0 : Int) ≤ (c : Int) := Int.ofNat_nonneg c
        simp [TREE_FIND_VALUE_cond, deref_some nodes root hroot, hleaf, bind, Except.bind,
          pure, Except.pure, this]
      obtain ⟨⟨t, ht, htl⟩, ⟨f, hf, hfl⟩⟩ :=
        hres root nodes[root] (List.getElem?_eq_getElem hroot) hleaf
      obtain ⟨r2, hr2, hr2l⟩ : ∃ r2, next nodes[root] = some r2 ∧ r2 < nodes.length := by
        rcases hnext nodes[root] with h | h
        · exact ⟨t, h.trans ht, htl⟩
        · exact ⟨f, h.trans hf, hfl⟩
      have hb : TREE_FIND_VALUE_body nodes next (some root, ((c + 1 : Nat) : Int) - 1)
          = .ok (some r2, (c : Int) - 1) := by
        simp [TREE_FIND_VALUE_body, deref_some nodes root hroot, hr2, bind, Except.bind, pure,
          Except.pure]
      cases fuel with
      | zero => exact absurd hfuel (by omega)
      | succ fuel =>
        obtain ⟨stop, cnt, k, hrun, hk, hstop, hloop⟩ := ih r2 hr2l fuel (by omega)
        refine ⟨stop, cnt, k + 1, ?_, by omega, hstop, ?_⟩
        · exact while_loop_step _ _ _ _ hc hb fuel _ k hrun
        · simp only [TREE_FIND_VALUE_loop, deref_some nodes root hroot, bind, Except.bind,
            if_neg hleaf, hr2]
          exact hloop

theorem general_next_resolved (x_data : Int → NTYPE) (n : TreeNodeElement)
    (h : n.mode ≠ NODE_MODE.LEAF) :
    general_next x_data n = .ok n.truenode ∨ general_next x_data n = .ok n.falsenode := by
  unfold general_next
  cases hm : n.mode
  case LEAF => exact absurd hm h
  all_goals
    simp only [pure, Except.pure]
    split
    · exact Or.inl rfl
    · exact Or.inr rfl

/-- The general loop, entered with `loopcount = max_tree_depth_ + 1 - c`, on nodes whose
branch nodes have resolved children: the loop stops within `c` iterations, at the node the
walker `general_loop` returns. -/
theorem general_while (nodes : List TreeNodeElement) (hres : ResolvedChildren nodes)
    (x_data : Int → NTYPE) (max_tree_depth_ : Int) :
    ∀ (c : Nat) (root : Nat), root < nodes.length → ∀ fuel, c ≤ fuel →
      ∃ (stop : Nat) (cnt : Int) (k : Nat),
        while_loop (general_cond nodes max_tree_depth_) (general_body nodes x_data) fuel
          (some root, max_tree_depth_ + 1 - (c : Int)) = .ok (some ((some stop, cnt), k)) ∧
        k ≤ c ∧ stop < nodes.length ∧
        general_loop nodes x_data c (some root) = .ok (some stop) := by
  intro c
  induction c with
  | zero =>
    intro root hroot fuel _
    have hc : general_cond nodes max_tree_depth_
        (some root, max_tree_depth_ + 1 - ((0 : Nat) : Int)) = .ok false := by
      simp [general_cond, deref_some nodes root hroot, bind, Except.bind, pure, Except.pure]
    refine ⟨root, max_tree_depth_ + 1 - ((0 : Nat) : Int), 0, ?_, le_refl _, hroot, ?_⟩
    · exact while_loop_stop _ _ _ hc fuel
    · simp [general_loop, deref_some nodes root hroot, bind, Except.bind, pure, Except.pure]
  | succ c ih =>
    intro root hroot fuel hfuel
    by_cases hleaf : nodes[root].mode = NODE_MODE.LEAF
    · have hc : general_cond nodes max_tree_depth_
          (some root, max_tree_depth_ + 1 - ((c + 1 : Nat) : Int)) = .ok false := by
        simp [general_cond, deref_some nodes root hroot, hleaf, bind, Except.bind, pure,
          Except.pure]
      refine ⟨root, max_tree_depth_ + 1 - ((c + 1 : Nat) : Int), 0, ?_, Nat.zero_le _, hroot,
        ?_⟩
      · exact while_loop_stop _ _ _ hc fuel
      · simp [general_loop, deref_some nodes root hroot, hleaf, bind, Except.bind, pure,
          Except.pure]
    · have hle : max_tree_depth_ + 1 - ((c + 1 : Nat) : Int) ≤ max_tree_depth_ := by
        push_cast
        have : (0 : Int) ≤ (c : Int) := Int.ofNat_nonneg c
        omega
      have hc : general_cond nodes max_tree_depth_
          (some root, max_tree_depth_ + 1 - ((c + 1 : Nat) : Int)) = .ok true := by
        simp only [general_cond, deref_some nodes root hroot, bind, Except.bind, pure,
          Except.pure]
        simp [hleaf, hle]
      obtain ⟨⟨t, ht, htl⟩, ⟨f, hf, hfl⟩⟩ :=
        hres root nodes[root] (List.getElem?_eq_getElem hroot) hleaf
      obtain ⟨r2, hr2, hr2l⟩ : ∃ r2, general_next x_data nodes[root] = .ok (some r2)
          ∧ r2 < nodes.length := by
        rcases general_next_resolved x_data nodes[root] hleaf with h | h
        · exact ⟨t, by rw [h, ht], htl⟩
        · exact ⟨f, by rw [h, hf], hfl⟩
      have hcnt : max_tree_depth_ + 1 - ((c + 1 : Nat) : Int) + 1
          = max_tree_depth_ + 1 - (c : Int) := by
        push_cast
        omega
      have hb : general_body nodes x_data
          (some root, max_tree_depth_ + 1 - ((c + 1 : Nat) : Int))
          = .ok (some r2, max_tree_depth_ + 1 - (c : Int)) := by
        simp only [general_body, deref_some nodes root hroot, hr2, bind, Except.bind, pure,
          Except.pure, hcnt]
      cases fuel with
      | zero => exact absurd hfuel (by omega)
      | succ fuel =>
        obtain ⟨stop, cnt, k, hrun, hk, hstop, hloop⟩ := ih r2 hr2l fuel (by omega)
        refine ⟨stop, cnt, k + 1, ?_, by omega, hstop, ?_⟩
        · exact while_loop_step _ _ _ _ hc hb fuel _ k hrun
        · simp only [general_loop, deref_some nodes root hroot, bind, Except.bind,
            if_neg hleaf, hr2]
          exact hloop

end RuntimeTreeEnsembleRegressorP

namespace RuntimeTreeEnsembleClassifier

/-- On node arrays with resolved children, one step of the flat walker from a branch node
reads inside the arrays and yields a child id that, taken from the root, is a position of
the node arrays. -/
theorem next_index_resolved (self : RuntimeTreeEnsembleClassifier) (x_data : Int → NTYPE)
    (feature_base root : Int) (hres : ResolvedFrom self root) (i : Nat) (m : NODE_MODE)
    (hm : self.nodes_modes_[i]? = some m) (hleaf : m ≠ NODE_MODE.LEAF) :
    ∃ (t : Int) (j : Nat), next_index self x_data feature_base m (i : Int) = .ok t ∧
      t + root = (j : Int) ∧ j < self.nodes_modes_.length := by
  obtain ⟨h1, h2, h3, h4, hch⟩ := hres
  have hi : i < self.nodes_modes_.length := (List.getElem?_eq_some_iff.mp hm).1
  have hi1 : i < self.nodes_featureids_.length := h1 ▸ hi
  have hi2 : i < self.nodes_values_.length := h2 ▸ hi
  have hi3 : i < self.nodes_truenodeids_.length := h3 ▸ hi
  have hi4 : i < self.nodes_falsenodeids_.length := h4 ▸ hi
  obtain ⟨⟨ht0, ht1⟩, ⟨hf0, hf1⟩⟩ := hch i m self.nodes_truenodeids_[i]
    self.nodes_falsenodeids_[i] hm hleaf (List.getElem?_eq_getElem hi3)
    (List.getElem?_eq_getElem hi4)
  obtain ⟨jt, hjt⟩ := Int.eq_ofNat_of_zero_le ht0
  obtain ⟨jf, hjf⟩ := Int.eq_ofNat_of_zero_le hf0
  have hjtl : jt < self.nodes_modes_.length := by rw [hjt] at ht1; exact_mod_cast ht1
  have hjfl : jf < self.nodes_modes_.length := by rw [hjf] at hf1; exact_mod_cast hf1
  have hor : ∀ r : Result Int,
      (r = .ok self.nodes_truenodeids_[i] ∨ r = .ok self.nodes_falsenodeids_[i]) →
      ∃ (t : Int) (j : Nat), r = .ok t ∧ t + root = (j : Int) ∧
        j < self.nodes_modes_.length := by
    intro r hr
    rcases hr with h | h
    · exact ⟨_, jt, h, hjt, hjtl⟩
    · exact ⟨_, jf, h, hjf, hjfl⟩
  apply hor
  have htake : ∀ b : Bool,
      (if b = true then vec_at_int self.nodes_truenodeids_ (i : Int)
        else vec_at_int self.nodes_falsenodeids_ (i : Int))
        = .ok self.nodes_truenodeids_[i] ∨
      (if b = true then vec_at_int self.nodes_truenodeids_ (i : Int)
        else vec_at_int self.nodes_falsenodeids_ (i : Int))
        = .ok self.nodes_falsenodeids_[i] := by
    intro b
    cases b
    · exact Or.inr (by simp [vec_at_int_ofNat, hi4])
    · exact Or.inl (by simp [vec_at_int_ofNat, hi3])
  unfold next_index
  rw [vec_at_int_ofNat _ _ hi1, vec_at_int_ofNat _ _ hi2]
  by_cases hlen : self.missing_tracks_true_.length ≠ self.nodes_truenodeids_.length
  · simp only [if_pos hlen, bind, Except.bind, pure, Except.pure]
    cases m <;> first | exact absurd rfl hleaf | exact htake _
  · have hi5 : i < self.missing_tracks_true_.length := by
      have := not_not.mp hlen
      omega
    simp only [if_neg hlen, vec_at_int_ofNat _ _ hi5, bind, Except.bind, pure, Except.pure]
    cases m <;> first | exact absurd rfl hleaf | exact htake _

/-- The descent loop of the flat walker, entered with `loopcount = kMaxTreeDepth_ - c`, on
node arrays with resolved children: the loop stops within `c + 1` iterations, at the
position the walker `descend` returns. -/
theorem descend_while (self : RuntimeTreeEnsembleClassifier) (x_data : Int → NTYPE)
    (feature_base root : Int) (hres : ResolvedFrom self root) :
    ∀ (c : Nat) (i : Nat) (m : NODE_MODE), self.nodes_modes_[i]? = some m →
      ∀ fuel, c + 1 ≤ fuel →
      ∃ (st : DescentState) (k : Nat),
        while_loop descend_cond (descend_body self x_data feature_base root) fuel
          { mode := m, treeindex := (i : Int), loopcount := kMaxTreeDepth_ - (c : Int),
            broke := false } = .ok (some (st, k)) ∧
        k ≤ c + 1 ∧
        descend self x_data feature_base root c m (i : Int) = .ok st.treeindex := by
  intro c
  induction c with
  | zero =>
    intro i m hm fuel hfuel
    by_cases hleaf : m = NODE_MODE.LEAF
    · refine ⟨_, 0, while_loop_stop _ _ _ ?_ fuel, Nat.zero_le _, ?_⟩
      · simp [descend_cond, hleaf, pure, Except.pure]
      · simp [descend, hleaf, pure, Except.pure]
    · obtain ⟨t, j, ht, hj, hjl⟩ :=
        next_index_resolved self x_data feature_base root hres i m hm hleaf
      have hmode : vec_at_int self.nodes_modes_ (t + root) = .ok self.nodes_modes_[j] := by
        rw [hj]
        exact vec_at_int_ofNat _ _ hjl
      have hc : descend_cond
          { mode := m, treeindex := (i : Int), loopcount := kMaxTreeDepth_ - ((0 : Nat) : Int),
            broke := false } = .ok true := by
        simp [descend_cond, hleaf, pure, Except.pure]
      have hb : descend_body self x_data feature_base root
          { mode := m, treeindex := (i : Int), loopcount := kMaxTreeDepth_ - ((0 : Nat) : Int),
            broke := false }
          = .ok { mode := self.nodes_modes_[j], treeindex := t + root,
                  loopcount := kMaxTreeDepth_ - ((0 : Nat) : Int) + 1, broke := true } := by
        simp only [descend_body, ht, hmode, bind, Except.bind, pure, Except.pure]
        simp
      cases fuel with
      | zero => exact absurd hfuel (by omega)
      | succ fuel =>
        refine ⟨_, 1, while_loop_step _ _ _ _ hc hb fuel _ 0
          (while_loop_stop _ _ _ ?_ fuel), le_refl _, ?_⟩
        · simp [descend_cond, pure, Except.pure]
        · simp only [descend, if_neg hleaf, ht, hmode, bind, Except.bind, pure, Except.pure]
  | succ c ih =>
    intro i m hm fuel hfuel
    by_cases hleaf : m = NODE_MODE.LEAF
    · refine ⟨_, 0, while_loop_stop _ _ _ ?_ fuel, Nat.zero_le _, ?_⟩
      · simp [descend_cond, hleaf, pure, Except.pure]
      · simp [descend, hleaf, pure, Except.pure]
    · obtain ⟨t, j, ht, hj, hjl⟩ :=
        next_index_resolved self x_data feature_base root hres i m hm hleaf
      have hmode : vec_at_int self.nodes_modes_ (t + root) = .ok self.nodes_modes_[j] := by
        rw [hj]
        exact vec_at_int_ofNat _ _ hjl
      have hc : descend_cond
          { mode := m, treeindex := (i : Int), loopcount := kMaxTreeDepth_ - ((c + 1 : Nat) : Int),
            broke := false } = .ok true := by
        simp [descend_cond, hleaf, pure, Except.pure]
      have hcnt : kMaxTreeDepth_ - ((c + 1 : Nat) : Int) + 1 = kMaxTreeDepth_ - (c : Int) := by
        push_cast
        omega
      have hnb : decide (kMaxTreeDepth_ - (c : Int) > kMaxTreeDepth_) = false := by
        have : (0 : Int) ≤ (c : Int) := Int.ofNat_nonneg c
        simp only [decide_eq_false_iff_not, gt_iff_lt, not_lt]
        omega
      have hb : descend_body self x_data feature_base root
          { mode := m, treeindex := (i : Int), loopcount := kMaxTreeDepth_ - ((c + 1 : Nat) : Int),
            broke := false }
          = .ok { mode := self.nodes_modes_[j], treeindex := (j : Int),
                  loopcount := kMaxTreeDepth_ - (c : Int), broke := false } := by
        simp only [descend_body, ht, bind, Except.bind, pure, Except.pure, hcnt, hnb, hj,
          vec_at_int_ofNat _ _ hjl]
      cases fuel with
      | zero => exact absurd hfuel (by omega)
      | succ fuel =>
        obtain ⟨st, k, hrun, hk, hd⟩ := ih j self.nodes_modes_[j]
          (List.getElem?_eq_getElem hjl) fuel (by omega)
        refine ⟨st, k + 1, while_loop_step _ _ _ _ hc hb fuel _ k hrun, by omega, ?_⟩
        simp only [descend, if_neg hleaf, ht, bind, Except.bind, hj, vec_at_int_ofNat _ _ hjl]
        exact hd

end RuntimeTreeEnsembleClassifier

namespace RuntimeTreeEnsembleRegressorP

/-- C34. For every ensemble built by `init` whose branch nodes all have resolved children
(child links that form a cycle included), every row and every root: run as they are written,
with their counters, the loops of `TREE_FIND_VALUE` (any comparator, entered with
`loopcount = max_tree_depth_`) and the general loop (entered with `loopcount = 0`) stop after
at most `max_tree_depth_ + 1 = 1001` iterations, at the node the walkers of the embedding
return. The same holds of the descent loop of the flat classifier walker on node arrays with
resolved children (entered with `loopcount = 0`, left by the `break` when `loopcount`
exceeds `kMaxTreeDepth_ = 1000`). `fuel` only bounds the run of `while_loop` from above. -/
theorem C34_descent_stops_within_1001_iterations (a : Attributes)
    (self : RuntimeTreeEnsembleRegressorP) (h : init a = .ok self)
    (hres : ResolvedChildren self.nodes_) (x_data : Int → NTYPE) (root : Nat)
    (hroot : root < self.nodes_.length) (fuel : Nat) (hfuel : 1001 ≤ fuel) :
    self.max_tree_depth_ + 1 = 1001 ∧
    (∀ CMP : NTYPE → NTYPE → Bool, ∃ (stop : Nat) (cnt : Int) (k : Nat),
      while_loop (TREE_FIND_VALUE_cond self.nodes_)
          (TREE_FIND_VALUE_body self.nodes_
            (if self.has_missing_tracks_ then TREE_FIND_VALUE_next_tracked CMP x_data
             else TREE_FIND_VALUE_next_plain CMP x_data))
          fuel (some root, self.max_tree_depth_) = .ok (some ((some stop, cnt), k)) ∧
      k ≤ 1001 ∧ stop < self.nodes_.length ∧
      TREE_FIND_VALUE self CMP x_data (some root) = .ok (some stop)) ∧
    (∃ (stop : Nat) (cnt : Int) (k : Nat),
      while_loop (general_cond self.nodes_ self.max_tree_depth_)
          (general_body self.nodes_ x_data) fuel (some root, 0)
        = .ok (some ((some stop, cnt), k)) ∧
      k ≤ 1001 ∧ stop < self.nodes_.length ∧
      general_loop self.nodes_ x_data (self.max_tree_depth_ + 1).toNat (some root)
        = .ok (some stop)) ∧
    (∀ (c : RuntimeTreeEnsembleClassifier) (feature_base : Int) (r : Nat) (m : NODE_MODE),
      c.ResolvedFrom (r : Int) → c.nodes_modes_[r]? = some m →
      ∃ (st : RuntimeTreeEnsembleClassifier.DescentState) (k : Nat),
        while_loop RuntimeTreeEnsembleClassifier.descend_cond
            (c.descend_body x_data feature_base (r : Int)) fuel
            { mode := m, treeindex := (r : Int), loopcount := 0, broke := false }
          = .ok (some (st, k)) ∧
        k ≤ 1001 ∧
        c.descend x_data feature_base (r : Int)
            RuntimeTreeEnsembleClassifier.kMaxTreeDepth_.toNat m (r : Int)
          = .ok st.treeindex) := by
  obtain ⟨_, _, _, _, _, _, _, _, _, _, _, _, _, _, _, _, _, _, hdepth⟩ := init_stages a self h
  have hd1 : (self.max_tree_depth_ + 1).toNat = 1001 := by rw [hdepth]; rfl
  have hd2 : self.max_tree_depth_ = ((1001 : Nat) : Int) - 1 := by rw [hdepth]; rfl
  have hd3 : (0 : Int) = self.max_tree_depth_ + 1 - ((1001 : Nat) : Int) := by
    rw [hdepth]; rfl
  refine ⟨by rw [hdepth]; rfl, ?_, ?_, ?_⟩
  · intro CMP
    have hnext : ∀ n : TreeNodeElement,
        (if self.has_missing_tracks_ then TREE_FIND_VALUE_next_tracked CMP x_data
          else TREE_FIND_VALUE_next_plain CMP x_data) n = n.truenode ∨
        (if self.has_missing_tracks_ then TREE_FIND_VALUE_next_tracked CMP x_data
          else TREE_FIND_VALUE_next_plain CMP x_data) n = n.falsenode := by
      intro n
      cases self.has_missing_tracks_
      · simp only [Bool.false_eq_true, if_false, TREE_FIND_VALUE_next_plain]
        split
        · exact Or.inl rfl
        · exact Or.inr rfl
      · simp only [if_true, TREE_FIND_VALUE_next_tracked]
        split
        · exact Or.inl rfl
        · exact Or.inr rfl
    obtain ⟨stop, cnt, k, hrun, hk, hstop, hloop⟩ :=
      TREE_FIND_VALUE_while self.nodes_ hres _ hnext 1001 root hroot fuel hfuel
    refine ⟨stop, cnt, k, ?_, hk, hstop, ?_⟩
    · rw [hd2]; exact hrun
    · unfold TREE_FIND_VALUE
      rw [hd1]
      cases hmt : self.has_missing_tracks_
      · rw [hmt] at hloop
        simpa using hloop
      · rw [hmt] at hloop
        simpa using hloop
  · obtain ⟨stop, cnt, k, hrun, hk, hstop, hloop⟩ :=
      general_while self.nodes_ hres x_data self.max_tree_depth_ 1001 root hroot fuel hfuel
    refine ⟨stop, cnt, k, ?_, hk, hstop, ?_⟩
    · rw [hd3]; exact hrun
    · rw [hd1]; exact hloop
  · intro c feature_base r m hresc hm
    obtain ⟨st, k, hrun, hk, hd⟩ :=
      RuntimeTreeEnsembleClassifier.descend_while c x_data feature_base r hresc 1000 r m hm
        fuel hfuel
    exact ⟨st, k, hrun, hk, hd⟩

/-- The theorem `C34_descent_stops_within_1001_iterations` at the ensemble whose two branch
nodes point at each other (a cycle that `init` accepts), on the row of zeros, from the root
and with room for 2000 iterations. -/
theorem C34_descent_stops_within_1001_iterations_witness :
    init (Example.two_cycle 1)
      = .ok (Example.two_cycle_ensemble [] [{ i := 0, value := NTYPE.num 5 }]) ∧
    ResolvedChildren (Example.two_cycle_ensemble [] [{ i := 0, value := NTYPE.num 5 }]).nodes_ ∧
    (0 : Nat) < (Example.two_cycle_ensemble [] [{ i := 0, value := NTYPE.num 5 }]).nodes_.length ∧
    1001 ≤ 2000 ∧
    ∃ (stop : Nat) (cnt : Int) (k : Nat),
      while_loop
          (general_cond (Example.two_cycle_ensemble [] [{ i := 0, value := NTYPE.num 5 }]).nodes_
            (Example.two_cycle_ensemble [] [{ i := 0, value := NTYPE.num 5 }]).max_tree_depth_)
          (general_body (Example.two_cycle_ensemble [] [{ i := 0, value := NTYPE.num 5 }]).nodes_
            Example.zero_row) 2000 (some 0, 0)
        = .ok (some ((some stop, cnt), k)) ∧
      k ≤ 1001 := by
  have hres : ResolvedChildren
      (Example.two_cycle_ensemble [] [{ i := 0, value := NTYPE.num 5 }]).nodes_ := by
    intro i nd hnd _
    match i, hnd with
    | 0, hnd =>
      cases Option.some.inj hnd
      exact ⟨⟨1, rfl, by decide⟩, ⟨1, rfl, by decide⟩⟩
    | 1, hnd =>
      cases Option.some.inj hnd
      exact ⟨⟨0, rfl, by decide⟩, ⟨0, rfl, by decide⟩⟩
    | i + 2, hnd => cases hnd
  have hinit : init (Example.two_cycle 1)
      = .ok (Example.two_cycle_ensemble [] [{ i := 0, value := NTYPE.num 5 }]) := by decide!
  refine ⟨hinit, hres, by decide, by decide, ?_⟩
  obtain ⟨stop, cnt, k, hrun, hk, _⟩ :=
    (C34_descent_stops_within_1001_iterations (Example.two_cycle 1)
      (Example.two_cycle_ensemble [] [{ i := 0, value := NTYPE.num 5 }]) hinit hres
      Example.zero_row 0 (by decide) 2000 (by decide)).2.2.1
  exact ⟨stop, cnt, k, hrun, hk⟩

end RuntimeTreeEnsembleRegressorP

/-! ## The specialised descent against the general descent -/

namespace RuntimeTreeEnsembleRegressorP

end RuntimeTreeEnsembleRegressorP

namespace RuntimeTreeEnsembleRegressorP

end RuntimeTreeEnsembleRegressorP

/-! ## The rows of `compute` -/

/-- Collecting one value per element and joining the singletons gives the list of values. -/
theorem mapM_singleton_join {α β : Type} (f : α → Result β) :
    ∀ (l : List α),
      (l.mapM (fun i => do let v ← f i; pure [v]) >>= fun rows => pure rows.flatten)
        = l.mapM f := by
  intro l
  induction l with
  | nil => rfl
  | cons x rest ih =>
    simp only [List.mapM_cons, bind_assoc, pure_bind]
    rw [← ih]
    cases f x with
    | error e => rfl
    | ok v =>
      generalize List.mapM (fun i => do let v ← f i; pure [v]) rest = R
      cases R <;> rfl

theorem ZStore.shift_zero (s : ZStore) : ZStore.shift 0 s = s := by
  cases s <;> simp [ZStore.shift]

namespace RuntimeTreeEnsembleRegressorP

/-- The stores of the one-row call of `compute_gil_free` on row `i`, moved to the place of
row `i` in `Z`, are the store of iteration `i` of the loops over the rows. -/
theorem compute_gil_free_row (self : RuntimeTreeEnsembleRegressorP)
    (hnb : self.nbtrees_.toNat = self.roots_.length) (stride : Int) (x_data : Int → NTYPE)
    (i : Nat) :
    (do
      let r ← compute_gil_free self 1 stride (fun k => x_data ((i : Int) * stride + k))
      pure (r.map (ZStore.shift ((i : Int) * self.n_targets_))))
    = (do
      let v ← row_store self stride x_data i
      pure [v]) := by
  unfold compute_gil_free row_store
  by_cases hn : self.n_targets_ = 1
  · by_cases hb : self.base_values_.length = 1 <;>
      simp only [if_pos hn, if_true, bind_assoc, pure_bind, List.map_cons, List.map_nil,
        ZStore.shift, hn, mul_one, zero_add, hb, if_false]
  · simp only [if_neg hn, if_true, bind_assoc, pure_bind, List.map_cons, List.map_nil,
      ZStore.shift, zero_add, hnb]

/-- The loops over the rows of `compute_gil_free`, taken for `N != 1`, store the value of
`row_store` for every row. -/
theorem compute_gil_free_loop (self : RuntimeTreeEnsembleRegressorP) (N stride : Int)
    (x_data : Int → NTYPE) (h1 : N ≠ 1) :
    compute_gil_free self N stride x_data
      = (List.range N.toNat).mapM (row_store self stride x_data) := by
  unfold compute_gil_free row_store
  by_cases hn : self.n_targets_ = 1
  · simp only [if_pos hn, if_neg h1]
    by_cases hb : self.base_values_.length = 1
    · have hv : vec_at self.base_values_ 0 = .ok self.base_values_[0] := by
        simp [vec_at, List.getElem?_eq_getElem, hb]
      simp only [if_pos hb, hv, bind, Except.bind]
    · simp only [if_neg hb, pure_bind]
  · simp only [if_neg hn, if_neg h1]

/-- The method `compute_gil_free` on `N >= 1` rows stores, row after row, what its one-row
call stores for each row, moved to the place of the row in `Z`. -/
theorem compute_gil_free_rows (self : RuntimeTreeEnsembleRegressorP)
    (hnb : self.nbtrees_.toNat = self.roots_.length) (N stride : Int) (x_data : Int → NTYPE)
    (hN : 1 ≤ N) :
    compute_gil_free self N stride x_data
      = (do
        let rows ← (List.range N.toNat).mapM (fun (i : Nat) => do
          let r ← compute_gil_free self 1 stride (fun k => x_data ((i : Int) * stride + k))
          pure (r.map (ZStore.shift ((i : Int) * self.n_targets_))))
        pure rows.flatten) := by
  have hfun : (fun i : Nat => do
        let r ← compute_gil_free self 1 stride (fun k => x_data ((i : Int) * stride + k))
        pure (r.map (ZStore.shift ((i : Int) * self.n_targets_))))
      = (fun i : Nat => do
        let v ← row_store self stride x_data i
        pure [v]) := by
    funext i
    exact compute_gil_free_row self hnb stride x_data i
  rw [hfun, mapM_singleton_join]
  by_cases h1 : N = 1
  · subst h1
    have hx : (fun k => x_data (((0 : Nat) : Int) * stride + k)) = x_data := by
      funext k
      simp
    have hrow := compute_gil_free_row self hnb stride x_data 0
    rw [hx] at hrow
    have hr : List.range (1 : Int).toNat = [0] := rfl
    rw [hr, List.mapM_cons, List.mapM_nil]
    have hs : ∀ r : List ZStore,
        r.map (ZStore.shift (((0 : Nat) : Int) * self.n_targets_)) = r := by
      intro r
      have h0 : ((0 : Nat) : Int) * self.n_targets_ = 0 := by simp
      rw [h0]
      induction r with
      | nil => rfl
      | cons s rest ih => rw [List.map_cons, ih, ZStore.shift_zero]
    simp only [hs] at hrow
    cases hc : compute_gil_free self 1 stride x_data with
    | error e =>
      rw [hc] at hrow
      cases hv : row_store self stride x_data 0 with
      | error e2 =>
        rw [hv] at hrow
        exact hrow
      | ok v =>
        rw [hv] at hrow
        cases hrow
    | ok r =>
      rw [hc] at hrow
      cases hv : row_store self stride x_data 0 with
      | error e2 =>
        rw [hv] at hrow
        cases hrow
      | ok v =>
        rw [hv] at hrow
        exact hrow
  · exact compute_gil_free_loop self N stride x_data h1

/-- The method `compute` on a 2-D array of shape `(N, F)`: `compute_gil_free` when the array
has elements, the exception of the shape test otherwise. -/
theorem compute_of_shape (self : RuntimeTreeEnsembleRegressorP) (X : PyArray) (N F : Int)
    (hshape : X.shape = [N, F]) :
    compute self X
      = if 0 < N * F then compute_gil_free self N F X.data
        else .error (.runtime_error .must_have_2_dimensions) := by
  have hsize : X.size = N * F := by
    simp [PyArray.size, hshape]
  unfold compute arrayshape2vector
  by_cases hpos : 0 < N * F
  · simp [hsize, hpos, hshape, vec_at, bind, Except.bind, pure, Except.pure]
  · simp [hsize, hpos, throw, throwThe, MonadExceptOf.throw]

/-- C37. For every ensemble built by `RuntimeTreeEnsembleRegressorP::init` with
`n_targets_ >= 1` and every 2-D input `X` of shape `(N, F)` with `N >= 1`, `compute` executed
sequentially returns what the calls of `compute` on the one-row matrices of the rows of `X`
return, row after row: the stores into `Z` of row `i` are those of the call on row `i`, moved
by `i * n_targets_` entries, and the first row on which the one-row call fails makes the call
on `X` fail the same way. The `N == 1` path and the `N > 1` path agree, in the branch
`n_targets_ == 1` and in the other branch, and every row starts from zeroed scores. -/
theorem C37_rows_are_computed_independently (a : Attributes)
    (self : RuntimeTreeEnsembleRegressorP) (h : init a = .ok self)
    (_hn : 1 ≤ self.n_targets_) (X : PyArray) (N F : Int) (hshape : X.shape = [N, F])
    (hN : 1 ≤ N) :
    compute self X
      = (do
        let rows ← (List.range N.toNat).mapM (fun (i : Nat) => do
          let r ← compute self (X.row F i)
          pure (r.map (ZStore.shift ((i : Int) * self.n_targets_))))
        pure rows.flatten) := by
  obtain ⟨_, _, _, _, roots, _, _, _, _, _, _, hroots, _, hnbt, _⟩ := init_stages a self h
  have hnb : self.nbtrees_.toNat = self.roots_.length := by
    rw [hnbt, hroots]
    rfl
  have hNnat : N.toNat = (N.toNat - 1) + 1 := by omega
  have hrowshape : ∀ i : Nat, (X.row F i).shape = [1, F] := fun _ => rfl
  by_cases hF : 0 < F
  · have hrow : ∀ i : Nat, compute self (X.row F i)
        = compute_gil_free self 1 F (fun k => X.data ((i : Int) * F + k)) := by
      intro i
      rw [compute_of_shape self (X.row F i) 1 F (hrowshape i), if_pos (by omega)]
      rfl
    rw [compute_of_shape self X N F hshape, if_pos (Int.mul_pos (by omega) hF),
      compute_gil_free_rows self hnb N F X.data hN]
    simp only [hrow]
  · have hrow0 : compute self (X.row F 0)
        = .error (.runtime_error .must_have_2_dimensions) := by
      rw [compute_of_shape self (X.row F 0) 1 F (hrowshape 0), if_neg (by omega)]
    have hle : ¬ (0 < N * F) := by
      have := Int.mul_nonpos_of_nonneg_of_nonpos (show (0 : Int) ≤ N by omega)
        (show F ≤ 0 by omega)
      omega
    rw [compute_of_shape self X N F hshape, if_neg hle, hNnat, List.range_succ_eq_map,
      List.mapM_cons, hrow0]
    rfl

end RuntimeTreeEnsembleRegressorP

namespace RuntimeTreeEnsembleRegressorP

/-- The theorem `C37_rows_are_computed_independently` at the ensemble of two single-leaf trees
(weights 3 and 5, base value 1, SUM) and a matrix of two rows and one column: both rows give
9, stored at `Z[0]` and `Z[1]`. -/
theorem C37_rows_are_computed_independently_witness :
    init (Example.two_tree_regressor "SUM")
      = .ok (Example.two_tree_ensemble AGGREGATE_FUNCTION.SUM) ∧
    1 ≤ (Example.two_tree_ensemble AGGREGATE_FUNCTION.SUM).n_targets_ ∧
    (1 : Int) ≤ 2 ∧
    compute (Example.two_tree_ensemble AGGREGATE_FUNCTION.SUM)
        { shape := [2, 1], data := Example.zero_row }
      = .ok [ZStore.value 0 (NTYPE.num 9), ZStore.value 1 (NTYPE.num 9)] ∧
    compute (Example.two_tree_ensemble AGGREGATE_FUNCTION.SUM)
        { shape := [2, 1], data := Example.zero_row }
      = (do
        let rows ← (List.range (2 : Int).toNat).mapM (fun (i : Nat) => do
          let r ← compute (Example.two_tree_ensemble AGGREGATE_FUNCTION.SUM)
            (PyArray.row { shape := [2, 1], data := Example.zero_row } 1 i)
          pure (r.map (ZStore.shift ((i : Int)
            * (Example.two_tree_ensemble AGGREGATE_FUNCTION.SUM).n_targets_))))
        pure rows.flatten) :=
  ⟨by decide!, by decide, by decide, by decide!,
    C37_rows_are_computed_independently (Example.two_tree_regressor "SUM")
      (Example.two_tree_ensemble AGGREGATE_FUNCTION.SUM) (by decide!) (by decide)
      { shape := [2, 1], data := Example.zero_row } 2 1 rfl (by decide)⟩

end RuntimeTreeEnsembleRegressorP

/-! ## The exception of the shape test -/

set_option linter.unreachableTactic false
set_option linter.unusedTactic false

theorem not_shape_error_iff {α : Type} (r : Result α) :
    not_shape_error r ↔ r ≠ .error (.runtime_error .must_have_2_dimensions) := by
  unfold not_shape_error
  exact Iff.rfl

theorem not_shape_error_ok {α : Type} (x : α) : not_shape_error (Except.ok x : Result α) := by
  rw [not_shape_error_iff]
  intro h
  cases h

theorem not_shape_error_error {α : Type} (e : Fault)
    (h : e ≠ .runtime_error .must_have_2_dimensions) :
    not_shape_error (Except.error e : Result α) := by
  rw [not_shape_error_iff]
  intro h2
  exact h (Except.error.inj h2)

theorem not_shape_error_pure {α : Type} (x : α) : not_shape_error (pure x : Result α) :=
  not_shape_error_ok x

theorem not_shape_error_throw {α : Type} (e : Fault)
    (h : e ≠ .runtime_error .must_have_2_dimensions) :
    not_shape_error (throw e : Result α) :=
  not_shape_error_error e h

theorem not_shape_error_bind {α β : Type} (r : Result α) (f : α → Result β)
    (hr : not_shape_error r) (hf : ∀ x, not_shape_error (f x)) :
    not_shape_error (r >>= f) := by
  cases r with
  | error e =>
    rw [not_shape_error_iff] at hr ⊢
    intro h
    have he : e = .runtime_error .must_have_2_dimensions := Except.error.inj h
    exact hr (by rw [he])
  | ok x => exact hf x

theorem not_shape_error_foldlM {σ α : Type} (f : σ → α → Result σ)
    (hf : ∀ s x, not_shape_error (f s x)) :
    ∀ (l : List α) (s : σ), not_shape_error (l.foldlM f s) := by
  intro l
  induction l with
  | nil => intro s; exact not_shape_error_ok s
  | cons x rest ih =>
    intro s
    rw [List.foldlM_cons]
    exact not_shape_error_bind _ _ (hf s x) (fun s2 => ih s2)

theorem not_shape_error_mapM {α β : Type} (f : α → Result β)
    (hf : ∀ x, not_shape_error (f x)) :
    ∀ (l : List α), not_shape_error (l.mapM f) := by
  intro l
  induction l with
  | nil => exact not_shape_error_ok _
  | cons x rest ih =>
    rw [List.mapM_cons]
    exact not_shape_error_bind _ _ (hf x)
      (fun y => not_shape_error_bind _ _ ih (fun ys => not_shape_error_ok _))

theorem not_shape_error_vec_at {α : Type} (v : List α) (i : Nat) :
    not_shape_error (vec_at v i) := by
  unfold vec_at
  split
  · exact not_shape_error_ok _
  · exact not_shape_error_error _ (by simp)

theorem not_shape_error_vec_at_int {α : Type} (v : List α) (i : Int) :
    not_shape_error (vec_at_int v i) := by
  unfold vec_at_int
  split
  · exact not_shape_error_vec_at _ _
  · exact not_shape_error_error _ (by simp)

theorem not_shape_error_vec_set_int {α : Type} (v : List α) (i : Int) (a : α) :
    not_shape_error (vec_set_int v i a) := by
  unfold vec_set_int
  split
  · split
    · exact not_shape_error_ok _
    · exact not_shape_error_error _ (by simp)
  · exact not_shape_error_error _ (by simp)

namespace RuntimeTreeEnsembleRegressorP

theorem not_shape_error_deref (nodes : List TreeNodeElement) (p : Option Nat) :
    not_shape_error (deref nodes p) := by
  unfold deref
  split
  · exact not_shape_error_error _ (by simp)
  · exact not_shape_error_vec_at _ _

theorem not_shape_error_sum_weight (b : Buffers) (w : SparseValue) :
    not_shape_error (sum_weight b w) := by
  unfold sum_weight
  repeat' first
    | (with_reducible exact not_shape_error_pure _)
    | (with_reducible exact not_shape_error_ok _)
    | (with_reducible exact not_shape_error_throw _ (by simp))
    | (with_reducible exact not_shape_error_error _ (by simp))
    | (with_reducible exact not_shape_error_vec_at _ _)
    | (with_reducible exact not_shape_error_vec_at_int _ _)
    | (with_reducible exact not_shape_error_vec_set_int _ _ _)
    | (with_reducible apply not_shape_error_bind)
    | (with_reducible apply not_shape_error_foldlM)
    | (with_reducible apply not_shape_error_mapM)
    | (with_reducible dsimp only)
    | split
    | intro _

theorem not_shape_error_min_weight (b : Buffers) (w : SparseValue) :
    not_shape_error (min_weight b w) := by
  unfold min_weight
  repeat' first
    | (with_reducible exact not_shape_error_pure _)
    | (with_reducible exact not_shape_error_ok _)
    | (with_reducible exact not_shape_error_throw _ (by simp))
    | (with_reducible exact not_shape_error_error _ (by simp))
    | (with_reducible exact not_shape_error_vec_at _ _)
    | (with_reducible exact not_shape_error_vec_at_int _ _)
    | (with_reducible exact not_shape_error_vec_set_int _ _ _)
    | (with_reducible apply not_shape_error_bind)
    | (with_reducible apply not_shape_error_foldlM)
    | (with_reducible apply not_shape_error_mapM)
    | (with_reducible dsimp only)
    | split
    | intro _

theorem not_shape_error_max_weight (b : Buffers) (w : SparseValue) :
    not_shape_error (max_weight b w) := by
  unfold max_weight
  repeat' first
    | (with_reducible exact not_shape_error_pure _)
    | (with_reducible exact not_shape_error_ok _)
    | (with_reducible exact not_shape_error_throw _ (by simp))
    | (with_reducible exact not_shape_error_error _ (by simp))
    | (with_reducible exact not_shape_error_vec_at _ _)
    | (with_reducible exact not_shape_error_vec_at_int _ _)
    | (with_reducible exact not_shape_error_vec_set_int _ _ _)
    | (with_reducible apply not_shape_error_bind)
    | (with_reducible apply not_shape_error_foldlM)
    | (with_reducible apply not_shape_error_mapM)
    | (with_reducible dsimp only)
    | split
    | intro _

theorem not_shape_error_aggregate (f : AGGREGATE_FUNCTION) (b : Buffers) (weights : List SparseValue) :
    not_shape_error (aggregate f b weights) := by
  unfold aggregate
  repeat' first
    | (with_reducible exact not_shape_error_pure _)
    | (with_reducible exact not_shape_error_ok _)
    | (with_reducible exact not_shape_error_throw _ (by simp))
    | (with_reducible exact not_shape_error_error _ (by simp))
    | (with_reducible exact not_shape_error_vec_at _ _)
    | (with_reducible exact not_shape_error_vec_at_int _ _)
    | (with_reducible exact not_shape_error_vec_set_int _ _ _)
    | (with_reducible exact not_shape_error_sum_weight _ _)
    | (with_reducible exact not_shape_error_min_weight _ _)
    | (with_reducible exact not_shape_error_max_weight _ _)
    | (with_reducible apply not_shape_error_bind)
    | (with_reducible apply not_shape_error_foldlM)
    | (with_reducible apply not_shape_error_mapM)
    | (with_reducible dsimp only)
    | split
    | intro _

theorem not_shape_error_general_next (x_data : Int → NTYPE) (root : TreeNodeElement) :
    not_shape_error (general_next x_data root) := by
  unfold general_next
  dsimp only
  repeat' first
    | (with_reducible exact not_shape_error_pure _)
    | (with_reducible exact not_shape_error_ok _)
    | (with_reducible exact not_shape_error_throw _ (by simp))
    | (with_reducible exact not_shape_error_error _ (by simp))
    | (with_reducible exact not_shape_error_vec_at _ _)
    | (with_reducible exact not_shape_error_vec_at_int _ _)
    | (with_reducible exact not_shape_error_vec_set_int _ _ _)
    | (with_reducible apply not_shape_error_bind)
    | (with_reducible apply not_shape_error_foldlM)
    | (with_reducible apply not_shape_error_mapM)
    | (with_reducible dsimp only)
    | split
    | intro _

theorem not_shape_error_TREE_FIND_VALUE_loop (nodes : List TreeNodeElement)
    (next : TreeNodeElement → Option Nat) :
    ∀ (k : Nat) (root : Option Nat),
      not_shape_error (TREE_FIND_VALUE_loop nodes next k root) := by
  intro k
  induction k with
  | zero =>
    intro a1
    unfold TREE_FIND_VALUE_loop
    repeat' first
      | (with_reducible exact not_shape_error_pure _)
      | (with_reducible exact not_shape_error_ok _)
      | (with_reducible exact not_shape_error_throw _ (by simp))
      | (with_reducible exact not_shape_error_error _ (by simp))
      | (with_reducible exact not_shape_error_vec_at _ _)
      | (with_reducible exact not_shape_error_vec_at_int _ _)
      | (with_reducible exact not_shape_error_vec_set_int _ _ _)
      | (with_reducible exact not_shape_error_deref _ _)
      | (with_reducible apply not_shape_error_bind)
      | (with_reducible apply not_shape_error_foldlM)
      | (with_reducible apply not_shape_error_mapM)
      | (with_reducible dsimp only)
      | split
      | intro _
  | succ k ih =>
    intro a1
    unfold TREE_FIND_VALUE_loop
    repeat' first
      | (with_reducible exact not_shape_error_pure _)
      | (with_reducible exact not_shape_error_ok _)
      | (with_reducible exact not_shape_error_throw _ (by simp))
      | (with_reducible exact not_shape_error_error _ (by simp))
      | (with_reducible exact not_shape_error_vec_at _ _)
      | (with_reducible exact not_shape_error_vec_at_int _ _)
      | (with_reducible exact not_shape_error_vec_set_int _ _ _)
      | (with_reducible exact not_shape_error_deref _ _)
      | (with_reducible exact ih _)
      | (with_reducible apply not_shape_error_bind)
      | (with_reducible apply not_shape_error_foldlM)
      | (with_reducible apply not_shape_error_mapM)
      | (with_reducible dsimp only)
      | split
      | intro _

theorem not_shape_error_general_loop (nodes : List TreeNodeElement)
    (x_data : Int → NTYPE) :
    ∀ (k : Nat) (root : Option Nat),
      not_shape_error (general_loop nodes x_data k root) := by
  intro k
  induction k with
  | zero =>
    intro a1
    unfold general_loop
    repeat' first
      | (with_reducible exact not_shape_error_pure _)
      | (with_reducible exact not_shape_error_ok _)
      | (with_reducible exact not_shape_error_throw _ (by simp))
      | (with_reducible exact not_shape_error_error _ (by simp))
      | (with_reducible exact not_shape_error_vec_at _ _)
      | (with_reducible exact not_shape_error_vec_at_int _ _)
      | (with_reducible exact not_shape_error_vec_set_int _ _ _)
      | (with_reducible exact not_shape_error_deref _ _)
      | (with_reducible apply not_shape_error_bind)
      | (with_reducible apply not_shape_error_foldlM)
      | (with_reducible apply not_shape_error_mapM)
      | (with_reducible dsimp only)
      | split
      | intro _
  | succ k ih =>
    intro a1
    unfold general_loop
    repeat' first
      | (with_reducible exact not_shape_error_pure _)
      | (with_reducible exact not_shape_error_ok _)
      | (with_reducible exact not_shape_error_throw _ (by simp))
      | (with_reducible exact not_shape_error_error _ (by simp))
      | (with_reducible exact not_shape_error_vec_at _ _)
      | (with_reducible exact not_shape_error_vec_at_int _ _)
      | (with_reducible exact not_shape_error_vec_set_int _ _ _)
      | (with_reducible exact not_shape_error_deref _ _)
      | (with_reducible exact not_shape_error_general_next _ _)
      | (with_reducible exact ih _)
      | (with_reducible apply not_shape_error_bind)
      | (with_reducible apply not_shape_error_foldlM)
      | (with_reducible apply not_shape_error_mapM)
      | (with_reducible dsimp only)
      | split
      | intro _

theorem not_shape_error_TREE_FIND_VALUE (self : RuntimeTreeEnsembleRegressorP)
    (CMP : NTYPE → NTYPE → Bool) (x_data : Int → NTYPE) (root : Option Nat) :
    not_shape_error (TREE_FIND_VALUE self CMP x_data root) := by
  unfold TREE_FIND_VALUE
  repeat' first
    | (with_reducible exact not_shape_error_pure _)
    | (with_reducible exact not_shape_error_ok _)
    | (with_reducible exact not_shape_error_throw _ (by simp))
    | (with_reducible exact not_shape_error_error _ (by simp))
    | (with_reducible exact not_shape_error_vec_at _ _)
    | (with_reducible exact not_shape_error_vec_at_int _ _)
    | (with_reducible exact not_shape_error_vec_set_int _ _ _)
    | (with_reducible exact not_shape_error_TREE_FIND_VALUE_loop _ _ _ _)
    | (with_reducible apply not_shape_error_bind)
    | (with_reducible apply not_shape_error_foldlM)
    | (with_reducible apply not_shape_error_mapM)
    | (with_reducible dsimp only)
    | split
    | intro _

theorem not_shape_error_find_leaf (self : RuntimeTreeEnsembleRegressorP) (root : Option Nat)
    (x_data : Int → NTYPE) :
    not_shape_error (find_leaf self root x_data) := by
  unfold find_leaf
  repeat' first
    | (with_reducible exact not_shape_error_pure _)
    | (with_reducible exact not_shape_error_ok _)
    | (with_reducible exact not_shape_error_throw _ (by simp))
    | (with_reducible exact not_shape_error_error _ (by simp))
    | (with_reducible exact not_shape_error_vec_at _ _)
    | (with_reducible exact not_shape_error_vec_at_int _ _)
    | (with_reducible exact not_shape_error_vec_set_int _ _ _)
    | (with_reducible exact not_shape_error_deref _ _)
    | (with_reducible exact not_shape_error_TREE_FIND_VALUE _ _ _ _)
    | (with_reducible exact not_shape_error_general_loop _ _ _ _)
    | (with_reducible apply not_shape_error_bind)
    | (with_reducible apply not_shape_error_foldlM)
    | (with_reducible apply not_shape_error_mapM)
    | (with_reducible dsimp only)
    | split
    | intro _

theorem not_shape_error_ProcessTreeNode (self : RuntimeTreeEnsembleRegressorP)
    (predictions : List NTYPE) (root : Option Nat) (x_data : Int → NTYPE)
    (has_predictions : List Bool) :
    not_shape_error (ProcessTreeNode self predictions root x_data has_predictions) := by
  unfold ProcessTreeNode
  repeat' first
    | (with_reducible exact not_shape_error_pure _)
    | (with_reducible exact not_shape_error_ok _)
    | (with_reducible exact not_shape_error_throw _ (by simp))
    | (with_reducible exact not_shape_error_error _ (by simp))
    | (with_reducible exact not_shape_error_vec_at _ _)
    | (with_reducible exact not_shape_error_vec_at_int _ _)
    | (with_reducible exact not_shape_error_vec_set_int _ _ _)
    | (with_reducible exact not_shape_error_deref _ _)
    | (with_reducible exact not_shape_error_find_leaf _ _ _)
    | (with_reducible exact not_shape_error_aggregate _ _ _)
    | (with_reducible apply not_shape_error_bind)
    | (with_reducible apply not_shape_error_foldlM)
    | (with_reducible apply not_shape_error_mapM)
    | (with_reducible dsimp only)
    | split
    | intro _

theorem not_shape_error_walk_trees (self : RuntimeTreeEnsembleRegressorP) (n : Nat)
    (x_data : Int → NTYPE) (b : Buffers) :
    not_shape_error (walk_trees self n x_data b) := by
  unfold walk_trees
  repeat' first
    | (with_reducible exact not_shape_error_pure _)
    | (with_reducible exact not_shape_error_ok _)
    | (with_reducible exact not_shape_error_throw _ (by simp))
    | (with_reducible exact not_shape_error_error _ (by simp))
    | (with_reducible exact not_shape_error_vec_at _ _)
    | (with_reducible exact not_shape_error_vec_at_int _ _)
    | (with_reducible exact not_shape_error_vec_set_int _ _ _)
    | (with_reducible exact not_shape_error_ProcessTreeNode _ _ _ _ _)
    | (with_reducible apply not_shape_error_bind)
    | (with_reducible apply not_shape_error_foldlM)
    | (with_reducible apply not_shape_error_mapM)
    | (with_reducible dsimp only)
    | split
    | intro _

theorem not_shape_error_single_val (self : RuntimeTreeEnsembleRegressorP) (origin : NTYPE)
    (b : Buffers) :
    not_shape_error (single_val self origin b) := by
  unfold single_val
  repeat' first
    | (with_reducible exact not_shape_error_pure _)
    | (with_reducible exact not_shape_error_ok _)
    | (with_reducible exact not_shape_error_throw _ (by simp))
    | (with_reducible exact not_shape_error_error _ (by simp))
    | (with_reducible exact not_shape_error_vec_at _ _)
    | (with_reducible exact not_shape_error_vec_at_int _ _)
    | (with_reducible exact not_shape_error_vec_set_int _ _ _)
    | (with_reducible apply not_shape_error_bind)
    | (with_reducible apply not_shape_error_foldlM)
    | (with_reducible apply not_shape_error_mapM)
    | (with_reducible dsimp only)
    | split
    | intro _

theorem not_shape_error_output_entry (self : RuntimeTreeEnsembleRegressorP) (b : Buffers) (j : Nat) :
    not_shape_error (output_entry self b j) := by
  unfold output_entry
  repeat' first
    | (with_reducible exact not_shape_error_pure _)
    | (with_reducible exact not_shape_error_ok _)
    | (with_reducible exact not_shape_error_throw _ (by simp))
    | (with_reducible exact not_shape_error_error _ (by simp))
    | (with_reducible exact not_shape_error_vec_at _ _)
    | (with_reducible exact not_shape_error_vec_at_int _ _)
    | (with_reducible exact not_shape_error_vec_set_int _ _ _)
    | (with_reducible apply not_shape_error_bind)
    | (with_reducible apply not_shape_error_foldlM)
    | (with_reducible apply not_shape_error_mapM)
    | (with_reducible dsimp only)
    | split
    | intro _

theorem not_shape_error_compute_gil_free (self : RuntimeTreeEnsembleRegressorP) (N stride : Int)
    (x_data : Int → NTYPE) :
    not_shape_error (compute_gil_free self N stride x_data) := by
  unfold compute_gil_free
  repeat' first
    | (with_reducible exact not_shape_error_pure _)
    | (with_reducible exact not_shape_error_ok _)
    | (with_reducible exact not_shape_error_throw _ (by simp))
    | (with_reducible exact not_shape_error_error _ (by simp))
    | (with_reducible exact not_shape_error_vec_at _ _)
    | (with_reducible exact not_shape_error_vec_at_int _ _)
    | (with_reducible exact not_shape_error_vec_set_int _ _ _)
    | (with_reducible exact not_shape_error_walk_trees _ _ _ _)
    | (with_reducible exact not_shape_error_single_val _ _ _)
    | (with_reducible exact not_shape_error_output_entry _ _ _)
    | (with_reducible apply not_shape_error_bind)
    | (with_reducible apply not_shape_error_foldlM)
    | (with_reducible apply not_shape_error_mapM)
    | (with_reducible dsimp only)
    | split
    | intro _

end RuntimeTreeEnsembleRegressorP

theorem not_shape_error_set_score_binary (write_additional_scores : Int)
    (weights_are_all_positive_ : Bool) (classes : ClassMap) (classes_labels_ : List Int)
    (weights_classes_ : List Int) (positive_label negative_label : Int) :
    not_shape_error (_set_score_binary write_additional_scores weights_are_all_positive_
      classes classes_labels_ weights_classes_ positive_label negative_label) := by
  unfold _set_score_binary
  dsimp only
  repeat' first
    | (with_reducible exact not_shape_error_pure _)
    | (with_reducible exact not_shape_error_ok _)
    | (with_reducible exact not_shape_error_throw _ (by simp))
    | (with_reducible exact not_shape_error_error _ (by simp))
    | (with_reducible exact not_shape_error_vec_at _ _)
    | (with_reducible exact not_shape_error_vec_at_int _ _)
    | (with_reducible exact not_shape_error_vec_set_int _ _ _)
    | (with_reducible apply not_shape_error_bind)
    | (with_reducible apply not_shape_error_foldlM)
    | (with_reducible apply not_shape_error_mapM)
    | (with_reducible dsimp only)
    | split
    | intro _

namespace RuntimeTreeEnsembleClassifier

theorem not_shape_error_classifier_next_index (self : RuntimeTreeEnsembleClassifier) (x_data : Int → NTYPE)
    (feature_base : Int) (mode : NODE_MODE) (treeindex : Int) :
    not_shape_error (next_index self x_data feature_base mode treeindex) := by
  unfold next_index
  dsimp only
  repeat' first
    | (with_reducible exact not_shape_error_pure _)
    | (with_reducible exact not_shape_error_ok _)
    | (with_reducible exact not_shape_error_throw _ (by simp))
    | (with_reducible exact not_shape_error_error _ (by simp))
    | (with_reducible exact not_shape_error_vec_at _ _)
    | (with_reducible exact not_shape_error_vec_at_int _ _)
    | (with_reducible exact not_shape_error_vec_set_int _ _ _)
    | (with_reducible apply not_shape_error_bind)
    | (with_reducible apply not_shape_error_foldlM)
    | (with_reducible apply not_shape_error_mapM)
    | (with_reducible dsimp only)
    | split
    | intro _

theorem not_shape_error_classifier_descend (self : RuntimeTreeEnsembleClassifier) (x_data : Int → NTYPE)
    (feature_base root : Int) :
    ∀ (k : Nat) (mode : NODE_MODE) (treeindex : Int),
      not_shape_error (descend self x_data feature_base root k mode treeindex) := by
  intro k
  induction k with
  | zero =>
    intro mode treeindex
    unfold descend
    repeat' first
      | (with_reducible exact not_shape_error_pure _)
      | (with_reducible exact not_shape_error_ok _)
      | (with_reducible exact not_shape_error_throw _ (by simp))
      | (with_reducible exact not_shape_error_error _ (by simp))
      | (with_reducible exact not_shape_error_vec_at _ _)
      | (with_reducible exact not_shape_error_vec_at_int _ _)
      | (with_reducible exact not_shape_error_vec_set_int _ _ _)
      | (with_reducible exact not_shape_error_classifier_next_index _ _ _ _ _)
      | (with_reducible apply not_shape_error_bind)
      | (with_reducible apply not_shape_error_foldlM)
      | (with_reducible apply not_shape_error_mapM)
      | (with_reducible dsimp only)
      | split
      | intro _
  | succ k ih =>
    intro mode treeindex
    unfold descend
    repeat' first
      | (with_reducible exact not_shape_error_pure _)
      | (with_reducible exact not_shape_error_ok _)
      | (with_reducible exact not_shape_error_throw _ (by simp))
      | (with_reducible exact not_shape_error_error _ (by simp))
      | (with_reducible exact not_shape_error_vec_at _ _)
      | (with_reducible exact not_shape_error_vec_at_int _ _)
      | (with_reducible exact not_shape_error_vec_set_int _ _ _)
      | (with_reducible exact not_shape_error_classifier_next_index _ _ _ _ _)
      | (with_reducible exact ih _ _)
      | (with_reducible apply not_shape_error_bind)
      | (with_reducible apply not_shape_error_foldlM)
      | (with_reducible apply not_shape_error_mapM)
      | (with_reducible dsimp only)
      | split
      | intro _

theorem not_shape_error_classifier_collect (self : RuntimeTreeEnsembleClassifier) (classes : ClassMap)
    (treeindex : Int) :
    not_shape_error (collect self classes treeindex) := by
  unfold collect
  repeat' first
    | (with_reducible exact not_shape_error_pure _)
    | (with_reducible exact not_shape_error_ok _)
    | (with_reducible exact not_shape_error_throw _ (by simp))
    | (with_reducible exact not_shape_error_error _ (by simp))
    | (with_reducible exact not_shape_error_vec_at _ _)
    | (with_reducible exact not_shape_error_vec_at_int _ _)
    | (with_reducible exact not_shape_error_vec_set_int _ _ _)
    | (with_reducible apply not_shape_error_bind)
    | (with_reducible apply not_shape_error_foldlM)
    | (with_reducible apply not_shape_error_mapM)
    | (with_reducible dsimp only)
    | split
    | intro _

theorem not_shape_error_classifier_ProcessTreeNode (self : RuntimeTreeEnsembleClassifier) (classes : ClassMap)
    (treeindex : Int) (x_data : Int → NTYPE) (feature_base : Int) :
    not_shape_error (ProcessTreeNode self classes treeindex x_data feature_base) := by
  unfold ProcessTreeNode
  repeat' first
    | (with_reducible exact not_shape_error_pure _)
    | (with_reducible exact not_shape_error_ok _)
    | (with_reducible exact not_shape_error_throw _ (by simp))
    | (with_reducible exact not_shape_error_error _ (by simp))
    | (with_reducible exact not_shape_error_vec_at _ _)
    | (with_reducible exact not_shape_error_vec_at_int _ _)
    | (with_reducible exact not_shape_error_vec_set_int _ _ _)
    | (with_reducible exact not_shape_error_classifier_descend _ _ _ _ _ _ _)
    | (with_reducible exact not_shape_error_classifier_collect _ _ _)
    | (with_reducible apply not_shape_error_bind)
    | (with_reducible apply not_shape_error_foldlM)
    | (with_reducible apply not_shape_error_mapM)
    | (with_reducible dsimp only)
    | split
    | intro _

theorem not_shape_error_add_base_value (base_values : List NTYPE) (classes : ClassMap) (k : Nat) :
    not_shape_error (add_base_value base_values classes k) := by
  unfold add_base_value
  repeat' first
    | (with_reducible exact not_shape_error_pure _)
    | (with_reducible exact not_shape_error_ok _)
    | (with_reducible exact not_shape_error_throw _ (by simp))
    | (with_reducible exact not_shape_error_error _ (by simp))
    | (with_reducible exact not_shape_error_vec_at _ _)
    | (with_reducible exact not_shape_error_vec_at_int _ _)
    | (with_reducible exact not_shape_error_vec_set_int _ _ _)
    | (with_reducible apply not_shape_error_bind)
    | (with_reducible apply not_shape_error_foldlM)
    | (with_reducible apply not_shape_error_mapM)
    | (with_reducible dsimp only)
    | split
    | intro _

theorem not_shape_error_finalize_multiclass (self : RuntimeTreeEnsembleClassifier) (classes : ClassMap) :
    not_shape_error (finalize_multiclass self classes) := by
  unfold finalize_multiclass
  dsimp only
  repeat' first
    | (with_reducible exact not_shape_error_pure _)
    | (with_reducible exact not_shape_error_ok _)
    | (with_reducible exact not_shape_error_throw _ (by simp))
    | (with_reducible exact not_shape_error_error _ (by simp))
    | (with_reducible exact not_shape_error_vec_at _ _)
    | (with_reducible exact not_shape_error_vec_at_int _ _)
    | (with_reducible exact not_shape_error_vec_set_int _ _ _)
    | (with_reducible exact not_shape_error_add_base_value _ _ _)
    | (with_reducible apply not_shape_error_bind)
    | (with_reducible apply not_shape_error_foldlM)
    | (with_reducible apply not_shape_error_mapM)
    | (with_reducible dsimp only)
    | split
    | intro _

theorem not_shape_error_finalize_binary (self : RuntimeTreeEnsembleClassifier) (classes : ClassMap) :
    not_shape_error (finalize_binary self classes) := by
  unfold finalize_binary
  repeat' first
    | (with_reducible exact not_shape_error_pure _)
    | (with_reducible exact not_shape_error_ok _)
    | (with_reducible exact not_shape_error_throw _ (by simp))
    | (with_reducible exact not_shape_error_error _ (by simp))
    | (with_reducible exact not_shape_error_vec_at _ _)
    | (with_reducible exact not_shape_error_vec_at_int _ _)
    | (with_reducible exact not_shape_error_vec_set_int _ _ _)
    | (with_reducible exact not_shape_error_set_score_binary _ _ _ _ _ _ _)
    | (with_reducible apply not_shape_error_bind)
    | (with_reducible apply not_shape_error_foldlM)
    | (with_reducible apply not_shape_error_mapM)
    | (with_reducible dsimp only)
    | split
    | intro _

theorem not_shape_error_classifier_compute_row (self : RuntimeTreeEnsembleClassifier) (x_data : Int → NTYPE)
    (current_weight_0 : Int) :
    not_shape_error (compute_row self x_data current_weight_0) := by
  unfold compute_row
  repeat' first
    | (with_reducible exact not_shape_error_pure _)
    | (with_reducible exact not_shape_error_ok _)
    | (with_reducible exact not_shape_error_throw _ (by simp))
    | (with_reducible exact not_shape_error_error _ (by simp))
    | (with_reducible exact not_shape_error_vec_at _ _)
    | (with_reducible exact not_shape_error_vec_at_int _ _)
    | (with_reducible exact not_shape_error_vec_set_int _ _ _)
    | (with_reducible exact not_shape_error_classifier_ProcessTreeNode _ _ _ _ _)
    | (with_reducible exact not_shape_error_finalize_multiclass _ _)
    | (with_reducible exact not_shape_error_finalize_binary _ _)
    | (with_reducible apply not_shape_error_bind)
    | (with_reducible apply not_shape_error_foldlM)
    | (with_reducible apply not_shape_error_mapM)
    | (with_reducible dsimp only)
    | split
    | intro _

end RuntimeTreeEnsembleClassifier

namespace RuntimeTreeEnsembleRegressor

theorem not_shape_error_flat_next_index (self : RuntimeTreeEnsembleRegressor) (x_data : Int → NTYPE)
    (feature_base : Int) (mode : NODE_MODE) (treeindex : Int) :
    not_shape_error (next_index self x_data feature_base mode treeindex) := by
  unfold next_index
  dsimp only
  repeat' first
    | (with_reducible exact not_shape_error_pure _)
    | (with_reducible exact not_shape_error_ok _)
    | (with_reducible exact not_shape_error_throw _ (by simp))
    | (with_reducible exact not_shape_error_error _ (by simp))
    | (with_reducible exact not_shape_error_vec_at _ _)
    | (with_reducible exact not_shape_error_vec_at_int _ _)
    | (with_reducible exact not_shape_error_vec_set_int _ _ _)
    | (with_reducible apply not_shape_error_bind)
    | (with_reducible apply not_shape_error_foldlM)
    | (with_reducible apply not_shape_error_mapM)
    | (with_reducible dsimp only)
    | split
    | intro _

theorem not_shape_error_flat_descend (self : RuntimeTreeEnsembleRegressor) (x_data : Int → NTYPE)
    (feature_base root : Int) :
    ∀ (k : Nat) (mode : NODE_MODE) (treeindex : Int),
      not_shape_error (descend self x_data feature_base root k mode treeindex) := by
  intro k
  induction k with
  | zero =>
    intro mode treeindex
    unfold descend
    repeat' first
      | (with_reducible exact not_shape_error_pure _)
      | (with_reducible exact not_shape_error_ok _)
      | (with_reducible exact not_shape_error_throw _ (by simp))
      | (with_reducible exact not_shape_error_error _ (by simp))
      | (with_reducible exact not_shape_error_vec_at _ _)
      | (with_reducible exact not_shape_error_vec_at_int _ _)
      | (with_reducible exact not_shape_error_vec_set_int _ _ _)
      | (with_reducible exact not_shape_error_flat_next_index _ _ _ _ _)
      | (with_reducible apply not_shape_error_bind)
      | (with_reducible apply not_shape_error_foldlM)
      | (with_reducible apply not_shape_error_mapM)
      | (with_reducible dsimp only)
      | split
      | intro _
  | succ k ih =>
    intro mode treeindex
    unfold descend
    repeat' first
      | (with_reducible exact not_shape_error_pure _)
      | (with_reducible exact not_shape_error_ok _)
      | (with_reducible exact not_shape_error_throw _ (by simp))
      | (with_reducible exact not_shape_error_error _ (by simp))
      | (with_reducible exact not_shape_error_vec_at _ _)
      | (with_reducible exact not_shape_error_vec_at_int _ _)
      | (with_reducible exact not_shape_error_vec_set_int _ _ _)
      | (with_reducible exact not_shape_error_flat_next_index _ _ _ _ _)
      | (with_reducible exact ih _ _)
      | (with_reducible apply not_shape_error_bind)
      | (with_reducible apply not_shape_error_foldlM)
      | (with_reducible apply not_shape_error_mapM)
      | (with_reducible dsimp only)
      | split
      | intro _

theorem not_shape_error_flat_collect (self : RuntimeTreeEnsembleRegressor) (classes : ScoreMap)
    (treeindex : Int) :
    not_shape_error (collect self classes treeindex) := by
  unfold collect
  repeat' first
    | (with_reducible exact not_shape_error_pure _)
    | (with_reducible exact not_shape_error_ok _)
    | (with_reducible exact not_shape_error_throw _ (by simp))
    | (with_reducible exact not_shape_error_error _ (by simp))
    | (with_reducible exact not_shape_error_vec_at _ _)
    | (with_reducible exact not_shape_error_vec_at_int _ _)
    | (with_reducible exact not_shape_error_vec_set_int _ _ _)
    | (with_reducible apply not_shape_error_bind)
    | (with_reducible apply not_shape_error_foldlM)
    | (with_reducible apply not_shape_error_mapM)
    | (with_reducible dsimp only)
    | split
    | intro _

theorem not_shape_error_flat_ProcessTreeNode (self : RuntimeTreeEnsembleRegressor) (classes : ScoreMap)
    (treeindex : Int) (x_data : Int → NTYPE) (feature_base : Int) :
    not_shape_error (ProcessTreeNode self classes treeindex x_data feature_base) := by
  unfold ProcessTreeNode
  repeat' first
    | (with_reducible exact not_shape_error_pure _)
    | (with_reducible exact not_shape_error_ok _)
    | (with_reducible exact not_shape_error_throw _ (by simp))
    | (with_reducible exact not_shape_error_error _ (by simp))
    | (with_reducible exact not_shape_error_vec_at _ _)
    | (with_reducible exact not_shape_error_vec_at_int _ _)
    | (with_reducible exact not_shape_error_vec_set_int _ _ _)
    | (with_reducible exact not_shape_error_flat_descend _ _ _ _ _ _ _)
    | (with_reducible exact not_shape_error_flat_collect _ _ _)
    | (with_reducible apply not_shape_error_bind)
    | (with_reducible apply not_shape_error_foldlM)
    | (with_reducible apply not_shape_error_mapM)
    | (with_reducible dsimp only)
    | split
    | intro _

theorem not_shape_error_flat_output_entry (self : RuntimeTreeEnsembleRegressor) (scores : ScoreMap) (j : Nat) :
    not_shape_error (output_entry self scores j) := by
  unfold output_entry
  repeat' first
    | (with_reducible exact not_shape_error_pure _)
    | (with_reducible exact not_shape_error_ok _)
    | (with_reducible exact not_shape_error_throw _ (by simp))
    | (with_reducible exact not_shape_error_error _ (by simp))
    | (with_reducible exact not_shape_error_vec_at _ _)
    | (with_reducible exact not_shape_error_vec_at_int _ _)
    | (with_reducible exact not_shape_error_vec_set_int _ _ _)
    | (with_reducible apply not_shape_error_bind)
    | (with_reducible apply not_shape_error_foldlM)
    | (with_reducible apply not_shape_error_mapM)
    | (with_reducible dsimp only)
    | split
    | intro _

theorem not_shape_error_flat_compute_row (self : RuntimeTreeEnsembleRegressor) (x_data : Int → NTYPE)
    (current_weight_0 : Int) :
    not_shape_error (compute_row self x_data current_weight_0) := by
  unfold compute_row
  repeat' first
    | (with_reducible exact not_shape_error_pure _)
    | (with_reducible exact not_shape_error_ok _)
    | (with_reducible exact not_shape_error_throw _ (by simp))
    | (with_reducible exact not_shape_error_error _ (by simp))
    | (with_reducible exact not_shape_error_vec_at _ _)
    | (with_reducible exact not_shape_error_vec_at_int _ _)
    | (with_reducible exact not_shape_error_vec_set_int _ _ _)
    | (with_reducible exact not_shape_error_flat_ProcessTreeNode _ _ _ _ _)
    | (with_reducible exact not_shape_error_flat_output_entry _ _ _)
    | (with_reducible apply not_shape_error_bind)
    | (with_reducible apply not_shape_error_foldlM)
    | (with_reducible apply not_shape_error_mapM)
    | (with_reducible dsimp only)
    | split
    | intro _

end RuntimeTreeEnsembleRegressor

theorem arrayshape2vector_of_empty (X : PyArray) (h : ¬ 0 < X.size) :
    arrayshape2vector [] X = [] := by
  unfold arrayshape2vector
  rw [if_neg (by simpa using h)]

theorem arrayshape2vector_of_elements (X : PyArray) (h : 0 < X.size) :
    arrayshape2vector [] X = X.shape := by
  unfold arrayshape2vector
  rw [if_pos (by simpa using h)]

namespace RuntimeTreeEnsembleRegressorP

theorem compute_shape_test (self : RuntimeTreeEnsembleRegressorP) (X : PyArray) :
    (¬ 0 < X.size → compute self X = .error (.runtime_error .must_have_2_dimensions)) ∧
    (0 < X.size → (compute self X = .error (.runtime_error .must_have_2_dimensions)
      ↔ X.ndim ≠ 2)) := by
  constructor
  · intro h
    unfold compute
    rw [arrayshape2vector_of_empty X h]
    rfl
  · intro h
    unfold compute
    rw [arrayshape2vector_of_elements X h]
    by_cases hd : X.shape.length = 2
    · have hn : not_shape_error (compute self X) := by
        unfold compute
        rw [arrayshape2vector_of_elements X h]
        simp only [ne_eq, hd, not_true_eq_false, if_false]
        repeat' first
          | (with_reducible exact not_shape_error_pure _)
          | (with_reducible exact not_shape_error_vec_at _ _)
          | (with_reducible exact not_shape_error_compute_gil_free _ _ _ _)
          | (with_reducible apply not_shape_error_bind)
          | (with_reducible dsimp only)
          | split
          | intro _
      have hne := (not_shape_error_iff _).1 hn
      unfold compute at hne
      rw [arrayshape2vector_of_elements X h] at hne
      constructor
      · intro he
        exact absurd he hne
      · intro hnd
        exact absurd hd hnd
    · simp only [ne_eq, hd, not_false_eq_true, if_true, PyArray.ndim]
      exact iff_of_true rfl trivial

end RuntimeTreeEnsembleRegressorP

namespace RuntimeTreeEnsembleClassifier

theorem classifier_compute_shape_test (self : RuntimeTreeEnsembleClassifier) (X : PyArray) :
    (¬ 0 < X.size → compute self X = .error (.runtime_error .must_have_2_dimensions)) ∧
    (0 < X.size → (compute self X = .error (.runtime_error .must_have_2_dimensions)
      ↔ X.ndim ≠ 2)) := by
  constructor
  · intro h
    unfold compute
    rw [arrayshape2vector_of_empty X h]
    rfl
  · intro h
    unfold compute
    rw [arrayshape2vector_of_elements X h]
    by_cases hd : X.shape.length = 2
    · have hn : not_shape_error (compute self X) := by
        unfold compute
        rw [arrayshape2vector_of_elements X h]
        simp only [ne_eq, hd, not_true_eq_false, if_false]
        repeat' first
          | (with_reducible exact not_shape_error_pure _)
          | (with_reducible exact not_shape_error_vec_at _ _)
          | (with_reducible exact not_shape_error_classifier_compute_row _ _ _)
          | (with_reducible apply not_shape_error_bind)
          | (with_reducible apply not_shape_error_mapM)
          | (with_reducible dsimp only)
          | split
          | intro _
      have hne := (not_shape_error_iff _).1 hn
      unfold compute at hne
      rw [arrayshape2vector_of_elements X h] at hne
      constructor
      · intro he
        exact absurd he hne
      · intro hnd
        exact absurd hd hnd
    · simp only [ne_eq, hd, not_false_eq_true, if_true, PyArray.ndim]
      exact iff_of_true rfl trivial

end RuntimeTreeEnsembleClassifier

namespace RuntimeTreeEnsembleRegressor

theorem flat_compute_shape_test (self : RuntimeTreeEnsembleRegressor) (X : PyArray) :
    (¬ 0 < X.size → compute self X = .error (.runtime_error .must_have_2_dimensions)) ∧
    (0 < X.size → (compute self X = .error (.runtime_error .must_have_2_dimensions)
      ↔ X.ndim ≠ 2)) := by
  constructor
  · intro h
    unfold compute
    rw [arrayshape2vector_of_empty X h]
    rfl
  · intro h
    unfold compute
    rw [arrayshape2vector_of_elements X h]
    by_cases hd : X.shape.length = 2
    · have hn : not_shape_error (compute self X) := by
        unfold compute
        rw [arrayshape2vector_of_elements X h]
        simp only [ne_eq, hd, not_true_eq_false, if_false]
        repeat' first
          | (with_reducible exact not_shape_error_pure _)
          | (with_reducible exact not_shape_error_vec_at _ _)
          | (with_reducible exact not_shape_error_flat_compute_row _ _ _)
          | (with_reducible apply not_shape_error_bind)
          | (with_reducible apply not_shape_error_mapM)
          | (with_reducible dsimp only)
          | split
          | intro _
      have hne := (not_shape_error_iff _).1 hn
      unfold compute at hne
      rw [arrayshape2vector_of_elements X h] at hne
      constructor
      · intro he
        exact absurd he hne
      · intro hnd
        exact absurd hd hnd
    · simp only [ne_eq, hd, not_false_eq_true, if_true, PyArray.ndim]
      exact iff_of_true rfl trivial

end RuntimeTreeEnsembleRegressor

/-- C40. For every input array without elements, whatever its number of dimensions (a 2-D
batch of shape `(0, F)` in particular), `compute` of the classifier, of the pointer-linked
regressor and of the flat regressor raises the exception "X must have 2 dimensions.": the
shape vector is filled only when the array has elements. For every array with elements,
each of the three raises this exception if and only if the number of dimensions is not 2. -/
theorem C40_shape_test_of_compute (X : PyArray) (c : RuntimeTreeEnsembleClassifier)
    (p : RuntimeTreeEnsembleRegressorP) (r : RuntimeTreeEnsembleRegressor) :
    (X.size = 0 →
      c.compute X = .error (.runtime_error .must_have_2_dimensions) ∧
      p.compute X = .error (.runtime_error .must_have_2_dimensions) ∧
      r.compute X = .error (.runtime_error .must_have_2_dimensions)) ∧
    (∀ F : Int, X.shape = [0, F] →
      X.ndim = 2 ∧
      c.compute X = .error (.runtime_error .must_have_2_dimensions) ∧
      p.compute X = .error (.runtime_error .must_have_2_dimensions) ∧
      r.compute X = .error (.runtime_error .must_have_2_dimensions)) ∧
    (0 < X.size →
      (c.compute X = .error (.runtime_error .must_have_2_dimensions) ↔ X.ndim ≠ 2) ∧
      (p.compute X = .error (.runtime_error .must_have_2_dimensions) ↔ X.ndim ≠ 2) ∧
      (r.compute X = .error (.runtime_error .must_have_2_dimensions) ↔ X.ndim ≠ 2)) := by
  have hzero : X.size = 0 →
      c.compute X = .error (.runtime_error .must_have_2_dimensions) ∧
      p.compute X = .error (.runtime_error .must_have_2_dimensions) ∧
      r.compute X = .error (.runtime_error .must_have_2_dimensions) := by
    intro h
    have hn : ¬ 0 < X.size := by omega
    exact ⟨(c.classifier_compute_shape_test X).1 hn, (p.compute_shape_test X).1 hn,
      (r.flat_compute_shape_test X).1 hn⟩
  refine ⟨hzero, ?_, ?_⟩
  · intro F hshape
    have hs : X.size = 0 := by simp [PyArray.size, hshape]
    exact ⟨by simp [PyArray.ndim, hshape], hzero hs⟩
  · intro h
    exact ⟨(c.classifier_compute_shape_test X).2 h, (p.compute_shape_test X).2 h,
      (r.flat_compute_shape_test X).2 h⟩

set_option linter.unreachableTactic true
set_option linter.unusedTactic true

/-! ## The flat leaf storage against the per-node weights -/

namespace RuntimeTreeEnsembleClassifier

theorem leaf_less_iff (a b : Int × Int × Int × NTYPE) :
    leaf_less a b = true ↔ (a.1 < b.1 ∨ (a.1 = b.1 ∧ a.2.1 < b.2.1)) := by
  unfold leaf_less
  by_cases h : a.1 = b.1
  · simp [h]
  · simp only [ne_eq, h, not_false_eq_true, if_true, decide_eq_true_eq, false_and, or_false]

theorem leaf_less_false_iff (a b : Int × Int × Int × NTYPE) :
    leaf_less a b = false ↔ (b.1 < a.1 ∨ (a.1 = b.1 ∧ b.2.1 ≤ a.2.1)) := by
  rw [← Bool.not_eq_true, leaf_less_iff]
  constructor
  · intro h
    by_cases h1 : a.1 = b.1
    · right
      refine ⟨h1, ?_⟩
      by_contra hc
      exact h (Or.inr ⟨h1, by omega⟩)
    · left
      by_contra hc
      exact h (Or.inl (by omega))
  · rintro (h | ⟨h1, h2⟩) (h3 | ⟨h3, h4⟩) <;> omega

/-- Inserting a tuple into a sorted list gives a sorted list with the same tuples and the new
one. -/
theorem sort_insert_spec (x : Int × Int × Int × NTYPE) :
    ∀ (l : List (Int × Int × Int × NTYPE)), LeafSorted l →
      LeafSorted (sort_insert x l) ∧ ∀ y, y ∈ sort_insert x l ↔ y = x ∨ y ∈ l := by
  intro l
  induction l with
  | nil =>
    intro _
    exact ⟨by simp [sort_insert, LeafSorted], fun y => by simp [sort_insert]⟩
  | cons u rest ih =>
    intro hs
    have hs2 := List.pairwise_cons.1 hs
    obtain ⟨ihs, ihm⟩ := ih hs2.2
    by_cases hlt : leaf_less x u = true
    · simp only [sort_insert, hlt, if_true]
      refine ⟨?_, fun y => by simp⟩
      refine List.pairwise_cons.2 ⟨?_, hs⟩
      intro b hb
      have hxu := (leaf_less_iff x u).1 hlt
      rcases List.mem_cons.1 hb with rfl | hb
      · rw [leaf_less_false_iff]
        rcases hxu with h | ⟨h1, h2⟩
        · exact Or.inl h
        · exact Or.inr ⟨h1.symm, by omega⟩
      · have hbu := (leaf_less_false_iff b u).1 (hs2.1 b hb)
        rw [leaf_less_false_iff]
        rcases hxu with h | ⟨h1, h2⟩ <;> rcases hbu with h3 | ⟨h3, h4⟩
        · exact Or.inl (by omega)
        · exact Or.inl (by omega)
        · exact Or.inl (by omega)
        · exact Or.inr ⟨by omega, by omega⟩
    · have hf : leaf_less x u = false := by
        cases hb : leaf_less x u
        · rfl
        · exact absurd hb hlt
      simp only [sort_insert, hf, Bool.false_eq_true, if_false]
      refine ⟨?_, fun y => ?_⟩
      · refine List.pairwise_cons.2 ⟨?_, ihs⟩
        intro b hb
        rcases (ihm b).1 hb with rfl | hb
        · exact hf
        · exact hs2.1 b hb
      · simp only [List.mem_cons, ihm]
        tauto

/-- Insertion is stable for the tuples of one node: the new tuple comes after the tuples of
the list that carry the same tree id and node id. -/
theorem sort_insert_filter (tid nid : Int) (x : Int × Int × Int × NTYPE) :
    ∀ (l : List (Int × Int × Int × NTYPE)), LeafSorted l →
      (sort_insert x l).filter (names_node tid nid)
        = l.filter (names_node tid nid) ++ (if names_node tid nid x then [x] else []) := by
  intro l
  induction l with
  | nil => intro _; simp [sort_insert, List.filter_cons]
  | cons u rest ih =>
    intro hs
    have hs2 := List.pairwise_cons.1 hs
    by_cases hlt : leaf_less x u = true
    · simp only [sort_insert, hlt, if_true]
      by_cases hp : names_node tid nid x = true
      · have hnone : (u :: rest).filter (names_node tid nid) = [] := by
          rw [List.filter_eq_nil_iff]
          intro b hb hpb
          have hxu := (leaf_less_iff x u).1 hlt
          simp only [names_node, decide_eq_true_eq] at hp hpb
          rcases List.mem_cons.1 hb with rfl | hb
          · omega
          · have hbu := (leaf_less_false_iff b u).1 (hs2.1 b hb)
            omega
        rw [hnone]
        simp [List.filter_cons, hp, hnone]
      · have hpf : names_node tid nid x = false := by
          cases hb : names_node tid nid x
          · rfl
          · exact absurd hb hp
        simp [List.filter_cons, hpf]
    · have hf : leaf_less x u = false := by
        cases hb : leaf_less x u
        · rfl
        · exact absurd hb hlt
      simp only [sort_insert, hf, Bool.false_eq_true, if_false, List.filter_cons]
      rw [ih hs2.2]
      split <;> simp

/-- The sort gives a sorted list with the same tuples, and keeps the order of the tuples of
each node. -/
theorem sort_leafnodedata_spec (tid nid : Int) :
    ∀ (l acc : List (Int × Int × Int × NTYPE)), LeafSorted acc →
      LeafSorted (l.foldl (fun acc t => sort_insert t acc) acc) ∧
      (∀ y, y ∈ l.foldl (fun acc t => sort_insert t acc) acc ↔ y ∈ acc ∨ y ∈ l) ∧
      (l.foldl (fun acc t => sort_insert t acc) acc).filter (names_node tid nid)
        = acc.filter (names_node tid nid) ++ l.filter (names_node tid nid) := by
  intro l
  induction l with
  | nil => intro acc hs; exact ⟨hs, fun y => by simp, by simp⟩
  | cons x rest ih =>
    intro acc hs
    obtain ⟨h1, h2⟩ := sort_insert_spec x acc hs
    obtain ⟨i1, i2, i3⟩ := ih (sort_insert x acc) h1
    refine ⟨i1, fun y => ?_, ?_⟩
    · rw [List.foldl_cons, i2, h2]
      simp only [List.mem_cons]
      tauto
    · rw [List.foldl_cons, i3, sort_insert_filter tid nid x acc hs, List.filter_cons]
      split <;> simp

end RuntimeTreeEnsembleClassifier

namespace RuntimeTreeEnsembleClassifier

/-- After a tuple of the node, the scan of a sorted list visits the tuples of the node
and no other. -/
theorem leaf_scan_pairs_after (tid nid : Int) (u : Int × Int × Int × NTYPE)
    (hu : names_node tid nid u = true) :
    ∀ (rest : List (Int × Int × Int × NTYPE)), LeafSorted (u :: rest) →
      leaf_scan_pairs rest tid nid
        = (rest.filter (names_node tid nid)).map (fun e => (e.2.2.1, e.2.2.2)) := by
  intro rest
  induction rest with
  | nil => intro _; rfl
  | cons v r ih =>
    intro hs
    have hs1 := List.pairwise_cons.1 hs
    have hs2 := List.pairwise_cons.1 hs1.2
    obtain ⟨v1, v2, v3, v4⟩ := v
    simp only [names_node, decide_eq_true_eq] at hu
    by_cases hv : v1 = tid ∧ v2 = nid
    · have hsr : LeafSorted (u :: r) :=
        List.pairwise_cons.2 ⟨fun b hb => hs1.1 b (List.mem_cons_of_mem _ hb), hs2.2⟩
      obtain ⟨rfl, rfl⟩ := hv
      have hpv : names_node v1 v2 (v1, v2, v3, v4) = true := by
        simp [names_node]
      simp only [leaf_scan_pairs, and_self, if_true, List.filter_cons, hpv, List.map_cons,
        ih hsr]
    · have hpv : names_node tid nid (v1, v2, v3, v4) = false := by
        simp only [names_node, decide_eq_false_iff_not]
        exact hv
      have hnone : r.filter (names_node tid nid) = [] := by
        rw [List.filter_eq_nil_iff]
        intro b hb hpb
        simp only [names_node, decide_eq_true_eq] at hpb
        have h1 := (leaf_less_false_iff _ _).1 (hs1.1 _ (List.mem_cons_self _ _))
        have h2 := (leaf_less_false_iff _ _).1 (hs2.1 b hb)
        simp only at h1 h2
        apply hv
        omega
      simp [leaf_scan_pairs, hv, List.filter_cons, hpv, hnone]

/-- From the first tuple of a node on, the scan of a sorted list visits the tuples of the
node in the order of the list. -/
theorem leaf_scan_pairs_from_first (tid nid : Int) :
    ∀ (l : List (Int × Int × Int × NTYPE)) (j : Nat) (e : Int × Int × Int × NTYPE),
      LeafSorted l → l[j]? = some e → names_node tid nid e = true →
      (∀ (j2 : Nat) (e2 : Int × Int × Int × NTYPE), j2 < j → l[j2]? = some e2 →
        names_node tid nid e2 = false) →
      leaf_scan_pairs (l.drop j) tid nid
        = (l.filter (names_node tid nid)).map (fun e => (e.2.2.1, e.2.2.2)) := by
  intro l
  induction l with
  | nil => intro j e _ h; simp at h
  | cons u rest ih =>
    intro j e hs hj he hfirst
    cases j with
    | zero =>
      simp only [List.getElem?_cons_zero, Option.some.injEq] at hj
      subst hj
      have h1 := leaf_scan_pairs_after tid nid u he rest hs
      obtain ⟨u1, u2, u3, u4⟩ := u
      have he2 := he
      simp only [names_node, decide_eq_true_eq] at he2
      obtain ⟨rfl, rfl⟩ := he2
      simp only [List.drop_zero, leaf_scan_pairs, and_self, if_true, List.filter_cons, he,
        List.map_cons, h1]
    | succ k =>
      have hu : names_node tid nid u = false := hfirst 0 u (Nat.succ_pos k) (by simp)
      simp only [List.drop_succ_cons, List.filter_cons, hu, Bool.false_eq_true, if_false]
      refine ih k e (List.pairwise_cons.1 hs).2 (by simpa using hj) he ?_
      intro j2 e2 hj2 he2
      exact hfirst (j2 + 1) e2 (by omega) (by simpa using he2)

/-- Two tuples with node ids between 0 and `kOffset_` have the same key only when they name
the same node. -/
theorem leaf_ident_inj (a : Int × Int × Int × NTYPE) (tid nid : Int)
    (ha : 0 ≤ a.2.1 ∧ a.2.1 < kOffset_) (hn : 0 ≤ nid ∧ nid < kOffset_)
    (h : leaf_ident a = tid * kOffset_ + nid) : a.1 = tid ∧ a.2.1 = nid := by
  unfold leaf_ident kOffset_ at *
  omega

theorem leafdata_find_insert (map : List (Int × Int)) (id position id2 : Int) :
    leafdata_find (leafdata_insert map id position) id2
      = match leafdata_find map id2 with
        | some v => some v
        | none => if id = id2 then some position else none := by
  have happ : ∀ (m : List (Int × Int)),
      leafdata_find (m ++ [(id, position)]) id2
        = match leafdata_find m id2 with
          | some v => some v
          | none => if id = id2 then some position else none := by
    intro m
    induction m with
    | nil => simp [leafdata_find]
    | cons kv r ih =>
      obtain ⟨k, v⟩ := kv
      by_cases hk : k = id2
      · simp [leafdata_find, hk]
      · simp [leafdata_find, hk, ih]
  unfold leafdata_insert
  cases hf : leafdata_find map id with
  | some v =>
    simp only
    cases hf2 : leafdata_find map id2 with
    | some v2 => rfl
    | none =>
      simp only
      by_cases hid : id = id2
      · rw [hid] at hf; rw [hf] at hf2; cases hf2
      · simp [hid]
  | none => simp only; exact happ map

end RuntimeTreeEnsembleClassifier

namespace RuntimeTreeEnsembleClassifier

theorem IndexedFirst_append (pre s : List (Int × Int × Int × NTYPE)) (m : List (Int × Int))
    (h : IndexedFirst pre m) : IndexedFirst (pre ++ s) m := by
  intro id q hq
  obtain ⟨j, hqj, e, hje, hide, hfirst⟩ := h id q hq
  have hjl : j < pre.length := (List.getElem?_eq_some_iff.mp hje).1
  refine ⟨j, hqj, e, ?_, hide, ?_⟩
  · rw [List.getElem?_append_left hjl]
    exact hje
  · intro j2 e2 hj2 he2
    rw [List.getElem?_append_left (by omega)] at he2
    exact hfirst j2 e2 hj2 he2

/-- In a sorted list, the last tuple before a tuple `e` names the node of `e` as soon as some
tuple before `e` does. -/
theorem last_names_node_of_sorted (pre r : List (Int × Int × Int × NTYPE))
    (e e2 last : Int × Int × Int × NTYPE) (hs : LeafSorted (pre ++ e :: r))
    (he2 : e2 ∈ pre) (hkey : e2.1 = e.1 ∧ e2.2.1 = e.2.1)
    (hlast : pre.getLast? = some last) : last.1 = e.1 ∧ last.2.1 = e.2.1 := by
  obtain ⟨ini, rfl⟩ := List.getLast?_eq_some_iff.mp hlast
  have hs1 := List.pairwise_append.1 hs
  have hle : leaf_less e last = false :=
    hs1.2.2 last (by simp) e (List.mem_cons_self _ _)
  have h1 := (leaf_less_false_iff _ _).1 hle
  rcases List.mem_append.1 he2 with hin | hin
  · have hs2 := List.pairwise_append.1 hs1.1
    have hle2 : leaf_less last e2 = false := hs2.2.2 e2 hin last (by simp)
    have h2 := (leaf_less_false_iff _ _).1 hle2
    omega
  · simp only [List.mem_singleton] at hin
    subst hin
    exact hkey

/-- The index loop keeps this: every entry of the index points at the first tuple that has
its key, when the node ids of the tuples lie between 0 and `kOffset_`. -/
theorem Initialize_leafdata_map_loop_spec :
    ∀ (rest pre : List (Int × Int × Int × NTYPE)) (map : List (Int × Int)) (f0 f1 : Int),
      LeafSorted (pre ++ rest) →
      (∀ e ∈ pre ++ rest, 0 ≤ e.2.1 ∧ e.2.1 < kOffset_) →
      IndexedFirst pre map →
      (∀ e, pre.getLast? = some e →
        (e.1 = f0 ∧ e.2.1 = f1) ∨ leafdata_find map (leaf_ident e) ≠ none) →
      IndexedFirst (pre ++ rest)
        (Initialize_leafdata_map_loop rest (pre.length : Int) (map, f0, f1)) := by
  intro rest
  induction rest with
  | nil =>
    intro pre map f0 f1 _ _ hI _
    simpa [Initialize_leafdata_map_loop] using hI
  | cons e r ih =>
    intro pre map f0 f1 hs hr hI hlast
    have hpre : pre ++ e :: r = (pre ++ [e]) ++ r := by simp
    have hlen : ((pre.length : Int) + 1) = ((pre ++ [e]).length : Int) := by simp
    obtain ⟨id0, id1, c, w⟩ := e
    by_cases htest : id0 ≠ f0 ∨ id1 ≠ f1
    · simp only [Initialize_leafdata_map_loop, htest, if_true]
      rw [hlen, hpre]
      refine ih (pre ++ [(id0, id1, c, w)]) _ _ _ (hpre ▸ hs) (hpre ▸ hr) ?_ ?_
      · intro id q hq
        rw [leafdata_find_insert] at hq
        cases hfind : leafdata_find map id with
        | some v =>
          rw [hfind] at hq
          exact IndexedFirst_append pre _ map hI id q (by rw [hfind]; exact hq)
        | none =>
          rw [hfind] at hq
          simp only at hq
          by_cases hid : id0 * kOffset_ + id1 = id
          · rw [if_pos hid] at hq
            refine ⟨pre.length, (Option.some.inj hq).symm, (id0, id1, c, w), by simp, hid, ?_⟩
            intro j2 e2 hj2 he2 hide2
            rw [List.getElem?_append_left hj2] at he2
            have hmem : e2 ∈ pre := List.getElem?_mem he2
            have hkey : e2.1 = id0 ∧ e2.2.1 = id1 :=
              leaf_ident_inj e2 id0 id1 (hr e2 (by simp [hmem]))
                (hr (id0, id1, c, w) (by simp)) (hide2.trans hid.symm)
            have hne : pre ≠ [] := by
              intro h0
              rw [h0] at hmem
              cases hmem
            obtain ⟨last, hl⟩ : ∃ last, pre.getLast? = some last :=
              ⟨pre.getLast hne, List.getLast?_eq_getLast _ hne⟩
            have hk := last_names_node_of_sorted pre r (id0, id1, c, w) e2 last hs hmem
              hkey hl
            simp only at hk
            rcases hlast last hl with h | h
            · rcases htest with ht | ht
              · exact ht (hk.1.symm.trans h.1)
              · exact ht (hk.2.symm.trans h.2)
            · apply h
              have : leaf_ident last = id := by
                unfold leaf_ident
                rw [hk.1, hk.2]
                exact hid
              rw [this]
              exact hfind
          · rw [if_neg hid] at hq
            cases hq
      · intro e2 he2
        have hl2 : (pre ++ [(id0, id1, c, w)]).getLast? = some (id0, id1, c, w) := by simp
        rw [hl2] at he2
        cases he2
        right
        rw [leafdata_find_insert]
        show (match leafdata_find map (id0 * kOffset_ + id1) with
          | some v => some v
          | none => if id0 * kOffset_ + id1 = id0 * kOffset_ + id1 then some _ else none) ≠ none
        cases leafdata_find map (id0 * kOffset_ + id1) <;> simp
    · have hskip : id0 = f0 ∧ id1 = f1 := by
        constructor
        · by_contra hc
          exact htest (Or.inl hc)
        · by_contra hc
          exact htest (Or.inr hc)
      simp only [Initialize_leafdata_map_loop, htest, if_false]
      rw [hlen, hpre]
      refine ih (pre ++ [(id0, id1, c, w)]) _ _ _ (hpre ▸ hs) (hpre ▸ hr)
        (IndexedFirst_append pre _ map hI) ?_
      intro e2 he2
      have hl2 : (pre ++ [(id0, id1, c, w)]).getLast? = some (id0, id1, c, w) := by simp
      rw [hl2] at he2
      cases he2
      exact Or.inl hskip

theorem Initialize_leafdata_map_spec (data : List (Int × Int × Int × NTYPE))
    (hs : LeafSorted data) (hr : ∀ e ∈ data, 0 ≤ e.2.1 ∧ e.2.1 < kOffset_) :
    IndexedFirst data (Initialize_leafdata_map data) := by
  have h := Initialize_leafdata_map_loop_spec data [] [] (-1) (-1) (by simpa using hs)
    (by simpa using hr) (by intro id q hq; simp [leafdata_find] at hq)
    (by intro e he; simp at he)
  simpa [Initialize_leafdata_map] using h

/-- The pairs the flat storage gives for a node: those of the descriptors that name the node,
in the order of the descriptors, when the index holds the key of the node, and none
otherwise. The node ids lie between 0 and `kOffset_`. -/
theorem accumulated_pairs_spec (descriptors : List (Int × Int × Int × NTYPE))
    (hr : ∀ e ∈ descriptors, 0 ≤ e.2.1 ∧ e.2.1 < kOffset_) (tid nid : Int)
    (hn : 0 ≤ nid ∧ nid < kOffset_) :
    accumulated_pairs (sort_leafnodedata descriptors)
        (Initialize_leafdata_map (sort_leafnodedata descriptors)) tid nid
      = .ok (if (leafdata_find (Initialize_leafdata_map (sort_leafnodedata descriptors))
                (tid * kOffset_ + nid)).isSome
          then (descriptors.filter (names_node tid nid)).map (fun e => (e.2.2.1, e.2.2.2))
          else []) := by
  obtain ⟨hsorted, hmem, hfilter⟩ := sort_leafnodedata_spec tid nid descriptors []
    (by simp [LeafSorted])
  have hr2 : ∀ e ∈ sort_leafnodedata descriptors, 0 ≤ e.2.1 ∧ e.2.1 < kOffset_ := by
    intro e he
    rcases (hmem e).1 he with h | h
    · cases h
    · exact hr e h
  have hI := Initialize_leafdata_map_spec _ hsorted hr2
  unfold accumulated_pairs
  cases hfind : leafdata_find (Initialize_leafdata_map (sort_leafnodedata descriptors))
      (tid * kOffset_ + nid) with
  | none => rfl
  | some q =>
    obtain ⟨j, hqj, e, hje, hide, hfirst⟩ := hI _ q hfind
    subst hqj
    have hjl : j < (sort_leafnodedata descriptors).length :=
      (List.getElem?_eq_some_iff.mp hje).1
    have hkey := leaf_ident_inj e tid nid (hr2 e (List.getElem?_mem hje)) hn hide
    have hscan := leaf_scan_pairs_from_first tid nid (sort_leafnodedata descriptors) j e
      hsorted hje (by simp [names_node, hkey]) (by
        intro j2 e2 hj2 he2
        cases hp : names_node tid nid e2
        · rfl
        · exfalso
          simp only [names_node, decide_eq_true_eq] at hp
          apply hfirst j2 e2 hj2 he2
          unfold leaf_ident
          rw [hp.1, hp.2])
    have hf2 : (sort_leafnodedata descriptors).filter (names_node tid nid)
        = descriptors.filter (names_node tid nid) := by
      have := hfilter
      simpa using this
    simp only [vec_at_int_ofNat _ j hjl, bind, Except.bind, pure, Except.pure, Int.toNat_ofNat,
      Option.isSome_some, if_true]
    rw [hscan, hf2]

end RuntimeTreeEnsembleClassifier

/-- The scan loop of the classifier adds the votes of the pairs of `leaf_scan_pairs`, in their
order. -/
theorem classifier_leaf_scan_eq_pairs :
    ∀ (l : List (Int × Int × Int × NTYPE)) (tid nid : Int) (classes : ClassMap),
      RuntimeTreeEnsembleClassifier.leaf_scan l tid nid classes
        = (RuntimeTreeEnsembleClassifier.leaf_scan_pairs l tid nid).foldl
            (fun c p => RuntimeTreeEnsembleClassifier.add_vote c p.1 p.2) classes := by
  intro l
  induction l with
  | nil => intro tid nid classes; rfl
  | cons e rest ih =>
    intro tid nid classes
    obtain ⟨e1, e2, e3, e4⟩ := e
    by_cases h : e1 = tid ∧ e2 = nid
    · simp only [RuntimeTreeEnsembleClassifier.leaf_scan,
        RuntimeTreeEnsembleClassifier.leaf_scan_pairs, h, and_self, if_true, List.foldl_cons, ih]
    · simp only [RuntimeTreeEnsembleClassifier.leaf_scan,
        RuntimeTreeEnsembleClassifier.leaf_scan_pairs, h, if_false, List.foldl_nil]

/-- The part of the classifier's `ProcessTreeNode` after the descent adds the votes of the
pairs of `accumulated_pairs`. -/
theorem classifier_collect_eq_pairs (self : RuntimeTreeEnsembleClassifier) (classes : ClassMap)
    (treeindex : Int) :
    RuntimeTreeEnsembleClassifier.collect self classes treeindex
      = (do
          let tid ← vec_at_int self.nodes_treeids_ treeindex
          let nid ← vec_at_int self.nodes_nodeids_ treeindex
          let pairs ← RuntimeTreeEnsembleClassifier.accumulated_pairs self.leafnodedata_
            self.leafdata_map_ tid nid
          pure (pairs.foldl (fun c p => RuntimeTreeEnsembleClassifier.add_vote c p.1 p.2) classes)) := by
  unfold RuntimeTreeEnsembleClassifier.collect RuntimeTreeEnsembleClassifier.accumulated_pairs
  cases vec_at_int self.nodes_treeids_ treeindex with
  | error e => rfl
  | ok tid =>
    cases vec_at_int self.nodes_nodeids_ treeindex with
    | error e => rfl
    | ok nid =>
      simp only [bind, Except.bind, pure, Except.pure]
      cases leafdata_find_eq : RuntimeTreeEnsembleClassifier.leafdata_find self.leafdata_map_
          (tid * RuntimeTreeEnsembleClassifier.kOffset_ + nid) with
      | none => rfl
      | some index =>
        simp only
        cases vec_at_int self.leafnodedata_ index with
        | error e => rfl
        | ok v => simp only [classifier_leaf_scan_eq_pairs]

/-- The scan loop of the flat regressor adds the scores of the pairs of `leaf_scan_pairs`, in
their order. -/
theorem flat_regressor_leaf_scan_eq_pairs :
    ∀ (l : List (Int × Int × Int × NTYPE)) (tid nid : Int)
      (classes : ScoreMap),
      RuntimeTreeEnsembleRegressor.leaf_scan l tid nid classes
        = (RuntimeTreeEnsembleClassifier.leaf_scan_pairs l tid nid).foldl
            (fun c p => RuntimeTreeEnsembleRegressor.add_score c p.1 p.2) classes := by
  intro l
  induction l with
  | nil => intro tid nid classes; rfl
  | cons e rest ih =>
    intro tid nid classes
    obtain ⟨e1, e2, e3, e4⟩ := e
    by_cases h : e1 = tid ∧ e2 = nid
    · simp only [RuntimeTreeEnsembleRegressor.leaf_scan,
        RuntimeTreeEnsembleClassifier.leaf_scan_pairs, h, and_self, if_true, List.foldl_cons, ih]
    · simp only [RuntimeTreeEnsembleRegressor.leaf_scan,
        RuntimeTreeEnsembleClassifier.leaf_scan_pairs, h, if_false, List.foldl_nil]

/-- The part of the flat regressor's `ProcessTreeNode` after the descent adds the scores of
the pairs of `accumulated_pairs`. -/
theorem flat_regressor_collect_eq_pairs (self : RuntimeTreeEnsembleRegressor)
    (classes : ScoreMap) (treeindex : Int) :
    RuntimeTreeEnsembleRegressor.collect self classes treeindex
      = (do
          let tid ← vec_at_int self.nodes_treeids_ treeindex
          let nid ← vec_at_int self.nodes_nodeids_ treeindex
          let pairs ← RuntimeTreeEnsembleClassifier.accumulated_pairs self.leafnode_data_
            self.leafdata_map_ tid nid
          pure (pairs.foldl (fun c p => RuntimeTreeEnsembleRegressor.add_score c p.1 p.2)
            classes)) := by
  unfold RuntimeTreeEnsembleRegressor.collect RuntimeTreeEnsembleClassifier.accumulated_pairs
  cases vec_at_int self.nodes_treeids_ treeindex with
  | error e => rfl
  | ok tid =>
    cases vec_at_int self.nodes_nodeids_ treeindex with
    | error e => rfl
    | ok nid =>
      simp only [bind, Except.bind, pure, Except.pure]
      show (match RuntimeTreeEnsembleClassifier.leafdata_find self.leafdata_map_
          (tid * RuntimeTreeEnsembleClassifier.kOffset_ + nid) with
        | none => _
        | some index => _) = _
      cases leafdata_find_eq : RuntimeTreeEnsembleClassifier.leafdata_find self.leafdata_map_
          (tid * RuntimeTreeEnsembleClassifier.kOffset_ + nid) with
      | none => rfl
      | some index =>
        simp only
        cases vec_at_int self.leafnode_data_ index with
        | error e => rfl
        | ok v => simp only [flat_regressor_leaf_scan_eq_pairs]

/-- When every descriptor position has an entry in the four arrays, the tuples pushed by
`Initialize` are those of the descriptors, in their order. -/
theorem Initialize_leafnodedata_of_present (t n c : List Int) (w : List NTYPE)
    (h : ∀ i, i < n.length → i < t.length ∧ i < c.length ∧ i < w.length) :
    RuntimeTreeEnsembleClassifier.Initialize_leafnodedata t n c w
      = .ok ((List.range n.length).map
          (fun i => (t.getD i 0, n.getD i 0, c.getD i 0, w.getD i NTYPE.zero))) := by
  unfold RuntimeTreeEnsembleClassifier.Initialize_leafnodedata
  apply mapM_ok_of_forall
  intro i hi
  have hi2 := List.mem_range.mp hi
  obtain ⟨h1, h2, h3⟩ := h i hi2
  simp [vec_at, List.getElem?_eq_getElem, h1, h2, h3, hi2, bind, Except.bind, pure,
    Except.pure, List.getD_eq_getElem]

/-- The flat storage against the builder of `init`, for descriptors with ids from 0 to
`2^31 - 1`: at a node with a non-negative node id the flat storage gives the pairs of the
weights vector of the node, in the same order, when the index holds the key of the node,
and no pair otherwise. -/
theorem flat_pairs_of_builder (a : RuntimeTreeEnsembleRegressorP.Attributes)
    (self : RuntimeTreeEnsembleRegressorP) (h : RuntimeTreeEnsembleRegressorP.init a = .ok self)
    (hrange : ∀ i, i < a.target_nodeids.length →
      0 ≤ a.target_treeids.getD i 0 ∧ a.target_treeids.getD i 0 < 2147483648 ∧
      0 ≤ a.target_nodeids.getD i 0 ∧ a.target_nodeids.getD i 0 < 2147483648) :
    ∃ descriptors,
      RuntimeTreeEnsembleClassifier.Initialize_leafnodedata a.target_treeids a.target_nodeids
        a.target_ids a.target_weights = .ok descriptors ∧
      ∀ (j : Nat) (m : TreeNodeElement), self.nodes_[j]? = some m → 0 ≤ m.id.node_id →
        m.id.node_id < RuntimeTreeEnsembleClassifier.kOffset_ →
        RuntimeTreeEnsembleClassifier.accumulated_pairs
            (RuntimeTreeEnsembleClassifier.sort_leafnodedata descriptors)
            (RuntimeTreeEnsembleClassifier.Initialize_leafdata_map
              (RuntimeTreeEnsembleClassifier.sort_leafnodedata descriptors))
            m.id.tree_id m.id.node_id
          = .ok (if (RuntimeTreeEnsembleClassifier.leafdata_find
                (RuntimeTreeEnsembleClassifier.Initialize_leafdata_map
                  (RuntimeTreeEnsembleClassifier.sort_leafnodedata descriptors))
                (m.id.tree_id * RuntimeTreeEnsembleClassifier.kOffset_ + m.id.node_id)).isSome
              then m.weights.map (fun v => (v.i, v.value)) else []) := by
  obtain ⟨modes, nodes0, idi, nodes1, roots, previous, _, _, _, _, hattach, _⟩ :=
    RuntimeTreeEnsembleRegressorP.init_stages a self h
  obtain ⟨_, _, _, _, _, hnodes⟩ := RuntimeTreeEnsembleRegressorP.init_nodes_spec a self h
  have hall := RuntimeTreeEnsembleRegressorP.attach_all_present a idi nodes1 self.nodes_
    a.target_nodeids.length hattach
  refine ⟨_, Initialize_leafnodedata_of_present _ _ _ _
    (fun i hi => ⟨(hall i hi).1, (hall i hi).2.2.1, (hall i hi).2.2.2⟩), ?_⟩
  intro j m hm h0 h1
  rw [RuntimeTreeEnsembleClassifier.accumulated_pairs_spec _ ?_ m.id.tree_id m.id.node_id
    ⟨h0, h1⟩]
  · congr 2
    rw [(hnodes j m hm).2.2, Spec.weights_of_eq_filter a a.target_nodeids.length m.id hall,
      List.filter_map, List.map_map, List.map_map]
    congr 1
    apply List.filter_congr
    intro i hi
    obtain ⟨r1, r2, r3, r4⟩ := hrange i (List.mem_range.mp hi)
    rw [toInt32_of_range _ (by omega) r2, toInt32_of_range _ (by omega) r4]
    simp [RuntimeTreeEnsembleClassifier.names_node, Prod.ext_iff]
  · intro e he
    obtain ⟨i, hi, rfl⟩ := List.mem_map.1 he
    obtain ⟨_, _, r3, r4⟩ := hrange i (List.mem_range.mp hi)
    refine ⟨r3, ?_⟩
    show a.target_nodeids.getD i 0 < RuntimeTreeEnsembleClassifier.kOffset_
    unfold RuntimeTreeEnsembleClassifier.kOffset_
    omega

/-- C31. The flat storage and the per-node weights on the descriptors `(0, 1, 0, 3)` and
`(1, 0, 0, 5)` (tree 0 has a root and two leaves, tree 1 is the single leaf `(1, 0)`): the
sort leaves the two tuples in place, the index loop registers the key of `(0, 1)` at position
0 and then stores the key `1` and the position `0` in `field0` and `field1`, so the tuple
`(1, 0)` passes for already seen and its key `4000000000` gets no entry. At the node `(0, 1)`
the flat storage gives the pair `(0, 3)` of the builder; at the node `(1, 0)` it gives no
pair where the builder stores `(0, 5)`, and on the zero row the flat regressor returns the
sum 3 where the pointer-linked regressor returns 8. The last part is what holds for every
input accepted by `init` whose descriptor ids lie between 0 and `2^31 - 1`: at a node the
flat storage gives the pairs of the weights vector, in the same order, when the index holds
the key of the node, and no pair otherwise. -/
theorem C31_index_loop_leaves_a_leaf_without_entry :
    RuntimeTreeEnsembleClassifier.Initialize_leafnodedata [0, 1] [1, 0] [0, 0]
        [NTYPE.num 3, NTYPE.num 5]
      = .ok [(0, 1, 0, NTYPE.num 3), (1, 0, 0, NTYPE.num 5)] ∧
    RuntimeTreeEnsembleClassifier.sort_leafnodedata
        [(0, 1, 0, NTYPE.num 3), (1, 0, 0, NTYPE.num 5)]
      = [(0, 1, 0, NTYPE.num 3), (1, 0, 0, NTYPE.num 5)] ∧
    RuntimeTreeEnsembleClassifier.Initialize_leafdata_map
        [(0, 1, 0, NTYPE.num 3), (1, 0, 0, NTYPE.num 5)] = [(1, 0)] ∧
    RuntimeTreeEnsembleClassifier.accumulated_pairs
        [(0, 1, 0, NTYPE.num 3), (1, 0, 0, NTYPE.num 5)] [(1, 0)] 0 1
      = .ok [(0, NTYPE.num 3)] ∧
    RuntimeTreeEnsembleClassifier.accumulated_pairs
        [(0, 1, 0, NTYPE.num 3), (1, 0, 0, NTYPE.num 5)] [(1, 0)] 1 0
      = .ok [] ∧
    (RuntimeTreeEnsembleRegressorP.init (Example.leaf_after_leaf "SUM")).toOption.map
        (fun e => e.nodes_.map (fun nd => (nd.id.tree_id, nd.id.node_id, nd.weights)))
      = some [(0, 0, []), (0, 1, [{ i := 0, value := NTYPE.num 3 }]), (0, 2, []),
              (1, 0, [{ i := 0, value := NTYPE.num 5 }])] ∧
    (RuntimeTreeEnsembleRegressorP.init (Example.leaf_after_leaf "SUM")).toOption.map
        (fun e => (e.roots_, e.row_val_single Example.zero_row))
      = some ([0, 3], .ok (NTYPE.num 8)) ∧
    (Example.leaf_after_leaf_flat AGGREGATE_FUNCTION.SUM
        [(0, 1, 0, NTYPE.num 3), (1, 0, 0, NTYPE.num 5)] [(1, 0)]).compute_row
        Example.zero_row 0
      = .ok [NTYPE.num 3] ∧
    (∀ (a : RuntimeTreeEnsembleRegressorP.Attributes) (self : RuntimeTreeEnsembleRegressorP),
      RuntimeTreeEnsembleRegressorP.init a = .ok self →
      (∀ i, i < a.target_nodeids.length →
        0 ≤ a.target_treeids.getD i 0 ∧ a.target_treeids.getD i 0 < 2147483648 ∧
        0 ≤ a.target_nodeids.getD i 0 ∧ a.target_nodeids.getD i 0 < 2147483648) →
      ∃ descriptors,
        RuntimeTreeEnsembleClassifier.Initialize_leafnodedata a.target_treeids a.target_nodeids
          a.target_ids a.target_weights = .ok descriptors ∧
        ∀ (j : Nat) (m : TreeNodeElement), self.nodes_[j]? = some m → 0 ≤ m.id.node_id →
          m.id.node_id < RuntimeTreeEnsembleClassifier.kOffset_ →
          RuntimeTreeEnsembleClassifier.accumulated_pairs
              (RuntimeTreeEnsembleClassifier.sort_leafnodedata descriptors)
              (RuntimeTreeEnsembleClassifier.Initialize_leafdata_map
                (RuntimeTreeEnsembleClassifier.sort_leafnodedata descriptors))
              m.id.tree_id m.id.node_id
            = .ok (if (RuntimeTreeEnsembleClassifier.leafdata_find
                  (RuntimeTreeEnsembleClassifier.Initialize_leafdata_map
                    (RuntimeTreeEnsembleClassifier.sort_leafnodedata descriptors))
                  (m.id.tree_id * RuntimeTreeEnsembleClassifier.kOffset_
                    + m.id.node_id)).isSome
                then m.weights.map (fun v => (v.i, v.value)) else [])) := by
  refine ⟨by decide!, by decide!, by decide!, by decide!, by decide!, by decide!, by decide!,
    by decide!, ?_⟩
  intro a self h hrange
  exact flat_pairs_of_builder a self h hrange

/-! ## `ComputeSoftmax` on `float` -/

theorem NTYPE.round_id (x : NTYPE) : NTYPE.round id x = x := by
  cases x <;> rfl

/-- Without rounding, `ComputeSoftmax_rounded` is `ComputeSoftmax`. -/
theorem ComputeSoftmax_rounded_id (m : Cmath) (values : List NTYPE) :
    ComputeSoftmax_rounded id m values = ComputeSoftmax m values := by
  unfold ComputeSoftmax_rounded ComputeSoftmax ComputeSoftmax_loop_rounded ComputeSoftmax_loop
  simp only [NTYPE.round_id]

/-- C15 (counterexample). `ComputeSoftmax` in `float` arithmetic on the vector of one 0
followed by 400 entries -17. The maximum is 0. Each `exp(-17 - 0)` is the `float`
`11652889 * 2^-48`, about `4.14e-8`, less than half the distance `2^-23` from 1 to the next
`float`, so every addition `this_sum += val2` after the first returns 1 and `this_sum` is 1
at the end. The entries written are 1 and 400 times `exp(-17)`: they sum to
`1 + 400 * 11652889 * 2^-48`, about `1.0000166`, more than `1 + 1e-5`. -/
theorem C15_counterexample_float_sum_exceeds_bound :
    softmax_v_max (NTYPE.num 0 :: List.replicate 400 (NTYPE.num (-17))) = NTYPE.num 0 ∧
    binary32 (-17 - 0) = -17 ∧
    binary32 (Example.cmath_binary32.exp (-17)) = 11652889 / 281474976710656 ∧
    binary32 (1 + 11652889 / 281474976710656) = 1 ∧
    (ComputeSoftmax_loop_rounded binary32 Example.cmath_binary32 (NTYPE.num 0)
      (NTYPE.num 0 :: List.replicate 400 (NTYPE.num (-17)))).1 = NTYPE.num 1 ∧
    ComputeSoftmax_rounded binary32 Example.cmath_binary32
        (NTYPE.num 0 :: List.replicate 400 (NTYPE.num (-17)))
      = (1 :: List.replicate 400 (11652889 / 281474976710656 : ℚ)).map NTYPE.num ∧
    (1 :: List.replicate 400 (11652889 / 281474976710656 : ℚ)).sum
      = 1 + 400 * (11652889 / 281474976710656) ∧
    (1 : ℚ) + 1 / 100000 < (1 :: List.replicate 400 (11652889 / 281474976710656 : ℚ)).sum := by
  refine ⟨by decide!, by decide!, by decide!, by decide!, by decide!, by decide!, by decide!,
    by decide!⟩

/-- The rounding `binary32` at some known values: `0.1f` is `13421773 * 2^-27`; `2^24 + 1`
lies halfway and goes to the even neighbour `2^24`, `2^24 + 3` to `2^24 + 4`; half the least
positive `float` `2^-149` goes to 0; a `float` is left as it is. -/
theorem binary32_values :
    binary32 (1 / 10) = 13421773 / 134217728 ∧
    binary32 (-(1 / 10)) = -(13421773 / 134217728) ∧
    binary32 16777217 = 16777216 ∧
    binary32 16777219 = 16777220 ∧
    binary32 (1 / pow2 150) = 0 ∧
    binary32 (1 / pow2 149) = 1 / pow2 149 ∧
    binary32 (13421773 / 134217728) = 13421773 / 134217728 ∧
    binary32 (1 + 1 / 16777216) = 1 ∧
    binary32 (1 + 3 / 16777216) = 1 + 1 / 4194304 := by
  refine ⟨by decide!, by decide!, by decide!, by decide!, by decide!, by decide!, by decide!,
    by decide!, by decide!⟩
